import Mathlib

/-!
# Edge construction, reduced grids, missing values and Gmsh files of atlas

A shallow embedding of `src/atlas/actions/BuildEdges.cc`, and of the parts of
`src/atlas/grids/ReducedGrid.cc`, `src/atlas/interpolation/nonlinear/MissingIfAllMissing.cc`
and `src/atlas/io/Gmsh.cc` that the theorems are about.

Conventions of the embedding:

* `idx_t`, `gidx_t` and `int` values are mathematical integers; `double` values are
  rationals and their arithmetic is exact.  In `Gmsh.cc`, where global indices are
  converted to `int`, an `int` is a 32-bit integer (`Gmsh.is_int`, `Gmsh.int_of`).
* An array or field view is its index function, a total map from the integer index to
  the stored value; the number of valid entries is kept next to it.  An index outside
  the valid range addresses a location outside the table.  A `std::vector` is a list.
  Sizes and counts of `ReducedGrid.cc`, `MissingIfAllMissing.cc` and `Gmsh.cc` are natural
  numbers.
* A function that can throw returns `Except Exception _` (`Except Gmsh.Failure _` in
  `Gmsh.cc`).
* Collaborators whose sources are not part of the repository sources at hand are
  parameters (`Externals`, `accumulate_facets`, `std_sort`, `std_stable_sort`,
  `missingValue`, `is_approximately_equal`, `reread`) or are modelled from the
  specification, which is said in their documentation.
-/

namespace atlas

abbrev idx_t := Int

abbrev gidx_t := Int

/-- The exceptions thrown by the edge builders (`eckit::SeriousBug`,
`eckit::NotImplemented`, and the failure of an `ASSERT`). -/
inductive Exception where
  | SeriousBug (what : String)
  | NotImplemented (what : String)
  | AssertionFailed (what : String)

def Exception.isSeriousBug : Exception → Bool
  | .SeriousBug _ => true
  | _ => false

def Exception.isNotImplemented : Exception → Bool
  | .NotImplemented _ => true
  | _ => false

def Exception.isAssertionFailed : Exception → Bool
  | .AssertionFailed _ => true
  | _ => false

/-- The loop `for( size_t i=0; i<n; ++i ) body` over a state, where the body may throw. -/
def loop {σ ε : Type} (body : Nat → σ → Except ε σ) : Nat → σ → Except ε σ
  | 0, s => .ok s
  | n + 1, s =>
    match loop body n s with
    | .ok s' => body n s'
    | .error e => .error e

/-- The loop `for( size_t i=0; i<n; ++i ) body` over a state, for a body that cannot throw. -/
def iter {σ : Type} (body : Nat → σ → σ) : Nat → σ → σ
  | 0, s => s
  | n + 1, s => body n (iter body n s)

/-- The conversion `size_t(n)` of an `int` on a 64-bit machine. -/
def size_t_of (n : Int) : Nat := (n % 18446744073709551616).toNat

/-- Modelled from the spec: the reserved "missing" sentinel of a connectivity table
(`Connectivity::missing_value()`, whose source is not available). -/
def missing_value : idx_t := -1

/-- Modelled from the spec: a connectivity table (`IrregularConnectivity`,
`MultiBlockConnectivity`; their sources are not available), "an irregular (jagged)
mapping from an owning entity's local index to an ordered sequence of referenced-entity
indices".  `get r j` is `operator()(r,j)`. -/
structure Connectivity where
  rows : Nat
  cols : Int → Nat
  get : Int → Nat → idx_t

namespace Connectivity

/-- The table after `clear()`. -/
def clear (_c : Connectivity) : Connectivity :=
  { rows := 0, cols := fun _ => 0, get := fun _ _ => missing_value }

/-- The call `add(n, k, data)`: appends `n` rows of `k` columns, filled row by row from
the flat array `data`. -/
def add (c : Connectivity) (n k : Nat) (data : Nat → idx_t) : Connectivity :=
  { rows := c.rows + n
    cols := fun r => if (c.rows : Int) ≤ r ∧ r < (c.rows : Int) + n then k else c.cols r
    get := fun r j =>
      if (c.rows : Int) ≤ r ∧ r < (c.rows : Int) + n ∧ j < k then
        data (k * (r - c.rows).toNat + j)
      else c.get r j }

/-- The call `add(n, k)` without values: appends `n` rows of `k` missing entries. -/
def add_missing (c : Connectivity) (n k : Nat) : Connectivity :=
  c.add n k (fun _ => missing_value)

/-- The call `set(r, j, v)`. -/
def set (c : Connectivity) (r : Int) (j : Nat) (v : idx_t) : Connectivity :=
  { c with get := fun r' j' => if r' = r ∧ j' = j then v else c.get r' j' }

/-- The call `set(r, values)`: overwrites every column of row `r`. -/
def set_row (c : Connectivity) (r : Int) (values : List idx_t) : Connectivity :=
  { c with get := fun r' j' =>
      if r' = r ∧ j' < c.cols r then values.getD j' 0 else c.get r' j' }

/-- The row view `row(r)`: the entries of row `r`, in column order. -/
def row (c : Connectivity) (r : Int) : List idx_t :=
  (List.range (c.cols r)).map (fun j => c.get r j)

end Connectivity

/-- Modelled from the spec: the element types (`ElementType.h` is not available): "Cell
(triangle or quadrilateral): has a fixed-arity node connectivity (3 or 4) and a
fixed-arity edge connectivity of the same arity"; a line has two nodes. -/
inductive ElementType where
  | Triangle
  | Quadrilateral
  | Line
deriving DecidableEq

def ElementType.name : ElementType → String
  | .Triangle => "Triangle"
  | .Quadrilateral => "Quadrilateral"
  | .Line => "Line"

def ElementType.nb_nodes : ElementType → Nat
  | .Triangle => 3
  | .Quadrilateral => 4
  | .Line => 2

def ElementType.nb_edges : ElementType → Nat
  | .Triangle => 3
  | .Quadrilateral => 4
  | .Line => 0

/-- The node collection `mesh::Nodes`, as far as the edge builders read and write it. -/
structure Nodes where
  size : Nat
  lonlat : Int → ℚ × ℚ
  flags : Int → Int
  partition : Int → Int
  global_index : Int → gidx_t
  edge_connectivity : Connectivity

/-- The element collection `mesh::HybridElements` (used for `mesh.cells()` and for
`mesh.edges()`): the blocks of elements of one type, in order, each with its number of
elements, the connectivity tables and the fields. -/
structure HybridElements where
  blocks : List (ElementType × Nat)
  node_connectivity : Connectivity
  edge_connectivity : Connectivity
  cell_connectivity : Connectivity
  global_index : Int → gidx_t
  partition : Int → Int
  remote_index : Int → idx_t
  is_pole_edge : Option (Int → Int)

namespace HybridElements

def size (h : HybridElements) : Nat := (h.blocks.map Prod.snd).sum

def nb_types (h : HybridElements) : Nat := h.blocks.length

/-- The element type of element `e`, found by walking the blocks. -/
def type_of_in : List (ElementType × Nat) → Nat → Option ElementType
  | [], _ => none
  | (t, n) :: bs, e => if e < n then some t else type_of_in bs (e - n)

def type_of (h : HybridElements) (e : Nat) : Option ElementType := type_of_in h.blocks e

/-- The name `name(e)` of the element type of element `e`. -/
def name (h : HybridElements) (e : Nat) : String :=
  match h.type_of e with
  | some t => t.name
  | none => ""

/-- Modelled from the spec: `add(type, n, data)` (source not available), "a factory
operation to append newly created entities of a given count with initial
node-connectivity data". -/
def add (h : HybridElements) (t : ElementType) (n : Nat) (data : Nat → idx_t) :
    HybridElements :=
  { h with
    blocks := h.blocks ++ [(t, n)]
    node_connectivity := h.node_connectivity.add n t.nb_nodes data }

end HybridElements

structure Mesh where
  nodes : Nodes
  cells : HybridElements
  edges : HybridElements

/-- The unique-id functor `UniqueLonLat compute_uid( nodes )` (source not available):
`node` is `compute_uid(int)`, `row` is `compute_uid(Connectivity::Row)`. -/
structure UniqueLonLat where
  node : idx_t → gidx_t
  row : List idx_t → gidx_t

/-- The collaborators of the edge builders whose sources are not available: the
constructor of `UniqueLonLat`, `util::detail::unique32`, the `Topology` bit flags with
`Topology::check`, and the two `eckit::mpi::all_reduce` calls (element-wise minimum and
maximum over all processes of a `{LON,LAT}` array). -/
structure Externals where
  unique_lonlat : Nodes → UniqueLonLat
  unique32 : Int → Int → gidx_t
  PERIODIC : Int
  GHOST : Int
  check : Int → Int → Bool
  all_reduce_min : ℚ × ℚ → ℚ × ℚ
  all_reduce_max : ℚ × ℚ → ℚ × ℚ

/-- Modelled from the spec: `util::microdeg` (source not available), "quantize
longitude/latitude to microdegree integer precision". -/
def microdeg (deg : ℚ) : Int := ⌊deg * 1000000 + 1 / 2⌋

/-- The output of `accumulate_facets`: the flat arrays `edge_nodes_data` and
`edge_to_elem_data` (two entries per facet) and the two counts. -/
structure Facets where
  edge_nodes_data : Nat → idx_t
  edge_to_elem_data : Nat → idx_t
  nb_edges : Nat
  nb_inner_edges : Nat

/-- The record `Sort` of the source (a global id and a local index, ordered by the
global id alone). -/
structure EdgeSort where
  g : gidx_t
  i : Int
deriving DecidableEq, Inhabited

/-- The comparison `operator<` of `Sort`. -/
def EdgeSort.lt (a b : EdgeSort) : Prop := a.g < b.g

/-- The contract of `std::sort` with `operator<`: the result is a rearrangement of the
input in which no element is smaller than an earlier one.  The order of elements with
equal keys is not determined. -/
def StdSortContract (std_sort : List EdgeSort → List EdgeSort) : Prop :=
  ∀ l, (std_sort l).Perm l ∧ (std_sort l).Pairwise (fun a b => ¬ EdgeSort.lt b a)

/-! ## build_edges_new -/

/-- The state of the loop of `build_edges_new`: the edge collection and the local
array `edge_to_elem_data`. -/
structure BuildEdgesState where
  edges : HybridElements
  edge_to_elem_data : Nat → idx_t

/-- The swap of lines 422-428 on the node connectivity of the edges. -/
def canonical_edge_nodes (compute_uid : UniqueLonLat) (edge_nodes : Connectivity)
    (edge : Nat) : Connectivity :=
  let ip1 := edge_nodes.get edge 0
  let ip2 := edge_nodes.get edge 1
  if compute_uid.node ip1 > compute_uid.node ip2 then edge_nodes.set_row edge [ip2, ip1]
  else edge_nodes

/-- The swap of lines 436-447 on the array `edge_to_elem_data`. -/
def canonical_edge_cells (compute_uid : UniqueLonLat) (cell_nodes : Connectivity)
    (edge_to_elem_data : Nat → idx_t) (edge : Nat) : Nat → idx_t :=
  let e1 := edge_to_elem_data (2 * edge + 0)
  let e2 := edge_to_elem_data (2 * edge + 1)
  if e2 ≠ missing_value then
    if compute_uid.row (cell_nodes.row e1) > compute_uid.row (cell_nodes.row e2) then
      Function.update (Function.update edge_to_elem_data (edge * 2 + 0) e2) (edge * 2 + 1) e1
    else edge_to_elem_data
  else edge_to_elem_data

/-- One iteration of the loop of `build_edges_new` (lines 420-448). -/
def build_edges_new_body (compute_uid : UniqueLonLat) (nodes : Nodes)
    (cell_nodes : Connectivity) (edge : Nat) (s : BuildEdgesState) :
    Except Exception BuildEdgesState :=
  let edge_nodes := canonical_edge_nodes compute_uid s.edges.node_connectivity edge
  if ¬ size_t_of (edge_nodes.get edge 0) < nodes.size then
    .error (.AssertionFailed "size_t(edge_nodes(edge,0)) < nb_nodes")
  else if ¬ size_t_of (edge_nodes.get edge 1) < nodes.size then
    .error (.AssertionFailed "size_t(edge_nodes(edge,1)) < nb_nodes")
  else
    .ok
      { edges :=
          { s.edges with
            node_connectivity := edge_nodes
            global_index :=
              Function.update s.edges.global_index edge (compute_uid.row (edge_nodes.row edge))
            partition :=
              Function.update s.edges.partition edge
                (min (nodes.partition (edge_nodes.get edge 0))
                  (nodes.partition (edge_nodes.get edge 1)))
            remote_index := Function.update s.edges.remote_index edge (edge : Int) }
        edge_to_elem_data :=
          canonical_edge_cells compute_uid cell_nodes s.edge_to_elem_data edge }

/-- The function `build_edges_new` (lines 393-451).  `accumulate_facets` is the facet
accumulator, whose source is not available. -/
def build_edges_new (x : Externals) (accumulate_facets : HybridElements → Nodes → Facets)
    (mesh : Mesh) : Except Exception Mesh :=
  let nodes := mesh.nodes
  let f := accumulate_facets mesh.cells mesh.nodes
  let edges := mesh.edges.add .Line f.nb_edges f.edge_nodes_data
  let cell_nodes := mesh.cells.node_connectivity
  let compute_uid := x.unique_lonlat nodes
  match loop (build_edges_new_body compute_uid nodes cell_nodes) f.nb_edges
      { edges := edges, edge_to_elem_data := f.edge_to_elem_data } with
  | .error e => .error e
  | .ok s =>
    .ok
      { mesh with
        edges :=
          { s.edges with
            cell_connectivity := s.edges.cell_connectivity.add f.nb_edges 2 s.edge_to_elem_data } }

/-! ## accumulate_pole_edges -/

/-- The value `std::numeric_limits<double>::max()`. -/
def DBL_MAX : ℚ := (2 ^ 53 - 1) * 2 ^ 971

/-- The first loop of `accumulate_pole_edges` (lines 280-291): the local minimum and
maximum of the coordinates, as `(min, max)` with `{LON, LAT}` pairs. -/
def local_bounds (nodes : Nodes) : (ℚ × ℚ) × (ℚ × ℚ) :=
  iter
    (fun node b =>
      ((min b.1.1 (nodes.lonlat node).1, min b.1.2 (nodes.lonlat node).2),
       (max b.2.1 (nodes.lonlat node).1, max b.2.2 (nodes.lonlat node).2)))
    nodes.size ((DBL_MAX, DBL_MAX), (-DBL_MAX, -DBL_MAX))

/-- The bounds after the two `all_reduce` calls (lines 293-294). -/
def global_bounds (x : Externals) (nodes : Nodes) : (ℚ × ℚ) × (ℚ × ℚ) :=
  (x.all_reduce_min (local_bounds nodes).1, x.all_reduce_max (local_bounds nodes).2)

/-- The tolerance `tol = 1e-6`. -/
def tol : ℚ := 1 / 1000000

/-- The test of line 302: the node is within the tolerance of the maximum latitude. -/
def is_north (x : Externals) (nodes : Nodes) (node : idx_t) : Prop :=
  |(nodes.lonlat node).2 - (global_bounds x nodes).2.2| < tol

/-- The test of line 306: the node is within the tolerance of the minimum latitude. -/
def is_south (x : Externals) (nodes : Nodes) (node : idx_t) : Prop :=
  |(nodes.lonlat node).2 - (global_bounds x nodes).1.2| < tol

instance (x : Externals) (nodes : Nodes) (node : idx_t) : Decidable (is_north x nodes node) := by
  unfold is_north; infer_instance

instance (x : Externals) (nodes : Nodes) (node : idx_t) : Decidable (is_south x nodes node) := by
  unfold is_south; infer_instance

/-- The node indices `0, ..., nb_nodes-1` in the order of the loops over the nodes. -/
def node_range (nodes : Nodes) : List idx_t := (List.range nodes.size).map Int.ofNat

/-- The set `pole_nodes[NORTH]` after the loop of lines 299-310, in the iteration order
of `std::set<int>` (ascending, which is the order of insertion). -/
def pole_nodes_north (x : Externals) (nodes : Nodes) : List idx_t :=
  (node_range nodes).filter (fun node => decide (is_north x nodes node))

/-- The set `pole_nodes[SOUTH]` after the loop of lines 299-310: a node enters it only
when the test for the north band failed. -/
def pole_nodes_south (x : Externals) (nodes : Nodes) : List idx_t :=
  (node_range nodes).filter
    (fun node => decide (¬ is_north x nodes node ∧ is_south x nodes node))

/-- The sets `pole_nodes[NS]`, `NS = 0` (NORTH) and `NS = 1` (SOUTH). -/
def pole_nodes (x : Externals) (nodes : Nodes) (NS : Nat) : List idx_t :=
  if NS = 0 then pole_nodes_north x nodes else pole_nodes_south x nodes

/-- The body of the sanity check (lines 319-327) on the running value `npart`. -/
def sanity_check_step (nodes : Nodes) (npart : Int) (node : idx_t) : Except Exception Int :=
  if npart = -1 then .ok (nodes.partition node)
  else if nodes.partition node ≠ npart then
    .error (.NotImplemented
      ("Split pole-latitude is not supported yet...  node " ++ toString node ++ "[p"
        ++ toString (nodes.partition node) ++ "] should belong to part " ++ toString npart))
  else .ok npart

/-- The sanity check of one band (lines 316-328): `npart` starts at `-1`. -/
def sanity_check (nodes : Nodes) (band : List idx_t) : Except Exception Int :=
  band.foldlM (sanity_check_step nodes) (-1)

/-- The innermost body of the pairing loops (lines 344-353) on the pair
`(pole_edge_nodes, nb_pole_edges)`. -/
def pair_other (x : Externals) (nodes : Nodes) (node : idx_t) (x2 : Int)
    (acc : List idx_t × Nat) (other_node : idx_t) : List idx_t × Nat :=
  if microdeg (nodes.lonlat other_node).1 = x2 then
    if ¬ x.check (nodes.flags other_node) x.PERIODIC then
      (acc.1 ++ [node, other_node], acc.2 + 1)
    else acc
  else acc

/-- The body of the loop over the nodes of a band (lines 338-355). -/
def pair_node (x : Externals) (nodes : Nodes) (band : List idx_t)
    (acc : List idx_t × Nat) (node : idx_t) : List idx_t × Nat :=
  if ¬ x.check (nodes.flags node) (Int.lor x.PERIODIC x.GHOST) then
    let x2 := microdeg ((nodes.lonlat node).1 + 180)
    band.foldl (pair_other x nodes node x2) acc
  else acc

/-- The function `accumulate_pole_edges` (lines 271-359).  The argument
`pole_edge_nodes` is the vector passed in by reference; the result is this vector and
`nb_pole_edges` at return. -/
def accumulate_pole_edges (x : Externals) (nodes : Nodes) (pole_edge_nodes : List idx_t) :
    Except Exception (List idx_t × Nat) :=
  match sanity_check nodes (pole_nodes x nodes 0) with
  | .error e => .error e
  | .ok _ =>
    match sanity_check nodes (pole_nodes x nodes 1) with
    | .error e => .error e
    | .ok _ =>
      let acc : List idx_t × Nat := (pole_edge_nodes, 0)
      let acc := (pole_nodes x nodes 0).foldl (pair_node x nodes (pole_nodes x nodes 0)) acc
      let acc := (pole_nodes x nodes 1).foldl (pair_node x nodes (pole_nodes x nodes 1)) acc
      .ok acc

/-! ## build_pole_edges_new -/

/-- The functor `ComputeUniquePoleEdgeIndex` (lines 362-390), applied to the view
`edge_nodes` of the two nodes of an edge. -/
def ComputeUniquePoleEdgeIndex (x : Externals) (nodes : Nodes) (edge_nodes : Nat → idx_t) :
    gidx_t :=
  let centroid : ℚ × ℚ :=
    iter
      (fun jnode c =>
        (c.1 + (nodes.lonlat (edge_nodes jnode)).1, c.2 + (nodes.lonlat (edge_nodes jnode)).2))
      2 (0, 0)
  let centroid : ℚ × ℚ := (centroid.1 / 2, centroid.2 / 2)
  let centroid : ℚ × ℚ := (centroid.1, if centroid.2 > 0 then 90 else -90)
  x.unique32 (microdeg centroid.1) (microdeg centroid.1)

/-- The state of the second loop of `build_pole_edges_new`: the counter `cnt`, the edge
collection and the view of the field `is_pole_edge`. -/
structure PoleEdgesState where
  cnt : Nat
  edges : HybridElements
  is_pole_edge : Int → Int

/-- One iteration of the loop of lines 557-567; the loop variable is
`edge = nb_cell_edges + j`. -/
def build_pole_edges_new_body (x : Externals) (nodes : Nodes) (pole_edge_nodes : List idx_t)
    (nb_cell_edges : Nat) (j : Nat) (s : PoleEdgesState) : PoleEdgesState :=
  let edge : Int := ((nb_cell_edges + j : Nat) : Int)
  let ip1 := pole_edge_nodes.getD s.cnt 0
  let ip2 := pole_edge_nodes.getD (s.cnt + 1) 0
  let edge_nodes := s.edges.node_connectivity.set_row edge [ip1, ip2]
  { cnt := s.cnt + 2
    edges :=
      { s.edges with
        node_connectivity := edge_nodes
        global_index :=
          Function.update s.edges.global_index edge
            (ComputeUniquePoleEdgeIndex x nodes (fun jnode => edge_nodes.get edge jnode))
        partition :=
          Function.update s.edges.partition edge
            (min (nodes.partition (edge_nodes.get edge 0))
              (nodes.partition (edge_nodes.get edge 1)))
        remote_index := Function.update s.edges.remote_index edge edge }
    is_pole_edge := Function.update s.is_pole_edge edge 1 }

/-- The lines 534-553 of `build_pole_edges_new`: the pole edges are appended, the field
`is_pole_edge` is created if absent, the rows of the pole edges are appended to the
edge-to-cell connectivity, and the flag of every existing edge is set to 0.  The result
is the state in which the loop of lines 557-567 starts (`cnt = 0`). -/
def build_pole_edges_new_init (mesh : Mesh) (pole_edge_nodes : List idx_t)
    (nb_pole_edges : Nat) : PoleEdgesState :=
  let nb_cell_edges := mesh.edges.size
  let edges := mesh.edges.add .Line nb_pole_edges (fun i => pole_edge_nodes.getD i 0)
  let is_pole_edge : Int → Int :=
    match edges.is_pole_edge with
    | some f => f
    | none => fun _ => 0
  let edges :=
    { edges with cell_connectivity := edges.cell_connectivity.add_missing nb_pole_edges 2 }
  let is_pole_edge :=
    iter (fun edge f => Function.update f (edge : Int) 0) nb_cell_edges is_pole_edge
  { cnt := 0, edges := edges, is_pole_edge := is_pole_edge }

/-- The function `build_pole_edges_new` (lines 523-568). -/
def build_pole_edges_new (x : Externals) (mesh : Mesh) : Except Exception Mesh :=
  let nodes := mesh.nodes
  let nb_cell_edges := mesh.edges.size
  match accumulate_pole_edges x nodes [] with
  | .error e => .error e
  | .ok (pole_edge_nodes, nb_pole_edges) =>
    let s :=
      iter (build_pole_edges_new_body x nodes pole_edge_nodes nb_cell_edges) nb_pole_edges
        (build_pole_edges_new_init mesh pole_edge_nodes nb_pole_edges)
    .ok { mesh with edges := { s.edges with is_pole_edge := some s.is_pole_edge } }

/-! ## build_element_to_edge_connectivity_new -/

/-- The allocation loop of lines 113-119 on the cleared table. -/
def allocate_cell_edge_connectivity (cells : HybridElements) (c : Connectivity) :
    Connectivity :=
  cells.blocks.foldl
    (fun c b => c.add b.2 b.1.nb_edges (fun _ => missing_value)) c.clear

/-- The array `edge_sort` before sorting (lines 138-139). -/
def edge_sort_init (compute_uid : UniqueLonLat) (edge_node_connectivity : Connectivity)
    (nb_edges : Nat) : List EdgeSort :=
  (List.range nb_edges).map
    (fun jedge : Nat =>
      { g := compute_uid.row (edge_node_connectivity.row jedge), i := (jedge : Int) })

/-- The state of the filling loop: the table under construction and `edge_cnt`. -/
structure FillState where
  cell_edge_connectivity : Connectivity
  edge_cnt : Int → Nat

/-- The body of the loop over `j` (lines 151-164). -/
def fill_slot (edge_cell_connectivity : Connectivity) (has_pole_edges : Bool)
    (is_pole_edge : Int → Int) (iedge : Int) (j : Nat) (s : FillState) :
    Except Exception FillState :=
  let elem := edge_cell_connectivity.get iedge j
  if elem ≠ missing_value then
    .ok
      { cell_edge_connectivity := s.cell_edge_connectivity.set elem (s.edge_cnt elem) iedge
        edge_cnt := Function.update s.edge_cnt elem (s.edge_cnt elem + 1) }
  else if ¬ (has_pole_edges = true ∧ is_pole_edge iedge ≠ 0) then
    if j = 0 then .error (.SeriousBug "edge has no element connected") else .ok s
  else .ok s

/-- The body of the loop over `jedge` (lines 148-165). -/
def fill_edge (edge_cell_connectivity : Connectivity) (has_pole_edges : Bool)
    (is_pole_edge : Int → Int) (edge_sort : List EdgeSort) (jedge : Nat) (s : FillState) :
    Except Exception FillState :=
  let iedge := (edge_sort.getD jedge default).i
  loop (fill_slot edge_cell_connectivity has_pole_edges is_pole_edge iedge) 2 s

/-- The message of the exception of line 183. -/
def could_not_find_edge (mesh : Mesh) (jcell jcol : Nat) : String :=
  "Could not find edge " ++ toString jcol ++ " for " ++ mesh.cells.name jcell ++ " elem "
    ++ toString jcell ++ " with nodes ( "
    ++ iter
        (fun jnode msg =>
          msg ++ toString (mesh.nodes.global_index (mesh.cells.node_connectivity.get jcell jnode))
            ++ " ")
        (mesh.cells.node_connectivity.cols jcell) ""
    ++ ")"

/-- The body of the verification loop over `jcol` (lines 174-184). -/
def verify_slot (mesh : Mesh) (cell_edge_connectivity : Connectivity) (jcell jcol : Nat)
    (_u : Unit) : Except Exception Unit :=
  if cell_edge_connectivity.get jcell jcol = missing_value then
    .error (.SeriousBug (could_not_find_edge mesh jcell jcol))
  else .ok ()

/-- The body of the verification loop over `jcell` (lines 172-185). -/
def verify_cell (mesh : Mesh) (cell_edge_connectivity : Connectivity) (jcell : Nat)
    (u : Unit) : Except Exception Unit :=
  loop (verify_slot mesh cell_edge_connectivity jcell) (cell_edge_connectivity.cols jcell) u

/-- The function `build_element_to_edge_connectivity_new` (lines 107-187).  `std_sort`
is `std::sort` on the array of `Sort` records. -/
def build_element_to_edge_connectivity_new (x : Externals)
    (std_sort : List EdgeSort → List EdgeSort) (mesh : Mesh) : Except Exception Mesh :=
  let cell_edge_connectivity :=
    allocate_cell_edge_connectivity mesh.cells mesh.cells.edge_connectivity
  let nb_edges := mesh.edges.size
  let edge_cell_connectivity := mesh.edges.cell_connectivity
  let edge_node_connectivity := mesh.edges.node_connectivity
  let has_pole_edges : Bool := mesh.edges.is_pole_edge.isSome
  let is_pole_edge : Int → Int :=
    match mesh.edges.is_pole_edge with
    | some f => f
    | none => fun _ => 0
  let edge_sort :=
    std_sort (edge_sort_init (x.unique_lonlat mesh.nodes) edge_node_connectivity nb_edges)
  match loop (fill_edge edge_cell_connectivity has_pole_edges is_pole_edge edge_sort) nb_edges
      { cell_edge_connectivity := cell_edge_connectivity, edge_cnt := fun _ => 0 } with
  | .error e => .error e
  | .ok s =>
    match loop (verify_cell mesh s.cell_edge_connectivity) mesh.cells.size () with
    | .error e => .error e
    | .ok _ =>
      .ok { mesh with cells := { mesh.cells with edge_connectivity := s.cell_edge_connectivity } }

/-! ## ReducedGrid (`src/atlas/grids/ReducedGrid.cc`)

A `std::vector` is a list; an array passed as a pointer (`const double lats[]`) is its
index function.  The numbers of latitudes and of points (`int`, `size_t`) are natural
numbers. -/

/-- The bounding box built by `BoundBox(north, south, east, west)` (source not
available): the four numbers. -/
structure BoundBox where
  north : ℚ
  south : ℚ
  east : ℚ
  west : ℚ

/-- The members of `ReducedGrid` that `setup` assigns, and `N_`. -/
structure ReducedGrid where
  N_ : Nat
  nlons_ : List Nat
  lat_ : List ℚ
  lonmin_ : List ℚ
  lonmax_ : List ℚ
  npts_ : Nat
  nlonmax_ : Nat
  bounding_box_ : BoundBox

/-- The enumeration `AngleUnit`. -/
inductive AngleUnit where
  | DEG
  | RAD
deriving DecidableEq

/-- The constant `M_1_PI` of `math.h`, the decimal expansion of `1/pi` given there. -/
def M_1_PI : ℚ := 318309886183790671537767526745028724 / 1000000000000000000000000000000000000

namespace ReducedGrid

/-- `ReducedGrid::nlat()` (lines 229-232). -/
def nlat (g : ReducedGrid) : Nat := g.lat_.length

/-- `ReducedGrid::nlon(jlat)` (lines 234-237). -/
def nlon (g : ReducedGrid) (jlat : Nat) : Nat := g.nlons_.getD jlat 0

/-- `ReducedGrid::lat(jlat)` (lines 254-257). -/
def lat (g : ReducedGrid) (jlat : Nat) : ℚ := g.lat_.getD jlat 0

/-- `ReducedGrid::npts()` (line 194). -/
def npts (g : ReducedGrid) : Nat := g.npts_

/-- `ReducedGrid::npts_per_lat()` (lines 244-247). -/
def npts_per_lat (g : ReducedGrid) : List Nat := g.nlons_

/-- The state of the loop of lines 134-143: the grid, `lon_min` and `lon_max`. -/
structure SetupState where
  grid : ReducedGrid
  lon_min : ℚ
  lon_max : ℚ

/-- One iteration of the loop of lines 134-143. -/
def setup_lon_body (jlat : Nat) (s : SetupState) : SetupState :=
  { grid :=
      { s.grid with
        nlonmax_ := max (s.grid.nlon jlat) s.grid.nlonmax_
        npts_ := s.grid.npts_ + s.grid.nlons_.getD jlat 0 }
    lon_min := min s.lon_min (s.grid.lonmin_.getD jlat 0)
    lon_max := max s.lon_max (s.grid.lonmax_.getD jlat 0) }

/-- The overload `setup(nlat, lats, nlons, lonmin, lonmax)` (lines 119-146). -/
def setup_lon (g : ReducedGrid) (nlat : Nat) (lats : Nat → ℚ) (nlons : Nat → Nat)
    (lonmin lonmax : Nat → ℚ) : Except Exception ReducedGrid :=
  if ¬ nlat > 1 then .error (.AssertionFailed "nlat > 1")
  else
    let g : ReducedGrid :=
      { g with
        nlons_ := (List.range nlat).map nlons
        lat_ := (List.range nlat).map lats
        lonmin_ := (List.range nlat).map lonmin
        lonmax_ := (List.range nlat).map lonmax
        npts_ := 0
        nlonmax_ := 0 }
    let s := iter setup_lon_body nlat { grid := g, lon_min := 1000, lon_max := -1000 }
    .ok
      { s.grid with
        bounding_box_ :=
          { north := s.grid.lat_.getD 0 0
            south := s.grid.lat_.getD (nlat - 1) 0
            east := s.lon_max
            west := s.lon_min } }

/-- The overload `setup(nlat, lats, nlons)` (lines 149-161). -/
def setup (g : ReducedGrid) (nlat : Nat) (lats : Nat → ℚ) (nlons : Nat → Nat) :
    Except Exception ReducedGrid :=
  let lonmin : List ℚ := List.replicate nlat 0
  let lonmax : List ℚ := List.replicate nlat 0
  let lonmax :=
    iter
      (fun jlat (lonmax : List ℚ) =>
        if nlons jlat ≠ 0 then lonmax.set jlat (360 - 360 / (nlons jlat : ℚ))
        else lonmax.set jlat 0)
      nlat lonmax
  setup_lon g nlat lats nlons (fun j => lonmin.getD j 0) (fun j => lonmax.getD j 0)

/-- The function `setup_lat_hemisphere(N, lat, lon, unit)` (lines 163-177). -/
def setup_lat_hemisphere (g : ReducedGrid) (N : Nat) (lat : Nat → ℚ) (lon : Nat → Nat)
    (unit : AngleUnit) : Except Exception ReducedGrid :=
  let nlons : List Nat := (List.range N).map lon ++ ((List.range N).map lon).reverse
  let lats : List ℚ := (List.range N).map lat ++ ((List.range N).map lat).reverse
  let convert : ℚ := if unit = .RAD then 180 * M_1_PI else 1
  let lats := iter (fun j (lats : List ℚ) => lats.set j (lats.getD j 0 * convert)) N lats
  let lats :=
    iter (fun i (lats : List ℚ) => lats.set (N + i) (lats.getD (N + i) 0 * -convert)) N lats
  setup g (2 * N) (fun j => lats.getD j 0) (fun j => nlons.getD j 0)

end ReducedGrid

/-! ## MissingIfAllMissing (`src/atlas/interpolation/nonlinear/MissingIfAllMissing.cc`) -/

/-- The compressed-row matrix `NonLinear::Matrix` (`eckit::linalg::SparseMatrix`, source
not available), as far as `execute` uses it: the numbers of rows and of columns, the
position `outer r` at which the entries of row `r` start (`outer rows` is the number of
entries), the column `inner` of every entry and its weight `data`.  An iterator is the
position of an entry: the iterator `it( W )` is the position 0, `W.end( r )` is the
position `outer (r+1)`, `it.col()` is `inner` at the position and `*it` is `data` at
it. -/
structure SparseMatrix where
  rows : Nat
  cols : Nat
  outer : Nat → Nat
  inner : Nat → Nat
  data : Nat → ℚ

namespace MissingIfAllMissing

/-- The variables of the loop over the entries of one row (lines 55-65); the iterator
`it` and the index `i` advance together, so that `it` is the position `i`. -/
structure RowScan where
  i : Nat
  i_missing : Nat
  N_missing : Nat
  N_entries : Nat
  sum : ℚ

/-- One iteration of the loop over the entries of a row (lines 55-65). -/
def scan_entry (missingValue : ℚ → Bool) (W : SparseMatrix) (data : Nat → ℚ)
    (values : Nat → ℚ) (_n : Nat) (s : RowScan) : RowScan :=
  let miss := missingValue (values (W.inner s.i))
  if miss then
    { i := s.i + 1, i_missing := s.i, N_missing := s.N_missing + 1
      N_entries := s.N_entries + 1, sum := s.sum }
  else
    { i := s.i + 1, i_missing := s.i_missing, N_missing := s.N_missing
      N_entries := s.N_entries + 1, sum := s.sum + data s.i }

/-- The variables of the loop over the rows: the weights `data`, `modif` and `i`. -/
structure ExecuteState where
  data : Nat → ℚ
  modif : Bool
  i : Nat

/-- One iteration of the loop over the rows (lines 45-84).  The loop over the entries
runs from the position `i` to the position `W.end( r )`. -/
def execute_row (missingValue : ℚ → Bool) (is_approximately_equal : ℚ → ℚ → Bool)
    (W : SparseMatrix) (values : Nat → ℚ) (r : Nat) (s : ExecuteState) : ExecuteState :=
  let row_end := W.outer (r + 1)
  let k := s.i
  let c :=
    iter (scan_entry missingValue W s.data values) (row_end - s.i)
      { i := s.i, i_missing := s.i, N_missing := 0, N_entries := 0, sum := 0 }
  if c.N_missing > 0 then
    if c.N_missing = c.N_entries ∨ is_approximately_equal c.sum 0 = true then
      { data :=
          iter
            (fun n data => Function.update data (k + n) (if k + n = c.i_missing then 1 else 0))
            c.N_entries s.data
        modif := true
        i := c.i }
    else
      let factor : ℚ := 1 / c.sum
      { data :=
          iter
            (fun n data =>
              Function.update data (k + n)
                (if missingValue (values (W.inner (k + n))) then 0 else factor * data (k + n)))
            c.N_entries s.data
        modif := true
        i := c.i }
  else { s with i := c.i }

/-- The function `MissingIfAllMissing::execute` (lines 31-88) on the matrix `W` and the
field with the entries `values` and the size `size`; `missingValue` is the missing-value
test of the field and `is_approximately_equal` is `eckit::types::is_approximately_equal`
(sources not available).  The result is the value returned and the matrix after the
call. -/
def execute (missingValue : ℚ → Bool) (is_approximately_equal : ℚ → ℚ → Bool)
    (W : SparseMatrix) (values : Nat → ℚ) (size : Int) : Except Exception (Bool × SparseMatrix) :=
  if (W.cols : Int) ≠ size then
    .error (.AssertionFailed "idx_t( W.cols() ) == values.size()")
  else
    let s :=
      iter (execute_row missingValue is_approximately_equal W values) W.rows
        { data := W.data, modif := false, i := 0 }
    .ok (s.modif, { W with data := s.data })

end MissingIfAllMissing

/-! ## Gmsh (`src/atlas/io/Gmsh.cc`): writing and reading a mesh in ASCII

The file is the list of its lines, and a line is the list of its blank-separated tokens.
A token is the text that `operator<<` writes for one value: the decimal digits of an
integer, the text of a `double`, or a word.  `operator>>` skips blanks and line ends and
reads the next token; `std::getline` reads the rest of the current line.

`Gmsh.cc` uses the class `Mesh` through its function spaces "nodes", "quads", "triags"
and "edges"; `int` is a 32-bit integer here, because global indices (`gidx_t`) are
written and read through `int` variables.  The numbers of nodes and of elements are
natural numbers. -/

namespace Gmsh

/-- One token of a line of the file. -/
inductive Token where
  | int (v : Int)
  | real (x : ℚ)
  | word (s : String)
deriving DecidableEq

/-- The file, or what is left of it to read: the rest of the current line, followed by
the lines after it. -/
abbrev Stream := List (List Token)

/-- The exceptions thrown in `Gmsh.cc`: `eckit::Exception` with its message, the failure
of an `ASSERT`, and the exception of `FunctionSpace::field` for a field that does not
exist (source not available). -/
inductive GmshException where
  | Exception (what : String)
  | AssertionFailed (what : String)
  | FieldNotFound (name : String)

/-- The ways in which a call does not return: an exception is raised, or the model does
not say what happens (`not_modelled`): an extraction from the stream fails or the file
ends, after which the source goes on without a test of the stream; an index leaves its
array; the file is binary. -/
inductive Failure where
  | raised (e : GmshException)
  | not_modelled

/-- The values of an `int`. -/
def is_int (v : Int) : Prop := -2147483648 ≤ v ∧ v ≤ 2147483647

instance (v : Int) : Decidable (is_int v) := by
  unfold is_int; infer_instance

/-- The conversion of a `gidx_t` to `int` (`int g = glb_idx(n)`): the low 32 bits. -/
def int_of (v : Int) : Int := (v + 2147483648) % 4294967296 - 2147483648

/-- The function space "nodes" as far as `Gmsh.cc` uses it: `shape(0)`, the coordinate
field (the field named by the option "nodes" when writing, the field "xyz" when reading)
with its number of variables `surfdim`, the fields "glb_idx" and "partition", and the
metadata "nb_owned" and "max_glb_idx". -/
structure NodesSpace where
  shape0 : Nat
  surfdim : Nat
  coords : Int → Nat → ℚ
  glb_idx : Int → gidx_t
  partition : Int → Int
  nb_owned : Option Nat
  max_glb_idx : Option gidx_t

/-- A function space of elements ("quads", "triags", "edges") as far as `Gmsh.cc` uses
it: `shape(0)`, the metadata "nb_owned" and "max_glb_idx", and the fields "nodes",
"glb_idx" and "partition" (which may be absent). -/
structure ElementSpace where
  shape0 : Nat
  nb_owned : Option Nat
  max_glb_idx : Option Int
  nodes : Nat → Nat → Int
  glb_idx : Nat → gidx_t
  partition : Option (Nat → Int)

/-- The class `Mesh` as `Gmsh.cc` sees it: the function space "nodes" and, where they
exist, the function spaces "quads", "triags" and "edges". -/
structure Mesh where
  nodes : NodesSpace
  quads : Option ElementSpace
  triags : Option ElementSpace
  edges : Option ElementSpace

/-- The options read by `Gmsh::write`; the option "ascii" is set, and the option "nodes"
has selected the coordinate field of `NodesSpace`. -/
structure Options where
  ghost : Bool
  elements : Bool
  edges : Bool

/-- The default options set by the constructor (lines 340-355). -/
def default_options : Options := { ghost := false, elements := true, edges := true }

/-! ### Gmsh::write -/

/-- The number of elements of a function space before the options "elements" and "edges"
are looked at (lines 668-670). -/
def nb_owned_or_all (o : Options) (space : ElementSpace) : Nat :=
  let n := match space.nb_owned with
    | some k => k
    | none => space.shape0
  if o.ghost = true then space.shape0 else n

/-- The number `nb_quads` of quadrilaterals to write (lines 664-673). -/
def nb_quads (o : Options) (mesh : Mesh) : Nat :=
  match mesh.quads with
  | none => 0
  | some quads => if o.elements = false then 0 else nb_owned_or_all o quads

/-- The number `nb_triags` of triangles to write (lines 675-684). -/
def nb_triags (o : Options) (mesh : Mesh) : Nat :=
  match mesh.triags with
  | none => 0
  | some triags => if o.elements = false then 0 else nb_owned_or_all o triags

/-- The number `nb_edges` of edges to write (lines 686-695). -/
def nb_edges (o : Options) (mesh : Mesh) : Nat :=
  match mesh.edges with
  | none => 0
  | some edges =>
    if o.edges = false ∧ nb_triags o mesh + nb_quads o mesh > 0 then 0
    else nb_owned_or_all o edges

/-- The three lines written by `write_header_ascii` (lines 73-78). -/
def write_header_ascii : List (List Token) :=
  [[.word "$MeshFormat"], [.real (11 / 5), .int 0, .int 8], [.word "$EndMeshFormat"]]

/-- The line of node `n` (lines 718-730): the global index converted to `int`, and
`xyz`, of which the entries from `surfdim` on stay 0. -/
def node_line (nodes : NodesSpace) (n : Nat) : List Token :=
  let g := int_of (nodes.glb_idx n)
  let xyz : Nat → ℚ := fun d => if d < nodes.surfdim then nodes.coords n d else 0
  [.int g, .real (xyz 0), .real (xyz 1), .real (xyz 2)]

/-- The line of element `e` of a function space with a field "partition" (lines 841-844,
856-859 and 872-875): the global index, the element type, four tags of which the last is
the partition, and the global indices of the nodes. -/
def element_line (glb_idx : Int → gidx_t) (space : ElementSpace) (part : Nat → Int)
    (etype : Int) (nnodes : Nat) (e : Nat) : List Token :=
  [.int (space.glb_idx e), .int etype, .int 4, .int 1, .int 1, .int 1, .int (part e)] ++
    (List.range nnodes).map (fun n => Token.int (glb_idx (space.nodes e n)))

/-- The line of edge `e` when the edges have no field "partition" (lines 882-885). -/
def edge_line_two_tags (glb_idx : Int → gidx_t) (space : ElementSpace) (e : Nat) :
    List Token :=
  [.int (space.glb_idx e), .int 1, .int 2, .int 1, .int 1] ++
    (List.range 2).map (fun n => Token.int (glb_idx (space.nodes e n)))

/-- The lines of the quadrilaterals (`etype = 3`, `nnodes = 4`) or of the triangles
(`etype = 2`, `nnodes = 3`): lines 832-861. -/
def cell_lines (glb_idx : Int → gidx_t) (space : Option ElementSpace) (nb : Nat) (etype : Int)
    (nnodes : Nat) : Except Failure (List (List Token)) :=
  if nb = 0 then .ok []
  else
    match space with
    | none => .ok []
    | some sp =>
      match sp.partition with
      | none => .error (.raised (.FieldNotFound "partition"))
      | some part => .ok ((List.range nb).map (element_line glb_idx sp part etype nnodes))

/-- The lines of the edges (lines 862-888). -/
def edge_lines (glb_idx : Int → gidx_t) (space : Option ElementSpace) (nb : Nat) :
    Except Failure (List (List Token)) :=
  if nb = 0 then .ok []
  else
    match space with
    | none => .ok []
    | some sp =>
      match sp.partition with
      | some part => .ok ((List.range nb).map (element_line glb_idx sp part 1 2))
      | none => .ok ((List.range nb).map (edge_line_two_tags glb_idx sp))

/-- The function `Gmsh::write(mesh, file_path)` with the option "ascii" set (lines
646-892, the branches with `binary == false`), on one process: the lines written to the
file. -/
def write (o : Options) (mesh : Mesh) : Except Failure (List (List Token)) :=
  let nodes := mesh.nodes
  if ¬ (nodes.surfdim = 2 ∨ nodes.surfdim = 3) then
    .error (.raised (.AssertionFailed "surfdim == 2 || surfdim == 3"))
  else
    let nb_nodes := nodes.shape0
    match cell_lines nodes.glb_idx mesh.quads (nb_quads o mesh) 3 4 with
    | .error e => .error e
    | .ok quad_lines =>
      match cell_lines nodes.glb_idx mesh.triags (nb_triags o mesh) 2 3 with
      | .error e => .error e
      | .ok triag_lines =>
        match edge_lines nodes.glb_idx mesh.edges (nb_edges o mesh) with
        | .error e => .error e
        | .ok edge_lines =>
          .ok
            (write_header_ascii ++
              [[.word "$Nodes"], [.int (nb_nodes : Int)]] ++
              (List.range nb_nodes).map (node_line nodes) ++
              [[.word "$EndNodes"], [.word "$Elements"],
                [.int ((nb_quads o mesh + nb_triags o mesh + nb_edges o mesh : Nat) : Int)]] ++
              quad_lines ++ triag_lines ++ edge_lines ++
              [[.word "$EndElements"]])

/-! ### Gmsh::read -/

/-- The call `std::getline(file, line)`: the rest of the current line. -/
def getline : Stream → Except Failure (List Token × Stream)
  | [] => .error .not_modelled
  | line :: rest => .ok (line, rest)

/-- The loop `while(line != marker) std::getline(file,line);`: the stream after it. -/
def skip_to (marker : String) : List Token → Stream → Except Failure Stream
  | line, [] => if line = [.word marker] then .ok [] else .error .not_modelled
  | line, next :: rest =>
    if line = [.word marker] then .ok (next :: rest) else skip_to marker next rest

/-- The next token of the stream, for `operator>>`. -/
def next_token : Stream → Except Failure (Token × Stream)
  | [] => .error .not_modelled
  | [] :: rest => next_token rest
  | (t :: line) :: rest => .ok (t, line :: rest)

/-- The extraction `file >> v` of an `int`. -/
def read_int (s : Stream) : Except Failure (Int × Stream) :=
  match next_token s with
  | .ok (.int v, s') => if is_int v then .ok (v, s') else .error .not_modelled
  | _ => .error .not_modelled

/-- The extraction `file >> v` of a `size_t`. -/
def read_size_t (s : Stream) : Except Failure (Nat × Stream) :=
  match next_token s with
  | .ok (.int v, s') =>
    if 0 ≤ v ∧ v < 18446744073709551616 then .ok (v.toNat, s') else .error .not_modelled
  | _ => .error .not_modelled

/-- The extraction `file >> v` of a `double`; `reread x` is the `double` read from the
text that `operator<<` wrote for the `double` `x`. -/
def read_double (reread : ℚ → ℚ) (s : Stream) : Except Failure (ℚ × Stream) :=
  match next_token s with
  | .ok (.real x, s') => .ok (reread x, s')
  | .ok (.int v, s') => .ok ((v : ℚ), s')
  | _ => .error .not_modelled

/-- The extraction of `k` values of type `int`, one after the other. -/
def read_ints : Nat → Stream → Except Failure (List Int × Stream)
  | 0, s => .ok ([], s)
  | k + 1, s =>
    match read_int s with
    | .error e => .error e
    | .ok (v, s') =>
      match read_ints k s' with
      | .error e => .error e
      | .ok (vs, s'') => .ok (v :: vs, s'')

/-- The constant `M_PI` of `math.h`. -/
def M_PI : ℚ := 314159265358979323846 / 100000000000000000000

/-- The variables of the loop over the nodes (lines 432-455). -/
structure NodesState where
  stream : Stream
  coords : Int → Nat → ℚ
  glb_idx : Int → gidx_t
  part : Int → Int
  glb_to_loc : Int → Int
  max_glb_idx : gidx_t
  xmax : ℚ
  zmax : ℚ

/-- One iteration of the loop over the nodes (lines 432-455) of an ASCII file.  The map
`glb_to_loc` is a `std::map<int,int>`, in which an absent key has the value 0. -/
def read_node (reread : ℚ → ℚ) (n : Nat) (st : NodesState) : Except Failure NodesState :=
  match read_int st.stream with
  | .error e => .error e
  | .ok (g, s) =>
    match read_double reread s with
    | .error e => .error e
    | .ok (x, s) =>
      match read_double reread s with
      | .error e => .error e
      | .ok (y, s) =>
        match read_double reread s with
        | .error e => .error e
        | .ok (z, s) =>
          .ok
            { stream := s
              coords :=
                Function.update st.coords (n : Int)
                  (fun d => if d = 0 then x else if d = 1 then y else if d = 2 then z
                    else st.coords n d)
              glb_idx := Function.update st.glb_idx (n : Int) g
              part := Function.update st.part (n : Int) 0
              glb_to_loc := Function.update st.glb_to_loc g (n : Int)
              max_glb_idx := max st.max_glb_idx g
              xmax := max x st.xmax
              zmax := max z st.zmax }

/-- The variables of the loop that counts the element types (lines 541-546). -/
structure CountState where
  stream : Stream
  nb_etype : Int → Int
  elements_max_glb_idx : Int

/-- One iteration of the loop that counts the element types (lines 541-546); the vector
`nb_etype` has 20 entries. -/
def count_element (_e : Nat) (st : CountState) : Except Failure CountState :=
  match read_int st.stream with
  | .error e => .error e
  | .ok (g, s) =>
    match read_int s with
    | .error e => .error e
    | .ok (etype, s) =>
      match getline s with
      | .error e => .error e
      | .ok (_, s) =>
        if ¬ (0 ≤ etype ∧ etype < 20) then .error .not_modelled
        else
          .ok
            { stream := s
              nb_etype := Function.update st.nb_etype etype (st.nb_etype etype + 1)
              elements_max_glb_idx := max st.elements_max_glb_idx g }

/-- The three views of a function space of elements that the reader fills. -/
structure ElementViews where
  nodes : Nat → Nat → Int
  glb_idx : Nat → gidx_t
  part : Nat → Int

/-- The variables of the loop that reads the elements (lines 586-628); the views of the
edges exist only when the file has edges. -/
structure ElementsState where
  stream : Stream
  tags : Nat → Int
  quad : Nat
  triag : Nat
  edge : Nat
  quads : ElementViews
  triags : ElementViews
  edges : Option ElementViews

/-- The call `std::max_element(tags+first, tags+last)`: the position of the first
largest entry, and `last` for an empty range. -/
def max_element (tags : Nat → Int) (first last : Nat) : Nat :=
  if first ≥ last then last
  else
    iter (fun i best => if tags best < tags (first + 1 + i) then first + 1 + i else best)
      (last - first - 1) first

/-- The assignments to the views of one function space for the element at `index`, with
the nodes `gn` translated by `glb_to_loc`. -/
def ElementViews.put (v : ElementViews) (glb_to_loc : Int → Int) (index : Nat) (g : Int)
    (part : Int) (gn : List Int) : ElementViews :=
  { nodes :=
      Function.update v.nodes index
        (fun n => if n < gn.length then glb_to_loc (gn.getD n 0) else v.nodes index n)
    glb_idx := Function.update v.glb_idx index g
    part := Function.update v.part index part }

/-- One iteration of the loop that reads the elements (lines 586-628).  The element
types are `LINE = 1`, `TRIAG = 2`, `QUAD = 3` and `POINT = 15`; the array `tags` has 100
entries. -/
def read_element (glb_to_loc : Int → Int) (_e : Nat) (st : ElementsState) :
    Except Failure ElementsState :=
  match read_ints 3 st.stream with
  | .error e => .error e
  | .ok (head, s) =>
    let g := head.getD 0 0
    let etype := head.getD 1 0
    let ntags := head.getD 2 0
    if ntags > 100 then .error .not_modelled
    else
      match read_ints ntags.toNat s with
      | .error e => .error e
      | .ok (values, s) =>
        let tags : Nat → Int := fun t => if t < ntags.toNat then values.getD t 0 else st.tags t
        let part : Int :=
          if ntags > 3 then max 0 (tags (max_element tags 3 (ntags.toNat - 1))) else 0
        if etype = 3 then
          match read_ints 4 s with
          | .error e => .error e
          | .ok (gn, s) =>
            .ok
              { st with
                stream := s
                tags := tags
                quads := st.quads.put glb_to_loc st.quad g part gn
                quad := st.quad + 1 }
        else if etype = 2 then
          match read_ints 3 s with
          | .error e => .error e
          | .ok (gn, s) =>
            .ok
              { st with
                stream := s
                tags := tags
                triags := st.triags.put glb_to_loc st.triag g part gn
                triag := st.triag + 1 }
        else if etype = 1 then
          match read_ints 2 s with
          | .error e => .error e
          | .ok (gn, s) =>
            match st.edges with
            | none => .error .not_modelled
            | some edges =>
              .ok
                { st with
                  stream := s
                  tags := tags
                  edges := some (edges.put glb_to_loc st.edge g part gn)
                  edge := st.edge + 1 }
        else if etype = 15 then
          match read_ints 1 s with
          | .error e => .error e
          | .ok (_, s) => .ok { st with stream := s, tags := tags }
        else .error (.raised (.Exception "ERROR: element type not supported"))

/-- The views of a function space that has just been created. -/
def new_views : ElementViews :=
  { nodes := fun _ _ => 0, glb_idx := fun _ => 0, part := fun _ => 0 }

/-- The function space made of the views filled by the reader, with the metadata of
lines 629-638. -/
def ElementViews.space (v : ElementViews) (nb : Int) (elements_max_glb_idx : Int) :
    ElementSpace :=
  { shape0 := nb.toNat
    nb_owned := some nb.toNat
    max_glb_idx := some elements_max_glb_idx
    nodes := v.nodes
    glb_idx := v.glb_idx
    partition := some v.part }

/-- The elements part of `Gmsh::read` for an ASCII file (lines 470-475 and 536-638), from
the stream after the three calls of `getline` and the line read last. -/
def read_elements (glb_to_loc : Int → Int) (nodes : NodesSpace) (line : List Token)
    (s : Stream) : Except Failure Mesh :=
  match skip_to "$Elements" line s with
  | .error e => .error e
  | .ok s =>
    match read_int s with
    | .error e => .error e
    | .ok (nb_elements, position) =>
      match loop count_element nb_elements.toNat
          { stream := position, nb_etype := fun _ => 0, elements_max_glb_idx := 0 } with
      | .error e => .error e
      | .ok counted =>
        let nb_quads := counted.nb_etype 3
        let nb_triags := counted.nb_etype 2
        let nb_edges := counted.nb_etype 1
        match loop (read_element glb_to_loc) nb_elements.toNat
            { stream := position, tags := fun _ => 0, quad := 0, triag := 0, edge := 0
              quads := new_views, triags := new_views
              edges := if nb_edges > 0 then some new_views else none } with
        | .error e => .error e
        | .ok st =>
          .ok
            { nodes := nodes
              quads := some (st.quads.space nb_quads counted.elements_max_glb_idx)
              triags := some (st.triags.space nb_triags counted.elements_max_glb_idx)
              edges :=
                match st.edges with
                | some edges => some (edges.space nb_edges counted.elements_max_glb_idx)
                | none => none }

/-- The nodes part of `Gmsh::read` for an ASCII file (lines 398-468), from the stream
after the number of nodes, followed by the elements part.  The mesh is a new one, so that
the function space "nodes" is created.  `deg` is `Constants::radianToDegrees()` (source
not available). -/
def read_nodes (reread : ℚ → ℚ) (deg : ℚ) (nb_nodes : Nat) (s : Stream) :
    Except Failure Mesh :=
  match loop (read_node reread) nb_nodes
      { stream := s, coords := fun _ _ => 0, glb_idx := fun _ => 0
        part := fun _ => 0, glb_to_loc := fun _ => 0, max_glb_idx := 0
        xmax := -DBL_MAX, zmax := -DBL_MAX } with
  | .error e => .error e
  | .ok st =>
    let coords : Int → Nat → ℚ :=
      if st.xmax < 4 * M_PI ∧ st.zmax = 0 then
        fun n d =>
          if 0 ≤ n ∧ n < (nb_nodes : Int) ∧ d < 2 then st.coords n d * deg
          else st.coords n d
      else st.coords
    match getline st.stream with
    | .error e => .error e
    | .ok (_, s) =>
      match getline s with
      | .error e => .error e
      | .ok (_, s) =>
        match getline s with
        | .error e => .error e
        | .ok (line, s) =>
          read_elements st.glb_to_loc
            { shape0 := nb_nodes
              surfdim := 3
              coords := coords
              glb_idx := st.glb_idx
              partition := st.part
              nb_owned := some nb_nodes
              max_glb_idx := some st.max_glb_idx }
            line s

/-- The function `Gmsh::read(file_path)` (lines 368-643) on the lines of the file: the
header and the number of nodes (lines 382-396), then the nodes and the elements of an
ASCII file. -/
def read (reread : ℚ → ℚ) (deg : ℚ) (file : List (List Token)) : Except Failure Mesh :=
  match skip_to "$MeshFormat" [] file with
  | .error e => .error e
  | .ok s =>
    match read_double reread s with
    | .error e => .error e
    | .ok (_version, s) =>
      match read_ints 2 s with
      | .error e => .error e
      | .ok (format, s) =>
        let binary := format.getD 0 0
        match skip_to "$Nodes" [.word "$MeshFormat"] s with
        | .error e => .error e
        | .ok s =>
          match read_size_t s with
          | .error e => .error e
          | .ok (nb_nodes, s) =>
            if binary ≠ 0 then .error .not_modelled
            else read_nodes reread deg nb_nodes s

end Gmsh

/-! ## ReducedGrid: the constructor from vectors, and `lon` -/

/-- `ReducedGrid::lon(jlat, jlon)` (lines 249-252).  The division is the division of
rationals, which gives 0 for the divisor 0, where the division of `double` gives an
infinity or a NaN. -/
def ReducedGrid.lon (g : ReducedGrid) (jlat jlon : Nat) : ℚ :=
  g.lonmin_.getD jlat 0 +
    (jlon : ℚ) * (g.lonmax_.getD jlat 0 - g.lonmin_.getD jlat 0) / ((g.nlon jlat : ℚ) - 1)

/-- The constructor `ReducedGrid(_lats, _nlons, d)` (lines 101-111) on the new object `g`:
the vector `nlons` is created with `nlat` zeros, the loop assigns each of its entries to
itself (`nlons[j] = static_cast<int>(nlons[j])`), and `setup` is called with it. -/
def ReducedGrid.construct (g : ReducedGrid) (_lats : List ℚ) (_nlons : List Nat) :
    Except Exception ReducedGrid :=
  let nlat := _nlons.length
  let nlons : List Nat := List.replicate nlat 0
  let nlons := iter (fun j (nlons : List Nat) => nlons.set j (nlons.getD j 0)) nlat nlons
  ReducedGrid.setup g nlat (fun j => _lats.getD j 0) (fun j => nlons.getD j 0)

/-! ## build_node_to_edge_connectivity_new -/

/-- Modelled from the spec: the call `add(rows, cols[])` of a connectivity table (source
not available), which appends `n` rows, the row `r` of them with `cols[r]` columns ("exact-
size per-node slot lists"); the entries hold the missing sentinel until they are set. -/
def Connectivity.add_rows (c : Connectivity) (n : Nat) (cols : Int → Nat) : Connectivity :=
  { rows := c.rows + n
    cols := fun r =>
      if (c.rows : Int) ≤ r ∧ r < (c.rows : Int) + n then cols (r - c.rows) else c.cols r
    get := fun r j =>
      if (c.rows : Int) ≤ r ∧ r < (c.rows : Int) + n ∧ j < cols (r - c.rows) then missing_value
      else c.get r j }

/-- The contract of `std::stable_sort` with `operator<`: the contract of `std::sort`, and
the records with equal keys keep the order that they have in the input. -/
def StdStableSortContract (std_stable_sort : List EdgeSort → List EdgeSort) : Prop :=
  StdSortContract std_stable_sort ∧
  ∀ l g, (std_stable_sort l).filter (fun a => decide (a.g = g)) =
    l.filter (fun a => decide (a.g = g))

/-- The statement `++to_edge_size[ edge_node_connectivity(jedge,j) ]` (line 209); the
vector `to_edge_size` is its index function. -/
def count_endpoint (edge_node_connectivity : Connectivity) (jedge : Nat) (j : Nat)
    (to_edge_size : Int → Nat) : Int → Nat :=
  Function.update to_edge_size (edge_node_connectivity.get jedge j)
    (to_edge_size (edge_node_connectivity.get jedge j) + 1)

/-- The state of the filling loop of lines 224-232: the table under construction and
`to_edge_size`. -/
structure NodeFillState where
  node_to_edge : Connectivity
  to_edge_size : Int → Nat

/-- The body of the loop over `j` (lines 229-230). -/
def node_fill_slot (edge_node_connectivity : Connectivity) (iedge : Int) (j : Nat)
    (s : NodeFillState) : NodeFillState :=
  let node := edge_node_connectivity.get iedge j
  { node_to_edge := s.node_to_edge.set node (s.to_edge_size node) iedge
    to_edge_size := Function.update s.to_edge_size node (s.to_edge_size node + 1) }

/-- The body of the loop over `jedge` (lines 225-232); `iedge` is the local index of an
edge, kept as an integer. -/
def node_fill_edge (edge_node_connectivity : Connectivity) (edge_sort : List EdgeSort)
    (jedge : Nat) (s : NodeFillState) : NodeFillState :=
  let iedge := (edge_sort.getD jedge default).i
  iter (node_fill_slot edge_node_connectivity iedge) 2 s

/-- The function `build_node_to_edge_connectivity_new` (lines 197-233).
`std_stable_sort` is `std::stable_sort` on the array of `Sort` records. -/
def build_node_to_edge_connectivity_new (x : Externals)
    (std_stable_sort : List EdgeSort → List EdgeSort) (mesh : Mesh) : Mesh :=
  let nodes := mesh.nodes
  let nb_edges := mesh.edges.size
  let edge_node_connectivity := mesh.edges.node_connectivity
  let to_edge_size : Int → Nat := fun _ => 0
  let to_edge_size :=
    iter (fun jedge tes => iter (count_endpoint edge_node_connectivity jedge) 2 tes) nb_edges
      to_edge_size
  let node_to_edge := nodes.edge_connectivity.add_rows nodes.size to_edge_size
  let to_edge_size :=
    iter (fun jnode tes => Function.update tes (jnode : Int) 0) nodes.size to_edge_size
  let edge_sort :=
    std_stable_sort (edge_sort_init (x.unique_lonlat nodes) edge_node_connectivity nb_edges)
  let s :=
    iter (node_fill_edge edge_node_connectivity edge_sort) nb_edges
      { node_to_edge := node_to_edge, to_edge_size := to_edge_size }
  { mesh with nodes := { nodes with edge_connectivity := s.node_to_edge } }

/-! ## Proof support for build_edges_new -/

/-- Everything the loop of `build_edges_new` reads and writes for the edge `k`: the row
`k` of the node connectivity (with its number of columns), the three fields at `k`, and
the two entries of `edge_to_elem_data`. -/
structure EdgeRecord where
  cols : Nat
  nodes : Nat → idx_t
  glb_idx : gidx_t
  part : Int
  ridx : idx_t
  e1 : idx_t
  e2 : idx_t

def BuildEdgesState.record (s : BuildEdgesState) (k : Nat) : EdgeRecord :=
  { cols := s.edges.node_connectivity.cols k
    nodes := fun j => s.edges.node_connectivity.get k j
    glb_idx := s.edges.global_index k
    part := s.edges.partition k
    ridx := s.edges.remote_index k
    e1 := s.edge_to_elem_data (2 * k)
    e2 := s.edge_to_elem_data (2 * k + 1) }

/-- The row of edge nodes after the swap of lines 424-428. -/
def EdgeRecord.swapped_nodes (compute_uid : UniqueLonLat) (r : EdgeRecord) : Nat → idx_t :=
  if compute_uid.node (r.nodes 0) > compute_uid.node (r.nodes 1) then
    fun j => if j < r.cols then [r.nodes 1, r.nodes 0].getD j 0 else r.nodes j
  else r.nodes

/-- The two assertions of lines 430-431. -/
def EdgeRecord.asserts (compute_uid : UniqueLonLat) (nodes : Nodes) (r : EdgeRecord) : Prop :=
  size_t_of (r.swapped_nodes compute_uid 0) < nodes.size ∧
    size_t_of (r.swapped_nodes compute_uid 1) < nodes.size

/-- The record of edge `k` after iteration `k` of the loop. -/
def EdgeRecord.build (compute_uid : UniqueLonLat) (nodes : Nodes) (cell_nodes : Connectivity)
    (k : Nat) (r : EdgeRecord) : EdgeRecord :=
  { cols := r.cols
    nodes := r.swapped_nodes compute_uid
    glb_idx := compute_uid.row ((List.range r.cols).map (r.swapped_nodes compute_uid))
    part :=
      min (nodes.partition (r.swapped_nodes compute_uid 0))
        (nodes.partition (r.swapped_nodes compute_uid 1))
    ridx := k
    e1 :=
      if r.e2 ≠ missing_value ∧
          compute_uid.row (cell_nodes.row r.e1) > compute_uid.row (cell_nodes.row r.e2) then r.e2
      else r.e1
    e2 :=
      if r.e2 ≠ missing_value ∧
          compute_uid.row (cell_nodes.row r.e1) > compute_uid.row (cell_nodes.row r.e2) then r.e1
      else r.e2 }

/-- The part of the state that the loop of `build_edges_new` never writes. -/
def BuildEdgesState.frame (s : BuildEdgesState) :
    List (ElementType × Nat) × Nat × Connectivity × Connectivity × Option (Int → Int) :=
  (s.edges.blocks, s.edges.node_connectivity.rows, s.edges.edge_connectivity,
    s.edges.cell_connectivity, s.edges.is_pole_edge)

/-- The edge collection holds no edge and its tables have no row: the state in which
`build_edges_new` is entered, being the stage that creates the edges. -/
def HybridElements.is_empty (h : HybridElements) : Prop :=
  h.size = 0 ∧ h.node_connectivity.rows = 0 ∧ h.cell_connectivity.rows = 0

instance (h : HybridElements) : Decidable h.is_empty := by
  unfold HybridElements.is_empty; infer_instance

/-! ## Proof support for build_pole_edges_new -/

/-- Everything the second loop of `build_pole_edges_new` writes for the edge `r`: the
row `r` of the node connectivity and the four fields at `r`. -/
structure PoleRecord where
  cols : Nat
  nodes : Nat → idx_t
  glb_idx : gidx_t
  part : Int
  ridx : idx_t
  pole : Int

def PoleEdgesState.record (s : PoleEdgesState) (r : Int) : PoleRecord :=
  { cols := s.edges.node_connectivity.cols r
    nodes := fun j => s.edges.node_connectivity.get r j
    glb_idx := s.edges.global_index r
    part := s.edges.partition r
    ridx := s.edges.remote_index r
    pole := s.is_pole_edge r }

/-- The row written by `edge_nodes.set( edge, enodes )` for the pole pair `j`. -/
def PoleRecord.pole_nodes (pole_edge_nodes : List idx_t) (j : Nat) (v : PoleRecord) :
    Nat → idx_t :=
  fun c =>
    if c < v.cols then [pole_edge_nodes.getD (2 * j) 0, pole_edge_nodes.getD (2 * j + 1) 0].getD c 0
    else v.nodes c

/-- The record of the edge `nb_cell_edges + j` after iteration `j` of the loop. -/
def PoleRecord.build (x : Externals) (nodes : Nodes) (pole_edge_nodes : List idx_t)
    (nb_cell_edges : Nat) (j : Nat) (v : PoleRecord) : PoleRecord :=
  { cols := v.cols
    nodes := v.pole_nodes pole_edge_nodes j
    glb_idx := ComputeUniquePoleEdgeIndex x nodes (v.pole_nodes pole_edge_nodes j)
    part :=
      min (nodes.partition (v.pole_nodes pole_edge_nodes j 0))
        (nodes.partition (v.pole_nodes pole_edge_nodes j 1))
    ridx := ((nb_cell_edges + j : Nat) : Int)
    pole := 1 }

/-- The part of the state that the second loop of `build_pole_edges_new` never writes. -/
def PoleEdgesState.frame (s : PoleEdgesState) :
    List (ElementType × Nat) × Nat × Connectivity × Connectivity :=
  (s.edges.blocks, s.edges.node_connectivity.rows, s.edges.edge_connectivity,
    s.edges.cell_connectivity)

/-! ## Proof support for build_element_to_edge_connectivity_new -/

/-- The entries that visiting the edge `iedge` appends to the slots of cell `c`: the
edge once for each of its two incident-cell slots that holds `c`. -/
def incident (edge_cell_connectivity : Connectivity) (c iedge : Int) : List Int :=
  (if edge_cell_connectivity.get iedge 0 ≠ missing_value ∧
      edge_cell_connectivity.get iedge 0 = c then [iedge] else []) ++
  (if edge_cell_connectivity.get iedge 1 ≠ missing_value ∧
      edge_cell_connectivity.get iedge 1 = c then [iedge] else [])

/-- The slots of cell `c` after the edges of the list have been visited in order. -/
def incident_slots (edge_cell_connectivity : Connectivity) (c : Int) : List Int → List Int
  | [] => []
  | iedge :: t =>
    incident edge_cell_connectivity c iedge ++ incident_slots edge_cell_connectivity c t

/-- The edges visited by the first `k` iterations of the filling loop. -/
def visited (edge_sort : List EdgeSort) (k : Nat) : List Int :=
  (List.range k).map (fun jedge => (edge_sort.getD jedge default).i)

/-- The test that makes the filling loop throw at the edge `iedge` (lines 153-162). -/
def edge_fails (edge_cell_connectivity : Connectivity) (has_pole_edges : Bool)
    (is_pole_edge : Int → Int) (iedge : Int) : Prop :=
  edge_cell_connectivity.get iedge 0 = missing_value ∧
    ¬ (has_pole_edges = true ∧ is_pole_edge iedge ≠ 0)

/-- The state of the filling loop after the edges of the list `vis` have been visited,
starting from the allocated table `alloc`. -/
def FillInv (alloc edge_cell_connectivity : Connectivity) (s : FillState) (vis : List Int) :
    Prop :=
  s.cell_edge_connectivity.rows = alloc.rows ∧
  s.cell_edge_connectivity.cols = alloc.cols ∧
  ∀ c : Int,
    s.edge_cnt c = (incident_slots edge_cell_connectivity c vis).length ∧
    ∀ j : Nat,
      s.cell_edge_connectivity.get c j =
        if j < (incident_slots edge_cell_connectivity c vis).length then
          (incident_slots edge_cell_connectivity c vis).getD j 0
        else alloc.get c j

/-- The number of incident-cell slots of the first `nb_edges` edges that hold the cell
`c`. -/
def incident_count (edge_cell_connectivity : Connectivity) (nb_edges : Nat) (c : Int) : Nat :=
  ((List.range nb_edges).map
    (fun e : Nat =>
      (if edge_cell_connectivity.get e 0 = c then 1 else 0) +
        (if edge_cell_connectivity.get e 1 = c then 1 else 0))).sum

/-! ## Proof support for accumulate_pole_edges -/

/-- The nodes of `band`, in order, with which `node` forms a pole edge: the tests of
lines 346 and 349. -/
def pole_partners (x : Externals) (nodes : Nodes) (band : List idx_t) (node : idx_t) :
    List idx_t :=
  band.filter (fun other_node =>
    decide (microdeg (nodes.lonlat other_node).1 = microdeg ((nodes.lonlat node).1 + 180)) &&
      !x.check (nodes.flags other_node) x.PERIODIC)

/-- The pole edges that the nodes `l` of `band` start, in order: a node that fails the
test of line 341 starts none. -/
def band_pole_pairs (x : Externals) (nodes : Nodes) (band : List idx_t) :
    List idx_t → List (idx_t × idx_t)
  | [] => []
  | node :: rest =>
    (if x.check (nodes.flags node) (Int.lor x.PERIODIC x.GHOST) then []
      else (pole_partners x nodes band node).map (fun other_node => (node, other_node)))
      ++ band_pole_pairs x nodes band rest

/-- The pole edges of the north band followed by those of the south band. -/
def pole_pairs (x : Externals) (nodes : Nodes) : List (idx_t × idx_t) :=
  band_pole_pairs x nodes (pole_nodes x nodes 0) (pole_nodes x nodes 0) ++
    band_pole_pairs x nodes (pole_nodes x nodes 1) (pole_nodes x nodes 1)

/-- The layout of the vector `pole_edge_nodes`: the two nodes of each edge, one edge
after the other. -/
def pairs_flat : List (idx_t × idx_t) → List idx_t
  | [] => []
  | p :: rest => p.1 :: p.2 :: pairs_flat rest

/-! ## Proof support for MissingIfAllMissing -/

/-- The interpolated value of row `r`: the sum, over the entries of the row, of the
weight times the input value at the column of the entry. -/
def SparseMatrix.row_value (W : SparseMatrix) (values : Nat → ℚ) (r : Nat) : ℚ :=
  ((List.range (W.outer (r + 1) - W.outer r)).map
    (fun n => W.data (W.outer r + n) * values (W.inner (W.outer r + n)))).sum

/-! ## Proof support for Gmsh -/

namespace Gmsh

/-- The values of a function space of elements that `write` prints and `read` reads back
through machine types are in the range of these types, and the elements refer to nodes of
the mesh: for each of the first `nb` elements, the global index is an `int`, so is the
partition when the field exists, and the first `nnodes` nodes are indices of nodes. -/
def ElementSpace.writable (sp : ElementSpace) (nodes : NodesSpace) (nb nnodes : Nat) : Prop :=
  ∀ e, e < nb →
    is_int (sp.glb_idx e) ∧ (∀ p, sp.partition = some p → is_int (p e)) ∧
    ∀ j, j < nnodes → 0 ≤ sp.nodes e j ∧ sp.nodes e j < nodes.shape0

/-- An empty function space, standing for one that does not exist. -/
def no_space : ElementSpace :=
  { shape0 := 0, nb_owned := none, max_glb_idx := none, nodes := fun _ _ => 0
    glb_idx := fun _ => 0, partition := none }

/-- The line written for element `e` of a function space: with four tags when the field
"partition" exists, with two tags otherwise. -/
def written_line (glb_idx : Int → gidx_t) (space : Option ElementSpace) (etype : Int)
    (nnodes : Nat) (e : Nat) : List Token :=
  match (space.getD no_space).partition with
  | some part => element_line glb_idx (space.getD no_space) part etype nnodes e
  | none => edge_line_two_tags glb_idx (space.getD no_space) e

/-- The views hold the element `i` of the function space: its global index and its first
`nnodes` nodes. -/
def ElementViews.holds (v : ElementViews) (space : Option ElementSpace) (nnodes : Nat)
    (i : Nat) : Prop :=
  v.glb_idx i = (space.getD no_space).glb_idx i ∧
    ∀ j, j < nnodes → v.nodes i j = (space.getD no_space).nodes i j

/-- The line of the element `e` among all the elements written: the quadrilaterals come
first, then the triangles, then the edges. -/
def written_element (glb_idx : Int → gidx_t) (mesh : Mesh) (nq nt : Nat) (e : Nat) :
    List Token :=
  if e < nq then written_line glb_idx mesh.quads 3 4 e
  else if e < nq + nt then written_line glb_idx mesh.triags 2 3 (e - nq)
  else written_line glb_idx mesh.edges 1 2 (e - nq - nt)

end Gmsh

/-- The sum of the weights of the entries of row `r` that do not refer to a missing input
value, for the missing-value test `missingValue` of the field. -/
def SparseMatrix.nonmissing_sum (missingValue : ℚ → Bool) (W : SparseMatrix)
    (values : Nat → ℚ) (r : Nat) : ℚ :=
  ((List.range (W.outer (r + 1) - W.outer r)).map
    (fun n =>
      if missingValue (values (W.inner (W.outer r + n))) = true then 0
      else W.data (W.outer r + n))).sum

/-- The sum of the weights of the entries of row `r`. -/
def SparseMatrix.row_sum (W : SparseMatrix) (r : Nat) : ℚ :=
  ((List.range (W.outer (r + 1) - W.outer r)).map (fun n => W.data (W.outer r + n))).sum

/-- The edge `e` is flagged as a pole edge: the field `is_pole_edge` exists and holds a
value different from 0 at `e` (the test `has_pole_edges && is_pole_edge(iedge)` of line
159). -/
def HybridElements.flagged_pole_edge (edges : HybridElements) (e : Int) : Bool :=
  match edges.is_pole_edge with
  | some f => decide (f e ≠ 0)
  | none => false

/-! ## Proof support for build_node_to_edge_connectivity_new -/

/-- The number of edge endpoints equal to the node `n`: the number of pairs of an edge `e`
among the first `nb_edges` edges and a position `j` in `{0, 1}` such that `n` is the `j`-th
node of `e`. -/
def endpoint_count (edge_node_connectivity : Connectivity) (nb_edges : Nat) (n : Int) : Nat :=
  ((List.range nb_edges).map
    (fun e : Nat =>
      (if edge_node_connectivity.get e 0 = n then 1 else 0) +
        (if edge_node_connectivity.get e 1 = n then 1 else 0))).sum

/-! ## A small mesh: two triangles sharing an edge -/

/-- The flat array holding the given values (and zero beyond them). -/
def flat (l : List idx_t) : Nat → idx_t := fun i => l.getD i 0

def empty_connectivity : Connectivity :=
  { rows := 0, cols := fun _ => 0, get := fun _ _ => missing_value }

def no_elements : HybridElements :=
  { blocks := []
    node_connectivity := empty_connectivity
    edge_connectivity := empty_connectivity
    cell_connectivity := empty_connectivity
    global_index := fun _ => 0
    partition := fun _ => 0
    remote_index := fun _ => 0
    is_pole_edge := none }

/-- Four nodes: the nodes 0 and 1 at latitude 90 with longitudes 10 and 190, the nodes 2
and 3 at latitude 0 with the same longitudes; the global index decreases with the local
index, and the nodes 0 and 1 belong to partition 1, the others to partition 0. -/
def sample_nodes : Nodes :=
  { size := 4
    lonlat := fun n => if n = 0 then (10, 90) else if n = 1 then (190, 90)
      else if n = 2 then (10, 0) else (190, 0)
    flags := fun _ => 0
    partition := fun n => if n ≤ 1 then 1 else 0
    global_index := fun n => 10 - n
    edge_connectivity := empty_connectivity }

/-- The triangles `(0,1,2)` and `(1,3,2)`. -/
def sample_cells : HybridElements :=
  no_elements.add .Triangle 2 (flat [0, 1, 2, 1, 3, 2])

def sample_mesh : Mesh :=
  { nodes := sample_nodes, cells := sample_cells, edges := no_elements }

/-- Collaborators for the examples: the unique id of a node is its global index, the
unique id of a row is the sum of the global indices of its nodes. -/
def sample_externals : Externals :=
  { unique_lonlat := fun nodes =>
      { node := fun n => nodes.global_index n
        row := fun r => (r.map nodes.global_index).sum }
    unique32 := fun a b => a * 4000000000 + b
    PERIODIC := 4
    GHOST := 2
    check := fun flags bits => decide (Int.land flags bits = bits)
    all_reduce_min := fun v => v
    all_reduce_max := fun v => v }

/-- The five facets of the two triangles; facet 1 is the shared edge. -/
def sample_facets : HybridElements → Nodes → Facets := fun _ _ =>
  { edge_nodes_data := flat [0, 1, 1, 2, 2, 0, 1, 3, 3, 2]
    edge_to_elem_data := flat [0, -1, 0, 1, 0, -1, 1, -1, 1, -1]
    nb_edges := 5
    nb_inner_edges := 1 }

/-- The same facets, each one with its two nodes given in the other order. -/
def sample_facets_reversed : HybridElements → Nodes → Facets := fun _ _ =>
  { edge_nodes_data := flat [1, 0, 2, 1, 0, 2, 3, 1, 2, 3]
    edge_to_elem_data := flat [0, -1, 0, 1, 0, -1, 1, -1, 1, -1]
    nb_edges := 5
    nb_inner_edges := 1 }

/-- The sample nodes with other partitions: node 0 in partition 0, the others in
partition 1, so that the north band `{0, 1}` spans two partitions. -/
def split_pole_nodes : Nodes :=
  { sample_nodes with partition := fun n => if n = 0 then 0 else 1 }

/-- The sample nodes with other partitions: node 0 carries the partition number `-1`,
the others the partition number 5. -/
def unset_partition_nodes : Nodes :=
  { sample_nodes with partition := fun n => if n = 0 then -1 else 5 }

/-- Four nodes without partners: the longitudes on each of the two latitudes are 10 and
100 degrees. -/
def unpaired_nodes : Nodes :=
  { sample_nodes with
    lonlat := fun n => if n = 0 then (10, 90) else if n = 1 then (100, 90)
      else if n = 2 then (10, 0) else (100, 0) }

/-- The mesh returned, or the given mesh when an exception was thrown. -/
def returned_mesh (r : Except Exception Mesh) (otherwise : Mesh) : Mesh :=
  match r with
  | .ok m => m
  | .error _ => otherwise

/-- Whether a mesh was returned. -/
def has_returned (r : Except Exception Mesh) : Bool :=
  match r with
  | .ok _ => true
  | .error _ => false

/-- The sample mesh after `build_edges_new`: five edges. -/
def sample_mesh_edges : Mesh :=
  returned_mesh (build_edges_new sample_externals sample_facets sample_mesh) sample_mesh

/-- A stable sort of the `Sort` records by their global id, standing for `std::sort` in
the examples. -/
def sample_sort (l : List EdgeSort) : List EdgeSort :=
  l.insertionSort (fun a b => a.g ≤ b.g)

/-- The sample facets without the last one: the triangle `(1,3,2)` lacks an edge. -/
def deficient_facets : HybridElements → Nodes → Facets := fun _ _ =>
  { edge_nodes_data := flat [0, 1, 1, 2, 2, 0, 1, 3]
    edge_to_elem_data := flat [0, -1, 0, 1, 0, -1, 1, -1]
    nb_edges := 4
    nb_inner_edges := 1 }

/-- The sample mesh after `build_edges_new` on the deficient facets: four edges. -/
def deficient_mesh_edges : Mesh :=
  returned_mesh (build_edges_new sample_externals deficient_facets sample_mesh) sample_mesh

/-- The five sample facets in the opposite order of discovery. -/
def sample_facets_reordered : HybridElements → Nodes → Facets := fun _ _ =>
  { edge_nodes_data := flat [3, 2, 1, 3, 2, 0, 1, 2, 0, 1]
    edge_to_elem_data := flat [1, -1, 1, -1, 0, -1, 0, 1, 0, -1]
    nb_edges := 5
    nb_inner_edges := 1 }

/-- The edge collection built from the reordered facets. -/
def sample_edges_reordered : HybridElements :=
  (returned_mesh (build_edges_new sample_externals sample_facets_reordered sample_mesh)
    sample_mesh).edges

/-- The place in a reordered edge table of the edge `e` of the original table, the
reordering being given by the list `p` of the new places. -/
def reordered (p : List Nat) (e : Int) : Int := ((p.getD e.toNat 0 : Nat) : Int)

/-- Two nodes at the maximum latitude whose longitudes differ by 180 degrees. -/
def polar_pair_nodes : Nodes :=
  { sample_nodes with
    size := 2
    lonlat := fun n => if n = 0 then (10, 90) else (190, 90)
    partition := fun _ => 3 }

/-- The sample mesh with its five edges after
`build_element_to_edge_connectivity_new`. -/
def sample_mesh_cell_edges : Mesh :=
  returned_mesh
    (build_element_to_edge_connectivity_new sample_externals sample_sort sample_mesh_edges)
    sample_mesh_edges

/-- A grid object before `setup`. -/
def blank_grid : ReducedGrid :=
  { N_ := 0, nlons_ := [], lat_ := [], lonmin_ := [], lonmax_ := [], npts_ := 0, nlonmax_ := 0
    bounding_box_ := { north := 0, south := 0, east := 0, west := 0 } }

/-- A matrix with two rows: row 0 has the entries (column 0, weight 1/2) and (column 1,
weight 1/2), row 1 has the entry (column 2, weight 1). -/
def sample_matrix : SparseMatrix :=
  { rows := 2, cols := 3
    outer := fun r => if r = 0 then 0 else if r = 1 then 2 else 3
    inner := fun j => j
    data := fun j => if j < 2 then 1 / 2 else 1 }

/-- Input values for the sample matrix, 9999 being the missing value. -/
def sample_values : Nat → ℚ := fun j => if j < 2 then 9999 else 5

/-- A mesh of four nodes with the global indices 1 to 4, one quadrilateral, and the four
edges of the quadrilateral, without a field "partition" on the edges. -/
def sample_gmsh_mesh : Gmsh.Mesh :=
  { nodes :=
      { shape0 := 4, surfdim := 2
        coords := fun n d => if d = 0 then 10 * n else 5
        glb_idx := fun n => n + 1
        partition := fun _ => 0
        nb_owned := none, max_glb_idx := none }
    quads :=
      some
        { shape0 := 1, nb_owned := none, max_glb_idx := none
          nodes := fun _ n => n
          glb_idx := fun _ => 7
          partition := some (fun _ => 2) }
    triags := none
    edges :=
      some
        { shape0 := 4, nb_owned := none, max_glb_idx := none
          nodes := fun e n => (e + n) % 4
          glb_idx := fun e => 20 + e
          partition := none } }

/-- Two nodes whose global indices, 1 and 4294967297, have the same low 32 bits. -/
def wide_index_mesh : Gmsh.Mesh :=
  { nodes :=
      { shape0 := 2, surfdim := 2
        coords := fun _ _ => 0
        glb_idx := fun n => if n = 0 then 1 else 4294967297
        partition := fun _ => 0
        nb_owned := none, max_glb_idx := none }
    quads := none
    triags := none
    edges := none }

/-- The lines that `Gmsh::write` writes for `sample_gmsh_mesh` with the default options. -/
def sample_gmsh_file : List (List Gmsh.Token) :=
  [[.word "$MeshFormat"], [.real (11 / 5), .int 0, .int 8], [.word "$EndMeshFormat"],
    [.word "$Nodes"], [.int 4],
    [.int 1, .real 0, .real 5, .real 0], [.int 2, .real 10, .real 5, .real 0],
    [.int 3, .real 20, .real 5, .real 0], [.int 4, .real 30, .real 5, .real 0],
    [.word "$EndNodes"], [.word "$Elements"], [.int 5],
    [.int 7, .int 3, .int 4, .int 1, .int 1, .int 1, .int 2, .int 1, .int 2, .int 3, .int 4],
    [.int 20, .int 1, .int 2, .int 1, .int 1, .int 1, .int 2],
    [.int 21, .int 1, .int 2, .int 1, .int 1, .int 2, .int 3],
    [.int 22, .int 1, .int 2, .int 1, .int 1, .int 3, .int 4],
    [.int 23, .int 1, .int 2, .int 1, .int 1, .int 4, .int 1],
    [.word "$EndElements"]]

/-- The lines that `Gmsh::write` writes for `wide_index_mesh` with the default options:
both nodes are written with the index 1. -/
def wide_index_file : List (List Gmsh.Token) :=
  [[.word "$MeshFormat"], [.real (11 / 5), .int 0, .int 8], [.word "$EndMeshFormat"],
    [.word "$Nodes"], [.int 2],
    [.int 1, .real 0, .real 0, .real 0], [.int 1, .real 0, .real 0, .real 0],
    [.word "$EndNodes"], [.word "$Elements"], [.int 0], [.word "$EndElements"]]

/-- Input values for the sample matrix of which only the first is missing. -/
def mixed_values : Nat → ℚ := fun j => if j = 0 then 9999 else 5

/-- A sort of the `Sort` records by their global id that puts records with equal global
ids in the opposite order: it has the contract of `std::sort` and is not stable. -/
def reversing_sort (l : List EdgeSort) : List EdgeSort :=
  l.reverse.insertionSort (fun a b => a.g ≤ b.g)

/-- Modelled from the spec: the unique-id functor (`UniqueLonLat`, source not available) as
the specification describes it in its section 4.1, "quantize longitude/latitude to
microdegree integer precision, then combine the quantized coordinates ... into a single
integer via a fixed deterministic ... concatenation scheme": the quantized latitude is
followed by the quantized longitude in the lower 32 bits.  The id of a row of nodes is the
id of the centroid of its nodes, as `ComputeUniquePoleEdgeIndex` (lines 361-391) takes the
centroid of the two nodes of a pole edge, under a comment that names
`util::unique_lonlat(centroid)`. -/
def coordinate_unique_lonlat (nodes : Nodes) : UniqueLonLat :=
  { node := fun n => microdeg (nodes.lonlat n).2 * 4294967296 + microdeg (nodes.lonlat n).1
    row := fun r =>
      microdeg ((r.map (fun n => (nodes.lonlat n).2)).sum / (r.length : ℚ)) * 4294967296 +
        microdeg ((r.map (fun n => (nodes.lonlat n).1)).sum / (r.length : ℚ)) }

/-- The collaborators of the examples, with the unique id made from the coordinates. -/
def coordinate_externals : Externals :=
  { sample_externals with unique_lonlat := coordinate_unique_lonlat }

/-- Two nodes of the north pole band whose longitudes differ by 180 degrees: node 0 at
(10, 90) and node 1 at (190, 90 - 6/10000000), which is within the tolerance of the
maximum latitude 90. -/
def near_pole_nodes : Nodes :=
  { sample_nodes with
    size := 2
    lonlat := fun n => if n = 0 then (10, 90) else (190, 90 - 6 / 10000000)
    partition := fun _ => 0 }

/-- A mesh of these two nodes, without cells and without edges. -/
def near_pole_mesh : Mesh :=
  { nodes := near_pole_nodes, cells := no_elements, edges := no_elements }

/-- Three nodes less than a microdegree apart: node 0 at (0, 0), node 1 at
(8/10000000, 0) and node 2 at (0, 8/10000000). -/
def small_triangle_nodes : Nodes :=
  { sample_nodes with
    size := 3
    lonlat := fun n =>
      if n = 0 then (0, 0) else if n = 1 then (8 / 10000000, 0) else (0, 8 / 10000000)
    partition := fun _ => 0 }

/-- One triangle `(0,1,2)` on the given nodes with its three edges: edge 0 joins the nodes
0 and 1, edge 1 the nodes 1 and 2, edge 2 the nodes 0 and 2, and the triangle is the only
cell of each edge. -/
def triangle_mesh (nodes : Nodes) : Mesh :=
  { nodes := nodes
    cells := no_elements.add .Triangle 1 (flat [0, 1, 2])
    edges :=
      { no_elements.add .Line 3 (flat [0, 1, 1, 2, 0, 2]) with
        cell_connectivity := empty_connectivity.add 3 2 (flat [0, -1, 0, -1, 0, -1]) } }

/-- The sample mesh with its five edges, in which the first incident-cell slot of the edge
4 has been set to the missing sentinel; the edges have no field `is_pole_edge`. -/
def orphan_edge_mesh : Mesh :=
  { sample_mesh_edges with
    edges :=
      { sample_mesh_edges.edges with
        cell_connectivity := sample_mesh_edges.edges.cell_connectivity.set 4 0 missing_value } }

/-- The same mesh with a field `is_pole_edge` that flags the edge 4. -/
def flagged_orphan_edge_mesh : Mesh :=
  { orphan_edge_mesh with
    edges := { orphan_edge_mesh.edges with is_pole_edge := some (fun e => if e = 4 then 1 else 0) } }

/-! ## Loop lemmas -/

theorem loop_succ_ok {σ ε : Type} (body : Nat → σ → Except ε σ) (n : Nat) (s0 s' : σ)
    (h : loop body (n + 1) s0 = .ok s') :
    ∃ s1, loop body n s0 = .ok s1 ∧ body n s1 = .ok s' := by
  simp only [loop] at h
  cases h1 : loop body n s0 with
  | error e => rw [h1] at h; cases h
  | ok s1 => rw [h1] at h; exact ⟨s1, rfl, h⟩

/-- A loop whose iteration `i` rewrites the part of the state seen through `view · i`
by `F i` and leaves the other parts alone rewrites every part below the bound once. -/
theorem loop_view {σ ε V : Type} (body : Nat → σ → Except ε σ) (view : σ → Nat → V)
    (F : Nat → V → V)
    (hbody : ∀ i s s', body i s = .ok s' →
      ∀ k, view s' k = if k = i then F i (view s i) else view s k) :
    ∀ n s0 s', loop body n s0 = .ok s' →
      ∀ k, view s' k = if k < n then F k (view s0 k) else view s0 k := by
  intro n
  induction n with
  | zero =>
    intro s0 s' h k
    simp only [loop] at h
    cases h
    simp
  | succ n ih =>
    intro s0 s' h k
    obtain ⟨s1, h1, h2⟩ := loop_succ_ok body n s0 s' h
    have hv := hbody n s1 s' h2 k
    have hn := ih s0 s1 h1 n
    have hk := ih s0 s1 h1 k
    simp only [lt_irrefl, if_false] at hn
    rw [hv]
    by_cases hkn : k = n
    · subst hkn
      simp [hn]
    · rw [if_neg hkn, hk]
      by_cases hlt : k < n
      · have : k < n + 1 := by omega
        simp [hlt, this]
      · have : ¬ k < n + 1 := by omega
        simp [hlt, this]

/-- A loop of the kind of `loop_view` returns when every iteration finds its own part
of the initial state acceptable. -/
theorem loop_total {σ ε V : Type} (body : Nat → σ → Except ε σ) (view : σ → Nat → V)
    (F : Nat → V → V) (okc : Nat → V → Prop)
    (hbody : ∀ i s s', body i s = .ok s' →
      ∀ k, view s' k = if k = i then F i (view s i) else view s k)
    (hok : ∀ i s, okc i (view s i) → ∃ s', body i s = .ok s') :
    ∀ n s0, (∀ k, k < n → okc k (view s0 k)) → ∃ s', loop body n s0 = .ok s' := by
  intro n
  induction n with
  | zero => intro s0 _; exact ⟨s0, rfl⟩
  | succ n ih =>
    intro s0 h
    obtain ⟨s1, h1⟩ := ih s0 (fun k hk => h k (by omega))
    have hv := loop_view body view F hbody n s0 s1 h1 n
    simp only [lt_irrefl, if_false] at hv
    have hn := h n (by omega)
    rw [← hv] at hn
    obtain ⟨s', h2⟩ := hok n s1 hn
    refine ⟨s', ?_⟩
    simp only [loop, h1, h2]

/-- Conversely, a loop that returns found every iteration acceptable. -/
theorem loop_ok_cond {σ ε V : Type} (body : Nat → σ → Except ε σ) (view : σ → Nat → V)
    (F : Nat → V → V) (okc : Nat → V → Prop)
    (hbody : ∀ i s s', body i s = .ok s' →
      ∀ k, view s' k = if k = i then F i (view s i) else view s k)
    (hok : ∀ i s s', body i s = .ok s' → okc i (view s i)) :
    ∀ n s0 s', loop body n s0 = .ok s' → ∀ k, k < n → okc k (view s0 k) := by
  intro n
  induction n with
  | zero => intro s0 s' _ k hk; omega
  | succ n ih =>
    intro s0 s' h k hk
    obtain ⟨s1, h1, h2⟩ := loop_succ_ok body n s0 s' h
    by_cases hkn : k = n
    · subst hkn
      have hv := loop_view body view F hbody k s0 s1 h1 k
      simp only [lt_irrefl, if_false] at hv
      rw [← hv]
      exact hok k s1 s' h2
    · exact ih s0 s1 h1 k (by omega)

/-- A quantity that no iteration changes is the same after the loop. -/
theorem loop_frame {σ ε W : Type} (body : Nat → σ → Except ε σ) (frame : σ → W)
    (hbody : ∀ i s s', body i s = .ok s' → frame s' = frame s) :
    ∀ n s0 s', loop body n s0 = .ok s' → frame s' = frame s0 := by
  intro n
  induction n with
  | zero => intro s0 s' h; simp only [loop] at h; cases h; rfl
  | succ n ih =>
    intro s0 s' h
    obtain ⟨s1, h1, h2⟩ := loop_succ_ok body n s0 s' h
    rw [hbody n s1 s' h2, ih s0 s1 h1]

/-- A loop that cannot throw, whose iteration `i` rewrites the part of the state seen
through `view · (idx i)` by `F i` and leaves the other parts alone, as long as the
invariant `Inv` holds. -/
theorem iter_view {σ K V : Type} [DecidableEq K] (body : Nat → σ → σ) (view : σ → K → V) (idx : Nat → K)
    (F : Nat → V → V) (Inv : Nat → σ → Prop) (hidx : Function.Injective idx)
    (hinv : ∀ i s, Inv i s → Inv (i + 1) (body i s))
    (hbody : ∀ i s, Inv i s →
      ∀ k, view (body i s) k = if k = idx i then F i (view s k) else view s k)
    (s0 : σ) (h0 : Inv 0 s0) :
    ∀ n, Inv n (iter body n s0) ∧
      (∀ i, i < n → view (iter body n s0) (idx i) = F i (view s0 (idx i))) ∧
      (∀ k, (∀ i, i < n → k ≠ idx i) → view (iter body n s0) k = view s0 k) := by
  intro n
  induction n with
  | zero =>
    refine ⟨h0, ?_, ?_⟩
    · intro i hi; omega
    · intro k _; rfl
  | succ n ih =>
    obtain ⟨hI, h1, h2⟩ := ih
    refine ⟨hinv n _ hI, ?_, ?_⟩
    · intro i hi
      simp only [iter]
      rw [hbody n _ hI]
      by_cases hin : i = n
      · subst hin
        rw [if_pos rfl, h2 (idx i) (fun i' hi' heq => by
          have := hidx heq
          omega)]
      · have hne : idx i ≠ idx n := fun heq => hin (hidx heq)
        rw [if_neg hne]
        exact h1 i (by omega)
    · intro k hk
      simp only [iter]
      rw [hbody n _ hI, if_neg (hk n (by omega))]
      exact h2 k (fun i hi => hk i (by omega))

/-- A quantity that no iteration changes is the same after the loop. -/
theorem iter_frame {σ W : Type} (body : Nat → σ → σ) (frame : σ → W)
    (hbody : ∀ i s, frame (body i s) = frame s) (s0 : σ) :
    ∀ n, frame (iter body n s0) = frame s0 := by
  intro n
  induction n with
  | zero => rfl
  | succ n ih => simp only [iter]; rw [hbody, ih]

/-! ## The loop of build_edges_new -/

theorem canonical_edge_nodes_cols (compute_uid : UniqueLonLat) (c : Connectivity) (i : Nat)
    (r : Int) : (canonical_edge_nodes compute_uid c i).cols r = c.cols r := by
  unfold canonical_edge_nodes
  simp only []
  split <;> rfl

theorem canonical_edge_nodes_rows (compute_uid : UniqueLonLat) (c : Connectivity) (i : Nat) :
    (canonical_edge_nodes compute_uid c i).rows = c.rows := by
  unfold canonical_edge_nodes
  simp only []
  split <;> rfl

theorem canonical_edge_nodes_get_ne (compute_uid : UniqueLonLat) (c : Connectivity) (i : Nat)
    (r : Int) (j : Nat) (h : r ≠ i) : (canonical_edge_nodes compute_uid c i).get r j = c.get r j := by
  unfold canonical_edge_nodes
  simp only []
  split
  · simp [Connectivity.set_row, h]
  · rfl

theorem canonical_edge_nodes_get_eq (compute_uid : UniqueLonLat) (s : BuildEdgesState) (i : Nat) :
    (fun j => (canonical_edge_nodes compute_uid s.edges.node_connectivity i).get i j)
      = (s.record i).swapped_nodes compute_uid := by
  unfold canonical_edge_nodes EdgeRecord.swapped_nodes BuildEdgesState.record
  simp only []
  split
  · funext j
    simp [Connectivity.set_row]
  · rfl

theorem canonical_edge_nodes_row (compute_uid : UniqueLonLat) (s : BuildEdgesState) (i : Nat) :
    (canonical_edge_nodes compute_uid s.edges.node_connectivity i).row i
      = (List.range (s.record i).cols).map ((s.record i).swapped_nodes compute_uid) := by
  unfold Connectivity.row
  rw [canonical_edge_nodes_cols, ← canonical_edge_nodes_get_eq]
  rfl

theorem canonical_edge_cells_get (compute_uid : UniqueLonLat) (cell_nodes : Connectivity)
    (d : Nat → idx_t) (i k : Nat) :
    (canonical_edge_cells compute_uid cell_nodes d i (2 * k) =
        if k = i then
          (if d (2 * i + 1) ≠ missing_value ∧
              compute_uid.row (cell_nodes.row (d (2 * i))) >
                compute_uid.row (cell_nodes.row (d (2 * i + 1))) then d (2 * i + 1)
            else d (2 * i))
        else d (2 * k)) ∧
    (canonical_edge_cells compute_uid cell_nodes d i (2 * k + 1) =
        if k = i then
          (if d (2 * i + 1) ≠ missing_value ∧
              compute_uid.row (cell_nodes.row (d (2 * i))) >
                compute_uid.row (cell_nodes.row (d (2 * i + 1))) then d (2 * i)
            else d (2 * i + 1))
        else d (2 * k + 1)) := by
  unfold canonical_edge_cells
  simp only [Nat.add_zero]
  by_cases hk : k = i
  · subst hk
    by_cases h1 : d (2 * k + 1) ≠ missing_value
    · by_cases h2 : compute_uid.row (cell_nodes.row (d (2 * k))) >
          compute_uid.row (cell_nodes.row (d (2 * k + 1)))
      · simp only [h1, h2, if_true, and_self, ne_eq, not_false_eq_true]
        have e1 : 2 * k ≠ k * 2 + 1 := by omega
        have e2 : 2 * k = k * 2 := by omega
        have e3 : 2 * k + 1 = k * 2 + 1 := by omega
        simp [Function.update_apply, e1, e2]
      · simp [h1, h2]
    · simp [h1]
  · have e1 : 2 * k ≠ i * 2 + 1 := by omega
    have e2 : 2 * k ≠ i * 2 := by omega
    have e3 : 2 * k + 1 ≠ i * 2 + 1 := by omega
    have e4 : 2 * k + 1 ≠ i * 2 := by omega
    simp only [hk, if_false]
    split
    · split
      · simp [Function.update_apply, e1, e2, e3, e4]
      · simp
    · simp

theorem build_edges_new_body_ok (compute_uid : UniqueLonLat) (nodes : Nodes)
    (cell_nodes : Connectivity) (i : Nat) (s s' : BuildEdgesState)
    (h : build_edges_new_body compute_uid nodes cell_nodes i s = .ok s') :
    (s.record i).asserts compute_uid nodes := by
  unfold build_edges_new_body at h
  simp only [] at h
  split at h
  · cases h
  · split at h
    · cases h
    · rename_i h1 h2
      simp only [not_not] at h1 h2
      unfold EdgeRecord.asserts
      rw [← canonical_edge_nodes_get_eq]
      exact ⟨h1, h2⟩

theorem build_edges_new_body_total (compute_uid : UniqueLonLat) (nodes : Nodes)
    (cell_nodes : Connectivity) (i : Nat) (s : BuildEdgesState)
    (h : (s.record i).asserts compute_uid nodes) :
    ∃ s', build_edges_new_body compute_uid nodes cell_nodes i s = .ok s' := by
  unfold EdgeRecord.asserts at h
  rw [← canonical_edge_nodes_get_eq] at h
  unfold build_edges_new_body
  simp only []
  rw [if_neg (not_not.mpr h.1), if_neg (not_not.mpr h.2)]
  exact ⟨_, rfl⟩

theorem build_edges_new_body_record (compute_uid : UniqueLonLat) (nodes : Nodes)
    (cell_nodes : Connectivity) (i : Nat) (s s' : BuildEdgesState)
    (h : build_edges_new_body compute_uid nodes cell_nodes i s = .ok s') (k : Nat) :
    s'.record k =
      if k = i then (s.record i).build compute_uid nodes cell_nodes i else s.record k := by
  have hget := canonical_edge_nodes_get_eq compute_uid s i
  have hrow := canonical_edge_nodes_row compute_uid s i
  have hcell := canonical_edge_cells_get compute_uid cell_nodes s.edge_to_elem_data i k
  unfold build_edges_new_body at h
  simp only [] at h
  split at h
  · cases h
  · split at h
    · cases h
    · cases h
      by_cases hk : k = i
      · subst hk
        simp only [if_true]
        unfold BuildEdgesState.record EdgeRecord.build
        have h0 := congrFun hget 0
        have h1 := congrFun hget 1
        simp only [] at h0 h1
        simp only [Function.update_same, canonical_edge_nodes_cols, hcell.1, hcell.2, if_true,
          hrow, hget, h0, h1]
        rfl
      · have hki : (k : Int) ≠ (i : Int) := by exact_mod_cast hk
        simp only [hk, if_false]
        unfold BuildEdgesState.record
        simp only [Function.update_noteq hki, canonical_edge_nodes_cols, hcell.1, hcell.2, hk,
          if_false, canonical_edge_nodes_get_ne compute_uid _ i k _ hki]

theorem build_edges_new_body_frame (compute_uid : UniqueLonLat) (nodes : Nodes)
    (cell_nodes : Connectivity) (i : Nat) (s s' : BuildEdgesState)
    (h : build_edges_new_body compute_uid nodes cell_nodes i s = .ok s') :
    s'.frame = s.frame := by
  unfold build_edges_new_body at h
  simp only [] at h
  split at h
  · cases h
  · split at h
    · cases h
    · cases h
      unfold BuildEdgesState.frame
      simp only [canonical_edge_nodes_rows]

/-- The state in which the loop of `build_edges_new` starts. -/
theorem build_edges_new_inv (x : Externals) (acc : HybridElements → Nodes → Facets)
    (mesh mesh' : Mesh) (h : build_edges_new x acc mesh = .ok mesh') :
    ∃ s : BuildEdgesState,
      mesh' =
        { mesh with
          edges :=
            { s.edges with
              cell_connectivity :=
                s.edges.cell_connectivity.add (acc mesh.cells mesh.nodes).nb_edges 2
                  s.edge_to_elem_data } } ∧
      (∀ k, s.record k =
        if k < (acc mesh.cells mesh.nodes).nb_edges then
          ((BuildEdgesState.mk
              (mesh.edges.add .Line (acc mesh.cells mesh.nodes).nb_edges
                (acc mesh.cells mesh.nodes).edge_nodes_data)
              (acc mesh.cells mesh.nodes).edge_to_elem_data).record k).build
            (x.unique_lonlat mesh.nodes) mesh.nodes mesh.cells.node_connectivity k
        else
          (BuildEdgesState.mk
              (mesh.edges.add .Line (acc mesh.cells mesh.nodes).nb_edges
                (acc mesh.cells mesh.nodes).edge_nodes_data)
              (acc mesh.cells mesh.nodes).edge_to_elem_data).record k) ∧
      s.frame =
        (BuildEdgesState.mk
          (mesh.edges.add .Line (acc mesh.cells mesh.nodes).nb_edges
            (acc mesh.cells mesh.nodes).edge_nodes_data)
          (acc mesh.cells mesh.nodes).edge_to_elem_data).frame ∧
      ∀ k, k < (acc mesh.cells mesh.nodes).nb_edges →
        ((BuildEdgesState.mk
            (mesh.edges.add .Line (acc mesh.cells mesh.nodes).nb_edges
              (acc mesh.cells mesh.nodes).edge_nodes_data)
            (acc mesh.cells mesh.nodes).edge_to_elem_data).record k).asserts
          (x.unique_lonlat mesh.nodes) mesh.nodes := by
  unfold build_edges_new at h
  simp only [] at h
  split at h
  · cases h
  · rename_i s hs
    cases h
    refine ⟨s, rfl, ?_, ?_, ?_⟩
    · exact loop_view _ BuildEdgesState.record
        (fun k r => r.build (x.unique_lonlat mesh.nodes) mesh.nodes mesh.cells.node_connectivity k)
        (fun i s s' hb k => build_edges_new_body_record _ _ _ i s s' hb k) _ _ _ hs
    · exact loop_frame _ BuildEdgesState.frame
        (fun i s s' hb => build_edges_new_body_frame _ _ _ i s s' hb) _ _ _ hs
    · exact loop_ok_cond _ BuildEdgesState.record
        (fun k r => r.build (x.unique_lonlat mesh.nodes) mesh.nodes mesh.cells.node_connectivity k)
        (fun _ r => r.asserts (x.unique_lonlat mesh.nodes) mesh.nodes)
        (fun i s s' hb k => build_edges_new_body_record _ _ _ i s s' hb k)
        (fun i s s' hb => build_edges_new_body_ok _ _ _ i s s' hb) _ _ _ hs

/-- The function `build_edges_new` returns when the assertions hold for every facet. -/
theorem build_edges_new_total (x : Externals) (acc : HybridElements → Nodes → Facets)
    (mesh : Mesh)
    (h : ∀ k, k < (acc mesh.cells mesh.nodes).nb_edges →
        ((BuildEdgesState.mk
            (mesh.edges.add .Line (acc mesh.cells mesh.nodes).nb_edges
              (acc mesh.cells mesh.nodes).edge_nodes_data)
            (acc mesh.cells mesh.nodes).edge_to_elem_data).record k).asserts
          (x.unique_lonlat mesh.nodes) mesh.nodes) :
    ∃ mesh', build_edges_new x acc mesh = .ok mesh' := by
  obtain ⟨s, hs⟩ := loop_total _ BuildEdgesState.record
    (fun k r => r.build (x.unique_lonlat mesh.nodes) mesh.nodes mesh.cells.node_connectivity k)
    (fun _ r => r.asserts (x.unique_lonlat mesh.nodes) mesh.nodes)
    (fun i s s' hb k => build_edges_new_body_record (x.unique_lonlat mesh.nodes) mesh.nodes
      mesh.cells.node_connectivity i s s' hb k)
    (fun i s hb => build_edges_new_body_total _ _ _ i s hb) _ _ h
  unfold build_edges_new
  simp only [hs]
  exact ⟨_, rfl⟩

/-- The record of facet `k` before the loop, for an edge collection that was empty. -/
theorem initial_record (mesh : Mesh) (f : Facets) (hempty : mesh.edges.is_empty) (k : Nat)
    (hk : k < f.nb_edges) :
    ((BuildEdgesState.mk (mesh.edges.add .Line f.nb_edges f.edge_nodes_data)
        f.edge_to_elem_data).record k).cols = 2 ∧
    ((BuildEdgesState.mk (mesh.edges.add .Line f.nb_edges f.edge_nodes_data)
        f.edge_to_elem_data).record k).nodes 0 = f.edge_nodes_data (2 * k) ∧
    ((BuildEdgesState.mk (mesh.edges.add .Line f.nb_edges f.edge_nodes_data)
        f.edge_to_elem_data).record k).nodes 1 = f.edge_nodes_data (2 * k + 1) ∧
    ((BuildEdgesState.mk (mesh.edges.add .Line f.nb_edges f.edge_nodes_data)
        f.edge_to_elem_data).record k).e1 = f.edge_to_elem_data (2 * k) ∧
    ((BuildEdgesState.mk (mesh.edges.add .Line f.nb_edges f.edge_nodes_data)
        f.edge_to_elem_data).record k).e2 = f.edge_to_elem_data (2 * k + 1) := by
  obtain ⟨_, hr, _⟩ := hempty
  have hk' : (k : Int) < (f.nb_edges : Int) := by exact_mod_cast hk
  simp [BuildEdgesState.record, HybridElements.add, Connectivity.add, hr, hk',
    ElementType.nb_nodes]

theorem swapped_nodes_two (compute_uid : UniqueLonLat) (r : EdgeRecord) (hc : r.cols = 2) :
    r.swapped_nodes compute_uid 0 =
        (if compute_uid.node (r.nodes 0) > compute_uid.node (r.nodes 1) then r.nodes 1
          else r.nodes 0) ∧
      r.swapped_nodes compute_uid 1 =
        (if compute_uid.node (r.nodes 0) > compute_uid.node (r.nodes 1) then r.nodes 0
          else r.nodes 1) := by
  unfold EdgeRecord.swapped_nodes
  split <;> simp [hc]

/-- What `build_edges_new` leaves at the edge `k` created from facet `k`, and in the rest
of the mesh, when the edge collection was empty at entry. -/
theorem build_edges_new_edge (x : Externals) (acc : HybridElements → Nodes → Facets)
    (mesh mesh' : Mesh) (hempty : mesh.edges.is_empty)
    (h : build_edges_new x acc mesh = .ok mesh') :
    mesh'.nodes = mesh.nodes ∧ mesh'.cells = mesh.cells ∧
    mesh'.edges.size = (acc mesh.cells mesh.nodes).nb_edges ∧
    mesh'.edges.node_connectivity.rows = (acc mesh.cells mesh.nodes).nb_edges ∧
    mesh'.edges.cell_connectivity.rows = (acc mesh.cells mesh.nodes).nb_edges ∧
    mesh'.edges.is_pole_edge = mesh.edges.is_pole_edge ∧
    ∀ k, k < (acc mesh.cells mesh.nodes).nb_edges →
      mesh'.edges.node_connectivity.cols k = 2 ∧
      mesh'.edges.node_connectivity.get k 0 =
        (if (x.unique_lonlat mesh.nodes).node
              ((acc mesh.cells mesh.nodes).edge_nodes_data (2 * k)) >
            (x.unique_lonlat mesh.nodes).node
              ((acc mesh.cells mesh.nodes).edge_nodes_data (2 * k + 1)) then
          (acc mesh.cells mesh.nodes).edge_nodes_data (2 * k + 1)
        else (acc mesh.cells mesh.nodes).edge_nodes_data (2 * k)) ∧
      mesh'.edges.node_connectivity.get k 1 =
        (if (x.unique_lonlat mesh.nodes).node
              ((acc mesh.cells mesh.nodes).edge_nodes_data (2 * k)) >
            (x.unique_lonlat mesh.nodes).node
              ((acc mesh.cells mesh.nodes).edge_nodes_data (2 * k + 1)) then
          (acc mesh.cells mesh.nodes).edge_nodes_data (2 * k)
        else (acc mesh.cells mesh.nodes).edge_nodes_data (2 * k + 1)) ∧
      mesh'.edges.global_index k =
        (x.unique_lonlat mesh.nodes).row (mesh'.edges.node_connectivity.row k) ∧
      mesh'.edges.partition k =
        min (mesh.nodes.partition (mesh'.edges.node_connectivity.get k 0))
          (mesh.nodes.partition (mesh'.edges.node_connectivity.get k 1)) ∧
      mesh'.edges.remote_index k = k ∧
      mesh'.edges.cell_connectivity.cols k = 2 ∧
      mesh'.edges.cell_connectivity.get k 0 =
        (if (acc mesh.cells mesh.nodes).edge_to_elem_data (2 * k + 1) ≠ missing_value ∧
            (x.unique_lonlat mesh.nodes).row
                (mesh.cells.node_connectivity.row
                  ((acc mesh.cells mesh.nodes).edge_to_elem_data (2 * k))) >
              (x.unique_lonlat mesh.nodes).row
                (mesh.cells.node_connectivity.row
                  ((acc mesh.cells mesh.nodes).edge_to_elem_data (2 * k + 1))) then
          (acc mesh.cells mesh.nodes).edge_to_elem_data (2 * k + 1)
        else (acc mesh.cells mesh.nodes).edge_to_elem_data (2 * k)) ∧
      mesh'.edges.cell_connectivity.get k 1 =
        (if (acc mesh.cells mesh.nodes).edge_to_elem_data (2 * k + 1) ≠ missing_value ∧
            (x.unique_lonlat mesh.nodes).row
                (mesh.cells.node_connectivity.row
                  ((acc mesh.cells mesh.nodes).edge_to_elem_data (2 * k))) >
              (x.unique_lonlat mesh.nodes).row
                (mesh.cells.node_connectivity.row
                  ((acc mesh.cells mesh.nodes).edge_to_elem_data (2 * k + 1))) then
          (acc mesh.cells mesh.nodes).edge_to_elem_data (2 * k)
        else (acc mesh.cells mesh.nodes).edge_to_elem_data (2 * k + 1)) := by
  obtain ⟨s, hm, hview, hframe, _⟩ := build_edges_new_inv x acc mesh mesh' h
  have hemp := hempty
  obtain ⟨hsz, hr, hcr⟩ := hemp
  simp only [BuildEdgesState.frame, HybridElements.add, Prod.mk.injEq] at hframe
  obtain ⟨hb, hrows, _, hcc, hpole⟩ := hframe
  subst hm
  refine ⟨rfl, rfl, ?_, ?_, ?_, hpole, ?_⟩
  · simp only [HybridElements.size] at hsz ⊢
    simp [hb, hsz]
  · simp only [hrows, Connectivity.add, hr]
    omega
  · simp only [hcc, Connectivity.add, hcr]
    omega
  · intro k hk
    have hrec := hview k
    rw [if_pos hk] at hrec
    obtain ⟨i1, i2, i3, i4, i5⟩ := initial_record mesh (acc mesh.cells mesh.nodes) hempty k hk
    have hsw := swapped_nodes_two (x.unique_lonlat mesh.nodes) _ i1
    rw [i2, i3] at hsw
    have hk' : (k : Int) < ((acc mesh.cells mesh.nodes).nb_edges : Int) := by exact_mod_cast hk
    have c1 : s.edges.node_connectivity.cols k = 2 := by
      have := congrArg EdgeRecord.cols hrec
      simpa [EdgeRecord.build, i1] using this
    have c2 : ∀ j, s.edges.node_connectivity.get k j = _ :=
      fun j => congrFun (congrArg EdgeRecord.nodes hrec) j
    have c3 : s.edges.global_index k = _ := congrArg EdgeRecord.glb_idx hrec
    have c4 : s.edges.partition k = _ := congrArg EdgeRecord.part hrec
    have c5 : s.edges.remote_index k = _ := congrArg EdgeRecord.ridx hrec
    have c6 : s.edge_to_elem_data (2 * k) = _ := congrArg EdgeRecord.e1 hrec
    have c7 : s.edge_to_elem_data (2 * k + 1) = _ := congrArg EdgeRecord.e2 hrec
    simp only [EdgeRecord.build] at c2 c3 c4 c5 c6 c7
    have g0 := c2 0
    have g1 := c2 1
    rw [hsw.1] at g0
    rw [hsw.2] at g1
    refine ⟨c1, g0, g1, ?_, ?_, c5, ?_, ?_, ?_⟩
    · rw [c3]
      simp only [Connectivity.row, c1, i1]
      congr 1
      simp only [List.range_succ, List.range_zero, List.map_append, List.map_cons, List.map_nil,
        List.nil_append, List.cons_append, c2]
    · rw [c4, c2 0, c2 1]
    · simp [hcc, Connectivity.add, hcr, hk']
    · simp only [hcc, Connectivity.add, hcr]
      simp [hk', c6, i4, i5]
    · simp only [hcc, Connectivity.add, hcr]
      simp [hk', c7, i4, i5]

/-- The function `build_edges_new` returns when both nodes of every facet are node
indices of the mesh, the edge collection being empty at entry. -/
theorem build_edges_new_returns (x : Externals) (acc : HybridElements → Nodes → Facets)
    (mesh : Mesh) (hempty : mesh.edges.is_empty)
    (h : ∀ k, k < (acc mesh.cells mesh.nodes).nb_edges →
      size_t_of ((acc mesh.cells mesh.nodes).edge_nodes_data (2 * k)) < mesh.nodes.size ∧
      size_t_of ((acc mesh.cells mesh.nodes).edge_nodes_data (2 * k + 1)) < mesh.nodes.size) :
    ∃ mesh', build_edges_new x acc mesh = .ok mesh' := by
  apply build_edges_new_total
  intro k hk
  obtain ⟨i1, i2, i3, _, _⟩ := initial_record mesh (acc mesh.cells mesh.nodes) hempty k hk
  have hsw := swapped_nodes_two (x.unique_lonlat mesh.nodes) _ i1
  unfold EdgeRecord.asserts
  rw [hsw.1, hsw.2, i2, i3]
  obtain ⟨h1, h2⟩ := h k hk
  split
  · exact ⟨h2, h1⟩
  · exact ⟨h1, h2⟩

/-! ## Claims on build_edges_new -/

/-- C1. After `build_edges_new` on a mesh whose edge collection was empty at entry, for
every edge `k` created from the accumulated facet `k`: the unique id of the first node of
the edge is at most the unique id of its second node, the edge joins the two nodes of
facet `k` (in the order of the facet or in the other order), and its row holds these two
nodes.  The function returns when the nodes of all facets are node indices of the mesh. -/
theorem build_edges_new_canonical_node_order (x : Externals)
    (accumulate_facets : HybridElements → Nodes → Facets) (mesh : Mesh)
    (hempty : mesh.edges.is_empty) :
    (∀ mesh', build_edges_new x accumulate_facets mesh = .ok mesh' →
      ∀ k, k < (accumulate_facets mesh.cells mesh.nodes).nb_edges →
        (x.unique_lonlat mesh.nodes).node (mesh'.edges.node_connectivity.get k 0) ≤
          (x.unique_lonlat mesh.nodes).node (mesh'.edges.node_connectivity.get k 1) ∧
        ((mesh'.edges.node_connectivity.get k 0 =
              (accumulate_facets mesh.cells mesh.nodes).edge_nodes_data (2 * k) ∧
            mesh'.edges.node_connectivity.get k 1 =
              (accumulate_facets mesh.cells mesh.nodes).edge_nodes_data (2 * k + 1)) ∨
          (mesh'.edges.node_connectivity.get k 0 =
              (accumulate_facets mesh.cells mesh.nodes).edge_nodes_data (2 * k + 1) ∧
            mesh'.edges.node_connectivity.get k 1 =
              (accumulate_facets mesh.cells mesh.nodes).edge_nodes_data (2 * k))) ∧
        mesh'.edges.node_connectivity.row k =
          [mesh'.edges.node_connectivity.get k 0, mesh'.edges.node_connectivity.get k 1]) ∧
    ((∀ k, k < (accumulate_facets mesh.cells mesh.nodes).nb_edges →
        size_t_of ((accumulate_facets mesh.cells mesh.nodes).edge_nodes_data (2 * k))
            < mesh.nodes.size ∧
          size_t_of ((accumulate_facets mesh.cells mesh.nodes).edge_nodes_data (2 * k + 1))
            < mesh.nodes.size) →
      ∃ mesh', build_edges_new x accumulate_facets mesh = .ok mesh') := by
  refine ⟨?_, build_edges_new_returns x accumulate_facets mesh hempty⟩
  intro mesh' h k hk
  obtain ⟨_, _, _, _, _, _, hedge⟩ := build_edges_new_edge x accumulate_facets mesh mesh' hempty h
  obtain ⟨hc, h0, h1, _⟩ := hedge k hk
  refine ⟨?_, ?_, ?_⟩
  · rw [h0, h1]
    split
    · rename_i hgt; exact le_of_lt hgt
    · rename_i hgt; exact not_lt.mp hgt
  · rw [h0, h1]
    split
    · exact Or.inr ⟨rfl, rfl⟩
    · exact Or.inl ⟨rfl, rfl⟩
  · simp [Connectivity.row, hc, List.range_succ]

theorem build_edges_new_canonical_node_order_witness :
    sample_mesh.edges.is_empty ∧
      ∃ mesh', build_edges_new sample_externals sample_facets sample_mesh = .ok mesh' ∧
        (sample_externals.unique_lonlat sample_mesh.nodes).node
            (mesh'.edges.node_connectivity.get 0 0) ≤
          (sample_externals.unique_lonlat sample_mesh.nodes).node
            (mesh'.edges.node_connectivity.get 0 1) := by
  have hempty : sample_mesh.edges.is_empty := by decide
  refine ⟨hempty, ?_⟩
  obtain ⟨mesh', hm⟩ :=
    (build_edges_new_canonical_node_order sample_externals sample_facets sample_mesh hempty).2
      (by decide)
  exact ⟨mesh', hm,
    ((build_edges_new_canonical_node_order sample_externals sample_facets sample_mesh hempty).1
      mesh' hm 0 (by decide)).1⟩

/-- C2. For a facet `k` whose two nodes have different unique ids, `build_edges_new`
produces the same edge node order (the same row of the node connectivity) and the same
edge global id whether the accumulator gives the facet as `(a, b)` or as `(b, a)`; the
edge collection is empty at entry. -/
theorem build_edges_new_orientation_independent (x : Externals)
    (accumulate_facets accumulate_facets' : HybridElements → Nodes → Facets) (mesh : Mesh)
    (hempty : mesh.edges.is_empty) (k : Nat)
    (hk : k < (accumulate_facets mesh.cells mesh.nodes).nb_edges)
    (hk' : k < (accumulate_facets' mesh.cells mesh.nodes).nb_edges)
    (ha : (accumulate_facets' mesh.cells mesh.nodes).edge_nodes_data (2 * k) =
      (accumulate_facets mesh.cells mesh.nodes).edge_nodes_data (2 * k + 1))
    (hb : (accumulate_facets' mesh.cells mesh.nodes).edge_nodes_data (2 * k + 1) =
      (accumulate_facets mesh.cells mesh.nodes).edge_nodes_data (2 * k))
    (hne : (x.unique_lonlat mesh.nodes).node
        ((accumulate_facets mesh.cells mesh.nodes).edge_nodes_data (2 * k)) ≠
      (x.unique_lonlat mesh.nodes).node
        ((accumulate_facets mesh.cells mesh.nodes).edge_nodes_data (2 * k + 1)))
    (mesh1 mesh2 : Mesh) (h1 : build_edges_new x accumulate_facets mesh = .ok mesh1)
    (h2 : build_edges_new x accumulate_facets' mesh = .ok mesh2) :
    mesh1.edges.node_connectivity.get k 0 = mesh2.edges.node_connectivity.get k 0 ∧
    mesh1.edges.node_connectivity.get k 1 = mesh2.edges.node_connectivity.get k 1 ∧
    mesh1.edges.node_connectivity.row k = mesh2.edges.node_connectivity.row k ∧
    mesh1.edges.global_index k = mesh2.edges.global_index k := by
  obtain ⟨_, _, _, _, _, _, e1⟩ := build_edges_new_edge x accumulate_facets mesh mesh1 hempty h1
  obtain ⟨_, _, _, _, _, _, e2⟩ := build_edges_new_edge x accumulate_facets' mesh mesh2 hempty h2
  obtain ⟨c1, p0, p1, g1, _⟩ := e1 k hk
  obtain ⟨c2, q0, q1, g2, _⟩ := e2 k hk'
  rw [ha, hb] at q0 q1
  have r0 : mesh1.edges.node_connectivity.get k 0 = mesh2.edges.node_connectivity.get k 0 := by
    rw [p0, q0]
    rcases lt_or_gt_of_ne hne with hlt | hgt
    · rw [if_neg (not_lt.mpr (le_of_lt hlt)), if_pos hlt]
    · rw [if_pos hgt, if_neg (not_lt.mpr (le_of_lt hgt))]
  have r1 : mesh1.edges.node_connectivity.get k 1 = mesh2.edges.node_connectivity.get k 1 := by
    rw [p1, q1]
    rcases lt_or_gt_of_ne hne with hlt | hgt
    · rw [if_neg (not_lt.mpr (le_of_lt hlt)), if_pos hlt]
    · rw [if_pos hgt, if_neg (not_lt.mpr (le_of_lt hgt))]
  have rr : mesh1.edges.node_connectivity.row k = mesh2.edges.node_connectivity.row k := by
    simp [Connectivity.row, c1, c2, List.range_succ, r0, r1]
  exact ⟨r0, r1, rr, by rw [g1, g2, rr]⟩

theorem build_edges_new_orientation_independent_witness :
    ∃ mesh1 mesh2,
      build_edges_new sample_externals sample_facets sample_mesh = .ok mesh1 ∧
      build_edges_new sample_externals sample_facets_reversed sample_mesh = .ok mesh2 ∧
      mesh1.edges.node_connectivity.row 3 = mesh2.edges.node_connectivity.row 3 ∧
      mesh1.edges.global_index 3 = mesh2.edges.global_index 3 := by
  have hempty : sample_mesh.edges.is_empty := by decide
  obtain ⟨mesh1, h1⟩ :=
    build_edges_new_returns sample_externals sample_facets sample_mesh hempty (by decide)
  obtain ⟨mesh2, h2⟩ :=
    build_edges_new_returns sample_externals sample_facets_reversed sample_mesh hempty
      (by decide)
  have h := build_edges_new_orientation_independent sample_externals sample_facets
    sample_facets_reversed sample_mesh hempty 3 (by decide) (by decide) (by decide) (by decide)
    (by decide) mesh1 mesh2 h1 h2
  exact ⟨mesh1, mesh2, h1, h2, h.2.2.1, h.2.2.2⟩

/-- C8. After `build_edges_new` on a mesh whose edge collection was empty at entry, for
every edge `k`, with `(e1, e2)` the incident cells of facet `k`: the two incident-cell
slots of the edge hold `e1` and `e2`, in this order or in the other; when the facet has
two incident cells (`e2` is not the missing sentinel) the unique id of the node set of
the first incident cell is at most that of the second; the second slot of the edge holds
a cell only when the facet had two; and an edge whose facet has a single incident cell
keeps it in the first slot, the second slot missing. -/
theorem build_edges_new_canonical_cell_order (x : Externals)
    (accumulate_facets : HybridElements → Nodes → Facets) (mesh mesh' : Mesh)
    (hempty : mesh.edges.is_empty)
    (h : build_edges_new x accumulate_facets mesh = .ok mesh') (k : Nat)
    (hk : k < (accumulate_facets mesh.cells mesh.nodes).nb_edges) :
    ((mesh'.edges.cell_connectivity.get k 0 =
          (accumulate_facets mesh.cells mesh.nodes).edge_to_elem_data (2 * k) ∧
        mesh'.edges.cell_connectivity.get k 1 =
          (accumulate_facets mesh.cells mesh.nodes).edge_to_elem_data (2 * k + 1)) ∨
      (mesh'.edges.cell_connectivity.get k 0 =
          (accumulate_facets mesh.cells mesh.nodes).edge_to_elem_data (2 * k + 1) ∧
        mesh'.edges.cell_connectivity.get k 1 =
          (accumulate_facets mesh.cells mesh.nodes).edge_to_elem_data (2 * k))) ∧
    ((accumulate_facets mesh.cells mesh.nodes).edge_to_elem_data (2 * k + 1) ≠ missing_value →
      (x.unique_lonlat mesh.nodes).row
          (mesh'.cells.node_connectivity.row (mesh'.edges.cell_connectivity.get k 0)) ≤
        (x.unique_lonlat mesh.nodes).row
          (mesh'.cells.node_connectivity.row (mesh'.edges.cell_connectivity.get k 1))) ∧
    (mesh'.edges.cell_connectivity.get k 1 ≠ missing_value →
      (accumulate_facets mesh.cells mesh.nodes).edge_to_elem_data (2 * k + 1) ≠ missing_value) ∧
    ((accumulate_facets mesh.cells mesh.nodes).edge_to_elem_data (2 * k + 1) = missing_value →
      mesh'.edges.cell_connectivity.get k 0 =
          (accumulate_facets mesh.cells mesh.nodes).edge_to_elem_data (2 * k) ∧
        mesh'.edges.cell_connectivity.get k 1 = missing_value) := by
  obtain ⟨_, hcells, _, _, _, _, hedge⟩ :=
    build_edges_new_edge x accumulate_facets mesh mesh' hempty h
  obtain ⟨_, _, _, _, _, _, _, c0, c1⟩ := hedge k hk
  rw [hcells, c0, c1]
  by_cases hm : (accumulate_facets mesh.cells mesh.nodes).edge_to_elem_data (2 * k + 1)
      = missing_value
  · simp [hm]
  · by_cases hgt : (x.unique_lonlat mesh.nodes).row
          (mesh.cells.node_connectivity.row
            ((accumulate_facets mesh.cells mesh.nodes).edge_to_elem_data (2 * k))) >
        (x.unique_lonlat mesh.nodes).row
          (mesh.cells.node_connectivity.row
            ((accumulate_facets mesh.cells mesh.nodes).edge_to_elem_data (2 * k + 1)))
    · have hc : (accumulate_facets mesh.cells mesh.nodes).edge_to_elem_data (2 * k + 1)
            ≠ missing_value ∧
          (x.unique_lonlat mesh.nodes).row
              (mesh.cells.node_connectivity.row
                ((accumulate_facets mesh.cells mesh.nodes).edge_to_elem_data (2 * k))) >
            (x.unique_lonlat mesh.nodes).row
              (mesh.cells.node_connectivity.row
                ((accumulate_facets mesh.cells mesh.nodes).edge_to_elem_data (2 * k + 1))) :=
        ⟨hm, hgt⟩
      rw [if_pos hc, if_pos hc]
      exact ⟨Or.inr ⟨rfl, rfl⟩, fun _ => le_of_lt hgt, fun _ => hm, fun h' => absurd h' hm⟩
    · have hc : ¬ ((accumulate_facets mesh.cells mesh.nodes).edge_to_elem_data (2 * k + 1)
            ≠ missing_value ∧
          (x.unique_lonlat mesh.nodes).row
              (mesh.cells.node_connectivity.row
                ((accumulate_facets mesh.cells mesh.nodes).edge_to_elem_data (2 * k))) >
            (x.unique_lonlat mesh.nodes).row
              (mesh.cells.node_connectivity.row
                ((accumulate_facets mesh.cells mesh.nodes).edge_to_elem_data (2 * k + 1)))) :=
        fun hh => hgt hh.2
      rw [if_neg hc, if_neg hc]
      exact ⟨Or.inl ⟨rfl, rfl⟩, fun _ => not_lt.mp hgt, fun _ => hm, fun h' => absurd h' hm⟩

theorem build_edges_new_canonical_cell_order_witness :
    ∃ mesh', build_edges_new sample_externals sample_facets sample_mesh = .ok mesh' ∧
      mesh'.edges.cell_connectivity.get (1 : Nat) 0 = 1 ∧
      mesh'.edges.cell_connectivity.get (1 : Nat) 1 = 0 ∧
      (sample_externals.unique_lonlat sample_mesh.nodes).row
          (mesh'.cells.node_connectivity.row (mesh'.edges.cell_connectivity.get (1 : Nat) 0)) ≤
        (sample_externals.unique_lonlat sample_mesh.nodes).row
          (mesh'.cells.node_connectivity.row (mesh'.edges.cell_connectivity.get (1 : Nat) 1)) := by
  have hempty : sample_mesh.edges.is_empty := by decide
  obtain ⟨mesh', hm⟩ :=
    build_edges_new_returns sample_externals sample_facets sample_mesh hempty (by decide)
  have h := build_edges_new_canonical_cell_order sample_externals sample_facets sample_mesh
    mesh' hempty hm 1 (by decide)
  have hle := h.2.1 (by decide)
  refine ⟨mesh', hm, ?_, ?_, hle⟩
  · rcases h.1 with ⟨a, b⟩ | ⟨a, b⟩
    · exfalso
      rw [a, b] at hle
      have hcells : mesh'.cells = sample_mesh.cells :=
        (build_edges_new_edge sample_externals sample_facets sample_mesh mesh' hempty hm).2.1
      rw [hcells] at hle
      revert hle
      decide
    · rw [a]; decide
  · rcases h.1 with ⟨a, b⟩ | ⟨a, b⟩
    · exfalso
      rw [a, b] at hle
      have hcells : mesh'.cells = sample_mesh.cells :=
        (build_edges_new_edge sample_externals sample_facets sample_mesh mesh' hempty hm).2.1
      rw [hcells] at hle
      revert hle
      decide
    · rw [b]; decide

/-! ## The loops of build_pole_edges_new -/

theorem clear_flags_apply (n : Nat) (f : Int → Int) (r : Int) :
    iter (fun edge f => Function.update f (edge : Int) 0) n f r =
      if 0 ≤ r ∧ r < n then 0 else f r := by
  induction n with
  | zero =>
    simp only [iter]
    rw [if_neg]
    intro h
    have := h.2
    simp only [Nat.cast_zero] at this
    omega
  | succ n ih =>
    simp only [iter, Function.update_apply]
    by_cases hr : r = (n : Int)
    · rw [if_pos hr, if_pos]
      constructor
      · omega
      · push_cast; omega
    · rw [if_neg hr, ih]
      by_cases h1 : 0 ≤ r ∧ r < n
      · rw [if_pos h1, if_pos]
        exact ⟨h1.1, by push_cast; omega⟩
      · rw [if_neg h1, if_neg]
        intro h2
        apply h1
        refine ⟨h2.1, ?_⟩
        have := h2.2
        push_cast at this
        omega

theorem build_pole_edges_new_body_record (x : Externals) (nodes : Nodes)
    (pole_edge_nodes : List idx_t) (nb_cell_edges j : Nat) (s : PoleEdgesState)
    (hcnt : s.cnt = 2 * j) (r : Int) :
    (build_pole_edges_new_body x nodes pole_edge_nodes nb_cell_edges j s).record r =
      if r = ((nb_cell_edges + j : Nat) : Int) then
        (s.record r).build x nodes pole_edge_nodes nb_cell_edges j
      else s.record r := by
  by_cases hr : r = ((nb_cell_edges + j : Nat) : Int)
  · rw [if_pos hr]
    subst hr
    unfold build_pole_edges_new_body PoleEdgesState.record PoleRecord.build
      PoleRecord.pole_nodes
    simp [Connectivity.set_row, hcnt]
  · rw [if_neg hr]
    have hr' : ¬ r = (nb_cell_edges : Int) + (j : Int) := by
      intro h
      apply hr
      push_cast
      exact h
    unfold build_pole_edges_new_body PoleEdgesState.record
    simp [Connectivity.set_row, hr', Function.update_apply]

theorem build_pole_edges_new_body_frame (x : Externals) (nodes : Nodes)
    (pole_edge_nodes : List idx_t) (nb_cell_edges j : Nat) (s : PoleEdgesState) :
    (build_pole_edges_new_body x nodes pole_edge_nodes nb_cell_edges j s).frame = s.frame := by
  unfold build_pole_edges_new_body PoleEdgesState.frame
  simp [Connectivity.set_row]

theorem build_pole_edges_new_body_cnt (x : Externals) (nodes : Nodes)
    (pole_edge_nodes : List idx_t) (nb_cell_edges j : Nat) (s : PoleEdgesState)
    (hcnt : s.cnt = 2 * j) :
    (build_pole_edges_new_body x nodes pole_edge_nodes nb_cell_edges j s).cnt = 2 * (j + 1) := by
  unfold build_pole_edges_new_body
  simp only [hcnt]
  omega

/-- The second loop of `build_pole_edges_new`: the edges it writes and the rest. -/
theorem build_pole_edges_new_loop (x : Externals) (nodes : Nodes)
    (pole_edge_nodes : List idx_t) (nb_cell_edges n : Nat) (s0 : PoleEdgesState)
    (h0 : s0.cnt = 0) :
    (∀ j, j < n →
      (iter (build_pole_edges_new_body x nodes pole_edge_nodes nb_cell_edges) n s0).record
          ((nb_cell_edges + j : Nat) : Int) =
        (s0.record ((nb_cell_edges + j : Nat) : Int)).build x nodes pole_edge_nodes
          nb_cell_edges j) ∧
    (∀ r : Int, (∀ j, j < n → r ≠ ((nb_cell_edges + j : Nat) : Int)) →
      (iter (build_pole_edges_new_body x nodes pole_edge_nodes nb_cell_edges) n s0).record r =
        s0.record r) ∧
    (iter (build_pole_edges_new_body x nodes pole_edge_nodes nb_cell_edges) n s0).frame =
      s0.frame := by
  have hv := iter_view (build_pole_edges_new_body x nodes pole_edge_nodes nb_cell_edges)
    PoleEdgesState.record (fun j => ((nb_cell_edges + j : Nat) : Int))
    (fun j v => v.build x nodes pole_edge_nodes nb_cell_edges j)
    (fun j s => s.cnt = 2 * j)
    (fun a b hab => by
      simp only [] at hab
      have : (nb_cell_edges + a : Nat) = nb_cell_edges + b := by exact_mod_cast hab
      omega)
    (fun i s hs => build_pole_edges_new_body_cnt x nodes pole_edge_nodes nb_cell_edges i s hs)
    (fun i s hs k =>
      build_pole_edges_new_body_record x nodes pole_edge_nodes nb_cell_edges i s hs k)
    s0 (by simp [h0]) n
  exact ⟨hv.2.1, hv.2.2,
    iter_frame _ PoleEdgesState.frame
      (fun i s => build_pole_edges_new_body_frame x nodes pole_edge_nodes nb_cell_edges i s)
      s0 n⟩

/-- What `build_pole_edges_new` leaves in the mesh: the pole edges appended after the
existing edges, the existing edges untouched, and the pole-edge flags. -/
theorem build_pole_edges_new_edge (x : Externals) (mesh mesh' : Mesh)
    (hrows : mesh.edges.node_connectivity.rows = mesh.edges.size)
    (h : build_pole_edges_new x mesh = .ok mesh') :
    ∃ pole_edge_nodes nb_pole_edges,
      accumulate_pole_edges x mesh.nodes [] = .ok (pole_edge_nodes, nb_pole_edges) ∧
      mesh'.nodes = mesh.nodes ∧ mesh'.cells = mesh.cells ∧
      mesh'.edges.size = mesh.edges.size + nb_pole_edges ∧
      mesh'.edges.node_connectivity.rows = mesh.edges.size + nb_pole_edges ∧
      mesh'.edges.cell_connectivity = mesh.edges.cell_connectivity.add_missing nb_pole_edges 2 ∧
      (∃ f, mesh'.edges.is_pole_edge = some f ∧
        (∀ k : Nat, k < mesh.edges.size → f k = 0) ∧
        (∀ j : Nat, j < nb_pole_edges → f ((mesh.edges.size + j : Nat) : Int) = 1)) ∧
      (∀ k : Nat, k < mesh.edges.size →
        mesh'.edges.node_connectivity.cols k = mesh.edges.node_connectivity.cols k ∧
        (∀ c, mesh'.edges.node_connectivity.get k c = mesh.edges.node_connectivity.get k c) ∧
        mesh'.edges.global_index k = mesh.edges.global_index k ∧
        mesh'.edges.partition k = mesh.edges.partition k ∧
        mesh'.edges.remote_index k = mesh.edges.remote_index k) ∧
      (∀ j : Nat, j < nb_pole_edges →
        mesh'.edges.node_connectivity.cols ((mesh.edges.size + j : Nat) : Int) = 2 ∧
        mesh'.edges.node_connectivity.get ((mesh.edges.size + j : Nat) : Int) 0 =
          pole_edge_nodes.getD (2 * j) 0 ∧
        mesh'.edges.node_connectivity.get ((mesh.edges.size + j : Nat) : Int) 1 =
          pole_edge_nodes.getD (2 * j + 1) 0 ∧
        mesh'.edges.global_index ((mesh.edges.size + j : Nat) : Int) =
          ComputeUniquePoleEdgeIndex x mesh.nodes
            (fun c => mesh'.edges.node_connectivity.get ((mesh.edges.size + j : Nat) : Int) c) ∧
        mesh'.edges.partition ((mesh.edges.size + j : Nat) : Int) =
          min (mesh.nodes.partition
              (mesh'.edges.node_connectivity.get ((mesh.edges.size + j : Nat) : Int) 0))
            (mesh.nodes.partition
              (mesh'.edges.node_connectivity.get ((mesh.edges.size + j : Nat) : Int) 1)) ∧
        mesh'.edges.remote_index ((mesh.edges.size + j : Nat) : Int) =
          ((mesh.edges.size + j : Nat) : Int)) := by
  unfold build_pole_edges_new at h
  simp only [] at h
  split at h
  · cases h
  · rename_i pen nb hacc
    cases h
    obtain ⟨hnew, hold, hframe⟩ := build_pole_edges_new_loop x mesh.nodes pen mesh.edges.size nb
      (build_pole_edges_new_init mesh pen nb) rfl
    generalize iter (build_pole_edges_new_body x mesh.nodes pen mesh.edges.size) nb
      (build_pole_edges_new_init mesh pen nb) = S at hnew hold hframe ⊢
    have hj' : ∀ j, j < nb → (j : Int) < (nb : Int) := fun j hj => by exact_mod_cast hj
    have i_cols : ∀ r : Int, (build_pole_edges_new_init mesh pen nb).edges.node_connectivity.cols r
        = if (mesh.edges.size : Int) ≤ r ∧ r < (mesh.edges.size : Int) + nb then 2
          else mesh.edges.node_connectivity.cols r := by
      intro r
      simp [build_pole_edges_new_init, HybridElements.add, Connectivity.add, hrows,
        ElementType.nb_nodes]
    have i_get : ∀ (r : Int) (c : Nat),
        ¬ ((mesh.edges.size : Int) ≤ r ∧ r < (mesh.edges.size : Int) + nb) →
        (build_pole_edges_new_init mesh pen nb).edges.node_connectivity.get r c
          = mesh.edges.node_connectivity.get r c := by
      intro r c hr
      have hr' : ¬ ((mesh.edges.size : Int) ≤ r ∧ r < (mesh.edges.size : Int) + nb ∧ c < 2) :=
        fun hh => hr ⟨hh.1, hh.2.1⟩
      simp only [build_pole_edges_new_init, HybridElements.add, Connectivity.add, hrows,
        ElementType.nb_nodes]
      rw [if_neg hr']
    simp only [PoleEdgesState.frame, Prod.mk.injEq] at hframe
    obtain ⟨hb, hr, _, hcc⟩ := hframe
    refine ⟨pen, nb, hacc, rfl, rfl, ?_, ?_, ?_, ?_, ?_, ?_⟩
    · show (S.edges.blocks.map Prod.snd).sum = _
      rw [hb]
      simp [build_pole_edges_new_init, HybridElements.add, HybridElements.size]
    · show S.edges.node_connectivity.rows = _
      rw [hr]
      simp [build_pole_edges_new_init, HybridElements.add, Connectivity.add, hrows]
    · show S.edges.cell_connectivity = _
      rw [hcc]
      rfl
    · refine ⟨S.is_pole_edge, rfl, ?_, ?_⟩
      · intro k hk
        have hne : ∀ j, j < nb → (k : Int) ≠ ((mesh.edges.size + j : Nat) : Int) := by
          intro j _ heq
          have : k = mesh.edges.size + j := by exact_mod_cast heq
          omega
        have := congrArg PoleRecord.pole (hold (k : Int) hne)
        simp only [PoleEdgesState.record] at this
        rw [this]
        simp only [build_pole_edges_new_init]
        rw [clear_flags_apply, if_pos]
        exact ⟨by omega, by exact_mod_cast hk⟩
      · intro j hj
        have := congrArg PoleRecord.pole (hnew j hj)
        simp only [PoleEdgesState.record, PoleRecord.build] at this
        exact this
    · intro k hk
      have hne : ∀ j, j < nb → (k : Int) ≠ ((mesh.edges.size + j : Nat) : Int) := by
        intro j _ heq
        have : k = mesh.edges.size + j := by exact_mod_cast heq
        omega
      have hrec := hold (k : Int) hne
      have hk' : ¬ ((mesh.edges.size : Int) ≤ (k : Int) ∧
          (k : Int) < (mesh.edges.size : Int) + nb) := by
        have : (k : Int) < (mesh.edges.size : Int) := by exact_mod_cast hk
        omega
      have c1 := congrArg PoleRecord.cols hrec
      have c2 := congrArg PoleRecord.nodes hrec
      have c3 := congrArg PoleRecord.glb_idx hrec
      have c4 := congrArg PoleRecord.part hrec
      have c5 := congrArg PoleRecord.ridx hrec
      simp only [PoleEdgesState.record] at c1 c2 c3 c4 c5
      refine ⟨?_, ?_, c3, c4, c5⟩
      · show S.edges.node_connectivity.cols k = _
        rw [c1, i_cols, if_neg hk']
      · intro c
        show S.edges.node_connectivity.get k c = _
        rw [congrFun c2 c]
        exact i_get k c hk'
    · intro j hj
      have hrec := hnew j hj
      have c1 := congrArg PoleRecord.cols hrec
      have c2 := congrArg PoleRecord.nodes hrec
      have c3 := congrArg PoleRecord.glb_idx hrec
      have c4 := congrArg PoleRecord.part hrec
      have c5 := congrArg PoleRecord.ridx hrec
      simp only [PoleEdgesState.record, PoleRecord.build] at c1 c2 c3 c4 c5
      have hin : (mesh.edges.size : Int) ≤ ((mesh.edges.size + j : Nat) : Int) ∧
          ((mesh.edges.size + j : Nat) : Int) < (mesh.edges.size : Int) + nb := by
        have := hj' j hj
        push_cast
        omega
      have hcols : (build_pole_edges_new_init mesh pen nb).edges.node_connectivity.cols
          ((mesh.edges.size + j : Nat) : Int) = 2 := by
        rw [i_cols, if_pos hin]
      have g : ∀ c, c < 2 →
          S.edges.node_connectivity.get ((mesh.edges.size + j : Nat) : Int) c =
            [pen.getD (2 * j) 0, pen.getD (2 * j + 1) 0].getD c 0 := by
        intro c hc
        have := congrFun c2 c
        simp only [PoleRecord.pole_nodes, hcols, hc, if_true] at this
        exact this
      refine ⟨?_, ?_, ?_, ?_, ?_, c5⟩
      · show S.edges.node_connectivity.cols _ = 2
        rw [c1]; exact hcols
      · simpa using g 0 (by omega)
      · simpa using g 1 (by omega)
      · show S.edges.global_index _ = _
        rw [c3, ← c2]
      · show S.edges.partition _ = _
        rw [c4, ← c2]

/-! ## accumulate_pole_edges: the list and the count -/

theorem pair_other_length (x : Externals) (nodes : Nodes) (node : idx_t) (x2 : Int) (L : Nat)
    (acc : List idx_t × Nat) (other_node : idx_t) (h : acc.1.length = L + 2 * acc.2) :
    (pair_other x nodes node x2 acc other_node).1.length =
      L + 2 * (pair_other x nodes node x2 acc other_node).2 := by
  unfold pair_other
  split
  · split
    · simp only [List.length_append, List.length_cons, List.length_nil, h]
      omega
    · exact h
  · exact h

theorem pair_other_foldl_length (x : Externals) (nodes : Nodes) (node : idx_t) (x2 : Int)
    (L : Nat) (band : List idx_t) :
    ∀ acc : List idx_t × Nat, acc.1.length = L + 2 * acc.2 →
      (band.foldl (pair_other x nodes node x2) acc).1.length =
        L + 2 * (band.foldl (pair_other x nodes node x2) acc).2 := by
  induction band with
  | nil => intro acc h; exact h
  | cons o os ih =>
    intro acc h
    simp only [List.foldl_cons]
    exact ih _ (pair_other_length x nodes node x2 L acc o h)

theorem pair_node_foldl_length (x : Externals) (nodes : Nodes) (band : List idx_t) (L : Nat)
    (l : List idx_t) :
    ∀ acc : List idx_t × Nat, acc.1.length = L + 2 * acc.2 →
      (l.foldl (pair_node x nodes band) acc).1.length =
        L + 2 * (l.foldl (pair_node x nodes band) acc).2 := by
  induction l with
  | nil => intro acc h; exact h
  | cons o os ih =>
    intro acc h
    simp only [List.foldl_cons]
    apply ih
    unfold pair_node
    split
    · exact pair_other_foldl_length x nodes _ _ L band acc h
    · exact h

/-- The vector `pole_edge_nodes` grows by two entries for every pole edge counted. -/
theorem accumulate_pole_edges_length (x : Externals) (nodes : Nodes) (l0 l : List idx_t)
    (nb : Nat) (h : accumulate_pole_edges x nodes l0 = .ok (l, nb)) :
    l.length = l0.length + 2 * nb := by
  unfold accumulate_pole_edges at h
  split at h
  · cases h
  · split at h
    · cases h
    · simp only [Except.ok.injEq] at h
      have := pair_node_foldl_length x nodes (pole_nodes x nodes 1) l0.length
        (pole_nodes x nodes 1)
        ((pole_nodes x nodes 0).foldl (pair_node x nodes (pole_nodes x nodes 0)) (l0, 0))
        (pair_node_foldl_length x nodes (pole_nodes x nodes 0) l0.length
          (pole_nodes x nodes 0) (l0, 0) (by simp))
      rw [h] at this
      exact this

theorem build_pole_edges_new_returns (x : Externals) (mesh : Mesh) (r : List idx_t × Nat)
    (h : accumulate_pole_edges x mesh.nodes [] = .ok r) :
    ∃ mesh', build_pole_edges_new x mesh = .ok mesh' := by
  unfold build_pole_edges_new
  simp only [h]
  exact ⟨_, rfl⟩

/-! ## The sample mesh, evaluated -/

theorem sample_local_bounds : local_bounds sample_nodes = ((10, 0), (190, 90)) := by
  simp [local_bounds, iter, sample_nodes, DBL_MAX]
  norm_num

theorem sample_pole_nodes_north : pole_nodes sample_externals sample_nodes 0 = [0, 1] := by
  simp [pole_nodes, pole_nodes_north, node_range, is_north, global_bounds, sample_local_bounds,
    sample_externals, List.range_succ, List.filter, tol]
  simp [sample_nodes]
  norm_num

theorem sample_pole_nodes_south : pole_nodes sample_externals sample_nodes 1 = [2, 3] := by
  simp [pole_nodes, pole_nodes_south, node_range, is_north, is_south, global_bounds,
    sample_local_bounds, sample_externals, List.range_succ, List.filter, tol]
  simp [sample_nodes]
  norm_num

theorem sample_accumulate_pole_edges :
    accumulate_pole_edges sample_externals sample_nodes [] = .ok ([0, 1, 2, 3], 2) := by
  have e1 : Int.lor 4 2 = 6 := by decide
  have e2 : Int.land 0 6 = 0 := by decide
  have e3 : Int.land 0 4 = 0 := by decide
  unfold accumulate_pole_edges
  rw [sample_pole_nodes_north, sample_pole_nodes_south]
  simp [sanity_check, sanity_check_step, pair_node, pair_other, sample_nodes, sample_externals,
    microdeg, List.foldlM, bind, Except.bind, e1, e2, e3]
  norm_num
  rfl

/-! ## Claims on build_edges_new followed by build_pole_edges_new -/

/-- C6. After `build_edges_new` followed by `build_pole_edges_new`, on a mesh whose edge
collection was empty at entry: the number of edges is the number of accumulated facets
plus the number of pole edges returned by `accumulate_pole_edges` (whose vector holds two
nodes per pole edge); the edge `k`, for `k` below the facet count, joins the two nodes of
facet `k`; and the edge `facet count + j` joins the `j`-th pole pair.  The two functions
return when the nodes of all facets are node indices and `accumulate_pole_edges`
returns. -/
theorem build_edges_and_pole_edges_count (x : Externals)
    (accumulate_facets : HybridElements → Nodes → Facets) (mesh : Mesh)
    (hempty : mesh.edges.is_empty) :
    (∀ mesh1 mesh2, build_edges_new x accumulate_facets mesh = .ok mesh1 →
      build_pole_edges_new x mesh1 = .ok mesh2 →
      ∃ pole_edge_nodes nb_pole_edges,
        accumulate_pole_edges x mesh.nodes [] = .ok (pole_edge_nodes, nb_pole_edges) ∧
        pole_edge_nodes.length = 2 * nb_pole_edges ∧
        mesh2.edges.size = (accumulate_facets mesh.cells mesh.nodes).nb_edges + nb_pole_edges ∧
        (∀ k : Nat, k < (accumulate_facets mesh.cells mesh.nodes).nb_edges →
          (mesh2.edges.node_connectivity.get k 0 =
                (accumulate_facets mesh.cells mesh.nodes).edge_nodes_data (2 * k) ∧
              mesh2.edges.node_connectivity.get k 1 =
                (accumulate_facets mesh.cells mesh.nodes).edge_nodes_data (2 * k + 1)) ∨
            (mesh2.edges.node_connectivity.get k 0 =
                (accumulate_facets mesh.cells mesh.nodes).edge_nodes_data (2 * k + 1) ∧
              mesh2.edges.node_connectivity.get k 1 =
                (accumulate_facets mesh.cells mesh.nodes).edge_nodes_data (2 * k))) ∧
        (∀ j : Nat, j < nb_pole_edges →
          mesh2.edges.node_connectivity.get
              (((accumulate_facets mesh.cells mesh.nodes).nb_edges + j : Nat) : Int) 0 =
            pole_edge_nodes.getD (2 * j) 0 ∧
          mesh2.edges.node_connectivity.get
              (((accumulate_facets mesh.cells mesh.nodes).nb_edges + j : Nat) : Int) 1 =
            pole_edge_nodes.getD (2 * j + 1) 0)) ∧
    ((∀ k, k < (accumulate_facets mesh.cells mesh.nodes).nb_edges →
        size_t_of ((accumulate_facets mesh.cells mesh.nodes).edge_nodes_data (2 * k))
            < mesh.nodes.size ∧
          size_t_of ((accumulate_facets mesh.cells mesh.nodes).edge_nodes_data (2 * k + 1))
            < mesh.nodes.size) →
      (∃ r, accumulate_pole_edges x mesh.nodes [] = .ok r) →
      ∃ mesh1 mesh2, build_edges_new x accumulate_facets mesh = .ok mesh1 ∧
        build_pole_edges_new x mesh1 = .ok mesh2) := by
  constructor
  · intro mesh1 mesh2 h1 h2
    obtain ⟨hn, _, hsz, hrows, _, _, hedge⟩ :=
      build_edges_new_edge x accumulate_facets mesh mesh1 hempty h1
    obtain ⟨pen, nb, hacc, _, _, hsz2, _, _, _, hold, hnew⟩ :=
      build_pole_edges_new_edge x mesh1 mesh2 (by rw [hrows, hsz]) h2
    rw [hn] at hacc
    rw [hsz] at hsz2 hold hnew
    refine ⟨pen, nb, hacc, ?_, hsz2, ?_, ?_⟩
    · have := accumulate_pole_edges_length x mesh.nodes [] pen nb hacc
      simpa using this
    · intro k hk
      obtain ⟨_, hg, _⟩ := hold k hk
      obtain ⟨_, g0, g1, _⟩ := hedge k hk
      rw [hg 0, hg 1, g0, g1]
      split
      · exact Or.inr ⟨rfl, rfl⟩
      · exact Or.inl ⟨rfl, rfl⟩
    · intro j hj
      obtain ⟨_, g0, g1, _⟩ := hnew j hj
      exact ⟨g0, g1⟩
  · intro hr hacc
    obtain ⟨mesh1, h1⟩ := build_edges_new_returns x accumulate_facets mesh hempty hr
    obtain ⟨hn, _⟩ := build_edges_new_edge x accumulate_facets mesh mesh1 hempty h1
    obtain ⟨r, hr'⟩ := hacc
    rw [← hn] at hr'
    obtain ⟨mesh2, h2⟩ := build_pole_edges_new_returns x mesh1 r hr'
    exact ⟨mesh1, mesh2, h1, h2⟩

theorem build_edges_and_pole_edges_count_witness :
    sample_mesh.edges.is_empty ∧
      ∃ mesh1 mesh2, build_edges_new sample_externals sample_facets sample_mesh = .ok mesh1 ∧
        build_pole_edges_new sample_externals mesh1 = .ok mesh2 ∧
        mesh2.edges.size = 5 + 2 := by
  have hempty : sample_mesh.edges.is_empty := by decide
  refine ⟨hempty, ?_⟩
  obtain ⟨mesh1, mesh2, h1, h2⟩ :=
    (build_edges_and_pole_edges_count sample_externals sample_facets sample_mesh hempty).2
      (by decide) ⟨_, sample_accumulate_pole_edges⟩
  obtain ⟨pen, nb, hacc, _, hsz, _⟩ :=
    (build_edges_and_pole_edges_count sample_externals sample_facets sample_mesh hempty).1
      mesh1 mesh2 h1 h2
  have hs : accumulate_pole_edges sample_externals sample_mesh.nodes [] = .ok ([0, 1, 2, 3], 2) :=
    sample_accumulate_pole_edges
  rw [hs] at hacc
  simp only [Except.ok.injEq, Prod.mk.injEq] at hacc
  refine ⟨mesh1, mesh2, h1, h2, ?_⟩
  rw [hsz, ← hacc.2]
  rfl

/-- C7. For every edge, both those built from facets by `build_edges_new` and the pole
edges appended by `build_pole_edges_new`, the owning partition of the edge is the minimum
of the partitions of its two endpoint nodes and its remote index is its own local index.
This holds after `build_edges_new` on a mesh whose edge collection was empty at entry,
and again after `build_pole_edges_new` on the result. -/
theorem edge_partition_and_remote_index (x : Externals)
    (accumulate_facets : HybridElements → Nodes → Facets) (mesh : Mesh)
    (hempty : mesh.edges.is_empty) (mesh1 : Mesh)
    (h1 : build_edges_new x accumulate_facets mesh = .ok mesh1) :
    (∀ k : Nat, k < mesh1.edges.size →
      mesh1.edges.partition k =
          min (mesh1.nodes.partition (mesh1.edges.node_connectivity.get k 0))
            (mesh1.nodes.partition (mesh1.edges.node_connectivity.get k 1)) ∧
        mesh1.edges.remote_index k = k) ∧
    (∀ mesh2, build_pole_edges_new x mesh1 = .ok mesh2 →
      ∀ k : Nat, k < mesh2.edges.size →
        mesh2.edges.partition k =
            min (mesh2.nodes.partition (mesh2.edges.node_connectivity.get k 0))
              (mesh2.nodes.partition (mesh2.edges.node_connectivity.get k 1)) ∧
          mesh2.edges.remote_index k = k) := by
  obtain ⟨hn, _, hsz, hrows, _, _, hedge⟩ :=
    build_edges_new_edge x accumulate_facets mesh mesh1 hempty h1
  have first : ∀ k : Nat, k < mesh1.edges.size →
      mesh1.edges.partition k =
          min (mesh1.nodes.partition (mesh1.edges.node_connectivity.get k 0))
            (mesh1.nodes.partition (mesh1.edges.node_connectivity.get k 1)) ∧
        mesh1.edges.remote_index k = k := by
    intro k hk
    rw [hsz] at hk
    obtain ⟨_, _, _, _, hp, hr, _⟩ := hedge k hk
    rw [hn]
    exact ⟨hp, hr⟩
  refine ⟨first, ?_⟩
  intro mesh2 h2 k hk
  obtain ⟨pen, nb, _, hn2, _, hsz2, _, _, _, hold, hnew⟩ :=
    build_pole_edges_new_edge x mesh1 mesh2 (by rw [hrows, hsz]) h2
  rw [hn2]
  by_cases hlt : k < mesh1.edges.size
  · obtain ⟨_, hg, _, hp, hr⟩ := hold k hlt
    rw [hp, hr, hg 0, hg 1]
    exact first k hlt
  · rw [hsz2] at hk
    obtain ⟨j, rfl⟩ : ∃ j, k = mesh1.edges.size + j := ⟨k - mesh1.edges.size, by omega⟩
    obtain ⟨_, _, _, _, hp, hr⟩ := hnew j (by omega)
    exact ⟨hp, hr⟩

theorem edge_partition_and_remote_index_witness :
    sample_mesh.edges.is_empty ∧
      ∃ mesh1 mesh2, build_edges_new sample_externals sample_facets sample_mesh = .ok mesh1 ∧
        build_pole_edges_new sample_externals mesh1 = .ok mesh2 ∧
        mesh2.edges.partition (1 : Nat) =
          min (mesh2.nodes.partition (mesh2.edges.node_connectivity.get (1 : Nat) 0))
            (mesh2.nodes.partition (mesh2.edges.node_connectivity.get (1 : Nat) 1)) ∧
        mesh2.edges.remote_index (6 : Nat) = (6 : Nat) := by
  have hempty : sample_mesh.edges.is_empty := by decide
  refine ⟨hempty, ?_⟩
  obtain ⟨mesh1, h1⟩ :=
    build_edges_new_returns sample_externals sample_facets sample_mesh hempty (by decide)
  obtain ⟨hn, _, hsz, hrows, _⟩ :=
    build_edges_new_edge sample_externals sample_facets sample_mesh mesh1 hempty h1
  have hacc : accumulate_pole_edges sample_externals mesh1.nodes [] = .ok ([0, 1, 2, 3], 2) := by
    rw [hn]; exact sample_accumulate_pole_edges
  obtain ⟨mesh2, h2⟩ := build_pole_edges_new_returns sample_externals mesh1 _ hacc
  obtain ⟨pen, nb, hacc2, _, _, hsz2, _⟩ :=
    build_pole_edges_new_edge sample_externals mesh1 mesh2 (by rw [hrows, hsz]) h2
  rw [hacc] at hacc2
  simp only [Except.ok.injEq, Prod.mk.injEq] at hacc2
  have hsize : mesh2.edges.size = 7 := by
    rw [hsz2, hsz, ← hacc2.2]
    rfl
  have h := (edge_partition_and_remote_index sample_externals sample_facets sample_mesh hempty
    mesh1 h1).2 mesh2 h2
  exact ⟨mesh1, mesh2, h1, h2, (h 1 (by omega)).1, (h 6 (by omega)).2⟩

/-! ## accumulate_pole_edges: the sanity check -/

theorem microdeg_add_180 (deg : ℚ) : microdeg (deg + 180) = microdeg deg + 180000000 := by
  unfold microdeg
  have h : (deg + 180) * 1000000 + 1 / 2 = (deg * 1000000 + 1 / 2) + ((180000000 : Int) : ℚ) := by
    push_cast; ring
  rw [h, Int.floor_add_int]

/-- When the running check throws, it throws `NotImplemented`, and two of the nodes seen
so far or still to come differ in their partition. -/
theorem sanity_check_error (nodes : Nodes) (e : Exception) :
    ∀ (l prev : List idx_t) (npart : Int),
      (npart = -1 ∨ ∃ a ∈ prev, nodes.partition a = npart) →
      l.foldlM (sanity_check_step nodes) npart = .error e →
      e.isNotImplemented = true ∧
        ∃ a ∈ prev ++ l, ∃ b ∈ prev ++ l, nodes.partition a ≠ nodes.partition b := by
  intro l
  induction l with
  | nil => intro prev npart _ h; simp [List.foldlM, pure, Except.pure] at h
  | cons n t ih =>
    intro prev npart hinv h
    simp only [List.foldlM_cons, bind, Except.bind] at h
    unfold sanity_check_step at h
    by_cases h1 : npart = -1
    · simp only [h1, if_true] at h
      have := ih (prev ++ [n]) (nodes.partition n)
        (Or.inr ⟨n, by simp, rfl⟩) h
      simpa using this
    · simp only [h1, if_false] at h
      by_cases h2 : nodes.partition n ≠ npart
      · rw [if_pos h2] at h
        cases h
        refine ⟨rfl, ?_⟩
        rcases hinv with hm | ⟨a, ha, hpa⟩
        · exact absurd hm h1
        · refine ⟨n, by simp, a, by simp [ha], ?_⟩
          rw [hpa]; exact h2
      · rw [if_neg h2] at h
        have := ih (prev ++ [n]) npart
          (by
            rcases hinv with hm | ⟨a, ha, hpa⟩
            · exact Or.inl hm
            · exact Or.inr ⟨a, by simp [ha], hpa⟩) h
        simpa using this

/-- When the running check returns from a set value of `npart`, every node of the list
has this partition. -/
theorem sanity_check_ok_set (nodes : Nodes) :
    ∀ (l : List idx_t) (npart r : Int), npart ≠ -1 →
      l.foldlM (sanity_check_step nodes) npart = .ok r →
      ∀ n ∈ l, nodes.partition n = npart := by
  intro l
  induction l with
  | nil => intro npart r _ _ n hn; cases hn
  | cons m t ih =>
    intro npart r hnp h n hn
    simp only [List.foldlM_cons, bind, Except.bind] at h
    unfold sanity_check_step at h
    simp only [hnp, if_false] at h
    by_cases h2 : nodes.partition m ≠ npart
    · rw [if_pos h2] at h
      cases h
    · rw [if_neg h2] at h
      rcases List.mem_cons.mp hn with rfl | hn'
      · exact not_not.mp h2
      · exact ih npart r hnp h n hn'

/-- When the check of a band without the partition number `-1` returns, all nodes of the
band have the same partition. -/
theorem sanity_check_ok (nodes : Nodes) (band : List idx_t) (r : Int)
    (hpart : ∀ n ∈ band, nodes.partition n ≠ -1) (h : sanity_check nodes band = .ok r) :
    ∀ a ∈ band, ∀ b ∈ band, nodes.partition a = nodes.partition b := by
  unfold sanity_check at h
  cases band with
  | nil => intro a ha; cases ha
  | cons m t =>
    simp only [List.foldlM_cons, bind, Except.bind] at h
    unfold sanity_check_step at h
    simp only [if_true] at h
    have hm := hpart m (by simp)
    have ht := sanity_check_ok_set nodes t (nodes.partition m) r hm h
    have hall : ∀ a ∈ m :: t, nodes.partition a = nodes.partition m := by
      intro a ha
      rcases List.mem_cons.mp ha with rfl | ha'
      · rfl
      · exact ht a ha'
    intro a ha b hb
    rw [hall a ha, hall b hb]

/-- The check of a band that lies in one partition returns. -/
theorem sanity_check_returns (nodes : Nodes) (band : List idx_t)
    (h : ∀ a ∈ band, ∀ b ∈ band, nodes.partition a = nodes.partition b) :
    ∃ r, sanity_check nodes band = .ok r := by
  cases hres : sanity_check nodes band with
  | ok r => exact ⟨r, rfl⟩
  | error e =>
    obtain ⟨_, a, ha, b, hb, hne⟩ := sanity_check_error nodes e band [] (-1) (Or.inl rfl) hres
    simp only [List.nil_append] at ha hb
    exact absurd (h a ha b hb) hne

theorem accumulate_pole_edges_error (x : Externals) (nodes : Nodes) (l0 : List idx_t)
    (e : Exception) (h : accumulate_pole_edges x nodes l0 = .error e) :
    sanity_check nodes (pole_nodes x nodes 0) = .error e ∨
      sanity_check nodes (pole_nodes x nodes 1) = .error e := by
  unfold accumulate_pole_edges at h
  split at h
  · rename_i e' he
    cases h
    exact Or.inl he
  · split at h
    · rename_i e' he
      cases h
      exact Or.inr he
    · cases h

theorem accumulate_pole_edges_ok (x : Externals) (nodes : Nodes) (l0 : List idx_t)
    (r : List idx_t × Nat) (h : accumulate_pole_edges x nodes l0 = .ok r) :
    (∃ r0, sanity_check nodes (pole_nodes x nodes 0) = .ok r0) ∧
      (∃ r1, sanity_check nodes (pole_nodes x nodes 1) = .ok r1) ∧
      r = (pole_nodes x nodes 1).foldl (pair_node x nodes (pole_nodes x nodes 1))
        ((pole_nodes x nodes 0).foldl (pair_node x nodes (pole_nodes x nodes 0)) (l0, 0)) := by
  unfold accumulate_pole_edges at h
  split at h
  · cases h
  · rename_i r0 h0
    split at h
    · cases h
    · rename_i r1 h1
      simp only [Except.ok.injEq] at h
      exact ⟨⟨r0, h0⟩, ⟨r1, h1⟩, h.symm⟩

theorem accumulate_pole_edges_of_checks (x : Externals) (nodes : Nodes) (l0 : List idx_t)
    (r0 r1 : Int) (h0 : sanity_check nodes (pole_nodes x nodes 0) = .ok r0)
    (h1 : sanity_check nodes (pole_nodes x nodes 1) = .ok r1) :
    accumulate_pole_edges x nodes l0 =
      .ok ((pole_nodes x nodes 1).foldl (pair_node x nodes (pole_nodes x nodes 1))
        ((pole_nodes x nodes 0).foldl (pair_node x nodes (pole_nodes x nodes 0)) (l0, 0))) := by
  unfold accumulate_pole_edges
  simp only [h0, h1]

theorem pole_nodes_of_lonlat (x : Externals) (nodes nodes' : Nodes)
    (hsize : nodes'.size = nodes.size) (hlonlat : nodes'.lonlat = nodes.lonlat) (NS : Nat) :
    pole_nodes x nodes' NS = pole_nodes x nodes NS := by
  simp only [pole_nodes, pole_nodes_north, pole_nodes_south, node_range, is_north, is_south,
    global_bounds, local_bounds, hsize, hlonlat]

theorem pair_node_foldl_none (x : Externals) (nodes : Nodes) (band : List idx_t)
    (hno : ∀ a ∈ band, ∀ b ∈ band,
      microdeg (nodes.lonlat b).1 ≠ microdeg ((nodes.lonlat a).1 + 180))
    (acc : List idx_t × Nat) :
    band.foldl (pair_node x nodes band) acc = acc := by
  have inner : ∀ (a : idx_t), a ∈ band → ∀ (l : List idx_t), (∀ b ∈ l, b ∈ band) →
      ∀ acc : List idx_t × Nat,
        l.foldl (pair_other x nodes a (microdeg ((nodes.lonlat a).1 + 180))) acc = acc := by
    intro a ha l
    induction l with
    | nil => intro _ acc; rfl
    | cons b t ih =>
      intro hl acc
      simp only [List.foldl_cons]
      have hb : pair_other x nodes a (microdeg ((nodes.lonlat a).1 + 180)) acc b = acc := by
        unfold pair_other
        rw [if_neg (hno a ha b (hl b (by simp)))]
      rw [hb]
      exact ih (fun b' hb' => hl b' (by simp [hb'])) acc
  have outer : ∀ (l : List idx_t), (∀ a ∈ l, a ∈ band) →
      ∀ acc : List idx_t × Nat, l.foldl (pair_node x nodes band) acc = acc := by
    intro l
    induction l with
    | nil => intro _ acc; rfl
    | cons a t ih =>
      intro hl acc
      simp only [List.foldl_cons]
      have ha : pair_node x nodes band acc a = acc := by
        unfold pair_node
        split
        · exact inner a (hl a (by simp)) band (fun b hb => hb) acc
        · rfl
      rw [ha]
      exact ih (fun a' ha' => hl a' (by simp [ha'])) acc
  exact outer band (fun a ha => ha) acc

/-! ## Claims on accumulate_pole_edges -/

/-- C9, as the code has it.  `accumulate_pole_edges` raises nothing but `NotImplemented`,
and raises only if, in the north band or in the south band, two nodes of the band belong
to different partitions; it does raise in that case when no pole-band node has the
partition number `-1` (the value with which the check marks that it has seen no partition
yet).  An error result carries no pole edge. -/
theorem accumulate_pole_edges_split_pole (x : Externals) (nodes : Nodes)
    (pole_edge_nodes : List idx_t) :
    (∀ e, accumulate_pole_edges x nodes pole_edge_nodes = .error e →
      e.isNotImplemented = true ∧
      (∃ NS, NS < 2 ∧ ∃ a ∈ pole_nodes x nodes NS, ∃ b ∈ pole_nodes x nodes NS,
        nodes.partition a ≠ nodes.partition b) ∧
      ∀ r, accumulate_pole_edges x nodes pole_edge_nodes ≠ .ok r) ∧
    ((∀ NS, NS < 2 → ∀ n ∈ pole_nodes x nodes NS, nodes.partition n ≠ -1) →
      (∃ NS, NS < 2 ∧ ∃ a ∈ pole_nodes x nodes NS, ∃ b ∈ pole_nodes x nodes NS,
        nodes.partition a ≠ nodes.partition b) →
      ∃ e, accumulate_pole_edges x nodes pole_edge_nodes = .error e ∧
        e.isNotImplemented = true) := by
  have first : ∀ e, accumulate_pole_edges x nodes pole_edge_nodes = .error e →
      e.isNotImplemented = true ∧
      (∃ NS, NS < 2 ∧ ∃ a ∈ pole_nodes x nodes NS, ∃ b ∈ pole_nodes x nodes NS,
        nodes.partition a ≠ nodes.partition b) := by
    intro e he
    rcases accumulate_pole_edges_error x nodes pole_edge_nodes e he with h | h
    · obtain ⟨hn, a, ha, b, hb, hne⟩ :=
        sanity_check_error nodes e _ [] (-1) (Or.inl rfl) h
      simp only [List.nil_append] at ha hb
      exact ⟨hn, 0, by omega, a, ha, b, hb, hne⟩
    · obtain ⟨hn, a, ha, b, hb, hne⟩ :=
        sanity_check_error nodes e _ [] (-1) (Or.inl rfl) h
      simp only [List.nil_append] at ha hb
      exact ⟨hn, 1, by omega, a, ha, b, hb, hne⟩
  constructor
  · intro e he
    refine ⟨(first e he).1, (first e he).2, ?_⟩
    intro r hr
    rw [he] at hr
    cases hr
  · intro hpart ⟨NS, hNS, a, ha, b, hb, hne⟩
    cases hres : accumulate_pole_edges x nodes pole_edge_nodes with
    | error e => exact ⟨e, rfl, (first e hres).1⟩
    | ok r =>
      exfalso
      obtain ⟨⟨r0, h0⟩, ⟨r1, h1⟩, _⟩ := accumulate_pole_edges_ok x nodes pole_edge_nodes r hres
      have hNS' : NS = 0 ∨ NS = 1 := by omega
      rcases hNS' with rfl | rfl
      · exact hne (sanity_check_ok nodes _ r0 (hpart 0 (by omega)) h0 a ha b hb)
      · exact hne (sanity_check_ok nodes _ r1 (hpart 1 (by omega)) h1 a ha b hb)

theorem split_pole_nodes_bands (NS : Nat) :
    pole_nodes sample_externals split_pole_nodes NS = pole_nodes sample_externals sample_nodes NS :=
  pole_nodes_of_lonlat sample_externals sample_nodes split_pole_nodes rfl rfl NS

theorem unset_partition_nodes_bands (NS : Nat) :
    pole_nodes sample_externals unset_partition_nodes NS =
      pole_nodes sample_externals sample_nodes NS :=
  pole_nodes_of_lonlat sample_externals sample_nodes unset_partition_nodes rfl rfl NS

theorem accumulate_pole_edges_split_pole_witness :
    (∀ NS, NS < 2 → ∀ n ∈ pole_nodes sample_externals split_pole_nodes NS,
      split_pole_nodes.partition n ≠ -1) ∧
    ∃ e, accumulate_pole_edges sample_externals split_pole_nodes [] = .error e ∧
      e.isNotImplemented = true := by
  have hpart : ∀ NS, NS < 2 → ∀ n ∈ pole_nodes sample_externals split_pole_nodes NS,
      split_pole_nodes.partition n ≠ -1 := by
    intro NS _ n _
    simp only [split_pole_nodes]
    split <;> decide
  refine ⟨hpart, ?_⟩
  apply (accumulate_pole_edges_split_pole sample_externals split_pole_nodes []).2 hpart
  refine ⟨0, by omega, 0, ?_, 1, ?_, ?_⟩
  · rw [split_pole_nodes_bands, sample_pole_nodes_north]; simp
  · rw [split_pole_nodes_bands, sample_pole_nodes_north]; simp
  · simp [split_pole_nodes]

/-- C9, as stated, fails: when node 0 of the north band `{0, 1}` carries the partition
number `-1` and node 1 the partition number 5, two nodes of the band belong to different
partitions, and `accumulate_pole_edges` does not raise but returns the pole edges. -/
theorem accumulate_pole_edges_unset_partition :
    (∃ a ∈ pole_nodes sample_externals unset_partition_nodes 0,
      ∃ b ∈ pole_nodes sample_externals unset_partition_nodes 0,
        unset_partition_nodes.partition a ≠ unset_partition_nodes.partition b) ∧
    accumulate_pole_edges sample_externals unset_partition_nodes [] = .ok ([0, 1, 2, 3], 2) := by
  constructor
  · refine ⟨0, ?_, 1, ?_, ?_⟩
    · rw [unset_partition_nodes_bands, sample_pole_nodes_north]; simp
    · rw [unset_partition_nodes_bands, sample_pole_nodes_north]; simp
    · simp [unset_partition_nodes]
  · have e1 : Int.lor 4 2 = 6 := by decide
    have e2 : Int.land 0 6 = 0 := by decide
    have e3 : Int.land 0 4 = 0 := by decide
    unfold accumulate_pole_edges
    rw [unset_partition_nodes_bands, unset_partition_nodes_bands, sample_pole_nodes_north,
      sample_pole_nodes_south]
    simp [sanity_check, sanity_check_step, pair_node, pair_other, unset_partition_nodes,
      sample_nodes, sample_externals, microdeg, List.foldlM, bind, Except.bind, e1, e2, e3]
    norm_num
    rfl

/-- C10. If every pole band lies in one partition and no pole-band node has another node
of the same band whose quantized (microdegree) longitude equals the quantized value of
its own longitude plus 180 degrees, `accumulate_pole_edges` does not raise and returns
zero pole edges: the vector `pole_edge_nodes` is returned as it was passed in. -/
theorem accumulate_pole_edges_no_partner (x : Externals) (nodes : Nodes)
    (pole_edge_nodes : List idx_t)
    (hone : ∀ NS, NS < 2 → ∀ a ∈ pole_nodes x nodes NS, ∀ b ∈ pole_nodes x nodes NS,
      nodes.partition a = nodes.partition b)
    (hno : ∀ NS, NS < 2 → ∀ a ∈ pole_nodes x nodes NS, ∀ b ∈ pole_nodes x nodes NS, b ≠ a →
      microdeg (nodes.lonlat b).1 ≠ microdeg ((nodes.lonlat a).1 + 180)) :
    accumulate_pole_edges x nodes pole_edge_nodes = .ok (pole_edge_nodes, 0) := by
  obtain ⟨r0, h0⟩ := sanity_check_returns nodes _ (hone 0 (by omega))
  obtain ⟨r1, h1⟩ := sanity_check_returns nodes _ (hone 1 (by omega))
  have hno' : ∀ NS, NS < 2 → ∀ a ∈ pole_nodes x nodes NS, ∀ b ∈ pole_nodes x nodes NS,
      microdeg (nodes.lonlat b).1 ≠ microdeg ((nodes.lonlat a).1 + 180) := by
    intro NS hNS a ha b hb
    by_cases hba : b = a
    · subst hba
      rw [microdeg_add_180]
      omega
    · exact hno NS hNS a ha b hb hba
  rw [accumulate_pole_edges_of_checks x nodes pole_edge_nodes r0 r1 h0 h1,
    pair_node_foldl_none x nodes _ (hno' 0 (by omega)),
    pair_node_foldl_none x nodes _ (hno' 1 (by omega))]

theorem unpaired_local_bounds : local_bounds unpaired_nodes = ((10, 0), (100, 90)) := by
  simp [local_bounds, iter, unpaired_nodes, sample_nodes, DBL_MAX]
  norm_num

theorem unpaired_pole_nodes_north : pole_nodes sample_externals unpaired_nodes 0 = [0, 1] := by
  simp [pole_nodes, pole_nodes_north, node_range, is_north, global_bounds,
    unpaired_local_bounds, sample_externals, List.range_succ, List.filter, tol]
  simp [unpaired_nodes, sample_nodes]
  norm_num

theorem unpaired_pole_nodes_south : pole_nodes sample_externals unpaired_nodes 1 = [2, 3] := by
  simp [pole_nodes, pole_nodes_south, node_range, is_north, is_south, global_bounds,
    unpaired_local_bounds, sample_externals, List.range_succ, List.filter, tol]
  simp [unpaired_nodes, sample_nodes]
  norm_num

theorem accumulate_pole_edges_no_partner_witness :
    accumulate_pole_edges sample_externals unpaired_nodes [] = .ok ([], 0) := by
  apply accumulate_pole_edges_no_partner
  · intro NS hNS a ha b hb
    have hNS' : NS = 0 ∨ NS = 1 := by omega
    rcases hNS' with rfl | rfl
    · rw [unpaired_pole_nodes_north] at ha hb
      simp only [List.mem_cons, List.mem_singleton, List.not_mem_nil, or_false] at ha hb
      rcases ha with rfl | rfl <;> rcases hb with rfl | rfl <;>
        simp [unpaired_nodes, sample_nodes]
    · rw [unpaired_pole_nodes_south] at ha hb
      simp only [List.mem_cons, List.mem_singleton, List.not_mem_nil, or_false] at ha hb
      rcases ha with rfl | rfl <;> rcases hb with rfl | rfl <;>
        simp [unpaired_nodes, sample_nodes]
  · intro NS hNS a ha b hb _
    have hNS' : NS = 0 ∨ NS = 1 := by omega
    rcases hNS' with rfl | rfl
    · rw [unpaired_pole_nodes_north] at ha hb
      simp only [List.mem_cons, List.mem_singleton, List.not_mem_nil, or_false] at ha hb
      rcases ha with rfl | rfl <;> rcases hb with rfl | rfl <;>
        norm_num [unpaired_nodes, sample_nodes, microdeg]
    · rw [unpaired_pole_nodes_south] at ha hb
      simp only [List.mem_cons, List.mem_singleton, List.not_mem_nil, or_false] at ha hb
      rcases ha with rfl | rfl <;> rcases hb with rfl | rfl <;>
        norm_num [unpaired_nodes, sample_nodes, microdeg]

/-! ## build_element_to_edge_connectivity_new: allocation and verification -/

theorem allocate_fold (bs : List (ElementType × Nat)) :
    ∀ c : Connectivity,
      (bs.foldl (fun c b => c.add b.2 b.1.nb_edges (fun _ => missing_value)) c).rows =
          c.rows + (bs.map Prod.snd).sum ∧
      (∀ q : Int, q < c.rows →
        (bs.foldl (fun c b => c.add b.2 b.1.nb_edges (fun _ => missing_value)) c).cols q =
            c.cols q ∧
          ∀ j, (bs.foldl (fun c b => c.add b.2 b.1.nb_edges (fun _ => missing_value)) c).get q j
            = c.get q j) ∧
      (∀ e : Nat, e < (bs.map Prod.snd).sum →
        ∃ t, HybridElements.type_of_in bs e = some t ∧
          (bs.foldl (fun c b => c.add b.2 b.1.nb_edges (fun _ => missing_value)) c).cols
              ((c.rows + e : Nat) : Int) = t.nb_edges ∧
          ∀ j, j < t.nb_edges →
            (bs.foldl (fun c b => c.add b.2 b.1.nb_edges (fun _ => missing_value)) c).get
              ((c.rows + e : Nat) : Int) j = missing_value) := by
  induction bs with
  | nil =>
    intro c
    refine ⟨by simp, fun q _ => ⟨rfl, fun _ => rfl⟩, ?_⟩
    intro e he
    simp at he
  | cons b rest ih =>
    intro c
    obtain ⟨t, n⟩ := b
    simp only [List.foldl_cons, List.map_cons, List.sum_cons]
    obtain ⟨hrows, hbelow, hnew⟩ := ih (c.add n t.nb_edges (fun _ => missing_value))
    have hr1 : (c.add n t.nb_edges (fun _ => missing_value)).rows = c.rows + n := rfl
    refine ⟨by rw [hrows, hr1]; omega, ?_, ?_⟩
    · intro q hq
      have hq1 : q < ((c.add n t.nb_edges (fun _ => missing_value)).rows : Int) := by
        rw [hr1]; push_cast; omega
      obtain ⟨h1, h2⟩ := hbelow q hq1
      have hnot : ¬ ((c.rows : Int) ≤ q) := by omega
      refine ⟨?_, ?_⟩
      · rw [h1]; simp [Connectivity.add, hnot]
      · intro j; rw [h2]; simp [Connectivity.add, hnot]
    · intro e he
      by_cases hen : e < n
      · refine ⟨t, by simp [HybridElements.type_of_in, hen], ?_, ?_⟩
        · have hq1 : ((c.rows + e : Nat) : Int)
              < ((c.add n t.nb_edges (fun _ => missing_value)).rows : Int) := by
            rw [hr1]; push_cast; omega
          rw [(hbelow _ hq1).1]
          have : (e : Int) < (n : Int) := by exact_mod_cast hen
          simp [Connectivity.add, this]
        · intro j hj
          have hq1 : ((c.rows + e : Nat) : Int)
              < ((c.add n t.nb_edges (fun _ => missing_value)).rows : Int) := by
            rw [hr1]; push_cast; omega
          rw [(hbelow _ hq1).2]
          have : (e : Int) < (n : Int) := by exact_mod_cast hen
          simp [Connectivity.add, this, hj]
      · obtain ⟨t', ht', hc, hg⟩ := hnew (e - n) (by omega)
        have heq : (c.add n t.nb_edges (fun _ => missing_value)).rows + (e - n) = c.rows + e := by
          rw [hr1]; omega
        rw [heq] at hc hg
        exact ⟨t', by simp [HybridElements.type_of_in, hen, ht'], hc, hg⟩

/-- The table allocated by lines 113-119: one row per cell, with as many columns as the
cell type has edges, all of them missing. -/
theorem allocate_spec (cells : HybridElements) (c : Connectivity) :
    (allocate_cell_edge_connectivity cells c).rows = cells.size ∧
    ∀ jcell : Nat, jcell < cells.size →
      ∃ t, cells.type_of jcell = some t ∧
        (allocate_cell_edge_connectivity cells c).cols jcell = t.nb_edges ∧
        ∀ j, j < t.nb_edges →
          (allocate_cell_edge_connectivity cells c).get jcell j = missing_value := by
  obtain ⟨h1, _, h3⟩ := allocate_fold cells.blocks c.clear
  refine ⟨by simpa [Connectivity.clear, HybridElements.size] using h1, ?_⟩
  intro jcell hj
  have := h3 jcell hj
  simpa [Connectivity.clear, HybridElements.type_of] using this

/-- A loop on the unit state either passes every iteration or throws what one of its
iterations throws. -/
theorem loop_unit {ε : Type} (body : Nat → Unit → Except ε Unit) :
    ∀ n, (loop body n () = .ok () ∧ ∀ i, i < n → body i () = .ok ()) ∨
      ∃ e, loop body n () = .error e ∧ ∃ i, i < n ∧ body i () = .error e := by
  intro n
  induction n with
  | zero => exact Or.inl ⟨rfl, fun i hi => by omega⟩
  | succ n ih =>
    rcases ih with ⟨h, hall⟩ | ⟨e, h, i, hi, hb⟩
    · cases hb : body n () with
      | ok u =>
        left
        cases u
        refine ⟨by simp only [loop, h, hb], ?_⟩
        intro i hi
        by_cases hin : i = n
        · subst hin; exact hb
        · exact hall i (by omega)
      | error e =>
        right
        exact ⟨e, by simp only [loop, h, hb], n, by omega, hb⟩
    · right
      exact ⟨e, by simp only [loop, h], i, by omega, hb⟩

/-- The verification of lines 169-186 passes exactly when no slot of a cell is missing,
and otherwise throws `SeriousBug`. -/
theorem verify_spec (mesh : Mesh) (ce : Connectivity) (n : Nat) :
    (loop (verify_cell mesh ce) n () = .ok () ∧
        ∀ jcell : Nat, jcell < n → ∀ jcol, jcol < ce.cols jcell →
          ce.get jcell jcol ≠ missing_value) ∨
      (∃ e, loop (verify_cell mesh ce) n () = .error e ∧ e.isSeriousBug = true ∧
        ∃ jcell : Nat, jcell < n ∧ ∃ jcol, jcol < ce.cols jcell ∧
          ce.get jcell jcol = missing_value) := by
  rcases loop_unit (verify_cell mesh ce) n with ⟨h, hall⟩ | ⟨e, h, jcell, hj, hb⟩
  · left
    refine ⟨h, ?_⟩
    intro jcell hj jcol hc
    have hcell := hall jcell hj
    unfold verify_cell at hcell
    rcases loop_unit (verify_slot mesh ce jcell) (ce.cols jcell) with ⟨_, hall2⟩ | ⟨e, h2, _⟩
    · have := hall2 jcol hc
      unfold verify_slot at this
      intro hm
      rw [if_pos hm] at this
      cases this
    · rw [hcell] at h2
      cases h2
  · right
    unfold verify_cell at hb
    rcases loop_unit (verify_slot mesh ce jcell) (ce.cols jcell) with ⟨h2, _⟩ | ⟨e', h2, jcol, hc, hs⟩
    · rw [hb] at h2
      cases h2
    · rw [hb] at h2
      cases h2
      unfold verify_slot at hs
      by_cases hm : ce.get jcell jcol = missing_value
      · rw [if_pos hm] at hs
        cases hs
        exact ⟨_, h, rfl, jcell, hj, jcol, hc, hm⟩
      · rw [if_neg hm] at hs
        cases hs

/-! ## build_element_to_edge_connectivity_new: the filling loop -/

theorem incident_slots_append (ec : Connectivity) (c : Int) (l : List Int) (e : Int) :
    incident_slots ec c (l ++ [e]) = incident_slots ec c l ++ incident ec c e := by
  induction l with
  | nil => simp [incident_slots]
  | cons a t ih => simp [incident_slots, ih]

theorem visited_succ (edge_sort : List EdgeSort) (k : Nat) :
    visited edge_sort (k + 1) = visited edge_sort k ++ [(edge_sort.getD k default).i] := by
  simp [visited, List.range_succ]

/-- One slot of an edge that holds a cell: the edge is appended to the slots of this
cell. -/
theorem fill_put (alloc : Connectivity) (s : FillState) (L : Int → List Int)
    (hrows : s.cell_edge_connectivity.rows = alloc.rows)
    (hcols : s.cell_edge_connectivity.cols = alloc.cols)
    (h : ∀ c : Int, s.edge_cnt c = (L c).length ∧
      ∀ j : Nat, s.cell_edge_connectivity.get c j =
        if j < (L c).length then (L c).getD j 0 else alloc.get c j)
    (elem iedge : Int) :
    (s.cell_edge_connectivity.set elem (s.edge_cnt elem) iedge).rows = alloc.rows ∧
    (s.cell_edge_connectivity.set elem (s.edge_cnt elem) iedge).cols = alloc.cols ∧
    ∀ c : Int,
      Function.update s.edge_cnt elem (s.edge_cnt elem + 1) c =
          (L c ++ if c = elem then [iedge] else []).length ∧
      ∀ j : Nat, (s.cell_edge_connectivity.set elem (s.edge_cnt elem) iedge).get c j =
        if j < (L c ++ if c = elem then [iedge] else []).length then
          (L c ++ if c = elem then [iedge] else []).getD j 0
        else alloc.get c j := by
  refine ⟨hrows, hcols, ?_⟩
  intro c
  obtain ⟨hc, hg⟩ := h c
  by_cases hce : c = elem
  · subst hce
    refine ⟨by simp [hc], ?_⟩
    intro j
    simp only [Connectivity.set, true_and, if_true, List.length_append, List.length_singleton]
    by_cases hj : j = s.edge_cnt c
    · rw [if_pos hj, if_pos (by omega)]
      rw [hj, hc]
      simp [List.getD_eq_getElem?_getD]
    · rw [if_neg hj, hg j]
      by_cases hlt : j < (L c).length
      · rw [if_pos hlt, if_pos (by omega)]
        simp [List.getD_eq_getElem?_getD, List.getElem?_append_left hlt]
      · rw [if_neg hlt, if_neg (by omega)]
  · refine ⟨by simp [Function.update_apply, hce, hc], ?_⟩
    intro j
    simp only [Connectivity.set, hce, false_and, if_false, List.append_nil]
    exact hg j

/-- The slot lists `L` describe the state `s` over the allocated table `alloc`. -/
theorem fill_slot_spec (alloc ec : Connectivity) (hp : Bool) (ip : Int → Int) (iedge : Int)
    (j : Nat) (s : FillState) (L : Int → List Int)
    (hrows : s.cell_edge_connectivity.rows = alloc.rows)
    (hcols : s.cell_edge_connectivity.cols = alloc.cols)
    (h : ∀ c : Int, s.edge_cnt c = (L c).length ∧
      ∀ j : Nat, s.cell_edge_connectivity.get c j =
        if j < (L c).length then (L c).getD j 0 else alloc.get c j) :
    (ec.get iedge j = missing_value ∧ ¬ (hp = true ∧ ip iedge ≠ 0) ∧ j = 0 ∧
        ∃ e, fill_slot ec hp ip iedge j s = .error e ∧ e.isSeriousBug = true) ∨
    (¬ (ec.get iedge j = missing_value ∧ ¬ (hp = true ∧ ip iedge ≠ 0) ∧ j = 0) ∧
      ∃ s', fill_slot ec hp ip iedge j s = .ok s' ∧
        s'.cell_edge_connectivity.rows = alloc.rows ∧
        s'.cell_edge_connectivity.cols = alloc.cols ∧
        ∀ c : Int,
          s'.edge_cnt c =
            (L c ++ if ec.get iedge j ≠ missing_value ∧ ec.get iedge j = c then [iedge]
              else []).length ∧
          ∀ k : Nat, s'.cell_edge_connectivity.get c k =
            if k < (L c ++ if ec.get iedge j ≠ missing_value ∧ ec.get iedge j = c then [iedge]
                else []).length then
              (L c ++ if ec.get iedge j ≠ missing_value ∧ ec.get iedge j = c then [iedge]
                else []).getD k 0
            else alloc.get c k) := by
  unfold fill_slot
  simp only []
  by_cases hm : ec.get iedge j = missing_value
  · rw [if_neg (not_not.mpr hm)]
    by_cases hpole : hp = true ∧ ip iedge ≠ 0
    · rw [if_neg (not_not.mpr hpole)]
      right
      refine ⟨fun hh => hh.2.1 hpole, s, rfl, hrows, hcols, ?_⟩
      intro c
      simp only [hm, ne_eq, not_true_eq_false, false_and, if_false, List.append_nil]
      exact h c
    · rw [if_pos hpole]
      by_cases hj : j = 0
      · rw [if_pos hj]
        left
        exact ⟨hm, hpole, hj, _, rfl, rfl⟩
      · rw [if_neg hj]
        right
        refine ⟨fun hh => hj hh.2.2, s, rfl, hrows, hcols, ?_⟩
        intro c
        simp only [hm, ne_eq, not_true_eq_false, false_and, if_false, List.append_nil]
        exact h c
  · rw [if_pos hm]
    right
    refine ⟨fun hh => hm hh.1, _, rfl, ?_⟩
    have := fill_put alloc s L hrows hcols h (ec.get iedge j) iedge
    obtain ⟨p1, p2, p3⟩ := this
    refine ⟨p1, p2, ?_⟩
    intro c
    have e : (if ec.get iedge j ≠ missing_value ∧ ec.get iedge j = c then [iedge] else [])
        = (if c = ec.get iedge j then [iedge] else []) := by
      by_cases hc : c = ec.get iedge j
      · rw [if_pos hc, if_pos ⟨hm, hc.symm⟩]
      · rw [if_neg hc, if_neg (fun hh => hc hh.2.symm)]
    rw [e]
    exact p3 c

/-- Visiting one edge: the loop throws `SeriousBug` at an edge that fails the test, and
otherwise appends the edge to the slots of its incident cells. -/
theorem fill_edge_spec (alloc ec : Connectivity) (hp : Bool) (ip : Int → Int)
    (edge_sort : List EdgeSort) (jedge : Nat) (s : FillState) (vis : List Int)
    (hinv : FillInv alloc ec s vis) :
    (edge_fails ec hp ip (edge_sort.getD jedge default).i ∧
        ∃ e, fill_edge ec hp ip edge_sort jedge s = .error e ∧ e.isSeriousBug = true) ∨
    (¬ edge_fails ec hp ip (edge_sort.getD jedge default).i ∧
      ∃ s', fill_edge ec hp ip edge_sort jedge s = .ok s' ∧
        FillInv alloc ec s' (vis ++ [(edge_sort.getD jedge default).i])) := by
  obtain ⟨hrows, hcols, h⟩ := hinv
  unfold fill_edge
  simp only [loop]
  rcases fill_slot_spec alloc ec hp ip (edge_sort.getD jedge default).i 0 s
      (fun c => incident_slots ec c vis) hrows hcols h with
    ⟨hm, hpole, _, e, he, hs⟩ | ⟨hnot, s1, h1, r1, c1, g1⟩
  · left
    exact ⟨⟨hm, hpole⟩, e, by simp only [he], hs⟩
  · right
    have hnf : ¬ edge_fails ec hp ip (edge_sort.getD jedge default).i :=
      fun hf => hnot ⟨hf.1, hf.2, rfl⟩
    refine ⟨hnf, ?_⟩
    rcases fill_slot_spec alloc ec hp ip (edge_sort.getD jedge default).i 1 s1 _ r1 c1 g1 with
      ⟨_, _, hj, _⟩ | ⟨_, s2, h2, r2, c2, g2⟩
    · omega
    · refine ⟨s2, by simp only [h1, h2], r2, c2, ?_⟩
      intro c
      have := g2 c
      rw [incident_slots_append]
      unfold incident
      rw [← List.append_assoc]
      exact this

theorem fill_loop_spec (alloc ec : Connectivity) (hp : Bool) (ip : Int → Int)
    (edge_sort : List EdgeSort) (s0 : FillState) (h0 : FillInv alloc ec s0 []) :
    ∀ k,
      (∃ e, loop (fill_edge ec hp ip edge_sort) k s0 = .error e ∧ e.isSeriousBug = true ∧
        ∃ j, j < k ∧ edge_fails ec hp ip (edge_sort.getD j default).i) ∨
      (∃ s, loop (fill_edge ec hp ip edge_sort) k s0 = .ok s ∧
        FillInv alloc ec s (visited edge_sort k) ∧
        ∀ j, j < k → ¬ edge_fails ec hp ip (edge_sort.getD j default).i) := by
  intro k
  induction k with
  | zero =>
    right
    exact ⟨s0, rfl, h0, fun j hj => by omega⟩
  | succ k ih =>
    rcases ih with ⟨e, he, hs, j, hj, hf⟩ | ⟨s, hs, hinv, hall⟩
    · left
      exact ⟨e, by simp only [loop, he], hs, j, by omega, hf⟩
    · rcases fill_edge_spec alloc ec hp ip edge_sort k s _ hinv with
        ⟨hf, e, he, hb⟩ | ⟨hnf, s', hs', hinv'⟩
      · left
        exact ⟨e, by simp only [loop, hs, he], hb, k, by omega, hf⟩
      · right
        refine ⟨s', by simp only [loop, hs, hs'], ?_, ?_⟩
        · rw [visited_succ]; exact hinv'
        · intro j hj
          by_cases hjk : j = k
          · subst hjk; exact hnf
          · exact hall j (by omega)

theorem fill_inv_init (alloc ec : Connectivity) :
    FillInv alloc ec { cell_edge_connectivity := alloc, edge_cnt := fun _ => 0 } [] := by
  refine ⟨rfl, rfl, ?_⟩
  intro c
  simp [incident_slots]

/-- The two outcomes of `build_element_to_edge_connectivity_new`: a `SeriousBug`, or the
mesh with the filled and verified table. -/
theorem build_element_to_edge_spec (x : Externals) (std_sort : List EdgeSort → List EdgeSort)
    (mesh : Mesh) :
    (∃ e, build_element_to_edge_connectivity_new x std_sort mesh = .error e ∧
      e.isSeriousBug = true) ∨
    (∃ s : FillState,
      build_element_to_edge_connectivity_new x std_sort mesh =
        .ok { mesh with cells := { mesh.cells with edge_connectivity := s.cell_edge_connectivity } } ∧
      FillInv (allocate_cell_edge_connectivity mesh.cells mesh.cells.edge_connectivity)
        mesh.edges.cell_connectivity s
        (visited
          (std_sort (edge_sort_init (x.unique_lonlat mesh.nodes) mesh.edges.node_connectivity
            mesh.edges.size)) mesh.edges.size) ∧
      ∀ jcell : Nat, jcell < mesh.cells.size →
        ∀ jcol, jcol < s.cell_edge_connectivity.cols jcell →
          s.cell_edge_connectivity.get jcell jcol ≠ missing_value) := by
  unfold build_element_to_edge_connectivity_new
  simp only []
  rcases fill_loop_spec
      (allocate_cell_edge_connectivity mesh.cells mesh.cells.edge_connectivity)
      mesh.edges.cell_connectivity mesh.edges.is_pole_edge.isSome
      (match mesh.edges.is_pole_edge with
        | some f => f
        | none => fun _ => 0)
      (std_sort (edge_sort_init (x.unique_lonlat mesh.nodes) mesh.edges.node_connectivity
        mesh.edges.size))
      { cell_edge_connectivity :=
          allocate_cell_edge_connectivity mesh.cells mesh.cells.edge_connectivity
        edge_cnt := fun _ => 0 }
      (fill_inv_init _ _) mesh.edges.size with
    ⟨e, he, hs, _⟩ | ⟨s, hs, hinv, _⟩
  · left
    exact ⟨e, by simp only [he], hs⟩
  · rcases verify_spec mesh s.cell_edge_connectivity mesh.cells.size with
      ⟨hv, hall⟩ | ⟨e, hv, hb, _⟩
    · right
      exact ⟨s, by simp only [hs, hv], hinv, hall⟩
    · left
      exact ⟨e, by simp only [hs, hv], hb⟩

/-! ## Claims on build_element_to_edge_connectivity_new -/

/-- C3. Whenever `build_element_to_edge_connectivity_new` returns without raising, every
cell has as many edge slots as its type has edges (3 for a triangle, 4 for a
quadrilateral) and none of these slots holds the missing sentinel. -/
theorem build_element_to_edge_no_missing (x : Externals)
    (std_sort : List EdgeSort → List EdgeSort) (mesh mesh' : Mesh)
    (h : build_element_to_edge_connectivity_new x std_sort mesh = .ok mesh') :
    ElementType.Triangle.nb_edges = 3 ∧ ElementType.Quadrilateral.nb_edges = 4 ∧
    ∀ jcell : Nat, jcell < mesh'.cells.size →
      ∃ t, mesh'.cells.type_of jcell = some t ∧
        mesh'.cells.edge_connectivity.cols jcell = t.nb_edges ∧
        ∀ jcol, jcol < t.nb_edges →
          mesh'.cells.edge_connectivity.get jcell jcol ≠ missing_value := by
  refine ⟨rfl, rfl, ?_⟩
  rcases build_element_to_edge_spec x std_sort mesh with ⟨e, he, _⟩ | ⟨s, hs, hinv, hall⟩
  · rw [he] at h; cases h
  · rw [hs] at h
    cases h
    intro jcell hj
    obtain ⟨_, hcols, _⟩ := hinv
    obtain ⟨_, halloc⟩ := allocate_spec mesh.cells mesh.cells.edge_connectivity
    obtain ⟨t, ht, hc, _⟩ := halloc jcell hj
    have hc' : s.cell_edge_connectivity.cols jcell = t.nb_edges := by rw [hcols]; exact hc
    refine ⟨t, ht, hc', ?_⟩
    intro jcol hjc
    exact hall jcell hj jcol (by rw [hc']; exact hjc)

theorem returned_of_has_returned (r : Except Exception Mesh) (otherwise : Mesh)
    (h : has_returned r = true) : r = .ok (returned_mesh r otherwise) := by
  cases r with
  | ok m => rfl
  | error e => cases h

theorem build_element_to_edge_no_missing_witness :
    ∃ mesh',
      build_element_to_edge_connectivity_new sample_externals sample_sort sample_mesh_edges =
        .ok mesh' ∧
      ∀ jcell : Nat, jcell < mesh'.cells.size →
        ∃ t, mesh'.cells.type_of jcell = some t ∧
          mesh'.cells.edge_connectivity.cols jcell = t.nb_edges ∧
          ∀ jcol, jcol < t.nb_edges →
            mesh'.cells.edge_connectivity.get jcell jcol ≠ missing_value := by
  have h := returned_of_has_returned
    (build_element_to_edge_connectivity_new sample_externals sample_sort sample_mesh_edges)
    sample_mesh_edges (by decide)
  exact ⟨_, h,
    (build_element_to_edge_no_missing sample_externals sample_sort sample_mesh_edges _ h).2.2⟩

theorem incident_slots_length (ec : Connectivity) (c : Int) (l : List Int) :
    (incident_slots ec c l).length = (l.map (fun e => (incident ec c e).length)).sum := by
  induction l with
  | nil => rfl
  | cons a t ih => simp [incident_slots, ih]

theorem visited_eq_map (edge_sort : List EdgeSort) :
    visited edge_sort edge_sort.length = edge_sort.map (fun es => es.i) := by
  apply List.ext_getElem
  · simp [visited]
  · intro n h1 h2
    simp only [visited, List.length_map, List.length_range] at h1
    simp [visited, List.getD_eq_getElem?_getD, List.getElem?_eq_getElem h1]

theorem edge_sort_init_length (compute_uid : UniqueLonLat) (nc : Connectivity) (n : Nat) :
    (edge_sort_init compute_uid nc n).length = n := by
  simp [edge_sort_init]

theorem edge_sort_init_map_i (compute_uid : UniqueLonLat) (nc : Connectivity) (n : Nat) :
    (edge_sort_init compute_uid nc n).map (fun es => es.i) =
      (List.range n).map (fun e : Nat => (e : Int)) := by
  simp [edge_sort_init]

/-- Under the contract of `std::sort`, the filling loop visits every edge once. -/
theorem visited_perm (std_sort : List EdgeSort → List EdgeSort) (hsort : StdSortContract std_sort)
    (compute_uid : UniqueLonLat) (nc : Connectivity) (n : Nat) :
    (visited (std_sort (edge_sort_init compute_uid nc n)) n).Perm
      ((List.range n).map (fun e : Nat => (e : Int))) := by
  have hperm := (hsort (edge_sort_init compute_uid nc n)).1
  have hlen : (std_sort (edge_sort_init compute_uid nc n)).length = n := by
    rw [hperm.length_eq, edge_sort_init_length]
  have hv := visited_eq_map (std_sort (edge_sort_init compute_uid nc n))
  rw [hlen] at hv
  rw [hv, ← edge_sort_init_map_i compute_uid nc n]
  exact hperm.map _

theorem incident_length (ec : Connectivity) (c e : Int) (hc : c ≠ missing_value) :
    (incident ec c e).length =
      (if ec.get e 0 = c then 1 else 0) + (if ec.get e 1 = c then 1 else 0) := by
  unfold incident
  have h0 : (ec.get e 0 ≠ missing_value ∧ ec.get e 0 = c) ↔ ec.get e 0 = c :=
    ⟨fun h => h.2, fun h => ⟨by rw [h]; exact hc, h⟩⟩
  have h1 : (ec.get e 1 ≠ missing_value ∧ ec.get e 1 = c) ↔ ec.get e 1 = c :=
    ⟨fun h => h.2, fun h => ⟨by rw [h]; exact hc, h⟩⟩
  simp only [h0, h1, List.length_append]
  congr 1 <;> split <;> rfl

/-- After all edges have been visited, the number of filled slots of a cell is the number
of incident-cell slots of the edge table that hold the cell. -/
theorem incident_slots_count (std_sort : List EdgeSort → List EdgeSort)
    (hsort : StdSortContract std_sort) (compute_uid : UniqueLonLat) (nc ec : Connectivity)
    (n : Nat) (c : Int) (hc : c ≠ missing_value) :
    (incident_slots ec c (visited (std_sort (edge_sort_init compute_uid nc n)) n)).length =
      incident_count ec n c := by
  rw [incident_slots_length]
  have hp := (visited_perm std_sort hsort compute_uid nc n).map
    (fun e => (incident ec c e).length)
  rw [hp.sum_eq]
  unfold incident_count
  rw [List.map_map]
  congr 1
  apply List.map_congr_left
  intro e _
  exact incident_length ec c e hc

/-- C5. If some cell has fewer incident edges recorded in the edge-to-cell table than its
number of edge slots, `build_element_to_edge_connectivity_new` raises `SeriousBug` and
returns no table; `std_sort` is any function with the contract of `std::sort`. -/
theorem build_element_to_edge_missing_edge (x : Externals)
    (std_sort : List EdgeSort → List EdgeSort) (hsort : StdSortContract std_sort) (mesh : Mesh)
    (jcell : Nat) (hjcell : jcell < mesh.cells.size) (t : ElementType)
    (ht : mesh.cells.type_of jcell = some t)
    (hcount : incident_count mesh.edges.cell_connectivity mesh.edges.size jcell < t.nb_edges) :
    ∃ e, build_element_to_edge_connectivity_new x std_sort mesh = .error e ∧
      e.isSeriousBug = true := by
  rcases build_element_to_edge_spec x std_sort mesh with h | ⟨s, _, hinv, hall⟩
  · exact h
  · exfalso
    obtain ⟨_, hcols, hslots⟩ := hinv
    obtain ⟨_, halloc⟩ := allocate_spec mesh.cells mesh.cells.edge_connectivity
    obtain ⟨t', ht', hc, hmiss⟩ := halloc jcell hjcell
    rw [ht] at ht'
    cases ht'
    have hne : (jcell : Int) ≠ missing_value := by
      unfold missing_value
      omega
    have hlen := incident_slots_count std_sort hsort (x.unique_lonlat mesh.nodes)
      mesh.edges.node_connectivity mesh.edges.cell_connectivity mesh.edges.size jcell hne
    obtain ⟨_, hget⟩ := hslots jcell
    have hg := hget (incident_count mesh.edges.cell_connectivity mesh.edges.size jcell)
    rw [hlen, if_neg (lt_irrefl _), hmiss _ hcount] at hg
    exact hall jcell hjcell _ (by rw [hcols, hc]; exact hcount) hg

theorem sample_sort_contract : StdSortContract sample_sort := by
  intro l
  haveI : IsTotal EdgeSort (fun a b => a.g ≤ b.g) := ⟨fun a b => le_total a.g b.g⟩
  haveI : IsTrans EdgeSort (fun a b => a.g ≤ b.g) := ⟨fun _ _ _ hab hbc => le_trans hab hbc⟩
  refine ⟨List.perm_insertionSort _ l, ?_⟩
  have h : List.Pairwise (fun a b : EdgeSort => a.g ≤ b.g) (sample_sort l) :=
    List.sorted_insertionSort (fun a b : EdgeSort => a.g ≤ b.g) l
  exact h.imp (fun hab => not_lt.mpr hab)

theorem build_element_to_edge_missing_edge_witness :
    ∃ e, build_element_to_edge_connectivity_new sample_externals sample_sort
        deficient_mesh_edges = .error e ∧ e.isSeriousBug = true :=
  build_element_to_edge_missing_edge sample_externals sample_sort sample_sort_contract
    deficient_mesh_edges 1 (by decide) .Triangle (by decide) (by decide)

/-! ## Independence of the order of the edge table -/

theorem sorted_members (std_sort : List EdgeSort → List EdgeSort)
    (hsort : StdSortContract std_sort) (compute_uid : UniqueLonLat) (nc : Connectivity) (n : Nat)
    (a : EdgeSort) (ha : a ∈ std_sort (edge_sort_init compute_uid nc n)) :
    ∃ e : Nat, e < n ∧ a.i = (e : Int) ∧ a.g = compute_uid.row (nc.row e) := by
  have hmem := ((hsort (edge_sort_init compute_uid nc n)).1.mem_iff).mp ha
  simp only [edge_sort_init, List.mem_map, List.mem_range] at hmem
  obtain ⟨e, he, rfl⟩ := hmem
  exact ⟨e, he, rfl, rfl⟩

theorem sorted_keys (std_sort : List EdgeSort → List EdgeSort)
    (hsort : StdSortContract std_sort) (compute_uid : UniqueLonLat) (nc : Connectivity) (n : Nat) :
    ((std_sort (edge_sort_init compute_uid nc n)).map (fun es => es.g)).Sorted (· ≤ ·) ∧
    ((std_sort (edge_sort_init compute_uid nc n)).map (fun es => es.g)).Perm
      ((List.range n).map (fun e : Nat => compute_uid.row (nc.row e))) := by
  obtain ⟨hperm, hpair⟩ := hsort (edge_sort_init compute_uid nc n)
  constructor
  · unfold List.Sorted
    rw [List.pairwise_map]
    exact hpair.imp (fun hab => not_lt.mp hab)
  · have := hperm.map (fun es => es.g)
    simpa [edge_sort_init] using this

theorem incident_slots_mem (ec : Connectivity) (c : Int) (l : List Int) (e : Int)
    (he : e ∈ incident_slots ec c l) : e ∈ l := by
  induction l with
  | nil => simp [incident_slots] at he
  | cons a t ih =>
    simp only [incident_slots, List.mem_append] at he
    rcases he with h | h
    · unfold incident at h
      have : e = a := by
        simp only [List.mem_append] at h
        rcases h with h | h
        · split at h
          · simpa using h
          · simp at h
        · split at h
          · simpa using h
          · simp at h
      rw [this]
      simp
    · exact List.mem_cons_of_mem _ (ih h)

theorem incident_slots_map (ec1 ec2 : Connectivity) (c : Int) (σ : Int → Int) (l : List Int)
    (h : ∀ e ∈ l, ec2.get (σ e) 0 = ec1.get e 0 ∧ ec2.get (σ e) 1 = ec1.get e 1) :
    incident_slots ec2 c (l.map σ) = (incident_slots ec1 c l).map σ := by
  induction l with
  | nil => rfl
  | cons a t ih =>
    simp only [List.map_cons, incident_slots, List.map_append]
    rw [ih (fun e he => h e (List.mem_cons_of_mem _ he))]
    congr 1
    obtain ⟨h0, h1⟩ := h a (by simp)
    unfold incident
    rw [h0, h1, List.map_append]
    congr 1 <;> split <;> rfl

theorem reordered_range (p : List Nat) (n : Nat) (hp : p.Perm (List.range n)) :
    (List.range n).map (fun e => p.getD e 0) = p := by
  have hlen : p.length = n := by rw [hp.length_eq, List.length_range]
  apply List.ext_getElem
  · simp [hlen]
  · intro i h1 h2
    simp [List.getD_eq_getElem?_getD, List.getElem?_eq_getElem h2]

theorem reordered_lt (p : List Nat) (n : Nat) (hp : p.Perm (List.range n)) (e : Nat)
    (he : e < n) : p.getD e 0 < n := by
  have hlen : p.length = n := by rw [hp.length_eq, List.length_range]
  have hmem : p.getD e 0 ∈ p := by
    rw [List.getD_eq_getElem?_getD, List.getElem?_eq_getElem (by omega)]
    simp
  have := (hp.mem_iff).mp hmem
  simpa using this

theorem reordered_surj (p : List Nat) (n : Nat) (hp : p.Perm (List.range n)) (a : Nat)
    (ha : a < n) : ∃ e, e < n ∧ p.getD e 0 = a := by
  have hlen : p.length = n := by rw [hp.length_eq, List.length_range]
  have hmem : a ∈ p := (hp.mem_iff).mpr (by simpa using ha)
  obtain ⟨i, hi, hget⟩ := List.getElem_of_mem hmem
  refine ⟨i, by omega, ?_⟩
  rw [List.getD_eq_getElem?_getD, List.getElem?_eq_getElem hi]
  simpa using hget

/-- With pairwise distinct unique ids, the filling loop visits the edges of a reordered
table in the same order: the edge visited at each step is the same edge at its new
place. -/
theorem visited_reordered (std_sort std_sort' : List EdgeSort → List EdgeSort)
    (hsort : StdSortContract std_sort) (hsort' : StdSortContract std_sort')
    (compute_uid : UniqueLonLat) (nc1 nc2 : Connectivity) (n : Nat) (p : List Nat)
    (hp : p.Perm (List.range n))
    (huid : ∀ e : Nat, e < n →
      compute_uid.row (nc2.row (p.getD e 0 : Nat)) = compute_uid.row (nc1.row e))
    (hdist : ∀ e e' : Nat, e < n → e' < n →
      compute_uid.row (nc1.row e) = compute_uid.row (nc1.row e') → e = e') :
    visited (std_sort' (edge_sort_init compute_uid nc2 n)) n =
      (visited (std_sort (edge_sort_init compute_uid nc1 n)) n).map (reordered p) := by
  have hlenA : (std_sort (edge_sort_init compute_uid nc1 n)).length = n := by
    rw [(hsort _).1.length_eq, edge_sort_init_length]
  have hlenB : (std_sort' (edge_sort_init compute_uid nc2 n)).length = n := by
    rw [(hsort' _).1.length_eq, edge_sort_init_length]
  obtain ⟨sA, pA⟩ := sorted_keys std_sort hsort compute_uid nc1 n
  obtain ⟨sB, pB⟩ := sorted_keys std_sort' hsort' compute_uid nc2 n
  have hmid : ((List.range n).map (fun e : Nat => compute_uid.row (nc1.row e))).Perm
      ((List.range n).map (fun e : Nat => compute_uid.row (nc2.row e))) := by
    have e1 : (List.range n).map (fun e : Nat => compute_uid.row (nc1.row e)) =
        ((List.range n).map (fun e => p.getD e 0)).map
          (fun e : Nat => compute_uid.row (nc2.row e)) := by
      rw [List.map_map]
      apply List.map_congr_left
      intro e he
      exact (huid e (List.mem_range.mp he)).symm
    rw [e1, reordered_range p n hp]
    exact hp.map _
  have hkeys : (std_sort (edge_sort_init compute_uid nc1 n)).map (fun es => es.g) =
      (std_sort' (edge_sort_init compute_uid nc2 n)).map (fun es => es.g) :=
    List.eq_of_perm_of_sorted (pA.trans (hmid.trans pB.symm)) sA sB
  have hvA := visited_eq_map (std_sort (edge_sort_init compute_uid nc1 n))
  have hvB := visited_eq_map (std_sort' (edge_sort_init compute_uid nc2 n))
  rw [hlenA] at hvA
  rw [hlenB] at hvB
  rw [hvA, hvB, List.map_map]
  apply List.ext_getElem
  · simp [hlenA, hlenB]
  · intro q h1 h2
    simp only [List.length_map] at h1 h2
    simp only [List.getElem_map, Function.comp]
    obtain ⟨e1, he1, hi1, hg1⟩ := sorted_members std_sort hsort compute_uid nc1 n _
      (List.getElem_mem h2)
    obtain ⟨e2, he2, hi2, hg2⟩ := sorted_members std_sort' hsort' compute_uid nc2 n _
      (List.getElem_mem h1)
    have hg : (std_sort (edge_sort_init compute_uid nc1 n))[q].g =
        (std_sort' (edge_sort_init compute_uid nc2 n))[q].g := by
      have := congrArg (fun l => l[q]?) hkeys
      simpa [List.getElem?_eq_getElem h1, List.getElem?_eq_getElem h2] using this
    obtain ⟨e2', he2', hpe⟩ := reordered_surj p n hp e2 he2
    have h3 : compute_uid.row (nc1.row e2') = compute_uid.row (nc1.row e1) := by
      rw [← huid e2' he2', hpe, ← hg2, ← hg, hg1]
    have h4 := hdist e2' e1 he2' he1 h3
    rw [hi2, hi1]
    unfold reordered
    rw [Int.toNat_ofNat, ← h4, hpe]

theorem visited_mem (std_sort : List EdgeSort → List EdgeSort) (hsort : StdSortContract std_sort)
    (compute_uid : UniqueLonLat) (nc : Connectivity) (n : Nat) (e : Int)
    (he : e ∈ visited (std_sort (edge_sort_init compute_uid nc n)) n) :
    ∃ k : Nat, k < n ∧ e = (k : Int) := by
  have := ((visited_perm std_sort hsort compute_uid nc n).mem_iff).mp he
  simp only [List.mem_map, List.mem_range] at this
  obtain ⟨k, hk, rfl⟩ := this
  exact ⟨k, hk, rfl⟩

/-- A slot that the verification accepts was filled by the loop. -/
theorem filled_slot (alloc ec : Connectivity) (s : FillState) (vis : List Int)
    (hinv : FillInv alloc ec s vis) (c : Int) (j : Nat) (halloc : alloc.get c j = missing_value)
    (hne : s.cell_edge_connectivity.get c j ≠ missing_value) :
    j < (incident_slots ec c vis).length ∧
      s.cell_edge_connectivity.get c j = (incident_slots ec c vis).getD j 0 := by
  obtain ⟨_, _, h⟩ := hinv
  have hg := (h c).2 j
  by_cases hj : j < (incident_slots ec c vis).length
  · rw [if_pos hj] at hg
    exact ⟨hj, hg⟩
  · rw [if_neg hj, halloc] at hg
    exact absurd hg hne

/-- C4. Cell-to-edge connectivity is independent of the order of the edge table.  Let the
edge table `edges2` be a reordering of the edge table of `mesh` (the edge `e` of `mesh`
is the edge `p[e]` of `edges2`, with the same unique id and the same incident cells), and
let the edge unique ids be pairwise distinct.  When
`build_element_to_edge_connectivity_new` returns for both, every cell has the same
sequence of edge unique ids in its slots.  `std_sort` and `std_sort'` are any functions
with the contract of `std::sort`. -/
theorem build_element_to_edge_order_independent (x : Externals)
    (std_sort std_sort' : List EdgeSort → List EdgeSort)
    (hsort : StdSortContract std_sort) (hsort' : StdSortContract std_sort')
    (mesh : Mesh) (edges2 : HybridElements) (hsize : edges2.size = mesh.edges.size)
    (p : List Nat) (hp : p.Perm (List.range mesh.edges.size))
    (huid : ∀ e : Nat, e < mesh.edges.size →
      (x.unique_lonlat mesh.nodes).row (edges2.node_connectivity.row (p.getD e 0 : Nat)) =
        (x.unique_lonlat mesh.nodes).row (mesh.edges.node_connectivity.row e))
    (hcell : ∀ e : Nat, e < mesh.edges.size →
      edges2.cell_connectivity.get (p.getD e 0 : Nat) 0 = mesh.edges.cell_connectivity.get e 0 ∧
      edges2.cell_connectivity.get (p.getD e 0 : Nat) 1 = mesh.edges.cell_connectivity.get e 1)
    (hdist : ∀ e e' : Nat, e < mesh.edges.size → e' < mesh.edges.size → e ≠ e' →
      (x.unique_lonlat mesh.nodes).row (mesh.edges.node_connectivity.row e) ≠
        (x.unique_lonlat mesh.nodes).row (mesh.edges.node_connectivity.row e'))
    (mesh1 mesh2 : Mesh)
    (h1 : build_element_to_edge_connectivity_new x std_sort mesh = .ok mesh1)
    (h2 : build_element_to_edge_connectivity_new x std_sort' { mesh with edges := edges2 }
      = .ok mesh2) :
    ∀ jcell : Nat, jcell < mesh.cells.size →
      (mesh1.cells.edge_connectivity.row jcell).map
          (fun e => (x.unique_lonlat mesh.nodes).row (mesh.edges.node_connectivity.row e)) =
        (mesh2.cells.edge_connectivity.row jcell).map
          (fun e => (x.unique_lonlat mesh.nodes).row (edges2.node_connectivity.row e)) := by
  intro jcell hjcell
  rcases build_element_to_edge_spec x std_sort mesh with ⟨e, he, _⟩ | ⟨s1, hs1, hinv1, hall1⟩
  · rw [he] at h1; cases h1
  rcases build_element_to_edge_spec x std_sort' { mesh with edges := edges2 } with
    ⟨e, he, _⟩ | ⟨s2, hs2, hinv2, hall2⟩
  · rw [he] at h2; cases h2
  rw [hs1] at h1
  rw [hs2] at h2
  cases h1
  cases h2
  simp only [hsize] at hinv2 hall2
  have hvis := visited_reordered std_sort std_sort' hsort hsort' (x.unique_lonlat mesh.nodes)
    mesh.edges.node_connectivity edges2.node_connectivity mesh.edges.size p hp huid
    (fun e e' he he' heq => by
      by_contra hne
      exact hdist e e' he he' hne heq)
  rw [hvis] at hinv2
  have hmap := incident_slots_map mesh.edges.cell_connectivity edges2.cell_connectivity jcell
    (reordered p)
    (visited (std_sort (edge_sort_init (x.unique_lonlat mesh.nodes)
      mesh.edges.node_connectivity mesh.edges.size)) mesh.edges.size)
    (fun e he => by
      obtain ⟨k, hk, rfl⟩ := visited_mem std_sort hsort _ _ _ e he
      unfold reordered
      rw [Int.toNat_ofNat]
      exact hcell k hk)
  obtain ⟨_, halloc⟩ := allocate_spec mesh.cells mesh.cells.edge_connectivity
  obtain ⟨t, _, hc, hmiss⟩ := halloc jcell hjcell
  have hcols1 : s1.cell_edge_connectivity.cols jcell = t.nb_edges := by
    rw [hinv1.2.1]; exact hc
  have hcols2 : s2.cell_edge_connectivity.cols jcell = t.nb_edges := by
    rw [hinv2.2.1]; exact hc
  simp only [Connectivity.row, hcols1, hcols2, List.map_map]
  apply List.map_congr_left
  intro j hj
  have hj' : j < t.nb_edges := List.mem_range.mp hj
  obtain ⟨l1, g1⟩ := filled_slot _ _ s1 _ hinv1 jcell j (hmiss j hj')
    (hall1 jcell hjcell j (by rw [hcols1]; exact hj'))
  obtain ⟨l2, g2⟩ := filled_slot _ _ s2 _ hinv2 jcell j (hmiss j hj')
    (hall2 jcell hjcell j (by rw [hcols2]; exact hj'))
  simp only [Function.comp]
  rw [g1, g2, hmap]
  have hmem : (incident_slots mesh.edges.cell_connectivity jcell
      (visited (std_sort (edge_sort_init (x.unique_lonlat mesh.nodes)
        mesh.edges.node_connectivity mesh.edges.size)) mesh.edges.size)).getD j 0 ∈
      visited (std_sort (edge_sort_init (x.unique_lonlat mesh.nodes)
        mesh.edges.node_connectivity mesh.edges.size)) mesh.edges.size := by
    apply incident_slots_mem mesh.edges.cell_connectivity jcell
    rw [List.getD_eq_getElem?_getD, List.getElem?_eq_getElem l1]
    simp
  obtain ⟨k, hk, hek⟩ := visited_mem std_sort hsort _ _ _ _ hmem
  have hget : ((incident_slots mesh.edges.cell_connectivity jcell
      (visited (std_sort (edge_sort_init (x.unique_lonlat mesh.nodes)
        mesh.edges.node_connectivity mesh.edges.size)) mesh.edges.size)).map
          (reordered p)).getD j 0 = reordered p (k : Int) := by
    rw [List.getD_eq_getElem?_getD, List.getElem?_map, List.getElem?_eq_getElem l1]
    rw [List.getD_eq_getElem?_getD, List.getElem?_eq_getElem l1] at hek
    simp only [Option.getD_some] at hek
    simp [hek]
  rw [hget, hek]
  unfold reordered
  rw [Int.toNat_ofNat]
  exact (huid k hk).symm

theorem build_element_to_edge_order_independent_witness :
    ∃ mesh1 mesh2,
      build_element_to_edge_connectivity_new sample_externals sample_sort sample_mesh_edges
        = .ok mesh1 ∧
      build_element_to_edge_connectivity_new sample_externals sample_sort
        { sample_mesh_edges with edges := sample_edges_reordered } = .ok mesh2 ∧
      ∀ jcell : Nat, jcell < sample_mesh_edges.cells.size →
        (mesh1.cells.edge_connectivity.row jcell).map
            (fun e => (sample_externals.unique_lonlat sample_mesh_edges.nodes).row
              (sample_mesh_edges.edges.node_connectivity.row e)) =
          (mesh2.cells.edge_connectivity.row jcell).map
            (fun e => (sample_externals.unique_lonlat sample_mesh_edges.nodes).row
              (sample_edges_reordered.node_connectivity.row e)) := by
  have h1 := returned_of_has_returned
    (build_element_to_edge_connectivity_new sample_externals sample_sort sample_mesh_edges)
    sample_mesh_edges (by decide)
  have h2 := returned_of_has_returned
    (build_element_to_edge_connectivity_new sample_externals sample_sort
      { sample_mesh_edges with edges := sample_edges_reordered })
    sample_mesh_edges (by decide)
  exact ⟨_, _, h1, h2,
    build_element_to_edge_order_independent sample_externals sample_sort sample_sort
      sample_sort_contract sample_sort_contract sample_mesh_edges sample_edges_reordered
      (by decide) [4, 3, 2, 1, 0] (by decide) (by decide) (by decide)
      (fun e e' he he' =>
        (by decide : ∀ e : Nat, e < sample_mesh_edges.edges.size →
          ∀ e' : Nat, e' < sample_mesh_edges.edges.size → e ≠ e' →
            (sample_externals.unique_lonlat sample_mesh_edges.nodes).row
                (sample_mesh_edges.edges.node_connectivity.row e) ≠
              (sample_externals.unique_lonlat sample_mesh_edges.nodes).row
                (sample_mesh_edges.edges.node_connectivity.row e')) e he e' he')
      _ _ h1 h2⟩


/-! ## accumulate_pole_edges: the pairs -/

theorem pairs_flat_append (a b : List (idx_t × idx_t)) :
    pairs_flat (a ++ b) = pairs_flat a ++ pairs_flat b := by
  induction a with
  | nil => rfl
  | cons p t ih => simp [pairs_flat, ih]

theorem pairs_flat_length (a : List (idx_t × idx_t)) : (pairs_flat a).length = 2 * a.length := by
  induction a with
  | nil => rfl
  | cons p t ih => simp only [pairs_flat, List.length_cons, ih]; omega

theorem pairs_flat_getD (a : List (idx_t × idx_t)) :
    ∀ j, j < a.length →
      a.getD j (0, 0) = ((pairs_flat a).getD (2 * j) 0, (pairs_flat a).getD (2 * j + 1) 0) := by
  induction a with
  | nil => intro j hj; cases hj
  | cons p t ih =>
    intro j hj
    cases j with
    | zero => simp [pairs_flat]
    | succ j =>
      have := ih j (by simpa using hj)
      have e1 : 2 * (j + 1) = (2 * j + 1) + 1 := by omega
      rw [e1]
      simpa [pairs_flat] using this

/-- The innermost loop appends one edge per partner. -/
theorem pair_other_foldl (x : Externals) (nodes : Nodes) (node : idx_t) (l : List idx_t) :
    ∀ acc : List idx_t × Nat,
      l.foldl (pair_other x nodes node (microdeg ((nodes.lonlat node).1 + 180))) acc =
        (acc.1 ++ pairs_flat ((pole_partners x nodes l node).map (fun o => (node, o))),
          acc.2 + (pole_partners x nodes l node).length) := by
  induction l with
  | nil => intro acc; simp [pole_partners, pairs_flat]
  | cons o t ih =>
    intro acc
    simp only [List.foldl_cons]
    rw [ih]
    unfold pair_other pole_partners
    by_cases h1 : microdeg (nodes.lonlat o).1 = microdeg ((nodes.lonlat node).1 + 180)
    · by_cases h2 : x.check (nodes.flags o) x.PERIODIC = true
      · simp [h1, h2, List.filter]
      · simp [h1, h2, List.filter, pairs_flat]
        omega
    · simp [h1, List.filter]

/-- The loop over the nodes of a band appends the edges of `band_pole_pairs`. -/
theorem pair_node_foldl (x : Externals) (nodes : Nodes) (band l : List idx_t) :
    ∀ acc : List idx_t × Nat,
      l.foldl (pair_node x nodes band) acc =
        (acc.1 ++ pairs_flat (band_pole_pairs x nodes band l),
          acc.2 + (band_pole_pairs x nodes band l).length) := by
  induction l with
  | nil => intro acc; simp [band_pole_pairs, pairs_flat]
  | cons n t ih =>
    intro acc
    simp only [List.foldl_cons]
    rw [ih]
    simp only [pair_node, band_pole_pairs]
    by_cases h : x.check (nodes.flags n) (Int.lor x.PERIODIC x.GHOST) = true
    · simp [h]
    · have h' : x.check (nodes.flags n) (Int.lor x.PERIODIC x.GHOST) = false := by
        simpa using h
      simp only [h', Bool.false_eq_true, not_false_eq_true, if_true, if_false]
      rw [pair_other_foldl]
      simp only [pairs_flat_append, List.append_assoc, List.length_append, List.length_map,
        Nat.add_assoc]

/-- When `accumulate_pole_edges` returns, it returns the edges of `pole_pairs`. -/
theorem accumulate_pole_edges_pairs (x : Externals) (nodes : Nodes) (l0 : List idx_t)
    (r : List idx_t × Nat) (h : accumulate_pole_edges x nodes l0 = .ok r) :
    r = (l0 ++ pairs_flat (pole_pairs x nodes), (pole_pairs x nodes).length) := by
  obtain ⟨_, _, hr⟩ := accumulate_pole_edges_ok x nodes l0 r h
  rw [hr, pair_node_foldl, pair_node_foldl]
  simp [pole_pairs, pairs_flat_append, List.append_assoc]

theorem mem_pole_partners (x : Externals) (nodes : Nodes) (band : List idx_t) (a b : idx_t) :
    b ∈ pole_partners x nodes band a ↔
      b ∈ band ∧ microdeg (nodes.lonlat b).1 = microdeg ((nodes.lonlat a).1 + 180) ∧
        x.check (nodes.flags b) x.PERIODIC = false := by
  simp [pole_partners]

theorem mem_band_pole_pairs (x : Externals) (nodes : Nodes) (band l : List idx_t)
    (p : idx_t × idx_t) :
    p ∈ band_pole_pairs x nodes band l ↔
      p.1 ∈ l ∧ x.check (nodes.flags p.1) (Int.lor x.PERIODIC x.GHOST) = false ∧
        p.2 ∈ pole_partners x nodes band p.1 := by
  induction l with
  | nil => simp [band_pole_pairs]
  | cons n t ih =>
    simp only [band_pole_pairs, List.mem_append, ih, List.mem_cons]
    by_cases h : x.check (nodes.flags n) (Int.lor x.PERIODIC x.GHOST) = true
    · simp only [h, if_true, List.not_mem_nil, false_or]
      constructor
      · rintro ⟨h1, h2, h3⟩
        exact ⟨Or.inr h1, h2, h3⟩
      · rintro ⟨h1 | h1, h2, h3⟩
        · rw [h1, h] at h2; cases h2
        · exact ⟨h1, h2, h3⟩
    · have h' : x.check (nodes.flags n) (Int.lor x.PERIODIC x.GHOST) = false := by
        simpa using h
      simp only [h', Bool.false_eq_true, if_false, List.mem_map]
      constructor
      · rintro (⟨o, ho, rfl⟩ | ⟨h1, h2, h3⟩)
        · exact ⟨Or.inl rfl, h', ho⟩
        · exact ⟨Or.inr h1, h2, h3⟩
      · rintro ⟨h1 | h1, h2, h3⟩
        · left
          refine ⟨p.2, ?_, ?_⟩
          · rw [← h1]; exact h3
          · rw [← h1]
        · exact Or.inr ⟨h1, h2, h3⟩

theorem node_range_nodup (nodes : Nodes) : (node_range nodes).Nodup := by
  unfold node_range
  exact List.Nodup.map (fun a b h => by simpa using h) (List.nodup_range _)

theorem pole_nodes_nodup (x : Externals) (nodes : Nodes) (NS : Nat) :
    (pole_nodes x nodes NS).Nodup := by
  unfold pole_nodes pole_nodes_north pole_nodes_south
  split
  · exact (node_range_nodup nodes).filter _
  · exact (node_range_nodup nodes).filter _

theorem mem_node_range (nodes : Nodes) (n : Int) :
    n ∈ node_range nodes ↔ 0 ≤ n ∧ n < nodes.size := by
  unfold node_range
  simp only [List.mem_map, List.mem_range]
  constructor
  · rintro ⟨k, hk, rfl⟩
    exact ⟨Int.ofNat_nonneg k, Int.ofNat_lt.mpr hk⟩
  · rintro ⟨h0, h1⟩
    refine ⟨n.toNat, ?_, ?_⟩
    · omega
    · exact Int.toNat_of_nonneg h0

theorem mem_pole_nodes_north (x : Externals) (nodes : Nodes) (n : idx_t) :
    n ∈ pole_nodes x nodes 0 ↔ (0 ≤ n ∧ n < nodes.size) ∧ is_north x nodes n := by
  simp [pole_nodes, pole_nodes_north, mem_node_range]

theorem mem_pole_nodes_south (x : Externals) (nodes : Nodes) (n : idx_t) :
    n ∈ pole_nodes x nodes 1 ↔
      (0 ≤ n ∧ n < nodes.size) ∧ ¬ is_north x nodes n ∧ is_south x nodes n := by
  simp [pole_nodes, pole_nodes_south, mem_node_range]

theorem band_pole_pairs_nodup (x : Externals) (nodes : Nodes) (band : List idx_t)
    (hband : band.Nodup) :
    ∀ l : List idx_t, l.Nodup → (band_pole_pairs x nodes band l).Nodup := by
  intro l
  induction l with
  | nil => intro _; simp [band_pole_pairs]
  | cons n t ih =>
    intro hl
    rw [List.nodup_cons] at hl
    simp only [band_pole_pairs]
    rw [List.nodup_append]
    refine ⟨?_, ih hl.2, ?_⟩
    · split
      · exact List.nodup_nil
      · exact List.Nodup.map (fun a b h => by simpa using h) (hband.filter _)
    · intro p hp hq
      have h1 : p.1 = n := by
        split at hp
        · cases hp
        · obtain ⟨o, _, rfl⟩ := List.mem_map.mp hp
          rfl
      have h2 := ((mem_band_pole_pairs x nodes band t p).mp hq).1
      rw [h1] at h2
      exact hl.1 h2

theorem mem_pole_pairs (x : Externals) (nodes : Nodes) (a b : idx_t) :
    (a, b) ∈ pole_pairs x nodes ↔
      ∃ NS, NS < 2 ∧ a ∈ pole_nodes x nodes NS ∧ b ∈ pole_nodes x nodes NS ∧
        x.check (nodes.flags a) (Int.lor x.PERIODIC x.GHOST) = false ∧
        microdeg (nodes.lonlat b).1 = microdeg ((nodes.lonlat a).1 + 180) ∧
        x.check (nodes.flags b) x.PERIODIC = false := by
  simp only [pole_pairs, List.mem_append, mem_band_pole_pairs, mem_pole_partners]
  constructor
  · rintro (⟨h1, h2, h3, h4, h5⟩ | ⟨h1, h2, h3, h4, h5⟩)
    · exact ⟨0, by omega, h1, h3, h2, h4, h5⟩
    · exact ⟨1, by omega, h1, h3, h2, h4, h5⟩
  · rintro ⟨NS, hNS, h1, h3, h2, h4, h5⟩
    have hNS' : NS = 0 ∨ NS = 1 := by omega
    rcases hNS' with rfl | rfl
    · exact Or.inl ⟨h1, h2, h3, h4, h5⟩
    · exact Or.inr ⟨h1, h2, h3, h4, h5⟩

theorem pole_pairs_nodup (x : Externals) (nodes : Nodes) : (pole_pairs x nodes).Nodup := by
  unfold pole_pairs
  rw [List.nodup_append]
  refine ⟨band_pole_pairs_nodup x nodes _ (pole_nodes_nodup x nodes 0) _
      (pole_nodes_nodup x nodes 0),
    band_pole_pairs_nodup x nodes _ (pole_nodes_nodup x nodes 1) _
      (pole_nodes_nodup x nodes 1), ?_⟩
  intro p hp hq
  have h1 := ((mem_band_pole_pairs x nodes _ _ p).mp hp).1
  have h2 := ((mem_band_pole_pairs x nodes _ _ p).mp hq).1
  exact ((mem_pole_nodes_south x nodes p.1).mp h2).2.1 ((mem_pole_nodes_north x nodes p.1).mp h1).2

/-! ## Claims on the pairing of accumulate_pole_edges -/

/-- C11. For a node set of two nodes at latitude 90 with the longitudes 10 and 190 degrees
(so that the maximum latitude of the node set is 90), in the same partition, and neither
of them passing `Topology::check` for `PERIODIC | GHOST` or for `PERIODIC`,
`accumulate_pole_edges` returns exactly one pole edge, and this edge joins node 0 and
node 1. -/
theorem accumulate_pole_edges_two_polar_nodes (x : Externals) (nodes : Nodes)
    (hsize : nodes.size = 2)
    (h0 : nodes.lonlat 0 = (10, 90)) (h1 : nodes.lonlat 1 = (190, 90))
    (hpart : nodes.partition 0 = nodes.partition 1)
    (hghost : ∀ n : idx_t, n = 0 ∨ n = 1 →
      x.check (nodes.flags n) (Int.lor x.PERIODIC x.GHOST) = false)
    (hperiodic : ∀ n : idx_t, n = 0 ∨ n = 1 → x.check (nodes.flags n) x.PERIODIC = false)
    (hmax : x.all_reduce_max (local_bounds nodes).2 = (local_bounds nodes).2) :
    accumulate_pole_edges x nodes [] = .ok ([0, 1], 1) := by
  have hb : (local_bounds nodes).2 = (190, 90) := by
    simp [local_bounds, hsize, iter, h0, h1, DBL_MAX]
    norm_num
  have hg : x.all_reduce_max (190, 90) = (190, 90) := by
    rw [← hb]
    exact hmax
  have hn : pole_nodes x nodes 0 = [0, 1] := by
    simp [pole_nodes, pole_nodes_north, node_range, is_north, global_bounds, hg, hb, hsize,
      List.range_succ, List.filter, tol, h0, h1]
  have hs : pole_nodes x nodes 1 = [] := by
    simp [pole_nodes, pole_nodes_south, node_range, is_north, is_south, global_bounds, hg, hb,
      hsize, List.range_succ, List.filter, tol, h0, h1]
    norm_num
  obtain ⟨r0, hr0⟩ := sanity_check_returns nodes (pole_nodes x nodes 0) (by
    rw [hn]
    intro a ha b hb
    simp only [List.mem_cons, List.mem_singleton, List.not_mem_nil, or_false] at ha hb
    rcases ha with rfl | rfl <;> rcases hb with rfl | rfl <;> simp [hpart])
  obtain ⟨r1, hr1⟩ := sanity_check_returns nodes (pole_nodes x nodes 1) (by
    rw [hs]
    intro a ha
    cases ha)
  rw [accumulate_pole_edges_of_checks x nodes [] r0 r1 hr0 hr1, pair_node_foldl, pair_node_foldl,
    hn, hs]
  have g0 := hghost 0 (Or.inl rfl)
  have g1 := hghost 1 (Or.inr rfl)
  have p0 := hperiodic 0 (Or.inl rfl)
  have p1 := hperiodic 1 (Or.inr rfl)
  have m1 : microdeg (10 : ℚ) = 10000000 := by norm_num [microdeg]
  have m2 : microdeg (190 : ℚ) = 190000000 := by norm_num [microdeg]
  have m3 : microdeg ((10 : ℚ) + 180) = 190000000 := by norm_num [microdeg]
  have m4 : microdeg ((190 : ℚ) + 180) = 370000000 := by norm_num [microdeg]
  simp [band_pole_pairs, pole_partners, List.filter, h0, h1, g0, g1, p0, p1, m1, m2, m3, m4,
    pairs_flat]

theorem accumulate_pole_edges_two_polar_nodes_witness :
    accumulate_pole_edges sample_externals polar_pair_nodes [] = .ok ([0, 1], 1) := by
  have e1 : Int.lor 4 2 = 6 := by decide
  have e2 : Int.land 0 6 = 0 := by decide
  have e3 : Int.land 0 4 = 0 := by decide
  apply accumulate_pole_edges_two_polar_nodes
  · rfl
  · simp [polar_pair_nodes]
  · simp [polar_pair_nodes]
  · rfl
  · intro n _
    simp [polar_pair_nodes, sample_nodes, sample_externals, e1, e2]
  · intro n _
    simp [polar_pair_nodes, sample_nodes, sample_externals, e3]
  · rfl

/-- C12, as the code has it.  For every node set whose pole bands each lie within one
partition, `accumulate_pole_edges` does not raise and returns exactly the following pole
edges, each of them once: the edge `(a, b)` for every two nodes `a`, `b` of one pole band
such that `a` does not pass `Topology::check` for `PERIODIC | GHOST`, the quantized
longitude of `b` equals the quantized value of the longitude of `a` plus 180 degrees, and
`b` is not periodic.  A node without such a partner starts no edge, a node with several
partners starts several; the second node of every edge is not periodic. -/
theorem accumulate_pole_edges_pairing (x : Externals) (nodes : Nodes)
    (hone : ∀ NS, NS < 2 → ∀ a ∈ pole_nodes x nodes NS, ∀ b ∈ pole_nodes x nodes NS,
      nodes.partition a = nodes.partition b) :
    accumulate_pole_edges x nodes [] =
        .ok (pairs_flat (pole_pairs x nodes), (pole_pairs x nodes).length) ∧
      (pole_pairs x nodes).Nodup ∧
      (∀ a b, (a, b) ∈ pole_pairs x nodes ↔
        ∃ NS, NS < 2 ∧ a ∈ pole_nodes x nodes NS ∧ b ∈ pole_nodes x nodes NS ∧
          x.check (nodes.flags a) (Int.lor x.PERIODIC x.GHOST) = false ∧
          microdeg (nodes.lonlat b).1 = microdeg ((nodes.lonlat a).1 + 180) ∧
          x.check (nodes.flags b) x.PERIODIC = false) ∧
      ∀ j, j < (pole_pairs x nodes).length →
        (pole_pairs x nodes).getD j (0, 0) =
          ((pairs_flat (pole_pairs x nodes)).getD (2 * j) 0,
            (pairs_flat (pole_pairs x nodes)).getD (2 * j + 1) 0) := by
  obtain ⟨r0, h0⟩ := sanity_check_returns nodes _ (hone 0 (by omega))
  obtain ⟨r1, h1⟩ := sanity_check_returns nodes _ (hone 1 (by omega))
  refine ⟨?_, pole_pairs_nodup x nodes, mem_pole_pairs x nodes, pairs_flat_getD _⟩
  have h := accumulate_pole_edges_of_checks x nodes [] r0 r1 h0 h1
  have := accumulate_pole_edges_pairs x nodes [] _ h
  rw [h, this]
  simp

/-- C13. For every pole edge `(n1, n2)` returned by `accumulate_pole_edges`, `n1` and `n2`
are two distinct nodes of the node set, both within the tolerance of the maximum latitude
or both within the tolerance of the minimum latitude, and the quantized (microdegree)
longitude of `n2` equals the quantized value of the longitude of `n1` plus 180 degrees.
The vector returned holds two nodes per edge. -/
theorem accumulate_pole_edges_antipodal (x : Externals) (nodes : Nodes)
    (pole_edge_nodes : List idx_t) (nb_pole_edges : Nat)
    (h : accumulate_pole_edges x nodes [] = .ok (pole_edge_nodes, nb_pole_edges)) :
    pole_edge_nodes.length = 2 * nb_pole_edges ∧
    ∀ j, j < nb_pole_edges →
      pole_edge_nodes.getD (2 * j) 0 ≠ pole_edge_nodes.getD (2 * j + 1) 0 ∧
      (0 ≤ pole_edge_nodes.getD (2 * j) 0 ∧ pole_edge_nodes.getD (2 * j) 0 < nodes.size) ∧
      (0 ≤ pole_edge_nodes.getD (2 * j + 1) 0 ∧
        pole_edge_nodes.getD (2 * j + 1) 0 < nodes.size) ∧
      ((is_north x nodes (pole_edge_nodes.getD (2 * j) 0) ∧
          is_north x nodes (pole_edge_nodes.getD (2 * j + 1) 0)) ∨
        (is_south x nodes (pole_edge_nodes.getD (2 * j) 0) ∧
          is_south x nodes (pole_edge_nodes.getD (2 * j + 1) 0))) ∧
      microdeg (nodes.lonlat (pole_edge_nodes.getD (2 * j + 1) 0)).1 =
        microdeg ((nodes.lonlat (pole_edge_nodes.getD (2 * j) 0)).1 + 180) := by
  have hr := accumulate_pole_edges_pairs x nodes [] _ h
  simp only [List.nil_append, Prod.mk.injEq] at hr
  obtain ⟨hl, hn⟩ := hr
  subst hl hn
  refine ⟨pairs_flat_length _, ?_⟩
  intro j hj
  have hp := pairs_flat_getD (pole_pairs x nodes) j hj
  have hmem : (pole_pairs x nodes).getD j (0, 0) ∈ pole_pairs x nodes := by
    rw [List.getD_eq_getElem _ _ hj]
    exact List.getElem_mem _
  rw [hp, mem_pole_pairs] at hmem
  obtain ⟨NS, hNS, ha, hb, _, hm, _⟩ := hmem
  have hne : (pairs_flat (pole_pairs x nodes)).getD (2 * j) 0 ≠
      (pairs_flat (pole_pairs x nodes)).getD (2 * j + 1) 0 := by
    intro heq
    rw [← heq, microdeg_add_180] at hm
    omega
  have hNS' : NS = 0 ∨ NS = 1 := by omega
  rcases hNS' with rfl | rfl
  · rw [mem_pole_nodes_north] at ha hb
    exact ⟨hne, ha.1, hb.1, Or.inl ⟨ha.2, hb.2⟩, hm⟩
  · rw [mem_pole_nodes_south] at ha hb
    exact ⟨hne, ha.1, hb.1, Or.inr ⟨ha.2.2, hb.2.2⟩, hm⟩

theorem accumulate_pole_edges_antipodal_witness :
    ([0, 1, 2, 3] : List idx_t).length = 2 * 2 ∧
    ∀ j, j < 2 →
      ([0, 1, 2, 3] : List idx_t).getD (2 * j) 0 ≠ ([0, 1, 2, 3] : List idx_t).getD (2 * j + 1) 0 ∧
      (0 ≤ ([0, 1, 2, 3] : List idx_t).getD (2 * j) 0 ∧
        ([0, 1, 2, 3] : List idx_t).getD (2 * j) 0 < sample_nodes.size) ∧
      (0 ≤ ([0, 1, 2, 3] : List idx_t).getD (2 * j + 1) 0 ∧
        ([0, 1, 2, 3] : List idx_t).getD (2 * j + 1) 0 < sample_nodes.size) ∧
      ((is_north sample_externals sample_nodes (([0, 1, 2, 3] : List idx_t).getD (2 * j) 0) ∧
          is_north sample_externals sample_nodes
            (([0, 1, 2, 3] : List idx_t).getD (2 * j + 1) 0)) ∨
        (is_south sample_externals sample_nodes (([0, 1, 2, 3] : List idx_t).getD (2 * j) 0) ∧
          is_south sample_externals sample_nodes
            (([0, 1, 2, 3] : List idx_t).getD (2 * j + 1) 0))) ∧
      microdeg (sample_nodes.lonlat (([0, 1, 2, 3] : List idx_t).getD (2 * j + 1) 0)).1 =
        microdeg ((sample_nodes.lonlat (([0, 1, 2, 3] : List idx_t).getD (2 * j) 0)).1 + 180) :=
  accumulate_pole_edges_antipodal sample_externals sample_nodes [0, 1, 2, 3] 2
    sample_accumulate_pole_edges

theorem sample_one_partition (NS : Nat) :
    ∀ a ∈ pole_nodes sample_externals sample_nodes NS,
      ∀ b ∈ pole_nodes sample_externals sample_nodes NS,
        sample_nodes.partition a = sample_nodes.partition b := by
  intro a ha b hb
  by_cases hNS : NS = 0
  · subst hNS
    rw [sample_pole_nodes_north] at ha hb
    simp only [List.mem_cons, List.mem_singleton, List.not_mem_nil, or_false] at ha hb
    rcases ha with rfl | rfl <;> rcases hb with rfl | rfl <;> simp [sample_nodes]
  · have hs : pole_nodes sample_externals sample_nodes NS =
        pole_nodes sample_externals sample_nodes 1 := by
      simp [pole_nodes, hNS]
    rw [hs, sample_pole_nodes_south] at ha hb
    simp only [List.mem_cons, List.mem_singleton, List.not_mem_nil, or_false] at ha hb
    rcases ha with rfl | rfl <;> rcases hb with rfl | rfl <;> simp [sample_nodes]

theorem accumulate_pole_edges_pairing_witness :
    (∀ NS, NS < 2 → ∀ a ∈ pole_nodes sample_externals sample_nodes NS,
      ∀ b ∈ pole_nodes sample_externals sample_nodes NS,
        sample_nodes.partition a = sample_nodes.partition b) ∧
    accumulate_pole_edges sample_externals sample_nodes [] =
      .ok (pairs_flat (pole_pairs sample_externals sample_nodes),
        (pole_pairs sample_externals sample_nodes).length) :=
  ⟨fun NS _ => sample_one_partition NS,
    (accumulate_pole_edges_pairing sample_externals sample_nodes
      (fun NS _ => sample_one_partition NS)).1⟩

/-- C12, as stated, fails: in the node set `unpaired_nodes` each pole band lies within one
partition, the node 0 belongs to the north band and is neither periodic nor ghost, and
`accumulate_pole_edges` returns no pole edge at all, so that node 0 has no partner. -/
theorem accumulate_pole_edges_unpaired_node :
    (∀ NS, NS < 2 → ∀ a ∈ pole_nodes sample_externals unpaired_nodes NS,
      ∀ b ∈ pole_nodes sample_externals unpaired_nodes NS,
        unpaired_nodes.partition a = unpaired_nodes.partition b) ∧
    (0 : idx_t) ∈ pole_nodes sample_externals unpaired_nodes 0 ∧
    sample_externals.check (unpaired_nodes.flags 0) sample_externals.PERIODIC = false ∧
    sample_externals.check (unpaired_nodes.flags 0) sample_externals.GHOST = false ∧
    accumulate_pole_edges sample_externals unpaired_nodes [] = .ok ([], 0) := by
  have e1 : Int.lor 4 2 = 6 := by decide
  have e2 : Int.land 0 6 = 0 := by decide
  have e3 : Int.land 0 4 = 0 := by decide
  have e4 : Int.land 0 2 = 0 := by decide
  refine ⟨?_, ?_, ?_, ?_, ?_⟩
  · intro NS hNS a ha b hb
    have hNS' : NS = 0 ∨ NS = 1 := by omega
    rcases hNS' with rfl | rfl
    · rw [unpaired_pole_nodes_north] at ha hb
      simp only [List.mem_cons, List.mem_singleton, List.not_mem_nil, or_false] at ha hb
      rcases ha with rfl | rfl <;> rcases hb with rfl | rfl <;>
        simp [unpaired_nodes, sample_nodes]
    · rw [unpaired_pole_nodes_south] at ha hb
      simp only [List.mem_cons, List.mem_singleton, List.not_mem_nil, or_false] at ha hb
      rcases ha with rfl | rfl <;> rcases hb with rfl | rfl <;>
        simp [unpaired_nodes, sample_nodes]
  · rw [unpaired_pole_nodes_north]; simp
  · simp [unpaired_nodes, sample_nodes, sample_externals, e3]
  · simp [unpaired_nodes, sample_nodes, sample_externals, e4]
  · unfold accumulate_pole_edges
    rw [unpaired_pole_nodes_north, unpaired_pole_nodes_south]
    simp [sanity_check, sanity_check_step, pair_node, pair_other, unpaired_nodes, sample_nodes,
      sample_externals, microdeg, List.foldlM, bind, Except.bind, e1, e2, e3]
    norm_num
    rfl

/-! ## Claims on build_pole_edges_new -/

/-- The value of `ComputeUniquePoleEdgeIndex`: both arguments of `unique32` are the
quantized mean longitude of the two nodes. -/
theorem ComputeUniquePoleEdgeIndex_value (x : Externals) (nodes : Nodes)
    (edge_nodes : Nat → idx_t) :
    ComputeUniquePoleEdgeIndex x nodes edge_nodes =
      x.unique32
        (microdeg (((nodes.lonlat (edge_nodes 0)).1 + (nodes.lonlat (edge_nodes 1)).1) / 2))
        (microdeg (((nodes.lonlat (edge_nodes 0)).1 + (nodes.lonlat (edge_nodes 1)).1) / 2)) := by
  simp [ComputeUniquePoleEdgeIndex, iter]

/-- What `build_pole_edges_new` does to the pole-edge flags and to the edge-to-cell
connectivity, when `accumulate_pole_edges` returns. -/
theorem build_pole_edges_new_flags (x : Externals) (mesh : Mesh) (pen : List idx_t) (nb : Nat)
    (hacc : accumulate_pole_edges x mesh.nodes [] = .ok (pen, nb)) :
    ∃ mesh', build_pole_edges_new x mesh = .ok mesh' ∧
      mesh'.edges.size = mesh.edges.size + nb ∧
      mesh'.edges.cell_connectivity = mesh.edges.cell_connectivity.add_missing nb 2 ∧
      ∃ f, mesh'.edges.is_pole_edge = some f ∧
        (∀ k : Nat, k < mesh.edges.size → f k = 0) ∧
        (∀ j : Nat, j < nb → f ((mesh.edges.size + j : Nat) : Int) = 1) := by
  unfold build_pole_edges_new
  simp only [hacc]
  refine ⟨_, rfl, ?_⟩
  obtain ⟨hnew, hold, hframe⟩ := build_pole_edges_new_loop x mesh.nodes pen mesh.edges.size nb
    (build_pole_edges_new_init mesh pen nb) rfl
  generalize iter (build_pole_edges_new_body x mesh.nodes pen mesh.edges.size) nb
    (build_pole_edges_new_init mesh pen nb) = S at hnew hold hframe ⊢
  simp only [PoleEdgesState.frame, Prod.mk.injEq] at hframe
  obtain ⟨hb, _, _, hcc⟩ := hframe
  refine ⟨?_, ?_, S.is_pole_edge, rfl, ?_, ?_⟩
  · show (S.edges.blocks.map Prod.snd).sum = _
    rw [hb]
    simp [build_pole_edges_new_init, HybridElements.add, HybridElements.size]
  · show S.edges.cell_connectivity = _
    rw [hcc]
    rfl
  · intro k hk
    have hne : ∀ j, j < nb → (k : Int) ≠ ((mesh.edges.size + j : Nat) : Int) := by
      intro j _ heq
      have : k = mesh.edges.size + j := by exact_mod_cast heq
      omega
    have := congrArg PoleRecord.pole (hold (k : Int) hne)
    simp only [PoleEdgesState.record] at this
    rw [this]
    simp only [build_pole_edges_new_init]
    rw [clear_flags_apply, if_pos]
    exact ⟨by omega, by exact_mod_cast hk⟩
  · intro j hj
    have := congrArg PoleRecord.pole (hnew j hj)
    simp only [PoleEdgesState.record, PoleRecord.build] at this
    exact this

theorem sample_mesh_edges_eq :
    build_edges_new sample_externals sample_facets sample_mesh = .ok sample_mesh_edges :=
  returned_of_has_returned _ sample_mesh (by decide)

theorem sample_mesh_edges_accumulate :
    accumulate_pole_edges sample_externals sample_mesh_edges.nodes [] = .ok ([0, 1, 2, 3], 2) := by
  have hn := (build_edges_new_edge sample_externals sample_facets sample_mesh sample_mesh_edges
    (by decide) sample_mesh_edges_eq).1
  rw [hn]
  exact sample_accumulate_pole_edges

/-- C14, as the code has it, on the sample mesh: the pole edge 5 joins the nodes 0 and 1,
at (10, 90) and (190, 90); its centroid snapped to the pole is (100, 90), and the unique
id of that point is `unique32 (microdeg 100) (microdeg 90)`.  `build_pole_edges_new` gives
the edge the global id `unique32 (microdeg 100) (microdeg 100)`: the quantized mean
longitude is passed for both coordinates, and the snapped latitude is not used. -/
theorem pole_edge_global_index_longitude_twice :
    ∃ mesh', build_pole_edges_new sample_externals sample_mesh_edges = .ok mesh' ∧
      mesh'.edges.node_connectivity.get 5 0 = 0 ∧
      mesh'.edges.node_connectivity.get 5 1 = 1 ∧
      mesh'.nodes.lonlat 0 = (10, 90) ∧ mesh'.nodes.lonlat 1 = (190, 90) ∧
      mesh'.edges.global_index 5 = sample_externals.unique32 (microdeg 100) (microdeg 100) ∧
      sample_externals.unique32 (microdeg 100) (microdeg 100) ≠
        sample_externals.unique32 (microdeg 100) (microdeg 90) := by
  obtain ⟨mesh', h⟩ := build_pole_edges_new_returns sample_externals sample_mesh_edges _
    sample_mesh_edges_accumulate
  obtain ⟨pen, nb, hacc, hn, _, _, _, _, _, _, hnew⟩ :=
    build_pole_edges_new_edge sample_externals sample_mesh_edges mesh' (by decide) h
  rw [sample_mesh_edges_accumulate] at hacc
  simp only [Except.ok.injEq, Prod.mk.injEq] at hacc
  obtain ⟨hpen, hnb⟩ := hacc
  subst hpen hnb
  have hsz : sample_mesh_edges.edges.size = 5 := by decide
  obtain ⟨_, g0, g1, gi, _⟩ := hnew 0 (by omega)
  rw [hsz] at g0 g1 gi
  have hnodes : sample_mesh_edges.nodes = sample_nodes :=
    (build_edges_new_edge sample_externals sample_facets sample_mesh sample_mesh_edges
      (by decide) sample_mesh_edges_eq).1
  have g0' : mesh'.edges.node_connectivity.get 5 0 = 0 := by simpa using g0
  have g1' : mesh'.edges.node_connectivity.get 5 1 = 1 := by simpa using g1
  have gi' : mesh'.edges.global_index 5 =
      ComputeUniquePoleEdgeIndex sample_externals sample_nodes
        (fun c => mesh'.edges.node_connectivity.get 5 c) := by
    rw [← hnodes]
    simpa using gi
  refine ⟨mesh', h, g0', g1', ?_, ?_, ?_, ?_⟩
  · rw [hn, hnodes]; simp [sample_nodes]
  · rw [hn, hnodes]; simp [sample_nodes]
  · rw [gi', ComputeUniquePoleEdgeIndex_value, g0', g1']
    simp [sample_nodes]
    norm_num
  · simp [sample_externals, microdeg]
    norm_num

/-- C15. After `build_pole_edges_new` (which returns when `accumulate_pole_edges` does, with
`nb_pole_edges` pole edges), the edge count has grown by `nb_pole_edges`, the pole-edge
flag is 1 for every edge appended by this call (the local indices from the previous edge
count up to the new edge count) and 0 for every edge that existed before the call. -/
theorem build_pole_edges_new_pole_flags (x : Externals) (mesh : Mesh)
    (pole_edge_nodes : List idx_t) (nb_pole_edges : Nat)
    (hacc : accumulate_pole_edges x mesh.nodes [] = .ok (pole_edge_nodes, nb_pole_edges)) :
    ∃ mesh' f, build_pole_edges_new x mesh = .ok mesh' ∧
      mesh'.edges.is_pole_edge = some f ∧
      mesh'.edges.size = mesh.edges.size + nb_pole_edges ∧
      (∀ k : Nat, mesh.edges.size ≤ k → k < mesh'.edges.size → f k = 1) ∧
      (∀ k : Nat, k < mesh.edges.size → f k = 0) := by
  obtain ⟨mesh', h, hsz, _, f, hf, hold, hnew⟩ :=
    build_pole_edges_new_flags x mesh pole_edge_nodes nb_pole_edges hacc
  refine ⟨mesh', f, h, hf, hsz, ?_, hold⟩
  intro k h1 h2
  obtain ⟨j, rfl⟩ : ∃ j, k = mesh.edges.size + j := ⟨k - mesh.edges.size, by omega⟩
  exact hnew j (by omega)

theorem build_pole_edges_new_pole_flags_witness :
    ∃ mesh' f, build_pole_edges_new sample_externals sample_mesh_edges = .ok mesh' ∧
      mesh'.edges.is_pole_edge = some f ∧
      mesh'.edges.size = sample_mesh_edges.edges.size + 2 ∧
      (∀ k : Nat, sample_mesh_edges.edges.size ≤ k → k < mesh'.edges.size → f k = 1) ∧
      (∀ k : Nat, k < sample_mesh_edges.edges.size → f k = 0) :=
  build_pole_edges_new_pole_flags sample_externals sample_mesh_edges [0, 1, 2, 3] 2
    sample_mesh_edges_accumulate

/-- C16. After `build_pole_edges_new` on a mesh whose edge-to-cell connectivity has one row
per existing edge, both incident-cell slots of every pole edge hold the missing sentinel,
and the incident-cell slots of all previously existing edges are unchanged.  The function
returns when `accumulate_pole_edges` does. -/
theorem build_pole_edges_new_cell_slots (x : Externals) (mesh : Mesh)
    (pole_edge_nodes : List idx_t) (nb_pole_edges : Nat)
    (hcell : mesh.edges.cell_connectivity.rows = mesh.edges.size)
    (hacc : accumulate_pole_edges x mesh.nodes [] = .ok (pole_edge_nodes, nb_pole_edges)) :
    ∃ mesh', build_pole_edges_new x mesh = .ok mesh' ∧
      mesh'.edges.size = mesh.edges.size + nb_pole_edges ∧
      mesh'.edges.cell_connectivity.rows = mesh'.edges.size ∧
      (∀ k : Nat, mesh.edges.size ≤ k → k < mesh'.edges.size →
        mesh'.edges.cell_connectivity.cols k = 2 ∧
        mesh'.edges.cell_connectivity.get k 0 = missing_value ∧
        mesh'.edges.cell_connectivity.get k 1 = missing_value) ∧
      (∀ k : Nat, k < mesh.edges.size →
        mesh'.edges.cell_connectivity.cols k = mesh.edges.cell_connectivity.cols k ∧
        ∀ j, mesh'.edges.cell_connectivity.get k j = mesh.edges.cell_connectivity.get k j) := by
  obtain ⟨mesh', h, hsz, hcc, _⟩ :=
    build_pole_edges_new_flags x mesh pole_edge_nodes nb_pole_edges hacc
  refine ⟨mesh', h, hsz, ?_, ?_, ?_⟩
  · rw [hcc, hsz]
    simp [Connectivity.add_missing, Connectivity.add, hcell]
  · intro k h1 h2
    rw [hsz] at h2
    have hin : (mesh.edges.size : Int) ≤ (k : Int) ∧
        (k : Int) < (mesh.edges.size : Int) + (nb_pole_edges : Int) := by
      constructor
      · exact_mod_cast h1
      · exact_mod_cast h2
    rw [hcc]
    simp [Connectivity.add_missing, Connectivity.add, hcell, hin]
  · intro k hk
    have hout : ¬ ((mesh.edges.size : Int) ≤ (k : Int)) := by
      have : (k : Int) < (mesh.edges.size : Int) := by exact_mod_cast hk
      omega
    rw [hcc]
    simp [Connectivity.add_missing, Connectivity.add, hcell, hout]

theorem build_pole_edges_new_cell_slots_witness :
    sample_mesh_edges.edges.cell_connectivity.rows = sample_mesh_edges.edges.size ∧
    ∃ mesh', build_pole_edges_new sample_externals sample_mesh_edges = .ok mesh' ∧
      mesh'.edges.cell_connectivity.get (5 : Nat) 0 = missing_value ∧
      mesh'.edges.cell_connectivity.get (6 : Nat) 1 = missing_value ∧
      mesh'.edges.cell_connectivity.get (1 : Nat) 1 =
        sample_mesh_edges.edges.cell_connectivity.get (1 : Nat) 1 := by
  have hcell : sample_mesh_edges.edges.cell_connectivity.rows = sample_mesh_edges.edges.size := by
    decide
  have hsz : sample_mesh_edges.edges.size = 5 := by decide
  obtain ⟨mesh', h, hsz', _, hnew, hold⟩ :=
    build_pole_edges_new_cell_slots sample_externals sample_mesh_edges [0, 1, 2, 3] 2 hcell
      sample_mesh_edges_accumulate
  exact ⟨hcell, mesh', h, (hnew 5 (by omega) (by omega)).2.1, (hnew 6 (by omega) (by omega)).2.2,
    (hold 1 (by omega)).2 1⟩


/-! ## The order of the edge slots of a cell -/

theorem incident_slots_incident (ec : Connectivity) (c : Int) (l : List Int) (e : Int)
    (he : e ∈ incident_slots ec c l) : ec.get e 0 = c ∨ ec.get e 1 = c := by
  induction l with
  | nil => cases he
  | cons a t ih =>
    simp only [incident_slots, List.mem_append] at he
    rcases he with h | h
    · unfold incident at h
      simp only [List.mem_append] at h
      rcases h with h | h
      · split at h
        · rename_i hc
          simp only [List.mem_singleton] at h
          rw [h]
          exact Or.inl hc.2
        · cases h
      · split at h
        · rename_i hc
          simp only [List.mem_singleton] at h
          rw [h]
          exact Or.inr hc.2
        · cases h
    · exact ih h

/-- C17, as the code has it.  After `build_element_to_edge_connectivity_new` every cell
has as many edge slots as its element type has edges, which for a triangle and for a
quadrilateral is its number of nodes.  Slot `i` of a cell holds the `i`-th of the edges
that have the cell in one of their two incident-cell slots, in the order in which the
edges are visited, which is the ascending order of their unique ids (`std_sort` is any
function with the contract of `std::sort`); every slot holds the local index of an edge
that has the cell as an incident cell.  The order of the slots does not follow the local
node pairs of the cell. -/
theorem build_element_to_edge_slot_order (x : Externals)
    (std_sort : List EdgeSort → List EdgeSort) (hsort : StdSortContract std_sort)
    (mesh mesh' : Mesh)
    (h : build_element_to_edge_connectivity_new x std_sort mesh = .ok mesh') :
    ElementType.Triangle.nb_edges = ElementType.Triangle.nb_nodes ∧
    ElementType.Quadrilateral.nb_edges = ElementType.Quadrilateral.nb_nodes ∧
    ∀ jcell : Nat, jcell < mesh'.cells.size →
      ∃ t, mesh'.cells.type_of jcell = some t ∧
        mesh'.cells.edge_connectivity.cols jcell = t.nb_edges ∧
        ∀ jcol, jcol < t.nb_edges →
          mesh'.cells.edge_connectivity.get jcell jcol =
            (incident_slots mesh.edges.cell_connectivity jcell
              (visited
                (std_sort (edge_sort_init (x.unique_lonlat mesh.nodes)
                  mesh.edges.node_connectivity mesh.edges.size)) mesh.edges.size)).getD jcol 0 ∧
          (∃ k : Nat, k < mesh.edges.size ∧
            mesh'.cells.edge_connectivity.get jcell jcol = (k : Int)) ∧
          (mesh.edges.cell_connectivity.get (mesh'.cells.edge_connectivity.get jcell jcol) 0 =
              jcell ∨
            mesh.edges.cell_connectivity.get (mesh'.cells.edge_connectivity.get jcell jcol) 1 =
              jcell) := by
  refine ⟨rfl, rfl, ?_⟩
  rcases build_element_to_edge_spec x std_sort mesh with ⟨e, he, _⟩ | ⟨s, hs, hinv, hall⟩
  · rw [he] at h
    cases h
  · rw [hs] at h
    cases h
    intro jcell hjcell
    obtain ⟨_, halloc⟩ := allocate_spec mesh.cells mesh.cells.edge_connectivity
    obtain ⟨t, ht, hc, hmiss⟩ := halloc jcell hjcell
    have hcols := hinv.2.1
    refine ⟨t, ht, ?_, ?_⟩
    · show s.cell_edge_connectivity.cols jcell = _
      rw [hcols, hc]
    · intro jcol hjcol
      have hne := hall jcell hjcell jcol (by rw [hcols, hc]; exact hjcol)
      obtain ⟨hlt, hget⟩ := filled_slot _ _ s _ hinv jcell jcol (hmiss jcol hjcol) hne
      have hmem : s.cell_edge_connectivity.get jcell jcol ∈
          incident_slots mesh.edges.cell_connectivity jcell
            (visited
              (std_sort (edge_sort_init (x.unique_lonlat mesh.nodes)
                mesh.edges.node_connectivity mesh.edges.size)) mesh.edges.size) := by
        rw [hget, List.getD_eq_getElem _ _ hlt]
        exact List.getElem_mem _
      exact ⟨hget,
        visited_mem std_sort hsort _ _ _ _ (incident_slots_mem _ _ _ _ hmem),
        incident_slots_incident _ _ _ _ hmem⟩

theorem sample_mesh_cell_edges_eq :
    build_element_to_edge_connectivity_new sample_externals sample_sort sample_mesh_edges =
      .ok sample_mesh_cell_edges :=
  returned_of_has_returned _ sample_mesh_edges (by decide)

theorem build_element_to_edge_slot_order_witness :
    sample_mesh_cell_edges.cells.edge_connectivity.cols (0 : Nat) = 3 ∧
    (sample_mesh_edges.edges.cell_connectivity.get
        (sample_mesh_cell_edges.cells.edge_connectivity.get (0 : Nat) 0) 0 = (0 : Nat) ∨
      sample_mesh_edges.edges.cell_connectivity.get
        (sample_mesh_cell_edges.cells.edge_connectivity.get (0 : Nat) 0) 1 = (0 : Nat)) := by
  obtain ⟨t, ht, hc, hslot⟩ :=
    (build_element_to_edge_slot_order sample_externals sample_sort sample_sort_contract
      sample_mesh_edges sample_mesh_cell_edges sample_mesh_cell_edges_eq).2.2 0 (by decide)
  have ht' : sample_mesh_cell_edges.cells.type_of 0 = some .Triangle := by decide
  rw [ht'] at ht
  cases ht
  exact ⟨hc, (hslot 0 (by decide)).2.2⟩

/-- C17, as stated, fails: on the sample mesh, whose cell 0 is the triangle with the nodes
0, 1, 2, slot 0 of cell 0 holds the edge 1, and the edge 1 joins the nodes 2 and 1, the
local nodes 2 and 1 of the cell; the edge that joins the local nodes 0 and 1 of the cell
is the edge 0, which is held by slot 2. -/
theorem build_element_to_edge_slot_order_sample :
    ∃ mesh',
      build_element_to_edge_connectivity_new sample_externals sample_sort sample_mesh_edges =
        .ok mesh' ∧
      mesh'.cells.type_of 0 = some .Triangle ∧
      mesh'.cells.node_connectivity.row 0 = [0, 1, 2] ∧
      mesh'.cells.edge_connectivity.row 0 = [1, 2, 0] ∧
      mesh'.edges.node_connectivity.row 1 = [2, 1] ∧
      mesh'.edges.node_connectivity.row 0 = [1, 0] :=
  ⟨sample_mesh_cell_edges, sample_mesh_cell_edges_eq, by decide, by decide, by decide, by decide,
    by decide⟩


/-! ## ReducedGrid -/

theorem iter_length {α : Type} (body : Nat → List α → List α)
    (hbody : ∀ i l, (body i l).length = l.length) (n : Nat) (l : List α) :
    (iter body n l).length = l.length := by
  induction n with
  | zero => rfl
  | succ n ih => simp only [iter, hbody, ih]

/-- A loop that rewrites the entries `off, ..., off+n-1` of a vector in place. -/
theorem iter_set_getD (f : ℚ → ℚ) (off n : Nat) (l : List ℚ) (k : Nat) :
    (iter (fun i (l : List ℚ) => l.set (off + i) (f (l.getD (off + i) 0))) n l).getD k 0 =
      if off ≤ k ∧ k < off + n ∧ k < l.length then f (l.getD k 0) else l.getD k 0 := by
  induction n with
  | zero =>
    simp only [iter]
    rw [if_neg]
    omega
  | succ n ih =>
    have hlen := iter_length
      (fun i (l : List ℚ) => l.set (off + i) (f (l.getD (off + i) 0)))
      (fun i l => by simp) n l
    simp only [iter]
    by_cases hk : k = off + n
    · subst hk
      by_cases hl : off + n < l.length
      · rw [List.getD_eq_getElem _ _ (by simp only [List.length_set, hlen]; exact hl)]
        simp only [List.getElem_set_self]
        rw [ih, if_neg (by omega), if_pos ⟨by omega, by omega, hl⟩]
      · rw [List.getD_eq_default _ _ (by simp only [List.length_set, hlen]; omega),
          if_neg (by omega), List.getD_eq_default _ _ (by omega)]
    · by_cases hl : k < l.length
      · rw [List.getD_eq_getElem _ _ (by simp only [List.length_set, hlen]; exact hl)]
        rw [List.getElem_set_ne (by omega)]
        rw [← List.getD_eq_getElem _ 0, ih]
        by_cases hin : off ≤ k ∧ k < off + n ∧ k < l.length
        · rw [if_pos hin, if_pos ⟨hin.1, by omega, hin.2.2⟩]
        · rw [if_neg hin, if_neg (by omega)]
      · rw [List.getD_eq_default _ _ (by simp only [List.length_set, hlen]; omega),
          if_neg (by omega), List.getD_eq_default _ _ (by omega)]

theorem getD_range_map {α : Type} (f : Nat → α) (n k : Nat) (d : α) (hk : k < n) :
    ((List.range n).map f).getD k d = f k := by
  rw [List.getD_eq_getElem _ _ (by simpa using hk)]
  simp

/-- The entries of a vector filled by `std::copy` followed by `std::reverse_copy`. -/
theorem getD_mirror {α : Type} (f : Nat → α) (N k : Nat) (d : α) (hk : k < 2 * N) :
    ((List.range N).map f ++ ((List.range N).map f).reverse).getD k d =
      if k < N then f k else f (2 * N - 1 - k) := by
  by_cases h : k < N
  · rw [if_pos h, List.getD_append _ _ _ _ (by simpa using h), getD_range_map f N k d h]
  · rw [if_neg h, List.getD_append_right _ _ _ _ (by simpa using h)]
    simp only [List.length_map, List.length_range]
    rw [List.getD_eq_getElem _ _ (by simp; omega)]
    simp only [List.getElem_reverse, List.getElem_map, List.getElem_range, List.length_map,
      List.length_range]
    congr 1
    omega

/-- The loop of lines 134-143 assigns no vector and adds up the numbers of points. -/
theorem setup_lon_iter (n : Nat) (s : ReducedGrid.SetupState) :
    (iter ReducedGrid.setup_lon_body n s).grid.nlons_ = s.grid.nlons_ ∧
    (iter ReducedGrid.setup_lon_body n s).grid.lat_ = s.grid.lat_ ∧
    (iter ReducedGrid.setup_lon_body n s).grid.npts_ =
      s.grid.npts_ + ((List.range n).map (fun j => s.grid.nlons_.getD j 0)).sum := by
  induction n with
  | zero => simp [iter]
  | succ n ih =>
    obtain ⟨h1, h2, h3⟩ := ih
    simp only [iter, ReducedGrid.setup_lon_body]
    refine ⟨h1, h2, ?_⟩
    rw [h3, h1, List.range_succ, List.map_append, List.sum_append]
    simp only [List.map_cons, List.map_nil, List.sum_cons, List.sum_nil]
    omega

/-- What `setup(nlat, lats, nlons, lonmin, lonmax)` leaves in the grid. -/
theorem setup_lon_spec (g : ReducedGrid) (nlat : Nat) (lats : Nat → ℚ) (nlons : Nat → Nat)
    (lonmin lonmax : Nat → ℚ) (hnlat : 1 < nlat) :
    ∃ g', ReducedGrid.setup_lon g nlat lats nlons lonmin lonmax = .ok g' ∧
      g'.nlons_ = (List.range nlat).map nlons ∧
      g'.lat_ = (List.range nlat).map lats ∧
      g'.npts_ = ((List.range nlat).map nlons).sum := by
  unfold ReducedGrid.setup_lon
  rw [if_neg (by omega)]
  refine ⟨_, rfl, ?_⟩
  obtain ⟨h1, h2, h3⟩ := setup_lon_iter nlat
    { grid :=
        { g with
          nlons_ := (List.range nlat).map nlons
          lat_ := (List.range nlat).map lats
          lonmin_ := (List.range nlat).map lonmin
          lonmax_ := (List.range nlat).map lonmax
          npts_ := 0
          nlonmax_ := 0 }
      lon_min := 1000
      lon_max := -1000 }
  refine ⟨h1, h2, ?_⟩
  simp only [] at h3 ⊢
  rw [h3, Nat.zero_add]
  congr 1
  apply List.map_congr_left
  intro j hj
  exact getD_range_map nlons nlat j 0 (List.mem_range.mp hj)

theorem sum_mirror (l : List Nat) : (l ++ l.reverse).sum = 2 * l.sum := by
  rw [List.sum_append, List.sum_reverse]
  omega

theorem range_map_getD {α : Type} (l : List α) (d : α) :
    (List.range l.length).map (fun j => l.getD j d) = l := by
  apply List.ext_getElem
  · simp
  · intro n h1 h2
    simp [List.getD_eq_getElem?_getD, List.getElem?_eq_getElem h2]

/-- C19. For every `N >= 1`, `setup_lat_hemisphere(N, lat, lon, unit)` passes the
assertion of `setup` and leaves a grid with `2N` latitudes, on which the number of points
on latitude `j` is `lon[j]` for `j < N` and `lon[2N-1-j]` for `j >= N`, the latitude
`2N-1-j` is the negation of the latitude `j`, and `npts()` is twice the sum of
`lon[0..N-1]`. -/
theorem setup_lat_hemisphere_mirror (g : ReducedGrid) (N : Nat) (hN : 1 ≤ N) (lat : Nat → ℚ)
    (lon : Nat → Nat) (unit : AngleUnit) :
    ∃ g', ReducedGrid.setup_lat_hemisphere g N lat lon unit = .ok g' ∧
      g'.nlat = 2 * N ∧
      g'.npts_per_lat.length = 2 * N ∧
      (∀ j, j < N → g'.nlon j = lon j) ∧
      (∀ j, N ≤ j → j < 2 * N → g'.nlon j = lon (2 * N - 1 - j)) ∧
      (∀ j, j < 2 * N → g'.lat (2 * N - 1 - j) = - g'.lat j) ∧
      g'.npts = 2 * ((List.range N).map lon).sum := by
  unfold ReducedGrid.setup_lat_hemisphere ReducedGrid.setup
  simp only []
  generalize hconv : (if unit = AngleUnit.RAD then 180 * M_1_PI else 1 : ℚ) = convert
  generalize hlonmax : (fun j : Nat => List.getD (iter _ (2 * N) (List.replicate (2 * N) (0 : ℚ)))
    j 0) = lonmax
  obtain ⟨g', hg, hnl, hla, hnp⟩ := setup_lon_spec g (2 * N)
    (fun j =>
      (iter (fun i (lats : List ℚ) => lats.set (N + i) (lats.getD (N + i) 0 * -convert)) N
        (iter (fun j (lats : List ℚ) => lats.set j (lats.getD j 0 * convert)) N
          ((List.range N).map lat ++ ((List.range N).map lat).reverse))).getD j 0)
    (fun j => ((List.range N).map lon ++ ((List.range N).map lon).reverse).getD j 0)
    (fun j => (List.replicate (2 * N) (0 : ℚ)).getD j 0) lonmax (by omega)
  have hlen : ((List.range N).map lon ++ ((List.range N).map lon).reverse).length = 2 * N := by
    simp; omega
  have hnl' : g'.nlons_ = (List.range N).map lon ++ ((List.range N).map lon).reverse := by
    rw [hnl, ← hlen]
    exact range_map_getD _ 0
  have hlat : ∀ j, j < 2 * N →
      g'.lat j = if j < N then lat j * convert else lat (2 * N - 1 - j) * -convert := by
    intro j hj
    unfold ReducedGrid.lat
    rw [hla, getD_range_map _ _ _ _ hj]
    have h1 := iter_set_getD (fun v => v * -convert) N N
      (iter (fun j (lats : List ℚ) => lats.set j (lats.getD j 0 * convert)) N
          ((List.range N).map lat ++ ((List.range N).map lat).reverse)) j
    have h2 := iter_set_getD (fun v => v * convert) 0 N
      ((List.range N).map lat ++ ((List.range N).map lat).reverse) j
    simp only [Nat.zero_add] at h2
    have hl1 : (iter (fun j (lats : List ℚ) => lats.set j (lats.getD j 0 * convert)) N
        ((List.range N).map lat ++ ((List.range N).map lat).reverse)).length = 2 * N := by
      rw [iter_length _ (fun i l => by simp)]
      simp; omega
    have hl2 : ((List.range N).map lat ++ ((List.range N).map lat).reverse).length = 2 * N := by
      simp; omega
    rw [h1, h2, hl1, hl2, getD_mirror lat N j 0 hj]
    by_cases hjN : j < N
    · rw [if_neg (by omega), if_pos ⟨by omega, hjN, hj⟩, if_pos hjN, if_pos hjN]
    · rw [if_pos ⟨by omega, by omega, hj⟩, if_neg (by omega), if_neg hjN, if_neg hjN]
  refine ⟨g', hg, ?_, ?_, ?_, ?_, ?_, ?_⟩
  · unfold ReducedGrid.nlat
    rw [hla]
    simp
  · unfold ReducedGrid.npts_per_lat
    rw [hnl]
    simp
  · intro j hj
    unfold ReducedGrid.nlon
    rw [hnl', getD_mirror lon N j 0 (by omega), if_pos hj]
  · intro j h1 h2
    unfold ReducedGrid.nlon
    rw [hnl', getD_mirror lon N j 0 h2, if_neg (by omega)]
  · intro j hj
    rw [hlat j hj, hlat (2 * N - 1 - j) (by omega)]
    by_cases hjN : j < N
    · rw [if_pos hjN, if_neg (by omega)]
      have : 2 * N - 1 - (2 * N - 1 - j) = j := by omega
      rw [this]
      ring
    · rw [if_neg hjN, if_pos (by omega)]
      ring
  · unfold ReducedGrid.npts
    rw [hnp]
    have : (List.range (2 * N)).map
        (fun j => ((List.range N).map lon ++ ((List.range N).map lon).reverse).getD j 0) =
        (List.range N).map lon ++ ((List.range N).map lon).reverse := by
      rw [← hlen]
      exact range_map_getD _ 0
    rw [this, sum_mirror]

theorem setup_lat_hemisphere_mirror_witness :
    ∃ g', ReducedGrid.setup_lat_hemisphere blank_grid 3 (fun j => [75, 45, 15].getD j 0)
        (fun j => [4, 6, 8].getD j 0) .DEG = .ok g' ∧
      g'.nlat = 6 ∧ g'.npts = 36 := by
  obtain ⟨g', hg, h1, _, _, _, _, h2⟩ :=
    setup_lat_hemisphere_mirror blank_grid 3 (by decide) (fun j => [75, 45, 15].getD j 0)
      (fun j => [4, 6, 8].getD j 0) .DEG
  exact ⟨g', hg, h1, h2⟩


/-! ## MissingIfAllMissing::execute -/

theorem scan_entry_iter (missingValue : ℚ → Bool) (W : SparseMatrix) (data : Nat → ℚ)
    (values : Nat → ℚ) (s : MissingIfAllMissing.RowScan) (n : Nat) :
    (iter (MissingIfAllMissing.scan_entry missingValue W data values) n s).i = s.i + n ∧
    (iter (MissingIfAllMissing.scan_entry missingValue W data values) n s).N_entries = s.N_entries + n := by
  induction n with
  | zero => exact ⟨rfl, rfl⟩
  | succ n ih =>
    simp only [iter, MissingIfAllMissing.scan_entry]
    split <;> simp only [ih] <;> omega

/-- The loop over the entries of a row whose entries all refer to missing values. -/
theorem scan_entry_all_missing (missingValue : ℚ → Bool) (W : SparseMatrix) (data : Nat → ℚ)
    (values : Nat → ℚ) (s : MissingIfAllMissing.RowScan) (n : Nat)
    (hall : ∀ j, s.i ≤ j → j < s.i + n → missingValue (values (W.inner j)) = true) :
    (iter (MissingIfAllMissing.scan_entry missingValue W data values) n s).N_missing = s.N_missing + n ∧
    (0 < n → (iter (MissingIfAllMissing.scan_entry missingValue W data values) n s).i_missing = s.i + n - 1) := by
  induction n with
  | zero => exact ⟨rfl, fun h => absurd h (by omega)⟩
  | succ n ih =>
    obtain ⟨h1, _⟩ := ih (fun j hj1 hj2 => hall j hj1 (by omega))
    obtain ⟨hi, _⟩ := scan_entry_iter missingValue W data values s n
    simp only [iter, MissingIfAllMissing.scan_entry]
    rw [hi, hall (s.i + n) (by omega) (by omega)]
    simp only [if_true, h1, hi]
    exact ⟨by omega, fun _ => by omega⟩

/-- A loop that writes the entries `k, ..., k+n-1` of an array. -/
theorem iter_update (k n : Nat) (f : Nat → (Nat → ℚ) → ℚ) (data : Nat → ℚ) (j : Nat)
    (hj : j < k ∨ k + n ≤ j) :
    iter (fun m d => Function.update d (k + m) (f m d)) n data j = data j := by
  induction n with
  | zero => rfl
  | succ n ih =>
    simp only [iter]
    rw [Function.update_noteq (by omega), ih (by omega)]

theorem iter_update_const (k n : Nat) (g : Nat → ℚ) (data : Nat → ℚ) (j : Nat)
    (hj : k ≤ j ∧ j < k + n) :
    iter (fun m d => Function.update d (k + m) (g m)) n data j = g (j - k) := by
  induction n with
  | zero => omega
  | succ n ih =>
    simp only [iter]
    by_cases h : j = k + n
    · subst h
      rw [Function.update_same]
      congr 1
      omega
    · rw [Function.update_noteq h, ih (by omega)]

/-- A row leaves the weights outside its own entries as they are, moves the position to
the end of the row, and never resets `modif`. -/
theorem execute_row_frame (missingValue : ℚ → Bool) (is_approximately_equal : ℚ → ℚ → Bool)
    (W : SparseMatrix) (values : Nat → ℚ) (r : Nat) (s : MissingIfAllMissing.ExecuteState) :
    (MissingIfAllMissing.execute_row missingValue is_approximately_equal W values r s).i =
        s.i + (W.outer (r + 1) - s.i) ∧
    (s.modif = true →
      (MissingIfAllMissing.execute_row missingValue is_approximately_equal W values r s).modif = true) ∧
    ∀ j, j < s.i ∨ s.i + (W.outer (r + 1) - s.i) ≤ j →
      (MissingIfAllMissing.execute_row missingValue is_approximately_equal W values r s).data j = s.data j := by
  obtain ⟨hi, hn⟩ := scan_entry_iter missingValue W s.data values
    { i := s.i, i_missing := s.i, N_missing := 0, N_entries := 0, sum := 0 }
    (W.outer (r + 1) - s.i)
  simp only [Nat.zero_add] at hi hn
  unfold MissingIfAllMissing.execute_row
  simp only []
  split
  · split
    · refine ⟨hi, fun _ => rfl, ?_⟩
      intro j hj
      simp only [hn]
      exact iter_update s.i _ _ s.data j hj
    · refine ⟨hi, fun _ => rfl, ?_⟩
      intro j hj
      simp only [hn]
      exact iter_update s.i _
        (fun m d => if missingValue (values (W.inner (s.i + m))) = true then 0 else _ * d (s.i + m))
        s.data j hj
  · exact ⟨hi, fun h => h, fun _ _ => rfl⟩

/-- A row whose entries all refer to missing values: the last entry gets the weight 1,
the others the weight 0. -/
theorem execute_row_all_missing (missingValue : ℚ → Bool)
    (is_approximately_equal : ℚ → ℚ → Bool) (W : SparseMatrix) (values : Nat → ℚ) (r : Nat)
    (s : MissingIfAllMissing.ExecuteState) (hentry : s.i < W.outer (r + 1))
    (hall : ∀ j, s.i ≤ j → j < W.outer (r + 1) → missingValue (values (W.inner j)) = true) :
    (MissingIfAllMissing.execute_row missingValue is_approximately_equal W values r s).modif = true ∧
    ∀ j, s.i ≤ j → j < W.outer (r + 1) →
      (MissingIfAllMissing.execute_row missingValue is_approximately_equal W values r s).data j =
        if j = W.outer (r + 1) - 1 then 1 else 0 := by
  obtain ⟨_, hn⟩ := scan_entry_iter missingValue W s.data values
    { i := s.i, i_missing := s.i, N_missing := 0, N_entries := 0, sum := 0 }
    (W.outer (r + 1) - s.i)
  obtain ⟨hm, him⟩ := scan_entry_all_missing missingValue W s.data values
    { i := s.i, i_missing := s.i, N_missing := 0, N_entries := 0, sum := 0 }
    (W.outer (r + 1) - s.i) (fun j h1 h2 => hall j h1 (by simp only [] at h2; omega))
  simp only [Nat.zero_add] at hn hm him
  have him' := him (by omega)
  unfold MissingIfAllMissing.execute_row
  simp only []
  rw [if_pos (by rw [hm]; omega), if_pos (Or.inl (by rw [hm, hn]))]
  refine ⟨rfl, ?_⟩
  intro j h1 h2
  simp only [hn, him']
  rw [iter_update_const s.i _ (fun m => if s.i + m = s.i + (W.outer (r + 1) - s.i) - 1 then 1 else 0)
    s.data j ⟨h1, by omega⟩]
  by_cases hj : j = W.outer (r + 1) - 1
  · rw [if_pos hj, if_pos (by omega)]
  · rw [if_neg hj, if_neg (by omega)]

/-- In a compressed-row matrix the loop over the rows reaches row `n` at the position
`outer n`. -/
theorem execute_rows_position (missingValue : ℚ → Bool) (is_approximately_equal : ℚ → ℚ → Bool)
    (W : SparseMatrix) (values : Nat → ℚ) (s0 : MissingIfAllMissing.ExecuteState) (h0 : s0.i = W.outer 0)
    (hmono : ∀ r, r < W.rows → W.outer r ≤ W.outer (r + 1)) (n : Nat) (hn : n ≤ W.rows) :
    (iter (MissingIfAllMissing.execute_row missingValue is_approximately_equal W values) n s0).i = W.outer n := by
  induction n with
  | zero => exact h0
  | succ n ih =>
    simp only [iter]
    rw [(execute_row_frame missingValue is_approximately_equal W values n _).1, ih (by omega)]
    have := hmono n (by omega)
    omega

theorem outer_mono (W : SparseMatrix) (hmono : ∀ r, r < W.rows → W.outer r ≤ W.outer (r + 1))
    (a b : Nat) (hab : a ≤ b) (hb : b ≤ W.rows) : W.outer a ≤ W.outer b := by
  induction b with
  | zero =>
    have : a = 0 := by omega
    rw [this]
  | succ b ih =>
    by_cases h : a = b + 1
    · rw [h]
    · exact le_trans (ih (by omega) (by omega)) (hmono b (by omega))

theorem sum_last (f : Nat → ℚ) (n : Nat) :
    ((List.range (n + 1)).map (fun m => (if m = n then 1 else 0) * f m)).sum = f n := by
  rw [List.range_succ, List.map_append, List.sum_append]
  have hz : ((List.range n).map (fun m => (if m = n then (1 : ℚ) else 0) * f m)).sum = 0 := by
    apply List.sum_eq_zero
    intro x hx
    obtain ⟨m, hm, rfl⟩ := List.mem_map.mp hx
    have : m ≠ n := by
      have := List.mem_range.mp hm
      omega
    simp [this]
  rw [hz]
  simp

/-- C20. In `MissingIfAllMissing::execute` on a compressed-row matrix (the rows start at
non-decreasing positions from 0) whose number of columns is the size of the field, for
every row that has at least one entry and whose entries all refer to missing input
values: the call returns `true`, and after it the last entry of the row has the weight 1
and every other entry of the row the weight 0, so that the interpolated value of the row
is the input value at the column of the last entry, which is a missing value.  The shape
of the matrix is unchanged. -/
theorem execute_all_missing_row (missingValue : ℚ → Bool)
    (is_approximately_equal : ℚ → ℚ → Bool) (W : SparseMatrix) (values : Nat → ℚ) (size : Int)
    (hcols : (W.cols : Int) = size) (h0 : W.outer 0 = 0)
    (hmono : ∀ r, r < W.rows → W.outer r ≤ W.outer (r + 1))
    (r : Nat) (hr : r < W.rows) (hentry : W.outer r < W.outer (r + 1))
    (hall : ∀ j, W.outer r ≤ j → j < W.outer (r + 1) →
      missingValue (values (W.inner j)) = true) :
    ∃ W', MissingIfAllMissing.execute missingValue is_approximately_equal W values size =
        .ok (true, W') ∧
      W'.rows = W.rows ∧ W'.cols = W.cols ∧ W'.outer = W.outer ∧ W'.inner = W.inner ∧
      W'.data (W.outer (r + 1) - 1) = 1 ∧
      (∀ j, W.outer r ≤ j → j < W.outer (r + 1) - 1 → W'.data j = 0) ∧
      W'.row_value values r = values (W.inner (W.outer (r + 1) - 1)) ∧
      missingValue (values (W.inner (W.outer (r + 1) - 1))) = true := by
  have hpos := execute_rows_position missingValue is_approximately_equal W values
    { data := W.data, modif := false, i := 0 } h0.symm hmono
  -- the state after the rows up to `r`, and after the later rows
  have hinv : ∀ n, r + 1 ≤ n → n ≤ W.rows →
      (iter (MissingIfAllMissing.execute_row missingValue is_approximately_equal W values) n
        { data := W.data, modif := false, i := 0 }).modif = true ∧
      ∀ j, W.outer r ≤ j → j < W.outer (r + 1) →
        (iter (MissingIfAllMissing.execute_row missingValue is_approximately_equal W values) n
          { data := W.data, modif := false, i := 0 }).data j =
          if j = W.outer (r + 1) - 1 then 1 else 0 := by
    intro n hn1 hn2
    induction n with
    | zero => omega
    | succ n ih =>
      simp only [iter]
      by_cases hnr : n = r
      · subst hnr
        have hp := hpos n (by omega)
        have ha := execute_row_all_missing missingValue is_approximately_equal W values n _
          (by rw [hp]; exact hentry) (fun j h1 h2 => hall j (by rw [hp] at h1; exact h1) h2)
        rw [hp] at ha
        exact ha
      · obtain ⟨hm, hd⟩ := ih (by omega) (by omega)
        have hp := hpos n (by omega)
        obtain ⟨_, fm, fd⟩ := execute_row_frame missingValue is_approximately_equal W values n
          (iter (MissingIfAllMissing.execute_row missingValue is_approximately_equal W values) n
            { data := W.data, modif := false, i := 0 })
        refine ⟨fm hm, ?_⟩
        intro j h1 h2
        rw [fd j (Or.inl (by
          rw [hp]
          have := outer_mono W hmono (r + 1) n (by omega) (by omega)
          omega))]
        exact hd j h1 h2
  obtain ⟨hm, hd⟩ := hinv W.rows (by omega) (le_refl _)
  unfold MissingIfAllMissing.execute
  rw [if_neg (by rw [hcols]; exact fun h => h rfl)]
  simp only [hm]
  refine ⟨_, rfl, rfl, rfl, rfl, rfl, ?_, ?_, ?_, ?_⟩
  · show MissingIfAllMissing.ExecuteState.data (iter _ W.rows _) _ = 1
    rw [hd _ (by omega) (by omega), if_pos rfl]
  · intro j h1 h2
    show MissingIfAllMissing.ExecuteState.data (iter _ W.rows _) _ = 0
    rw [hd j h1 (by omega), if_neg (by omega)]
  · unfold SparseMatrix.row_value
    simp only []
    obtain ⟨m, hm'⟩ : ∃ m, W.outer (r + 1) - W.outer r = m + 1 :=
      ⟨W.outer (r + 1) - W.outer r - 1, by omega⟩
    have hlast : W.outer (r + 1) - 1 = W.outer r + m := by omega
    rw [hm', hlast]
    have : (List.range (m + 1)).map
        (fun n => (iter (MissingIfAllMissing.execute_row missingValue is_approximately_equal W values) W.rows
            { data := W.data, modif := false, i := 0 }).data (W.outer r + n) *
          values (W.inner (W.outer r + n))) =
        (List.range (m + 1)).map
          (fun n => (if n = m then 1 else 0) * values (W.inner (W.outer r + n))) := by
      apply List.map_congr_left
      intro n hn
      have hn' := List.mem_range.mp hn
      rw [hd (W.outer r + n) (by omega) (by omega)]
      congr 1
      by_cases h : n = m
      · rw [if_pos h, if_pos (by omega)]
      · rw [if_neg h, if_neg (by omega)]
    rw [this]
    exact sum_last (fun n => values (W.inner (W.outer r + n))) m
  · exact hall _ (by omega) (by omega)

theorem execute_all_missing_row_witness :
    ∃ W', MissingIfAllMissing.execute (fun v => decide (v = 9999)) (fun a b => decide (a = b))
        sample_matrix sample_values 3 = .ok (true, W') ∧
      W'.data 0 = 0 ∧ W'.data 1 = 1 ∧ W'.row_value sample_values 0 = 9999 := by
  obtain ⟨W', h, _, _, _, _, h1, h2, h3, _⟩ :=
    execute_all_missing_row (fun v => decide (v = 9999)) (fun a b => decide (a = b))
      sample_matrix sample_values 3 rfl rfl
      (by intro r hr
          have hr' : r < 2 := hr
          interval_cases r <;> simp [sample_matrix])
      0 (by decide) (by simp [sample_matrix])
      (by intro j h1 h2
          have h2' : j < 2 := by simpa [sample_matrix] using h2
          simp [sample_values, sample_matrix, h2'])
  refine ⟨W', h, ?_, ?_, ?_⟩
  · exact h2 0 (by simp [sample_matrix]) (by simp [sample_matrix])
  · simpa [sample_matrix] using h1
  · rw [h3]
    simp [sample_matrix, sample_values]


/-! ## Gmsh: reading what was written -/


/-- A loop returns with its invariant when every iteration keeps the invariant. -/
theorem loop_invariant {σ ε : Type} (body : Nat → σ → Except ε σ) (Inv : Nat → σ → Prop)
    (n : Nat) (s0 : σ) (h0 : Inv 0 s0)
    (hstep : ∀ i s, i < n → Inv i s → ∃ s', body i s = .ok s' ∧ Inv (i + 1) s') :
    ∃ s, loop body n s0 = .ok s ∧ Inv n s := by
  induction n with
  | zero => exact ⟨s0, rfl, h0⟩
  | succ n ih =>
    obtain ⟨s, hs, hinv⟩ := ih (fun i s hi => hstep i s (by omega))
    obtain ⟨s', hs', hinv'⟩ := hstep n s (by omega) hinv
    refine ⟨s', ?_, hinv'⟩
    simp only [loop, hs]
    exact hs'

theorem int_of_is_int (v : Int) : Gmsh.is_int (Gmsh.int_of v) := by
  unfold Gmsh.is_int Gmsh.int_of
  omega

theorem int_of_eq (v : Int) (h : Gmsh.is_int v) : Gmsh.int_of v = v := by
  unfold Gmsh.is_int at h
  unfold Gmsh.int_of
  omega

theorem read_int_skip (s : Gmsh.Stream) : Gmsh.read_int ([] :: s) = Gmsh.read_int s := by
  simp [Gmsh.read_int, Gmsh.next_token]

theorem read_int_token (v : Int) (hv : Gmsh.is_int v) (line : List Gmsh.Token)
    (rest : Gmsh.Stream) :
    Gmsh.read_int ((.int v :: line) :: rest) = .ok (v, line :: rest) := by
  simp [Gmsh.read_int, Gmsh.next_token, hv]

theorem read_double_token (reread : ℚ → ℚ) (x : ℚ) (line : List Gmsh.Token)
    (rest : Gmsh.Stream) :
    Gmsh.read_double reread ((.real x :: line) :: rest) = .ok (reread x, line :: rest) := by
  simp [Gmsh.read_double, Gmsh.next_token]

/-- Reading back the integers written on one line. -/
theorem read_ints_tokens (vs : List Int) (hvs : ∀ v ∈ vs, Gmsh.is_int v)
    (line : List Gmsh.Token) (rest : Gmsh.Stream) :
    Gmsh.read_ints vs.length ((vs.map Gmsh.Token.int ++ line) :: rest) =
      .ok (vs, line :: rest) := by
  induction vs with
  | nil => rfl
  | cons v t ih =>
    simp only [List.length_cons, List.map_cons, List.cons_append, Gmsh.read_ints]
    rw [read_int_token v (hvs v (by simp))]
    simp only []
    rw [ih (fun w hw => hvs w (by simp [hw]))]

theorem read_ints_skip (k : Nat) (s : Gmsh.Stream) :
    Gmsh.read_ints (k + 1) ([] :: s) = Gmsh.read_ints (k + 1) s := by
  simp only [Gmsh.read_ints, read_int_skip]

theorem drop_range_map {α : Type} (f : Nat → α) (N n : Nat) (hn : n < N) :
    ((List.range N).map f).drop n = f n :: ((List.range N).map f).drop (n + 1) := by
  rw [List.drop_eq_getElem_cons (by simpa using hn)]
  simp

/-- The loop over the nodes reads the node lines: the global indices come back through
`int`, and `glb_to_loc` maps the global index read for a node to the last node for which
it was read. -/
theorem read_nodes_loop (reread : ℚ → ℚ) (nodes : Gmsh.NodesSpace) (tail : Gmsh.Stream)
    (st0 : Gmsh.NodesState)
    (h0 : st0.stream = [] :: ((List.range nodes.shape0).map (Gmsh.node_line nodes) ++ tail)) :
    ∃ st, loop (Gmsh.read_node reread) nodes.shape0 st0 = .ok st ∧
      st.stream = [] :: tail ∧
      (∀ k : Nat, k < nodes.shape0 → st.glb_idx k = Gmsh.int_of (nodes.glb_idx k)) ∧
      (∀ k : Nat, k < nodes.shape0 →
        (∀ m : Nat, m < nodes.shape0 →
          Gmsh.int_of (nodes.glb_idx m) = Gmsh.int_of (nodes.glb_idx k) → m = k) →
        st.glb_to_loc (Gmsh.int_of (nodes.glb_idx k)) = k) := by
  obtain ⟨st, hst, hs, hg, hl⟩ := loop_invariant (Gmsh.read_node reread)
    (fun n st =>
      st.stream =
        [] :: (((List.range nodes.shape0).map (Gmsh.node_line nodes)).drop n ++ tail) ∧
      (∀ k : Nat, k < n → st.glb_idx k = Gmsh.int_of (nodes.glb_idx k)) ∧
      (∀ k : Nat, k < n →
        (∀ m : Nat, m < n →
          Gmsh.int_of (nodes.glb_idx m) = Gmsh.int_of (nodes.glb_idx k) → m ≤ k) →
        st.glb_to_loc (Gmsh.int_of (nodes.glb_idx k)) = k))
    nodes.shape0 st0
    ⟨by simpa using h0, fun k hk => absurd hk (by omega), fun k hk => absurd hk (by omega)⟩
    (by
      intro n st hn ⟨hs, hg, hl⟩
      rw [drop_range_map _ _ _ hn] at hs
      have hb : ∃ st', Gmsh.read_node reread n st = .ok st' ∧
          st'.stream =
            [] :: (((List.range nodes.shape0).map (Gmsh.node_line nodes)).drop (n + 1) ++ tail) ∧
          st'.glb_idx = Function.update st.glb_idx (n : Int) (Gmsh.int_of (nodes.glb_idx n)) ∧
          st'.glb_to_loc =
            Function.update st.glb_to_loc (Gmsh.int_of (nodes.glb_idx n)) (n : Int) := by
        unfold Gmsh.read_node
        rw [hs, read_int_skip]
        simp only [Gmsh.node_line, List.cons_append]
        rw [read_int_token _ (int_of_is_int _)]
        simp only []
        rw [read_double_token]
        simp only []
        rw [read_double_token]
        simp only []
        rw [read_double_token]
        exact ⟨_, rfl, rfl, rfl, rfl⟩
      obtain ⟨st', hst', hs', hg', hl'⟩ := hb
      refine ⟨st', hst', hs', ?_, ?_⟩
      · intro k hk
        rw [hg']
        simp only [Function.update_apply]
        by_cases hkn : k = n
        · subst hkn
          simp
        · have : (k : Int) ≠ (n : Int) := by exact_mod_cast hkn
          rw [if_neg this]
          exact hg k (by omega)
      · intro k hk hlast
        rw [hl']
        simp only [Function.update_apply]
        by_cases hkn : k = n
        · subst hkn
          simp
        · by_cases heq : Gmsh.int_of (nodes.glb_idx k) = Gmsh.int_of (nodes.glb_idx n)
          · have := hlast n (by omega) heq.symm
            omega
          · rw [if_neg heq]
            exact hl k (by omega) (fun m hm hmk => hlast m (by omega) hmk))
  refine ⟨st, hst, ?_, hg, ?_⟩
  · rw [List.drop_eq_nil_of_le (by simp)] at hs
    simpa using hs
  · intro k hk huniq
    exact hl k hk (fun m hm hmk => le_of_eq (huniq m hm hmk))

theorem three_blocks {α : Type} (f g h : Nat → α) (a b c : Nat) :
    (List.range a).map f ++ (List.range b).map g ++ (List.range c).map h =
      (List.range (a + b + c)).map
        (fun e => if e < a then f e else if e < a + b then g (e - a) else h (e - a - b)) := by
  rw [List.range_add, List.range_add, List.map_append, List.map_append, List.map_map,
    List.map_map]
  congr 1
  · congr 1
    · apply List.map_congr_left
      intro e he
      rw [if_pos (List.mem_range.mp he)]
    · apply List.map_congr_left
      intro e he
      have := List.mem_range.mp he
      simp only [Function.comp]
      rw [if_neg (by omega), if_pos (by omega)]
      congr 1
      omega
  · apply List.map_congr_left
    intro e he
    simp only [Function.comp]
    rw [if_neg (by omega), if_neg (by omega)]
    congr 1
    omega

theorem max_element_empty (tags : Nat → Int) (k : Nat) : Gmsh.max_element tags k k = k := by
  simp [Gmsh.max_element]

/-- Reading the line of an element written with four tags: the values that the loop body
extracts before the `switch`. -/
theorem read_element_line (glb_idx : Int → gidx_t) (sp : Gmsh.ElementSpace) (part : Nat → Int)
    (etype : Int) (nnodes : Nat) (i : Nat) (more : Gmsh.Stream)
    (hg : Gmsh.is_int (sp.glb_idx i)) (hp : Gmsh.is_int (part i)) (he : Gmsh.is_int etype)
    (hn : ∀ j, j < nnodes → Gmsh.is_int (glb_idx (sp.nodes i j))) :
    Gmsh.read_ints 3 ([] :: Gmsh.element_line glb_idx sp part etype nnodes i :: more) =
      .ok ([sp.glb_idx i, etype, 4],
        ([Gmsh.Token.int 1, .int 1, .int 1, .int (part i)] ++
          (List.range nnodes).map (fun n => Gmsh.Token.int (glb_idx (sp.nodes i n)))) :: more) ∧
    Gmsh.read_ints 4
        (([Gmsh.Token.int 1, .int 1, .int 1, .int (part i)] ++
          (List.range nnodes).map (fun n => Gmsh.Token.int (glb_idx (sp.nodes i n)))) :: more) =
      .ok ([1, 1, 1, part i],
        ((List.range nnodes).map (fun n => Gmsh.Token.int (glb_idx (sp.nodes i n)))) :: more) ∧
    Gmsh.read_ints nnodes
        (((List.range nnodes).map (fun n => Gmsh.Token.int (glb_idx (sp.nodes i n)))) :: more) =
      .ok ((List.range nnodes).map (fun n => glb_idx (sp.nodes i n)), [] :: more) := by
  have h1 : Gmsh.is_int 1 := by decide
  have h4 : Gmsh.is_int 4 := by decide
  refine ⟨?_, ?_, ?_⟩
  · rw [read_ints_skip]
    have := read_ints_tokens [sp.glb_idx i, etype, 4]
      (by
        intro v hv
        simp only [List.mem_cons, List.mem_singleton, List.not_mem_nil, or_false] at hv
        rcases hv with rfl | rfl | rfl
        · exact hg
        · exact he
        · exact h4)
      ([Gmsh.Token.int 1, .int 1, .int 1, .int (part i)] ++
        (List.range nnodes).map (fun n => Gmsh.Token.int (glb_idx (sp.nodes i n)))) more
    simpa [Gmsh.element_line] using this
  · have := read_ints_tokens [1, 1, 1, part i]
      (by
        intro v hv
        simp only [List.mem_cons, List.mem_singleton, List.not_mem_nil, or_false] at hv
        rcases hv with rfl | rfl | rfl | rfl
        · exact h1
        · exact h1
        · exact h1
        · exact hp)
      ((List.range nnodes).map (fun n => Gmsh.Token.int (glb_idx (sp.nodes i n)))) more
    simpa using this
  · have := read_ints_tokens ((List.range nnodes).map (fun n => glb_idx (sp.nodes i n)))
      (by
        intro v hv
        obtain ⟨j, hj, rfl⟩ := List.mem_map.mp hv
        exact hn j (List.mem_range.mp hj))
      [] more
    simpa [List.map_map, Function.comp] using this

/-- The loop body on the line of a quadrilateral. -/
theorem read_element_quad (glb_to_loc : Int → Int) (glb_idx : Int → gidx_t)
    (sp : Gmsh.ElementSpace) (part : Nat → Int) (i e : Nat) (more : Gmsh.Stream)
    (st : Gmsh.ElementsState)
    (hs : st.stream = [] :: Gmsh.element_line glb_idx sp part 3 4 i :: more)
    (hg : Gmsh.is_int (sp.glb_idx i)) (hp : Gmsh.is_int (part i))
    (hn : ∀ j, j < 4 → Gmsh.is_int (glb_idx (sp.nodes i j))) :
    ∃ st', Gmsh.read_element glb_to_loc e st = .ok st' ∧ st'.stream = [] :: more ∧
      st'.quad = st.quad + 1 ∧ st'.triag = st.triag ∧ st'.edge = st.edge ∧
      st'.quads = st.quads.put glb_to_loc st.quad (sp.glb_idx i) (max 0 (part i))
        ((List.range 4).map (fun n => glb_idx (sp.nodes i n))) ∧
      st'.triags = st.triags ∧ st'.edges = st.edges := by
  obtain ⟨r1, r2, r3⟩ := read_element_line glb_idx sp part 3 4 i more hg hp (by decide) hn
  simp only [List.cons_append, List.nil_append] at r1 r2
  unfold Gmsh.read_element
  rw [hs, r1]
  have h4 : (4 : Int).toNat = 4 := rfl
  simp [h4, r2, r3, max_element_empty]

/-- The loop body on the line of a triangle. -/
theorem read_element_triag (glb_to_loc : Int → Int) (glb_idx : Int → gidx_t)
    (sp : Gmsh.ElementSpace) (part : Nat → Int) (i e : Nat) (more : Gmsh.Stream)
    (st : Gmsh.ElementsState)
    (hs : st.stream = [] :: Gmsh.element_line glb_idx sp part 2 3 i :: more)
    (hg : Gmsh.is_int (sp.glb_idx i)) (hp : Gmsh.is_int (part i))
    (hn : ∀ j, j < 3 → Gmsh.is_int (glb_idx (sp.nodes i j))) :
    ∃ st', Gmsh.read_element glb_to_loc e st = .ok st' ∧ st'.stream = [] :: more ∧
      st'.quad = st.quad ∧ st'.triag = st.triag + 1 ∧ st'.edge = st.edge ∧
      st'.quads = st.quads ∧
      st'.triags = st.triags.put glb_to_loc st.triag (sp.glb_idx i) (max 0 (part i))
        ((List.range 3).map (fun n => glb_idx (sp.nodes i n))) ∧
      st'.edges = st.edges := by
  obtain ⟨r1, r2, r3⟩ := read_element_line glb_idx sp part 2 3 i more hg hp (by decide) hn
  simp only [List.cons_append, List.nil_append] at r1 r2
  unfold Gmsh.read_element
  rw [hs, r1]
  have h4 : (4 : Int).toNat = 4 := rfl
  simp [h4, r2, r3, max_element_empty]

/-- The loop body on the line of an edge written with four tags. -/
theorem read_element_edge (glb_to_loc : Int → Int) (glb_idx : Int → gidx_t)
    (sp : Gmsh.ElementSpace) (part : Nat → Int) (i e : Nat) (more : Gmsh.Stream)
    (st : Gmsh.ElementsState) (ev : Gmsh.ElementViews) (hev : st.edges = some ev)
    (hs : st.stream = [] :: Gmsh.element_line glb_idx sp part 1 2 i :: more)
    (hg : Gmsh.is_int (sp.glb_idx i)) (hp : Gmsh.is_int (part i))
    (hn : ∀ j, j < 2 → Gmsh.is_int (glb_idx (sp.nodes i j))) :
    ∃ st', Gmsh.read_element glb_to_loc e st = .ok st' ∧ st'.stream = [] :: more ∧
      st'.quad = st.quad ∧ st'.triag = st.triag ∧ st'.edge = st.edge + 1 ∧
      st'.quads = st.quads ∧ st'.triags = st.triags ∧
      st'.edges = some (ev.put glb_to_loc st.edge (sp.glb_idx i) (max 0 (part i))
        ((List.range 2).map (fun n => glb_idx (sp.nodes i n)))) := by
  obtain ⟨r1, r2, r3⟩ := read_element_line glb_idx sp part 1 2 i more hg hp (by decide) hn
  simp only [List.cons_append, List.nil_append] at r1 r2
  unfold Gmsh.read_element
  rw [hs, r1]
  have h4 : (4 : Int).toNat = 4 := rfl
  simp [h4, r2, r3, max_element_empty, hev]

/-- The loop body on the line of an edge written with two tags. -/
theorem read_element_edge_two_tags (glb_to_loc : Int → Int) (glb_idx : Int → gidx_t)
    (sp : Gmsh.ElementSpace) (i e : Nat) (more : Gmsh.Stream)
    (st : Gmsh.ElementsState) (ev : Gmsh.ElementViews) (hev : st.edges = some ev)
    (hs : st.stream = [] :: Gmsh.edge_line_two_tags glb_idx sp i :: more)
    (hg : Gmsh.is_int (sp.glb_idx i))
    (hn : ∀ j, j < 2 → Gmsh.is_int (glb_idx (sp.nodes i j))) :
    ∃ st', Gmsh.read_element glb_to_loc e st = .ok st' ∧ st'.stream = [] :: more ∧
      st'.quad = st.quad ∧ st'.triag = st.triag ∧ st'.edge = st.edge + 1 ∧
      st'.quads = st.quads ∧ st'.triags = st.triags ∧
      st'.edges = some (ev.put glb_to_loc st.edge (sp.glb_idx i) 0
        ((List.range 2).map (fun n => glb_idx (sp.nodes i n)))) := by
  have h1 : Gmsh.is_int 1 := by decide
  have h2 : Gmsh.is_int 2 := by decide
  have r1 := read_ints_tokens [sp.glb_idx i, 1, 2]
    (by
      intro v hv
      simp only [List.mem_cons, List.mem_singleton, List.not_mem_nil, or_false] at hv
      rcases hv with rfl | rfl | rfl
      · exact hg
      · exact h1
      · exact h2)
    ([Gmsh.Token.int 1, .int 1] ++
      (List.range 2).map (fun n => Gmsh.Token.int (glb_idx (sp.nodes i n)))) more
  have r2 := read_ints_tokens [1, 1]
    (by
      intro v hv
      simp only [List.mem_cons, List.mem_singleton, List.not_mem_nil, or_false] at hv
      rcases hv with rfl | rfl <;> exact h1)
    ((List.range 2).map (fun n => Gmsh.Token.int (glb_idx (sp.nodes i n)))) more
  have r3 := read_ints_tokens ((List.range 2).map (fun n => glb_idx (sp.nodes i n)))
    (by
      intro v hv
      obtain ⟨j, hj, rfl⟩ := List.mem_map.mp hv
      exact hn j (List.mem_range.mp hj))
    [] more
  simp only [List.length_cons, List.length_nil, List.map_cons, List.map_nil, List.cons_append,
    List.nil_append, List.length_map, List.length_range, List.map_map, List.append_nil,
    Nat.zero_add, Nat.reduceAdd] at r1 r2 r3
  unfold Gmsh.read_element
  rw [hs, read_ints_skip]
  simp only [Gmsh.edge_line_two_tags, List.cons_append, List.nil_append]
  rw [r1]
  have h4 : (2 : Int).toNat = 2 := rfl
  have r3' : Gmsh.read_ints 2
      ((List.range 2).map (fun n => Gmsh.Token.int (glb_idx (sp.nodes i n))) :: more) =
      .ok ((List.range 2).map (fun n => glb_idx (sp.nodes i n)), [] :: more) := by
    simpa [Function.comp] using r3
  simp [h4, r2, r3', hev]

theorem count_element_line (g etype : Int) (rest : List Gmsh.Token) (more : Gmsh.Stream)
    (e : Nat) (st : Gmsh.CountState) (hg : Gmsh.is_int g) (h0 : 0 ≤ etype) (h20 : etype < 20)
    (hs : st.stream = (.int g :: .int etype :: rest) :: more ∨
      st.stream = [] :: (.int g :: .int etype :: rest) :: more) :
    Gmsh.count_element e st =
      .ok
        { stream := more
          nb_etype := Function.update st.nb_etype etype (st.nb_etype etype + 1)
          elements_max_glb_idx := max st.elements_max_glb_idx g } := by
  have he : Gmsh.is_int etype := by
    unfold Gmsh.is_int
    omega
  unfold Gmsh.count_element
  rcases hs with hs | hs
  · rw [hs, read_int_token g hg]
    simp only []
    rw [read_int_token etype he]
    simp [Gmsh.getline, h0, h20]
  · rw [hs, read_int_skip, read_int_token g hg]
    simp only []
    rw [read_int_token etype he]
    simp [Gmsh.getline, h0, h20]

/-- Every line of an element starts with the global index and the element type. -/
theorem written_line_head (glb_idx : Int → gidx_t) (space : Option Gmsh.ElementSpace)
    (etype : Int) (nnodes e : Nat)
    (h : etype = 1 ∨ ∃ p, (space.getD Gmsh.no_space).partition = some p) :
    ∃ rest, Gmsh.written_line glb_idx space etype nnodes e =
      .int ((space.getD Gmsh.no_space).glb_idx e) :: .int etype :: rest := by
  unfold Gmsh.written_line
  cases hp : (space.getD Gmsh.no_space).partition with
  | some p => exact ⟨_, rfl⟩
  | none =>
    rcases h with h | ⟨p, h⟩
    · subst h
      exact ⟨_, rfl⟩
    · rw [hp] at h
      cases h

theorem holds_put (v : Gmsh.ElementViews) (glb_to_loc : Int → Int)
    (space : Option Gmsh.ElementSpace) (nnodes c : Nat) (gn : List Int) (g part : Int)
    (hlen : gn.length = nnodes) (hg : g = (space.getD Gmsh.no_space).glb_idx c)
    (hnodes : ∀ j, j < nnodes →
      glb_to_loc (gn.getD j 0) = (space.getD Gmsh.no_space).nodes c j)
    (hprev : ∀ i, i < c → v.holds space nnodes i) :
    ∀ i, i < c + 1 → (v.put glb_to_loc c g part gn).holds space nnodes i := by
  intro i hi
  unfold Gmsh.ElementViews.holds Gmsh.ElementViews.put
  by_cases hic : i = c
  · subst hic
    simp only [Function.update_same]
    refine ⟨hg, ?_⟩
    intro j hj
    rw [if_pos (by omega)]
    exact hnodes j hj
  · simp only [Function.update_noteq hic]
    exact hprev i (by omega)

/-- The head of the line of the element `e` among all the elements written. -/
theorem written_element_head (glb_idx : Int → gidx_t) (mesh : Gmsh.Mesh) (nq nt ne : Nat)
    (hqp : 0 < nq → ∃ p, (mesh.quads.getD Gmsh.no_space).partition = some p)
    (htp : 0 < nt → ∃ p, (mesh.triags.getD Gmsh.no_space).partition = some p)
    (hq : (mesh.quads.getD Gmsh.no_space).writable mesh.nodes nq 4)
    (ht : (mesh.triags.getD Gmsh.no_space).writable mesh.nodes nt 3)
    (he : (mesh.edges.getD Gmsh.no_space).writable mesh.nodes ne 2)
    (e : Nat) (hlt : e < nq + nt + ne) :
    ∃ g etype rest, Gmsh.written_element glb_idx mesh nq nt e = .int g :: .int etype :: rest ∧
      Gmsh.is_int g ∧
      etype = (if e < nq then 3 else if e < nq + nt then 2 else 1) := by
  unfold Gmsh.written_element
  by_cases h1 : e < nq
  · rw [if_pos h1]
    obtain ⟨rest, hr⟩ := written_line_head glb_idx mesh.quads 3 4 e (Or.inr (hqp (by omega)))
    exact ⟨_, _, rest, hr, (hq e h1).1, by rw [if_pos h1]⟩
  · rw [if_neg h1]
    by_cases h2 : e < nq + nt
    · rw [if_pos h2]
      obtain ⟨rest, hr⟩ := written_line_head glb_idx mesh.triags 2 3 (e - nq)
        (Or.inr (htp (by omega)))
      exact ⟨_, _, rest, hr, (ht (e - nq) (by omega)).1, by rw [if_neg h1, if_pos h2]⟩
    · rw [if_neg h2]
      obtain ⟨rest, hr⟩ := written_line_head glb_idx mesh.edges 1 2 (e - nq - nt) (Or.inl rfl)
      exact ⟨_, _, rest, hr, (he (e - nq - nt) (by omega)).1, by rw [if_neg h1, if_neg h2]⟩

/-- The loop that counts the element types finds the numbers of elements written. -/
theorem count_elements_loop (glb_idx : Int → gidx_t) (mesh : Gmsh.Mesh) (nq nt ne : Nat)
    (tail : Gmsh.Stream)
    (hqp : 0 < nq → ∃ p, (mesh.quads.getD Gmsh.no_space).partition = some p)
    (htp : 0 < nt → ∃ p, (mesh.triags.getD Gmsh.no_space).partition = some p)
    (hq : (mesh.quads.getD Gmsh.no_space).writable mesh.nodes nq 4)
    (ht : (mesh.triags.getD Gmsh.no_space).writable mesh.nodes nt 3)
    (he : (mesh.edges.getD Gmsh.no_space).writable mesh.nodes ne 2) :
    ∃ st, loop Gmsh.count_element (nq + nt + ne)
        { stream :=
            [] :: ((List.range (nq + nt + ne)).map (Gmsh.written_element glb_idx mesh nq nt)
              ++ tail)
          nb_etype := fun _ => 0
          elements_max_glb_idx := 0 } = .ok st ∧
      st.nb_etype 3 = nq ∧ st.nb_etype 2 = nt ∧ st.nb_etype 1 = ne := by
  obtain ⟨st, hst, _, _, h3, h2, h1⟩ := loop_invariant Gmsh.count_element
    (fun e st =>
      (e = 0 → st.stream =
        [] :: (((List.range (nq + nt + ne)).map (Gmsh.written_element glb_idx mesh nq nt)).drop e
          ++ tail)) ∧
      (0 < e → st.stream =
        ((List.range (nq + nt + ne)).map (Gmsh.written_element glb_idx mesh nq nt)).drop e
          ++ tail) ∧
      st.nb_etype 3 = ((min e nq : Nat) : Int) ∧
      st.nb_etype 2 = ((min (e - nq) nt : Nat) : Int) ∧
      st.nb_etype 1 = ((min (e - nq - nt) ne : Nat) : Int))
    (nq + nt + ne)
    { stream :=
        [] :: ((List.range (nq + nt + ne)).map (Gmsh.written_element glb_idx mesh nq nt)
          ++ tail)
      nb_etype := fun _ => 0
      elements_max_glb_idx := 0 }
    ⟨fun _ => by simp, fun h => absurd h (by omega), by simp, by simp, by simp⟩
    (by
      intro e st hlt ⟨hs0, hs1, c3, c2, c1⟩
      obtain ⟨g, etype, rest, hline, hg, hetype⟩ :=
        written_element_head glb_idx mesh nq nt ne hqp htp hq ht he e hlt
      have hdrop := drop_range_map (Gmsh.written_element glb_idx mesh nq nt) (nq + nt + ne) e hlt
      rw [hline] at hdrop
      have hs : st.stream =
            (.int g :: .int etype :: rest) ::
              (((List.range (nq + nt + ne)).map
                (Gmsh.written_element glb_idx mesh nq nt)).drop (e + 1) ++ tail) ∨
          st.stream =
            [] :: (.int g :: .int etype :: rest) ::
              (((List.range (nq + nt + ne)).map
                (Gmsh.written_element glb_idx mesh nq nt)).drop (e + 1) ++ tail) := by
        by_cases he0 : e = 0
        · right
          rw [hs0 he0, hdrop]
          rfl
        · left
          rw [hs1 (by omega), hdrop]
          rfl
      have hcase : (e < nq ∧ etype = 3) ∨ (nq ≤ e ∧ e < nq + nt ∧ etype = 2) ∨
          (nq + nt ≤ e ∧ etype = 1) := by
        rw [hetype]
        by_cases h1 : e < nq
        · exact Or.inl ⟨h1, by rw [if_pos h1]⟩
        · by_cases h2 : e < nq + nt
          · exact Or.inr (Or.inl ⟨by omega, h2, by rw [if_neg h1, if_pos h2]⟩)
          · exact Or.inr (Or.inr ⟨by omega, by rw [if_neg h1, if_neg h2]⟩)
      rcases hcase with ⟨k1, rfl⟩ | ⟨k1, k2, rfl⟩ | ⟨k1, rfl⟩
      · refine ⟨_, count_element_line g 3 rest _ e st hg (by omega) (by omega) hs,
          fun h => absurd h (by omega), fun _ => rfl, ?_, ?_, ?_⟩
        · simp [Function.update_apply, c3]
          omega
        · simp [Function.update_apply, c2]
          omega
        · simp [Function.update_apply, c1]
          omega
      · refine ⟨_, count_element_line g 2 rest _ e st hg (by omega) (by omega) hs,
          fun h => absurd h (by omega), fun _ => rfl, ?_, ?_, ?_⟩
        · simp [Function.update_apply, c3]
          omega
        · simp [Function.update_apply, c2]
          omega
        · simp [Function.update_apply, c1]
          omega
      · refine ⟨_, count_element_line g 1 rest _ e st hg (by omega) (by omega) hs,
          fun h => absurd h (by omega), fun _ => rfl, ?_, ?_, ?_⟩
        · simp [Function.update_apply, c3]
          omega
        · simp [Function.update_apply, c2]
          omega
        · simp [Function.update_apply, c1]
          omega)
  refine ⟨st, hst, ?_, ?_, ?_⟩
  · rw [h3]; congr 1; omega
  · rw [h2]; congr 1; omega
  · rw [h1]; congr 1; omega

/-- What the nodes of a written element give when read back: with global indices that are
`int` values and are mapped back to their nodes by `glb_to_loc`, the nodes of the
element. -/
theorem written_nodes (glb_to_loc : Int → Int) (glb_idx : Int → gidx_t)
    (nodes : Gmsh.NodesSpace) (sp : Gmsh.ElementSpace) (nb nnodes : Nat)
    (hw : sp.writable nodes nb nnodes)
    (hg2l : ∀ k : Int, 0 ≤ k → k < nodes.shape0 →
      Gmsh.is_int (glb_idx k) ∧ glb_to_loc (glb_idx k) = k)
    (i : Nat) (hi : i < nb) :
    (∀ j, j < nnodes → Gmsh.is_int (glb_idx (sp.nodes i j))) ∧
    ∀ j, j < nnodes →
      glb_to_loc (((List.range nnodes).map (fun n => glb_idx (sp.nodes i n))).getD j 0) =
        sp.nodes i j := by
  constructor
  · intro j hj
    obtain ⟨h0, h1⟩ := (hw i hi).2.2 j hj
    exact (hg2l _ h0 h1).1
  · intro j hj
    obtain ⟨h0, h1⟩ := (hw i hi).2.2 j hj
    rw [getD_range_map _ _ _ _ hj]
    exact (hg2l _ h0 h1).2

/-- The loop that reads the elements fills the views with the elements written. -/
theorem read_elements_loop (glb_to_loc : Int → Int) (glb_idx : Int → gidx_t)
    (mesh : Gmsh.Mesh) (nq nt ne : Nat) (tail : Gmsh.Stream) (st0 : Gmsh.ElementsState)
    (h0s : st0.stream =
      [] :: ((List.range (nq + nt + ne)).map (Gmsh.written_element glb_idx mesh nq nt) ++ tail))
    (h0q : st0.quad = 0) (h0t : st0.triag = 0) (h0e : st0.edge = 0)
    (h0v : 0 < ne → ∃ ev, st0.edges = some ev)
    (hqp : 0 < nq → ∃ p, (mesh.quads.getD Gmsh.no_space).partition = some p)
    (htp : 0 < nt → ∃ p, (mesh.triags.getD Gmsh.no_space).partition = some p)
    (hq : (mesh.quads.getD Gmsh.no_space).writable mesh.nodes nq 4)
    (ht : (mesh.triags.getD Gmsh.no_space).writable mesh.nodes nt 3)
    (he : (mesh.edges.getD Gmsh.no_space).writable mesh.nodes ne 2)
    (hg2l : ∀ k : Int, 0 ≤ k → k < mesh.nodes.shape0 →
      Gmsh.is_int (glb_idx k) ∧ glb_to_loc (glb_idx k) = k) :
    ∃ st, loop (Gmsh.read_element glb_to_loc) (nq + nt + ne) st0 = .ok st ∧
      (∀ i, i < nq → st.quads.holds mesh.quads 4 i) ∧
      (∀ i, i < nt → st.triags.holds mesh.triags 3 i) ∧
      (0 < ne → ∃ ev, st.edges = some ev ∧ ∀ i, i < ne → ev.holds mesh.edges 2 i) ∧
      (ne = 0 → st.edges = st0.edges) := by
  obtain ⟨st, hst, _, cq, ct, ce, vq, vt, ve, vn⟩ := loop_invariant
    (Gmsh.read_element glb_to_loc)
    (fun e st =>
      st.stream =
        [] :: (((List.range (nq + nt + ne)).map (Gmsh.written_element glb_idx mesh nq nt)).drop e
          ++ tail) ∧
      st.quad = min e nq ∧ st.triag = min (e - nq) nt ∧ st.edge = min (e - nq - nt) ne ∧
      (∀ i, i < st.quad → st.quads.holds mesh.quads 4 i) ∧
      (∀ i, i < st.triag → st.triags.holds mesh.triags 3 i) ∧
      (0 < ne → ∃ ev, st.edges = some ev ∧ ∀ i, i < st.edge → ev.holds mesh.edges 2 i) ∧
      (ne = 0 → st.edges = st0.edges))
    (nq + nt + ne) st0
    ⟨by simpa using h0s, by rw [h0q]; omega, by rw [h0t]; omega, by rw [h0e]; omega,
      fun i hi => absurd hi (by omega), fun i hi => absurd hi (by omega),
      fun h => by
        obtain ⟨ev, hev⟩ := h0v h
        exact ⟨ev, hev, fun i hi => absurd hi (by omega)⟩,
      fun _ => rfl⟩
    (by
      intro e st hlt ⟨hs, cq, ct, ce, vq, vt, ve, vn⟩
      rw [drop_range_map _ _ _ hlt] at hs
      simp only []
      generalize hrest : ((List.range (nq + nt + ne)).map
        (Gmsh.written_element glb_idx mesh nq nt)).drop (e + 1) = rest at hs ⊢
      unfold Gmsh.written_element at hs
      by_cases h1 : e < nq
      · -- a quadrilateral
        rw [if_pos h1] at hs
        obtain ⟨p, hp⟩ := hqp (by omega)
        unfold Gmsh.written_line at hs
        simp only [hp] at hs
        obtain ⟨hint, hback⟩ := written_nodes glb_to_loc glb_idx mesh.nodes _ nq 4 hq hg2l e h1
        obtain ⟨st', hst', hs', q', t', e', vq', vt', ve'⟩ :=
          read_element_quad glb_to_loc glb_idx _ p e e _ st hs (hq e h1).1
            ((hq e h1).2.1 p hp) hint
        have hqe : st.quad = e := by omega
        refine ⟨st', hst', hs', by omega, by omega, by omega, ?_, ?_, ?_, ?_⟩
        · rw [q', vq', hqe]
          exact holds_put st.quads glb_to_loc mesh.quads 4 e _ _ _ (by simp) rfl hback
            (fun i hi => vq i (by omega))
        · rw [t', vt']
          exact vt
        · rw [e', ve']
          exact ve
        · rw [ve']
          exact vn
      · rw [if_neg h1] at hs
        by_cases h2 : e < nq + nt
        · -- a triangle
          rw [if_pos h2] at hs
          obtain ⟨p, hp⟩ := htp (by omega)
          unfold Gmsh.written_line at hs
          simp only [hp] at hs
          obtain ⟨hint, hback⟩ := written_nodes glb_to_loc glb_idx mesh.nodes _ nt 3 ht hg2l
            (e - nq) (by omega)
          obtain ⟨st', hst', hs', q', t', e', vq', vt', ve'⟩ :=
            read_element_triag glb_to_loc glb_idx _ p (e - nq) e _ st hs
              (ht (e - nq) (by omega)).1 ((ht (e - nq) (by omega)).2.1 p hp) hint
          have hte : st.triag = e - nq := by omega
          refine ⟨st', hst', hs', by omega, by omega, by omega, ?_, ?_, ?_, ?_⟩
          · rw [q', vq']
            exact vq
          · rw [t', vt', hte]
            exact holds_put st.triags glb_to_loc mesh.triags 3 (e - nq) _ _ _ (by simp) rfl
              hback (fun i hi => vt i (by omega))
          · rw [e', ve']
            exact ve
          · rw [ve']
            exact vn
        · -- an edge
          rw [if_neg h2] at hs
          have hne : 0 < ne := by omega
          obtain ⟨ev, hev, hholds⟩ := ve hne
          obtain ⟨hint, hback⟩ := written_nodes glb_to_loc glb_idx mesh.nodes _ ne 2 he hg2l
            (e - nq - nt) (by omega)
          have hee : st.edge = e - nq - nt := by omega
          unfold Gmsh.written_line at hs
          cases hp : (mesh.edges.getD Gmsh.no_space).partition with
          | some p =>
            simp only [hp] at hs
            obtain ⟨st', hst', hs', q', t', e', vq', vt', ve'⟩ :=
              read_element_edge glb_to_loc glb_idx _ p (e - nq - nt) e _ st ev hev hs
                (he (e - nq - nt) (by omega)).1 ((he (e - nq - nt) (by omega)).2.1 p hp) hint
            refine ⟨st', hst', hs', by omega, by omega, by omega, ?_, ?_, ?_, ?_⟩
            · rw [q', vq']
              exact vq
            · rw [t', vt']
              exact vt
            · intro _
              refine ⟨_, ve', ?_⟩
              rw [e', hee]
              exact holds_put ev glb_to_loc mesh.edges 2 (e - nq - nt) _ _ _ (by simp) rfl
                hback (fun i hi => hholds i (by omega))
            · intro h
              omega
          | none =>
            simp only [hp] at hs
            obtain ⟨st', hst', hs', q', t', e', vq', vt', ve'⟩ :=
              read_element_edge_two_tags glb_to_loc glb_idx _ (e - nq - nt) e _ st ev hev hs
                (he (e - nq - nt) (by omega)).1 hint
            refine ⟨st', hst', hs', by omega, by omega, by omega, ?_, ?_, ?_, ?_⟩
            · rw [q', vq']
              exact vq
            · rw [t', vt']
              exact vt
            · intro _
              refine ⟨_, ve', ?_⟩
              rw [e', hee]
              exact holds_put ev glb_to_loc mesh.edges 2 (e - nq - nt) _ _ _ (by simp) rfl
                hback (fun i hi => hholds i (by omega))
            · intro h
              omega)
  refine ⟨st, hst, ?_, ?_, ?_, vn⟩
  · intro i hi
    exact vq i (by omega)
  · intro i hi
    exact vt i (by omega)
  · intro h
    obtain ⟨ev, hev, hh⟩ := ve h
    exact ⟨ev, hev, fun i hi => hh i (by omega)⟩

/-- The elements part of `read` on the element lines written: the three function spaces
hold the elements written. -/
theorem read_elements_written (glb_to_loc : Int → Int) (glb_idx : Int → gidx_t)
    (nodes' : Gmsh.NodesSpace) (mesh : Gmsh.Mesh) (nq nt ne : Nat)
    (hqp : 0 < nq → ∃ p, (mesh.quads.getD Gmsh.no_space).partition = some p)
    (htp : 0 < nt → ∃ p, (mesh.triags.getD Gmsh.no_space).partition = some p)
    (hq : (mesh.quads.getD Gmsh.no_space).writable mesh.nodes nq 4)
    (ht : (mesh.triags.getD Gmsh.no_space).writable mesh.nodes nt 3)
    (he : (mesh.edges.getD Gmsh.no_space).writable mesh.nodes ne 2)
    (hg2l : ∀ k : Int, 0 ≤ k → k < mesh.nodes.shape0 →
      Gmsh.is_int (glb_idx k) ∧ glb_to_loc (glb_idx k) = k)
    (htotal : nq + nt + ne ≤ 2147483647) :
    ∃ mesh', Gmsh.read_elements glb_to_loc nodes' [.word "$Elements"]
        ([.int ((nq + nt + ne : Nat) : Int)] ::
          ((List.range (nq + nt + ne)).map (Gmsh.written_element glb_idx mesh nq nt) ++
            [[.word "$EndElements"]])) = .ok mesh' ∧
      mesh'.nodes = nodes' ∧
      (∃ q', mesh'.quads = some q' ∧ q'.shape0 = nq ∧
        ∀ i, i < nq → q'.glb_idx i = (mesh.quads.getD Gmsh.no_space).glb_idx i ∧
          ∀ j, j < 4 → q'.nodes i j = (mesh.quads.getD Gmsh.no_space).nodes i j) ∧
      (∃ t', mesh'.triags = some t' ∧ t'.shape0 = nt ∧
        ∀ i, i < nt → t'.glb_idx i = (mesh.triags.getD Gmsh.no_space).glb_idx i ∧
          ∀ j, j < 3 → t'.nodes i j = (mesh.triags.getD Gmsh.no_space).nodes i j) ∧
      (0 < ne → ∃ e', mesh'.edges = some e' ∧ e'.shape0 = ne ∧
        ∀ i, i < ne → e'.glb_idx i = (mesh.edges.getD Gmsh.no_space).glb_idx i ∧
          ∀ j, j < 2 → e'.nodes i j = (mesh.edges.getD Gmsh.no_space).nodes i j) ∧
      (ne = 0 → mesh'.edges = none) := by
  obtain ⟨counted, hcount, c3, c2, c1⟩ :=
    count_elements_loop glb_idx mesh nq nt ne [[.word "$EndElements"]] hqp htp hq ht he
  obtain ⟨st, hst, vq, vt, ve, vn⟩ := read_elements_loop glb_to_loc glb_idx mesh nq nt ne
    [[.word "$EndElements"]]
    { stream :=
        [] :: ((List.range (nq + nt + ne)).map (Gmsh.written_element glb_idx mesh nq nt) ++
          [[.word "$EndElements"]])
      tags := fun _ => 0, quad := 0, triag := 0, edge := 0
      quads := Gmsh.new_views, triags := Gmsh.new_views
      edges := if (ne : Int) > 0 then some Gmsh.new_views else none }
    rfl rfl rfl rfl
    (fun h => ⟨Gmsh.new_views, by
      have : (ne : Int) > 0 := by exact_mod_cast h
      simp only [this, if_true]⟩)
    hqp htp hq ht he hg2l
  have hint : Gmsh.is_int ((nq + nt + ne : Nat) : Int) := by
    unfold Gmsh.is_int
    omega
  have htoNat : (((nq + nt + ne : Nat) : Int)).toNat = nq + nt + ne := Int.toNat_ofNat _
  unfold Gmsh.read_elements
  simp only [Gmsh.skip_to, if_true]
  rw [read_int_token _ hint]
  simp only [htoNat, hcount, c1, c2, c3, hst]
  refine ⟨_, rfl, rfl, ⟨_, rfl, ?_, ?_⟩, ⟨_, rfl, ?_, ?_⟩, ?_, ?_⟩
  · simp [Gmsh.ElementViews.space]
  · intro i hi
    exact vq i hi
  · simp [Gmsh.ElementViews.space]
  · intro i hi
    exact vt i hi
  · intro h
    obtain ⟨ev, hev, hh⟩ := ve h
    simp only [hev]
    refine ⟨_, rfl, ?_, ?_⟩
    · simp [Gmsh.ElementViews.space]
    · intro i hi
      exact hh i hi
  · intro h
    have : st.edges = none := by
      rw [vn h]
      simp [h]
    simp only [this]

theorem cell_lines_ok (glb_idx : Int → gidx_t) (space : Option Gmsh.ElementSpace) (nb : Nat)
    (etype : Int) (nnodes : Nat) (lines : List (List Gmsh.Token))
    (hnone : space = none → nb = 0)
    (h : Gmsh.cell_lines glb_idx space nb etype nnodes = .ok lines) :
    lines = (List.range nb).map (Gmsh.written_line glb_idx space etype nnodes) ∧
      (0 < nb → ∃ p, (space.getD Gmsh.no_space).partition = some p) := by
  unfold Gmsh.cell_lines at h
  by_cases hnb : nb = 0
  · rw [if_pos hnb] at h
    cases h
    subst hnb
    exact ⟨rfl, fun h => absurd h (by omega)⟩
  · rw [if_neg hnb] at h
    cases space with
    | none => exact absurd (hnone rfl) hnb
    | some sp =>
      simp only [] at h
      cases hp : sp.partition with
      | none =>
        rw [hp] at h
        cases h
      | some p =>
        rw [hp] at h
        simp only [Except.ok.injEq] at h
        refine ⟨?_, fun _ => ⟨p, hp⟩⟩
        rw [← h]
        apply List.map_congr_left
        intro e _
        simp [Gmsh.written_line, hp]

theorem edge_lines_ok (glb_idx : Int → gidx_t) (space : Option Gmsh.ElementSpace) (nb : Nat)
    (lines : List (List Gmsh.Token)) (hnone : space = none → nb = 0)
    (h : Gmsh.edge_lines glb_idx space nb = .ok lines) :
    lines = (List.range nb).map (Gmsh.written_line glb_idx space 1 2) := by
  unfold Gmsh.edge_lines at h
  by_cases hnb : nb = 0
  · rw [if_pos hnb] at h
    cases h
    subst hnb
    rfl
  · rw [if_neg hnb] at h
    cases space with
    | none => exact absurd (hnone rfl) hnb
    | some sp =>
      simp only [] at h
      cases hp : sp.partition with
      | none =>
        rw [hp] at h
        simp only [Except.ok.injEq] at h
        rw [← h]
        apply List.map_congr_left
        intro e _
        simp [Gmsh.written_line, hp]
      | some p =>
        rw [hp] at h
        simp only [Except.ok.injEq] at h
        rw [← h]
        apply List.map_congr_left
        intro e _
        simp [Gmsh.written_line, hp]

/-- The lines of the file that `write` returns. -/
theorem write_ok (o : Gmsh.Options) (mesh : Gmsh.Mesh) (file : List (List Gmsh.Token))
    (h : Gmsh.write o mesh = .ok file) :
    file =
      [.word "$MeshFormat"] :: [.real (11 / 5), .int 0, .int 8] :: [.word "$EndMeshFormat"] ::
        [.word "$Nodes"] :: [.int (mesh.nodes.shape0 : Int)] ::
          ((List.range mesh.nodes.shape0).map (Gmsh.node_line mesh.nodes) ++
            ([.word "$EndNodes"] :: [.word "$Elements"] ::
              [.int ((Gmsh.nb_quads o mesh + Gmsh.nb_triags o mesh + Gmsh.nb_edges o mesh : Nat)
                : Int)] ::
              ((List.range
                  (Gmsh.nb_quads o mesh + Gmsh.nb_triags o mesh + Gmsh.nb_edges o mesh)).map
                (Gmsh.written_element mesh.nodes.glb_idx mesh (Gmsh.nb_quads o mesh)
                  (Gmsh.nb_triags o mesh)) ++ [[.word "$EndElements"]]))) ∧
      (0 < Gmsh.nb_quads o mesh →
        ∃ p, (mesh.quads.getD Gmsh.no_space).partition = some p) ∧
      (0 < Gmsh.nb_triags o mesh →
        ∃ p, (mesh.triags.getD Gmsh.no_space).partition = some p) := by
  unfold Gmsh.write at h
  simp only [] at h
  split at h
  · cases h
  · split at h
    · cases h
    · rename_i ql hql
      split at h
      · cases h
      · rename_i tl htl
        split at h
        · cases h
        · rename_i el hel
          simp only [Except.ok.injEq] at h
          obtain ⟨hq1, hq2⟩ := cell_lines_ok _ _ _ _ _ ql
            (fun hn => by simp [Gmsh.nb_quads, hn]) hql
          obtain ⟨ht1, ht2⟩ := cell_lines_ok _ _ _ _ _ tl
            (fun hn => by simp [Gmsh.nb_triags, hn]) htl
          have he1 := edge_lines_ok _ _ _ el (fun hn => by simp [Gmsh.nb_edges, hn]) hel
          refine ⟨?_, hq2, ht2⟩
          have hE : (List.range
                (Gmsh.nb_quads o mesh + Gmsh.nb_triags o mesh + Gmsh.nb_edges o mesh)).map
              (Gmsh.written_element mesh.nodes.glb_idx mesh (Gmsh.nb_quads o mesh)
                (Gmsh.nb_triags o mesh)) =
              (List.range (Gmsh.nb_quads o mesh)).map
                  (Gmsh.written_line mesh.nodes.glb_idx mesh.quads 3 4) ++
                (List.range (Gmsh.nb_triags o mesh)).map
                  (Gmsh.written_line mesh.nodes.glb_idx mesh.triags 2 3) ++
                (List.range (Gmsh.nb_edges o mesh)).map
                  (Gmsh.written_line mesh.nodes.glb_idx mesh.edges 1 2) :=
            (three_blocks _ _ _ _ _ _).symm
          rw [← h, hq1, ht1, he1, hE]
          simp [Gmsh.write_header_ascii]

theorem skip_to_mesh_format (line : List Gmsh.Token) (rest : Gmsh.Stream) :
    Gmsh.skip_to "$MeshFormat" [] ([.word "$MeshFormat"] :: line :: rest) = .ok (line :: rest) := by
  simp [Gmsh.skip_to]

theorem skip_to_nodes (line : List Gmsh.Token) (rest : Gmsh.Stream) :
    Gmsh.skip_to "$Nodes" [.word "$MeshFormat"]
      ([] :: [.word "$EndMeshFormat"] :: [.word "$Nodes"] :: line :: rest) =
      .ok (line :: rest) := by
  simp [Gmsh.skip_to]

theorem read_format (rest : Gmsh.Stream) :
    Gmsh.read_ints 2 ([.int 0, .int 8] :: rest) = .ok ([0, 8], [] :: rest) := by
  simp [Gmsh.read_ints, Gmsh.read_int, Gmsh.next_token, Gmsh.is_int]

theorem read_size_t_token (n : Nat) (hn : n < 18446744073709551616) (rest : Gmsh.Stream) :
    Gmsh.read_size_t ([.int (n : Int)] :: rest) = .ok (n, [] :: rest) := by
  have : (n : Int) < 18446744073709551616 := by exact_mod_cast hn
  simp [Gmsh.read_size_t, Gmsh.next_token, this]

/-- The header part of `read`, stage by stage: when the lines up to the number of nodes
are read as stated, what remains is `read_nodes`. -/
theorem read_header_stages (reread : ℚ → ℚ) (deg : ℚ) (file s1 s2 s3 s4 s5 : Gmsh.Stream)
    (version : ℚ) (format : List Int) (n : Nat)
    (h1 : Gmsh.skip_to "$MeshFormat" [] file = .ok s1)
    (h2 : Gmsh.read_double reread s1 = .ok (version, s2))
    (h3 : Gmsh.read_ints 2 s2 = .ok (format, s3))
    (h4 : format.getD 0 0 = 0)
    (h5 : Gmsh.skip_to "$Nodes" [.word "$MeshFormat"] s3 = .ok s4)
    (h6 : Gmsh.read_size_t s4 = .ok (n, s5)) :
    Gmsh.read reread deg file = Gmsh.read_nodes reread deg n s5 := by
  rw [Gmsh.read, h1]
  simp only [h2, h3, h5, h6, h4, ne_eq, not_true_eq_false, if_false]

/-- The header part of `read` on a file that starts like a file written by `write`. -/
theorem read_written_header (reread : ℚ → ℚ) (deg : ℚ) (n : Nat) (body : Gmsh.Stream)
    (hn : n < 18446744073709551616) :
    Gmsh.read reread deg
      ([.word "$MeshFormat"] :: [.real (11 / 5), .int 0, .int 8] :: [.word "$EndMeshFormat"] ::
        [.word "$Nodes"] :: [.int (n : Int)] :: body) =
      Gmsh.read_nodes reread deg n ([] :: body) :=
  read_header_stages reread deg _ _ _ _ _ _ _ _ n
    (skip_to_mesh_format _ _) (read_double_token reread _ _ _) (read_format _)
    (List.getD_cons_zero) (skip_to_nodes _ _) (read_size_t_token n hn _)

theorem writable_getD (space : Option Gmsh.ElementSpace) (nodes : Gmsh.NodesSpace)
    (nb nnodes : Nat) (hnone : space = none → nb = 0)
    (h : ∀ sp, space = some sp → sp.writable nodes nb nnodes) :
    (space.getD Gmsh.no_space).writable nodes nb nnodes := by
  cases space with
  | none =>
    intro e he
    have := hnone rfl
    omega
  | some sp => exact h sp rfl

theorem sample_gmsh_write :
    Gmsh.write Gmsh.default_options sample_gmsh_mesh = .ok sample_gmsh_file := by
  simp [Gmsh.write, sample_gmsh_mesh, sample_gmsh_file, Gmsh.cell_lines, Gmsh.edge_lines,
    Gmsh.nb_quads, Gmsh.nb_triags, Gmsh.nb_edges, Gmsh.nb_owned_or_all, Gmsh.default_options,
    Gmsh.write_header_ascii, Gmsh.node_line, Gmsh.element_line, Gmsh.edge_line_two_tags,
    List.range_succ, Gmsh.int_of]
  norm_num

theorem wide_index_write :
    Gmsh.write Gmsh.default_options wide_index_mesh = .ok wide_index_file := by
  simp [Gmsh.write, wide_index_mesh, wide_index_file, Gmsh.cell_lines, Gmsh.edge_lines,
    Gmsh.nb_quads, Gmsh.nb_triags, Gmsh.nb_edges, Gmsh.write_header_ascii, Gmsh.node_line,
    List.range_succ, Gmsh.int_of]

theorem wide_index_read (reread : ℚ → ℚ) (deg : ℚ) :
    ∃ mesh', Gmsh.read reread deg wide_index_file = .ok mesh' ∧ mesh'.nodes.shape0 = 2 ∧
      mesh'.nodes.glb_idx 0 = 1 ∧ mesh'.nodes.glb_idx 1 = 1 := by
  simp [wide_index_file, Gmsh.read, Gmsh.read_nodes, Gmsh.skip_to, Gmsh.read_double,
    Gmsh.next_token, Gmsh.read_ints, Gmsh.read_int, Gmsh.is_int, Gmsh.read_size_t, loop,
    Gmsh.read_node, Gmsh.getline, Gmsh.read_elements]

/-- What the loop over the entries of a row has counted and added up after `n` entries. -/
theorem scan_entry_stats (missingValue : ℚ → Bool) (W : SparseMatrix) (data : Nat → ℚ)
    (values : Nat → ℚ) (s : MissingIfAllMissing.RowScan) (n : Nat) :
    (iter (MissingIfAllMissing.scan_entry missingValue W data values) n s).sum =
      s.sum + ((List.range n).map
        (fun m => if missingValue (values (W.inner (s.i + m))) = true then 0
          else data (s.i + m))).sum ∧
    s.N_missing ≤ (iter (MissingIfAllMissing.scan_entry missingValue W data values) n s).N_missing ∧
    (iter (MissingIfAllMissing.scan_entry missingValue W data values) n s).N_missing ≤
      s.N_missing + n ∧
    ((∃ m, m < n ∧ missingValue (values (W.inner (s.i + m))) = true) →
      s.N_missing <
        (iter (MissingIfAllMissing.scan_entry missingValue W data values) n s).N_missing) ∧
    ((∃ m, m < n ∧ missingValue (values (W.inner (s.i + m))) = false) →
      (iter (MissingIfAllMissing.scan_entry missingValue W data values) n s).N_missing <
        s.N_missing + n) := by
  induction n with
  | zero =>
    refine ⟨by simp [iter], le_refl _, le_refl _, ?_, ?_⟩
    · rintro ⟨m, hm, _⟩
      omega
    · rintro ⟨m, hm, _⟩
      omega
  | succ n ih =>
    obtain ⟨hsum, hlo, hhi, hex, hno⟩ := ih
    obtain ⟨hi, _⟩ := scan_entry_iter missingValue W data values s n
    simp only [iter, MissingIfAllMissing.scan_entry]
    rw [hi, List.range_succ, List.map_append, List.sum_append]
    simp only [List.map_cons, List.map_nil, List.sum_cons, List.sum_nil]
    cases hmv : missingValue (values (W.inner (s.i + n)))
    · simp only [Bool.false_eq_true, if_false]
      refine ⟨by rw [hsum]; ring, hlo, by omega, ?_, fun _ => by omega⟩
      rintro ⟨m, hm, hmt⟩
      have hmn : m ≠ n := by
        intro h
        rw [h, hmv] at hmt
        cases hmt
      exact hex ⟨m, by omega, hmt⟩
    · simp only [if_true]
      refine ⟨by rw [hsum]; ring, by omega, by omega, fun _ => by omega, ?_⟩
      rintro ⟨m, hm, hmf⟩
      have hmn : m ≠ n := by
        intro h
        rw [h, hmv] at hmf
        cases hmf
      have := hno ⟨m, by omega, hmf⟩
      omega

/-- A loop that rewrites each of the entries `k, ..., k+n-1` of an array from its own old
value. -/
theorem iter_update_own (k n : Nat) (g : Nat → ℚ → ℚ) (data : Nat → ℚ) (j : Nat)
    (hj : k ≤ j ∧ j < k + n) :
    iter (fun m d => Function.update d (k + m) (g m (d (k + m)))) n data j =
      g (j - k) (data j) := by
  induction n with
  | zero => omega
  | succ n ih =>
    simp only [iter]
    by_cases h : j = k + n
    · subst h
      rw [Function.update_same,
        iter_update k n (fun m d => g m (d (k + m))) data (k + n) (Or.inr (le_refl _))]
      congr 1
      omega
    · rw [Function.update_noteq h, ih (by omega)]

/-- A row with a missing and a non-missing entry whose non-missing weights have a sum that
is not approximately zero: the weights at missing inputs become 0, the others are
multiplied by `1 / sum`. -/
theorem execute_row_mixed (missingValue : ℚ → Bool)
    (is_approximately_equal : ℚ → ℚ → Bool) (W : SparseMatrix) (values : Nat → ℚ) (r : Nat)
    (s : MissingIfAllMissing.ExecuteState) (hle : s.i ≤ W.outer (r + 1))
    (hmiss : ∃ j, s.i ≤ j ∧ j < W.outer (r + 1) ∧ missingValue (values (W.inner j)) = true)
    (hsome : ∃ j, s.i ≤ j ∧ j < W.outer (r + 1) ∧ missingValue (values (W.inner j)) = false)
    (hsum : is_approximately_equal
      ((List.range (W.outer (r + 1) - s.i)).map
        (fun m => if missingValue (values (W.inner (s.i + m))) = true then 0
          else s.data (s.i + m))).sum 0 = false) :
    (MissingIfAllMissing.execute_row missingValue is_approximately_equal W values r s).modif =
      true ∧
    ∀ j, s.i ≤ j → j < W.outer (r + 1) →
      (MissingIfAllMissing.execute_row missingValue is_approximately_equal W values r s).data j =
        if missingValue (values (W.inner j)) = true then 0
        else 1 / ((List.range (W.outer (r + 1) - s.i)).map
          (fun m => if missingValue (values (W.inner (s.i + m))) = true then 0
            else s.data (s.i + m))).sum * s.data j := by
  obtain ⟨_, hn⟩ := scan_entry_iter missingValue W s.data values
    { i := s.i, i_missing := s.i, N_missing := 0, N_entries := 0, sum := 0 }
    (W.outer (r + 1) - s.i)
  obtain ⟨hs, _, _, hex, hno⟩ := scan_entry_stats missingValue W s.data values
    { i := s.i, i_missing := s.i, N_missing := 0, N_entries := 0, sum := 0 }
    (W.outer (r + 1) - s.i)
  simp only [Nat.zero_add, zero_add] at hn hs hex hno
  have hpos := hex (by
    obtain ⟨j, h1, h2, h3⟩ := hmiss
    refine ⟨j - s.i, by omega, ?_⟩
    have : s.i + (j - s.i) = j := by omega
    rw [this]
    exact h3)
  have hlt := hno (by
    obtain ⟨j, h1, h2, h3⟩ := hsome
    refine ⟨j - s.i, by omega, ?_⟩
    have : s.i + (j - s.i) = j := by omega
    rw [this]
    exact h3)
  unfold MissingIfAllMissing.execute_row
  simp only []
  rw [if_pos hpos, if_neg (by
    rw [hn, hs, hsum]
    intro h
    rcases h with h | h
    · omega
    · cases h)]
  refine ⟨rfl, ?_⟩
  intro j h1 h2
  simp only [hn, hs]
  rw [iter_update_own s.i _
    (fun m v => if missingValue (values (W.inner (s.i + m))) = true then 0 else _ * v)
    s.data j ⟨h1, by omega⟩]
  have : s.i + (j - s.i) = j := by omega
  simp only [this]

/-- The rows before row `n` leave the weights of the later rows as they are. -/
theorem execute_rows_frame (missingValue : ℚ → Bool) (is_approximately_equal : ℚ → ℚ → Bool)
    (W : SparseMatrix) (values : Nat → ℚ) (h0 : W.outer 0 = 0)
    (hmono : ∀ r, r < W.rows → W.outer r ≤ W.outer (r + 1)) (n : Nat) (hn : n ≤ W.rows)
    (j : Nat) (hj : W.outer n ≤ j) :
    (iter (MissingIfAllMissing.execute_row missingValue is_approximately_equal W values) n
      { data := W.data, modif := false, i := 0 }).data j = W.data j := by
  induction n with
  | zero => rfl
  | succ n ih =>
    have hpos := execute_rows_position missingValue is_approximately_equal W values
      { data := W.data, modif := false, i := 0 } h0.symm hmono n (by omega)
    have hm := hmono n (by omega)
    simp only [iter]
    rw [(execute_row_frame missingValue is_approximately_equal W values n _).2.2 j
      (Or.inr (by rw [hpos]; omega))]
    exact ih (by omega) (by omega)

/-- C21. In `MissingIfAllMissing::execute` on a compressed-row matrix (the rows start at
non-decreasing positions from 0) whose number of columns is the size of the field, with a
test `is_approximately_equal` that accepts equal numbers: for every row that has an entry
at a missing input and an entry at a non-missing input, and whose non-missing weights have
a sum `s` that is not approximately zero, the call returns `true`, and after it every
entry of the row at a missing input has the weight 0 and every other entry of the row has
its old weight divided by `s`; the weights of the row add up to 1, and the interpolated
value of the row does not depend on the input values that are missing.  The shape of the
matrix is unchanged. -/
theorem execute_mixed_row (missingValue : ℚ → Bool)
    (is_approximately_equal : ℚ → ℚ → Bool)
    (happrox : ∀ a, is_approximately_equal a a = true)
    (W : SparseMatrix) (values : Nat → ℚ) (size : Int)
    (hcols : (W.cols : Int) = size) (h0 : W.outer 0 = 0)
    (hmono : ∀ r, r < W.rows → W.outer r ≤ W.outer (r + 1))
    (r : Nat) (hr : r < W.rows)
    (hmiss : ∃ j, W.outer r ≤ j ∧ j < W.outer (r + 1) ∧
      missingValue (values (W.inner j)) = true)
    (hsome : ∃ j, W.outer r ≤ j ∧ j < W.outer (r + 1) ∧
      missingValue (values (W.inner j)) = false)
    (hsum : is_approximately_equal (W.nonmissing_sum missingValue values r) 0 = false) :
    ∃ W', MissingIfAllMissing.execute missingValue is_approximately_equal W values size =
        .ok (true, W') ∧
      W'.rows = W.rows ∧ W'.cols = W.cols ∧ W'.outer = W.outer ∧ W'.inner = W.inner ∧
      (∀ j, W.outer r ≤ j → j < W.outer (r + 1) →
        W'.data j =
          if missingValue (values (W.inner j)) = true then 0
          else W.data j / W.nonmissing_sum missingValue values r) ∧
      W'.row_sum r = 1 ∧
      ∀ values' : Nat → ℚ,
        (∀ j, W.outer r ≤ j → j < W.outer (r + 1) →
          missingValue (values (W.inner j)) = false → values' (W.inner j) = values (W.inner j)) →
        W'.row_value values' r = W'.row_value values r := by
  have hpos := execute_rows_position missingValue is_approximately_equal W values
    { data := W.data, modif := false, i := 0 } h0.symm hmono
  have hs0 : W.nonmissing_sum missingValue values r ≠ 0 := by
    intro h
    rw [h, happrox 0] at hsum
    cases hsum
  have hle : W.outer r ≤ W.outer (r + 1) := hmono r hr
  -- the state after the rows up to `r`, and after the later rows
  have hinv : ∀ n, r + 1 ≤ n → n ≤ W.rows →
      (iter (MissingIfAllMissing.execute_row missingValue is_approximately_equal W values) n
        { data := W.data, modif := false, i := 0 }).modif = true ∧
      ∀ j, W.outer r ≤ j → j < W.outer (r + 1) →
        (iter (MissingIfAllMissing.execute_row missingValue is_approximately_equal W values) n
          { data := W.data, modif := false, i := 0 }).data j =
          if missingValue (values (W.inner j)) = true then 0
          else W.data j / W.nonmissing_sum missingValue values r := by
    intro n hn1 hn2
    induction n with
    | zero => omega
    | succ n ih =>
      simp only [iter]
      by_cases hnr : n = r
      · subst hnr
        have hp := hpos n (by omega)
        have hdata : ∀ j, W.outer n ≤ j →
            (iter (MissingIfAllMissing.execute_row missingValue is_approximately_equal W values)
              n { data := W.data, modif := false, i := 0 }).data j = W.data j :=
          fun j hj => execute_rows_frame missingValue is_approximately_equal W values h0 hmono
            n (by omega) j hj
        have hsum' : ((List.range (W.outer (n + 1) - W.outer n)).map
            (fun m => if missingValue (values (W.inner (W.outer n + m))) = true then 0
              else (iter
                (MissingIfAllMissing.execute_row missingValue is_approximately_equal W values)
                n { data := W.data, modif := false, i := 0 }).data (W.outer n + m))).sum =
            W.nonmissing_sum missingValue values n := by
          unfold SparseMatrix.nonmissing_sum
          congr 1
          apply List.map_congr_left
          intro m _
          rw [hdata _ (by omega)]
        have ha := execute_row_mixed missingValue is_approximately_equal W values n
          (iter (MissingIfAllMissing.execute_row missingValue is_approximately_equal W values)
            n { data := W.data, modif := false, i := 0 })
          (by rw [hp]; exact hle) (by rw [hp]; exact hmiss) (by rw [hp]; exact hsome)
          (by rw [hp, hsum']; exact hsum)
        rw [hp, hsum'] at ha
        refine ⟨ha.1, ?_⟩
        intro j h1 h2
        rw [ha.2 j h1 h2, hdata j h1]
        by_cases hm : missingValue (values (W.inner j)) = true
        · rw [if_pos hm, if_pos hm]
        · rw [if_neg hm, if_neg hm]
          ring
      · obtain ⟨hm, hd⟩ := ih (by omega) (by omega)
        have hp := hpos n (by omega)
        obtain ⟨_, fm, fd⟩ := execute_row_frame missingValue is_approximately_equal W values n
          (iter (MissingIfAllMissing.execute_row missingValue is_approximately_equal W values) n
            { data := W.data, modif := false, i := 0 })
        refine ⟨fm hm, ?_⟩
        intro j h1 h2
        rw [fd j (Or.inl (by
          rw [hp]
          have := outer_mono W hmono (r + 1) n (by omega) (by omega)
          omega))]
        exact hd j h1 h2
  obtain ⟨hm, hd⟩ := hinv W.rows (by omega) (le_refl _)
  unfold MissingIfAllMissing.execute
  rw [if_neg (by rw [hcols]; exact fun h => h rfl)]
  simp only [hm]
  refine ⟨_, rfl, rfl, rfl, rfl, rfl, ?_, ?_, ?_⟩
  · intro j h1 h2
    exact hd j h1 h2
  · unfold SparseMatrix.row_sum
    simp only []
    have : (List.range (W.outer (r + 1) - W.outer r)).map
        (fun n => (iter
          (MissingIfAllMissing.execute_row missingValue is_approximately_equal W values) W.rows
            { data := W.data, modif := false, i := 0 }).data (W.outer r + n)) =
        (List.range (W.outer (r + 1) - W.outer r)).map
          (fun n =>
            (if missingValue (values (W.inner (W.outer r + n))) = true then 0
              else W.data (W.outer r + n)) *
            (W.nonmissing_sum missingValue values r)⁻¹) := by
      apply List.map_congr_left
      intro n hn
      have hn' := List.mem_range.mp hn
      rw [hd (W.outer r + n) (by omega) (by omega)]
      by_cases hmv : missingValue (values (W.inner (W.outer r + n))) = true
      · rw [if_pos hmv, if_pos hmv, zero_mul]
      · rw [if_neg hmv, if_neg hmv, div_eq_mul_inv]
    rw [this, List.sum_map_mul_right]
    exact mul_inv_cancel₀ hs0
  · intro values' hv
    unfold SparseMatrix.row_value
    simp only []
    congr 1
    apply List.map_congr_left
    intro n hn
    have hn' := List.mem_range.mp hn
    rw [hd (W.outer r + n) (by omega) (by omega)]
    by_cases hmv : missingValue (values (W.inner (W.outer r + n))) = true
    · rw [if_pos hmv, zero_mul, zero_mul]
    · rw [hv (W.outer r + n) (by omega) (by omega) (by simpa using hmv)]

theorem execute_mixed_row_witness :
    ∃ W', MissingIfAllMissing.execute (fun v => decide (v = 9999)) (fun a b => decide (a = b))
        sample_matrix mixed_values 3 = .ok (true, W') ∧
      W'.data 0 = 0 ∧ W'.data 1 = 1 ∧ W'.row_sum 0 = 1 := by
  have hs : sample_matrix.nonmissing_sum (fun v => decide (v = 9999)) mixed_values 0 = 1 / 2 := by
    simp [SparseMatrix.nonmissing_sum, sample_matrix, mixed_values, List.range_succ]
  obtain ⟨W', h, _, _, _, _, h1, h2, _⟩ :=
    execute_mixed_row (fun v => decide (v = 9999)) (fun a b => decide (a = b))
      (fun a => by simp)
      sample_matrix mixed_values 3 rfl rfl
      (by intro r hr
          have hr' : r < 2 := hr
          interval_cases r <;> simp [sample_matrix])
      0 (by decide)
      ⟨0, by simp [sample_matrix], by simp [sample_matrix], by simp [mixed_values, sample_matrix]⟩
      ⟨1, by simp [sample_matrix], by simp [sample_matrix], by
        simp [mixed_values, sample_matrix]⟩
      (by rw [hs]; simp)
  refine ⟨W', h, ?_, ?_, ?_⟩
  · have := h1 0 (by simp [sample_matrix]) (by simp [sample_matrix])
    rw [this]
    simp [mixed_values, sample_matrix]
  · have := h1 1 (by simp [sample_matrix]) (by simp [sample_matrix])
    rw [this, hs]
    simp [mixed_values, sample_matrix]
  · exact h2


/-! ## ReducedGrid: the constructor from vectors, and the longitudes -/

theorem set_getD_self (l : List Nat) (j : Nat) : l.set j (l.getD j 0) = l := by
  by_cases h : j < l.length
  · apply List.ext_getElem
    · simp
    · intro n h1 h2
      by_cases hn : j = n
      · subst hn
        simp [List.getD_eq_getElem?_getD, List.getElem?_eq_getElem h]
      · simp [List.getElem_set_ne hn]
  · exact List.set_eq_of_length_le (by omega)

theorem iter_self_assign (n : Nat) (l : List Nat) :
    iter (fun j (nlons : List Nat) => nlons.set j (nlons.getD j 0)) n l = l := by
  induction n with
  | zero => rfl
  | succ n ih =>
    simp only [iter]
    rw [ih]
    exact set_getD_self l n

/-- The loop of lines 134-143 assigns neither `lonmin_` nor `lonmax_`. -/
theorem setup_lon_iter_lon (n : Nat) (s : ReducedGrid.SetupState) :
    (iter ReducedGrid.setup_lon_body n s).grid.lonmin_ = s.grid.lonmin_ ∧
    (iter ReducedGrid.setup_lon_body n s).grid.lonmax_ = s.grid.lonmax_ := by
  induction n with
  | zero => exact ⟨rfl, rfl⟩
  | succ n ih =>
    simp only [iter, ReducedGrid.setup_lon_body]
    exact ih

/-- The vectors `lonmin_` and `lonmax_` that `setup(nlat, lats, nlons, lonmin, lonmax)`
leaves in the grid. -/
theorem setup_lon_spec_lon (g : ReducedGrid) (nlat : Nat) (lats : Nat → ℚ) (nlons : Nat → Nat)
    (lonmin lonmax : Nat → ℚ) (g' : ReducedGrid)
    (h : ReducedGrid.setup_lon g nlat lats nlons lonmin lonmax = .ok g') :
    g'.lonmin_ = (List.range nlat).map lonmin ∧ g'.lonmax_ = (List.range nlat).map lonmax := by
  unfold ReducedGrid.setup_lon at h
  split at h
  · cases h
  · simp only [Except.ok.injEq] at h
    subst h
    exact setup_lon_iter_lon nlat _

/-- A loop that assigns the entries `0, ..., n-1` of a vector. -/
theorem iter_set_at (body : Nat → List ℚ → List ℚ) (f : Nat → ℚ)
    (hbody : ∀ j l, body j l = l.set j (f j)) (n : Nat) (l : List ℚ) (k : Nat) :
    (iter body n l).getD k 0 = if k < n ∧ k < l.length then f k else l.getD k 0 := by
  have hlen : ∀ m, (iter body m l).length = l.length :=
    fun m => iter_length body (fun i l => by rw [hbody]; simp) m l
  induction n with
  | zero =>
    simp only [iter]
    rw [if_neg]
    omega
  | succ n ih =>
    simp only [iter]
    rw [hbody]
    by_cases hl : k < l.length
    · rw [List.getD_eq_getElem _ _ (by simp only [List.length_set, hlen]; exact hl)]
      by_cases hk : k = n
      · subst hk
        simp only [List.getElem_set_self]
        rw [if_pos ⟨by omega, hl⟩]
      · rw [List.getElem_set_ne (by omega), ← List.getD_eq_getElem _ 0, ih]
        by_cases hin : k < n
        · rw [if_pos ⟨hin, hl⟩, if_pos ⟨by omega, hl⟩]
        · rw [if_neg (by omega), if_neg (by omega)]
    · rw [List.getD_eq_default _ _ (by simp only [List.length_set, hlen]; omega),
        if_neg (by omega), List.getD_eq_default _ _ (by omega)]

/-- C29, as the code has it.  The constructor `ReducedGrid(_lats, _nlons, d)` never reads
the entries of `_nlons`: for at least two latitudes it builds a grid on which
`npts_per_lat()` is a vector of zeros, as long as `_nlons`, and `npts()` is 0. -/
theorem ReducedGrid_constructor_zero_counts (g : ReducedGrid) (_lats : List ℚ)
    (_nlons : List Nat) (hnlat : 1 < _nlons.length) :
    ∃ g', ReducedGrid.construct g _lats _nlons = .ok g' ∧
      g'.npts_per_lat = List.replicate _nlons.length 0 ∧ g'.npts = 0 := by
  unfold ReducedGrid.construct ReducedGrid.setup
  simp only [iter_self_assign]
  obtain ⟨g', hg, hnl, _, hnp⟩ := setup_lon_spec g _nlons.length (fun j => _lats.getD j 0)
    (fun j => (List.replicate _nlons.length 0).getD j 0)
    (fun j => (List.replicate _nlons.length (0 : ℚ)).getD j 0)
    (fun j => (iter
      (fun jlat (lonmax : List ℚ) =>
        if (List.replicate _nlons.length 0).getD jlat 0 ≠ 0 then
          lonmax.set jlat (360 - 360 / (((List.replicate _nlons.length 0).getD jlat 0 : Nat) : ℚ))
        else lonmax.set jlat 0)
      _nlons.length (List.replicate _nlons.length (0 : ℚ))).getD j 0) hnlat
  have hz : (List.range _nlons.length).map (fun j => (List.replicate _nlons.length 0).getD j 0) =
      List.replicate _nlons.length 0 := by
    have := range_map_getD (List.replicate _nlons.length 0) 0
    rw [List.length_replicate] at this
    exact this
  refine ⟨g', hg, ?_, ?_⟩
  · unfold ReducedGrid.npts_per_lat
    rw [hnl, hz]
  · unfold ReducedGrid.npts
    rw [hnp, hz]
    simp

theorem ReducedGrid_constructor_zero_counts_witness :
    ∃ g', ReducedGrid.construct blank_grid [45, -45] [4, 4] = .ok g' ∧
      g'.npts_per_lat = [0, 0] ∧ g'.npts = 0 :=
  ReducedGrid_constructor_zero_counts blank_grid [45, -45] [4, 4] (by decide)

/-- C30. For a grid set up by `setup(nlat, lats, nlons)` with more than one latitude
(`setup` then returns), for every latitude `jlat` with `n = nlons[jlat] >= 2` and every
`jlon < n`: `nlon(jlat)` is `n`, the divisor `n - 1` of `lon(jlat, jlon)` is not zero, and
`lon(jlat, jlon)` is `360 * jlon / n`; `lon(jlat, 0)` is 0 and `lon(jlat, n-1)` is
`360 - 360/n`. -/
theorem lon_equally_spaced (g : ReducedGrid) (nlat : Nat) (lats : Nat → ℚ) (nlons : Nat → Nat)
    (hnlat : 1 < nlat) :
    ∃ g', ReducedGrid.setup g nlat lats nlons = .ok g' ∧
      ∀ jlat, jlat < nlat → 2 ≤ nlons jlat →
        g'.nlon jlat = nlons jlat ∧
        ((g'.nlon jlat : ℚ) - 1 ≠ 0) ∧
        (∀ jlon, jlon < nlons jlat →
          g'.lon jlat jlon = 360 * (jlon : ℚ) / (nlons jlat : ℚ)) ∧
        g'.lon jlat 0 = 0 ∧
        g'.lon jlat (nlons jlat - 1) = 360 - 360 / (nlons jlat : ℚ) := by
  unfold ReducedGrid.setup
  simp only []
  obtain ⟨g', hg, hnl, _, _⟩ := setup_lon_spec g nlat lats nlons
    (fun j => (List.replicate nlat (0 : ℚ)).getD j 0)
    (fun j => (iter
      (fun jlat (lonmax : List ℚ) =>
        if nlons jlat ≠ 0 then lonmax.set jlat (360 - 360 / (nlons jlat : ℚ))
        else lonmax.set jlat 0)
      nlat (List.replicate nlat (0 : ℚ))).getD j 0) hnlat
  obtain ⟨hmin, hmax⟩ := setup_lon_spec_lon g nlat lats nlons _ _ g' hg
  refine ⟨g', hg, ?_⟩
  intro jlat hjlat hn
  have hnlon : g'.nlon jlat = nlons jlat := by
    unfold ReducedGrid.nlon
    rw [hnl, getD_range_map nlons nlat jlat 0 hjlat]
  have hlmin : g'.lonmin_.getD jlat 0 = 0 := by
    rw [hmin, getD_range_map _ nlat jlat 0 hjlat]
    simp [List.getD_eq_getElem?_getD, List.getElem?_replicate, hjlat]
  have hlmax : g'.lonmax_.getD jlat 0 = 360 - 360 / (nlons jlat : ℚ) := by
    rw [hmax, getD_range_map _ nlat jlat 0 hjlat]
    rw [iter_set_at _ (fun j => if nlons j ≠ 0 then 360 - 360 / (nlons j : ℚ) else 0)
      (fun j l => by
        by_cases h : nlons j ≠ 0
        · simp only [if_pos h]
        · simp only [if_neg h]) nlat _ jlat]
    rw [if_pos ⟨hjlat, by simpa using hjlat⟩, if_pos (by omega)]
  have hn2 : (2 : ℚ) ≤ (nlons jlat : ℚ) := by exact_mod_cast hn
  have hne : (nlons jlat : ℚ) - 1 ≠ 0 := by
    intro h
    linarith
  have hn0 : (nlons jlat : ℚ) ≠ 0 := by
    intro h
    linarith
  have hlon : ∀ jlon : Nat, g'.lon jlat jlon = 360 * (jlon : ℚ) / (nlons jlat : ℚ) := by
    intro jlon
    unfold ReducedGrid.lon
    rw [hlmin, hlmax, hnlon]
    field_simp
    ring
  refine ⟨hnlon, by rw [hnlon]; exact hne, fun jlon _ => hlon jlon, ?_, ?_⟩
  · rw [hlon 0]
    simp
  · rw [hlon (nlons jlat - 1), Nat.cast_sub (by omega)]
    field_simp
    ring

theorem lon_equally_spaced_witness :
    ∃ g', ReducedGrid.setup blank_grid 2 (fun j => [45, -45].getD j 0)
        (fun j => [4, 4].getD j 0) = .ok g' ∧
      g'.nlon 0 = 4 ∧ g'.lon 0 1 = 90 ∧ g'.lon 0 0 = 0 ∧ g'.lon 0 3 = 270 := by
  obtain ⟨g', hg, h⟩ := lon_equally_spaced blank_grid 2 (fun j => [45, -45].getD j 0)
    (fun j => [4, 4].getD j 0) (by decide)
  obtain ⟨h1, _, h2, h3, h4⟩ := h 0 (by decide) (by decide)
  refine ⟨g', hg, h1, ?_, h3, ?_⟩
  · rw [h2 1 (by decide)]
    norm_num
  · have := h4
    simp only [List.getD_cons_zero] at this
    rw [show (4 : Nat) - 1 = 3 from rfl] at this
    rw [this]
    norm_num


/-! ## The order of the two nodes of a pole edge -/

/-- Every pole edge created by `build_pole_edges_new` holds the two nodes of a pair in the
order in which `accumulate_pole_edges` pushed them: first the node from which the search
for a partner started, then the partner, whose quantized longitude is larger by 180
degrees.  The unique ids of the two nodes are not compared. -/
theorem build_pole_edges_new_node_order (x : Externals) (mesh mesh' : Mesh)
    (hrows : mesh.edges.node_connectivity.rows = mesh.edges.size)
    (h : build_pole_edges_new x mesh = .ok mesh') :
    ∃ pole_edge_nodes nb_pole_edges,
      accumulate_pole_edges x mesh.nodes [] = .ok (pole_edge_nodes, nb_pole_edges) ∧
      mesh'.edges.size = mesh.edges.size + nb_pole_edges ∧
      ∀ j : Nat, j < nb_pole_edges →
        mesh'.edges.node_connectivity.get ((mesh.edges.size + j : Nat) : Int) 0 =
          pole_edge_nodes.getD (2 * j) 0 ∧
        mesh'.edges.node_connectivity.get ((mesh.edges.size + j : Nat) : Int) 1 =
          pole_edge_nodes.getD (2 * j + 1) 0 ∧
        microdeg
            (mesh.nodes.lonlat
              (mesh'.edges.node_connectivity.get ((mesh.edges.size + j : Nat) : Int) 1)).1 =
          microdeg
              (mesh.nodes.lonlat
                (mesh'.edges.node_connectivity.get ((mesh.edges.size + j : Nat) : Int) 0)).1 +
            180000000 := by
  obtain ⟨pen, nb, hacc, _, _, hsz, _, _, _, _, hnew⟩ :=
    build_pole_edges_new_edge x mesh mesh' hrows h
  refine ⟨pen, nb, hacc, hsz, ?_⟩
  have hr := accumulate_pole_edges_pairs x mesh.nodes [] _ hacc
  simp only [List.nil_append, Prod.mk.injEq] at hr
  obtain ⟨hl, hn⟩ := hr
  intro j hj
  obtain ⟨_, g0, g1, _⟩ := hnew j hj
  refine ⟨g0, g1, ?_⟩
  rw [g0, g1]
  subst hl hn
  have hp := pairs_flat_getD (pole_pairs x mesh.nodes) j hj
  have hmem : (pole_pairs x mesh.nodes).getD j (0, 0) ∈ pole_pairs x mesh.nodes := by
    rw [List.getD_eq_getElem _ _ hj]
    exact List.getElem_mem _
  rw [hp, mem_pole_pairs] at hmem
  obtain ⟨_, _, _, _, _, hm, _⟩ := hmem
  rw [hm, microdeg_add_180]

theorem build_pole_edges_new_node_order_witness :
    ∃ mesh', build_pole_edges_new sample_externals sample_mesh_edges = .ok mesh' ∧
      mesh'.edges.size = sample_mesh_edges.edges.size + 2 ∧
      mesh'.edges.node_connectivity.get 5 0 = 0 ∧
      mesh'.edges.node_connectivity.get 5 1 = 1 ∧
      microdeg (sample_mesh_edges.nodes.lonlat (mesh'.edges.node_connectivity.get 5 1)).1 =
        microdeg (sample_mesh_edges.nodes.lonlat (mesh'.edges.node_connectivity.get 5 0)).1 +
          180000000 := by
  obtain ⟨mesh', h⟩ := build_pole_edges_new_returns sample_externals sample_mesh_edges _
    sample_mesh_edges_accumulate
  obtain ⟨pen, nb, hacc, hsz, hnew⟩ :=
    build_pole_edges_new_node_order sample_externals sample_mesh_edges mesh' (by decide) h
  rw [sample_mesh_edges_accumulate] at hacc
  simp only [Except.ok.injEq, Prod.mk.injEq] at hacc
  obtain ⟨hpen, hnb⟩ := hacc
  subst hpen hnb
  have hs5 : sample_mesh_edges.edges.size = 5 := by decide
  obtain ⟨g0, g1, gm⟩ := hnew 0 (by omega)
  rw [hs5] at g0 g1 gm
  exact ⟨mesh', h, hsz, by simpa using g0, by simpa using g1, by simpa using gm⟩

/-! ## A pole edge that is not in canonical node order -/

theorem near_pole_accumulate :
    accumulate_pole_edges coordinate_externals near_pole_nodes [] = .ok ([0, 1], 1) := by
  have e1 : Int.lor 4 2 = 6 := by decide
  have e2 : Int.land 0 6 = 0 := by decide
  have e3 : Int.land 0 4 = 0 := by decide
  have hb : (local_bounds near_pole_nodes).2 = (190, 90) := by
    simp [local_bounds, iter, near_pole_nodes, DBL_MAX]
    norm_num
  have hb1 : (local_bounds near_pole_nodes).1 = (10, 90 - 6 / 10000000) := by
    simp [local_bounds, iter, near_pole_nodes, DBL_MAX]
    norm_num
  have hn : pole_nodes coordinate_externals near_pole_nodes 0 = [0, 1] := by
    simp [pole_nodes, pole_nodes_north, node_range, is_north, global_bounds, hb,
      coordinate_externals, sample_externals, List.range_succ, List.filter, tol]
    simp [near_pole_nodes]
    norm_num [abs_lt]
  have hs : pole_nodes coordinate_externals near_pole_nodes 1 = [] := by
    simp [pole_nodes, pole_nodes_south, node_range, is_north, is_south, global_bounds, hb, hb1,
      coordinate_externals, sample_externals, List.range_succ, List.filter, tol]
    simp [near_pole_nodes]
    have ha : |(6 : ℚ) / 10000000| = 6 / 10000000 := abs_of_pos (by norm_num)
    rw [ha]
    norm_num
  obtain ⟨r0, hr0⟩ := sanity_check_returns near_pole_nodes
    (pole_nodes coordinate_externals near_pole_nodes 0) (fun a _ b _ => rfl)
  obtain ⟨r1, hr1⟩ := sanity_check_returns near_pole_nodes
    (pole_nodes coordinate_externals near_pole_nodes 1) (fun a _ b _ => rfl)
  rw [accumulate_pole_edges_of_checks coordinate_externals near_pole_nodes [] r0 r1 hr0 hr1,
    pair_node_foldl, pair_node_foldl, hn, hs]
  have m1 : microdeg (10 : ℚ) = 10000000 := by norm_num [microdeg]
  have m2 : microdeg (190 : ℚ) = 190000000 := by norm_num [microdeg]
  have m3 : microdeg ((10 : ℚ) + 180) = 190000000 := by norm_num [microdeg]
  have m4 : microdeg ((190 : ℚ) + 180) = 370000000 := by norm_num [microdeg]
  simp [band_pole_pairs, pole_partners, List.filter, near_pole_nodes, sample_nodes,
    coordinate_externals, sample_externals, e1, e2, e3, m1, m2, m3, m4, pairs_flat]

theorem microdeg_near_pole : microdeg ((90 : ℚ) - 6 / 10000000) = 89999999 := by
  unfold microdeg
  rw [Int.floor_eq_iff]
  constructor <;> norm_num

/-- C22, as the code has it.  `build_pole_edges_new` stores the two nodes of a pole edge
in the order in which `accumulate_pole_edges` pushed them and compares no unique ids
(lines 555-567 have no swap like the one of lines 424-428).  For the two nodes 0 at
(10, 90) and 1 at (190, 90 - 6/10000000) of the north pole band, with the unique id of a
node made from its quantized latitude followed by its quantized longitude, the pole edge
created is (0, 1), the unique id of node 0 is 386547056650000000, the unique id of node 1
is 386547052535032704, and so the unique id of the first node of the edge is greater than
the unique id of its second node. -/
theorem build_pole_edges_new_not_canonical :
    ∃ mesh', build_pole_edges_new coordinate_externals near_pole_mesh = .ok mesh' ∧
      mesh'.edges.size = 1 ∧
      mesh'.edges.node_connectivity.get 0 0 = 0 ∧
      mesh'.edges.node_connectivity.get 0 1 = 1 ∧
      mesh'.nodes.lonlat 0 = (10, 90) ∧ mesh'.nodes.lonlat 1 = (190, 90 - 6 / 10000000) ∧
      (coordinate_externals.unique_lonlat mesh'.nodes).node 0 = 386547056650000000 ∧
      (coordinate_externals.unique_lonlat mesh'.nodes).node 1 = 386547052535032704 ∧
      ¬ (coordinate_externals.unique_lonlat mesh'.nodes).node
            (mesh'.edges.node_connectivity.get 0 0) ≤
          (coordinate_externals.unique_lonlat mesh'.nodes).node
            (mesh'.edges.node_connectivity.get 0 1) := by
  obtain ⟨mesh', h⟩ := build_pole_edges_new_returns coordinate_externals near_pole_mesh _
    near_pole_accumulate
  obtain ⟨pen, nb, hacc, hn, _, hsz, _, _, _, _, hnew⟩ :=
    build_pole_edges_new_edge coordinate_externals near_pole_mesh mesh' (by decide) h
  have hacc' : accumulate_pole_edges coordinate_externals near_pole_nodes [] = .ok (pen, nb) :=
    hacc
  rw [near_pole_accumulate] at hacc'
  simp only [Except.ok.injEq, Prod.mk.injEq] at hacc'
  obtain ⟨hpen, hnb⟩ := hacc'
  subst hpen hnb
  have hs0 : near_pole_mesh.edges.size = 0 := by decide
  obtain ⟨_, g0, g1, _⟩ := hnew 0 (by omega)
  rw [hs0] at g0 g1 hsz
  have hnodes : mesh'.nodes = near_pole_nodes := hn
  have g0' : mesh'.edges.node_connectivity.get 0 0 = 0 := by simpa using g0
  have g1' : mesh'.edges.node_connectivity.get 0 1 = 1 := by simpa using g1
  have m1 : microdeg (10 : ℚ) = 10000000 := by norm_num [microdeg]
  have m2 : microdeg (190 : ℚ) = 190000000 := by norm_num [microdeg]
  have m3 : microdeg (90 : ℚ) = 90000000 := by norm_num [microdeg]
  have u0 : (coordinate_externals.unique_lonlat mesh'.nodes).node 0 = 386547056650000000 := by
    rw [hnodes]
    simp [coordinate_externals, coordinate_unique_lonlat, near_pole_nodes, m1, m3]
  have u1 : (coordinate_externals.unique_lonlat mesh'.nodes).node 1 = 386547052535032704 := by
    rw [hnodes]
    simp [coordinate_externals, coordinate_unique_lonlat, near_pole_nodes, m2,
      microdeg_near_pole]
  refine ⟨mesh', h, by simpa using hsz, g0', g1', ?_, ?_, u0, u1, ?_⟩
  · rw [hnodes]
    simp [near_pole_nodes]
  · rw [hnodes]
    simp [near_pole_nodes]
  · rw [g0', g1', u0, u1]
    decide


/-! ## The order in which the edges are visited -/

theorem mem_incident (ec : Connectivity) (c e a : Int) (h : a ∈ incident ec c e) : a = e := by
  unfold incident at h
  simp only [List.mem_append] at h
  rcases h with h | h
  · split at h
    · exact List.mem_singleton.mp h
    · cases h
  · split at h
    · exact List.mem_singleton.mp h
    · cases h

theorem incident_slots_pairwise (R : Int → Int → Prop) (hrefl : ∀ a, R a a) (ec : Connectivity)
    (c : Int) (l : List Int) (hl : l.Pairwise R) : (incident_slots ec c l).Pairwise R := by
  induction l with
  | nil => exact List.Pairwise.nil
  | cons e t ih =>
    obtain ⟨he, ht⟩ := List.pairwise_cons.mp hl
    simp only [incident_slots]
    rw [List.pairwise_append]
    refine ⟨?_, ih ht, ?_⟩
    · rw [List.pairwise_iff_forall_sublist]
      intro a b hab
      have ha := mem_incident ec c e a (hab.subset (by simp))
      have hb := mem_incident ec c e b (hab.subset (by simp))
      rw [ha, hb]
      exact hrefl e
    · intro a ha b hb
      rw [mem_incident ec c e a ha]
      exact he b (incident_slots_mem ec c t b hb)

/-- Under the contract of `std::sort`, the unique ids of the edges do not decrease along
the order in which the filling loop visits them. -/
theorem visited_sorted (std_sort : List EdgeSort → List EdgeSort)
    (hsort : StdSortContract std_sort) (compute_uid : UniqueLonLat) (nc : Connectivity)
    (n : Nat) :
    (visited (std_sort (edge_sort_init compute_uid nc n)) n).Pairwise
      (fun a b => compute_uid.row (nc.row a) ≤ compute_uid.row (nc.row b)) := by
  have hperm := (hsort (edge_sort_init compute_uid nc n)).1
  have hlen : (std_sort (edge_sort_init compute_uid nc n)).length = n := by
    rw [hperm.length_eq, edge_sort_init_length]
  have hv := visited_eq_map (std_sort (edge_sort_init compute_uid nc n))
  rw [hlen] at hv
  rw [hv, List.pairwise_map]
  refine List.Pairwise.imp_of_mem ?_ (hsort (edge_sort_init compute_uid nc n)).2
  intro a b ha hb hab
  obtain ⟨ea, _, hia, hga⟩ := sorted_members std_sort hsort compute_uid nc n a ha
  obtain ⟨eb, _, hib, hgb⟩ := sorted_members std_sort hsort compute_uid nc n b hb
  have hle : a.g ≤ b.g := not_lt.mp hab
  rw [hia, hib, ← hga, ← hgb]
  exact hle

/-- With `std_sort` any function that has the contract of `std::sort`, `build_element_to_edge_connectivity_new` visits every edge once, in an order
along which the unique ids of the edges do not decrease, so that an edge with a smaller
unique id is visited before one with a larger unique id; the order of edges with equal
unique ids is not determined.  When the function returns, the edges in the slots
0, 1, ... of every cell have non-decreasing unique ids. -/
theorem build_element_to_edge_sorted_visit (x : Externals)
    (std_sort : List EdgeSort → List EdgeSort) (hsort : StdSortContract std_sort)
    (mesh mesh' : Mesh)
    (h : build_element_to_edge_connectivity_new x std_sort mesh = .ok mesh') :
    (visited
        (std_sort (edge_sort_init (x.unique_lonlat mesh.nodes) mesh.edges.node_connectivity
          mesh.edges.size)) mesh.edges.size).Perm
      ((List.range mesh.edges.size).map (fun e : Nat => (e : Int))) ∧
    (visited
        (std_sort (edge_sort_init (x.unique_lonlat mesh.nodes) mesh.edges.node_connectivity
          mesh.edges.size)) mesh.edges.size).Pairwise
      (fun a b =>
        (x.unique_lonlat mesh.nodes).row (mesh.edges.node_connectivity.row a) ≤
          (x.unique_lonlat mesh.nodes).row (mesh.edges.node_connectivity.row b)) ∧
    ∀ jcell : Nat, jcell < mesh'.cells.size →
      ∀ j1 j2 : Nat, j1 < j2 → j2 < mesh'.cells.edge_connectivity.cols jcell →
        (x.unique_lonlat mesh.nodes).row
            (mesh.edges.node_connectivity.row (mesh'.cells.edge_connectivity.get jcell j1)) ≤
          (x.unique_lonlat mesh.nodes).row
            (mesh.edges.node_connectivity.row (mesh'.cells.edge_connectivity.get jcell j2)) := by
  have hvis := visited_sorted std_sort hsort (x.unique_lonlat mesh.nodes)
    mesh.edges.node_connectivity mesh.edges.size
  refine ⟨visited_perm std_sort hsort _ _ _, hvis, ?_⟩
  rcases build_element_to_edge_spec x std_sort mesh with ⟨e, he, _⟩ | ⟨s, hs, hinv, hall⟩
  · rw [he] at h
    cases h
  · rw [hs] at h
    cases h
    intro jcell hjcell j1 j2 hj12 hj2
    have hj2s : j2 < s.cell_edge_connectivity.cols jcell := hj2
    have hjcell : jcell < mesh.cells.size := hjcell
    obtain ⟨_, halloc⟩ := allocate_spec mesh.cells mesh.cells.edge_connectivity
    obtain ⟨t, _, hc, hmiss⟩ := halloc jcell hjcell
    have hcols := hinv.2.1
    have hj2' : j2 < t.nb_edges := by
      have : s.cell_edge_connectivity.cols jcell = t.nb_edges := by rw [hcols, hc]
      rw [← this]
      exact hj2s
    obtain ⟨hlt1, hget1⟩ := filled_slot _ _ s _ hinv jcell j1 (hmiss j1 (by omega))
      (hall jcell hjcell j1 (by omega))
    obtain ⟨hlt2, hget2⟩ := filled_slot _ _ s _ hinv jcell j2 (hmiss j2 hj2')
      (hall jcell hjcell j2 hj2s)
    show (x.unique_lonlat mesh.nodes).row
        (mesh.edges.node_connectivity.row (s.cell_edge_connectivity.get jcell j1)) ≤
      (x.unique_lonlat mesh.nodes).row
        (mesh.edges.node_connectivity.row (s.cell_edge_connectivity.get jcell j2))
    rw [hget1, hget2, List.getD_eq_getElem _ _ hlt1, List.getD_eq_getElem _ _ hlt2]
    have hp := incident_slots_pairwise
      (fun a b =>
        (x.unique_lonlat mesh.nodes).row (mesh.edges.node_connectivity.row a) ≤
          (x.unique_lonlat mesh.nodes).row (mesh.edges.node_connectivity.row b))
      (fun a => le_refl _) mesh.edges.cell_connectivity jcell _ hvis
    exact List.pairwise_iff_getElem.mp hp j1 j2 hlt1 hlt2 hj12

theorem build_element_to_edge_sorted_visit_witness :
    ∃ mesh',
      build_element_to_edge_connectivity_new sample_externals sample_sort sample_mesh_edges =
        .ok mesh' ∧
      (sample_externals.unique_lonlat sample_mesh_edges.nodes).row
          (sample_mesh_edges.edges.node_connectivity.row
            (mesh'.cells.edge_connectivity.get (0 : Nat) 0)) ≤
        (sample_externals.unique_lonlat sample_mesh_edges.nodes).row
          (sample_mesh_edges.edges.node_connectivity.row
            (mesh'.cells.edge_connectivity.get (0 : Nat) 1)) :=
  ⟨sample_mesh_cell_edges, sample_mesh_cell_edges_eq,
    (build_element_to_edge_sorted_visit sample_externals sample_sort sample_sort_contract
      sample_mesh_edges sample_mesh_cell_edges sample_mesh_cell_edges_eq).2.2 0 (by decide) 0 1
      (by decide) (by decide)⟩

theorem reversing_sort_contract : StdSortContract reversing_sort := by
  intro l
  haveI : IsTotal EdgeSort (fun a b => a.g ≤ b.g) := ⟨fun a b => le_total a.g b.g⟩
  haveI : IsTrans EdgeSort (fun a b => a.g ≤ b.g) := ⟨fun _ _ _ hab hbc => le_trans hab hbc⟩
  refine ⟨(List.perm_insertionSort _ l.reverse).trans (List.reverse_perm l), ?_⟩
  have h : List.Pairwise (fun a b : EdgeSort => a.g ≤ b.g) (reversing_sort l) :=
    List.sorted_insertionSort (fun a b : EdgeSort => a.g ≤ b.g) l.reverse
  exact h.imp (fun hab => not_lt.mpr hab)

/-! ## Edges with equal unique ids -/

/-- The filling loop reads the sorted array through the local indices alone. -/
theorem build_element_to_edge_congr (x : Externals)
    (std_sort : List EdgeSort → List EdgeSort) (l : List EdgeSort) (mesh : Mesh)
    (h : ∀ j : Nat,
      ((std_sort (edge_sort_init (x.unique_lonlat mesh.nodes) mesh.edges.node_connectivity
        mesh.edges.size)).getD j default).i = (l.getD j default).i) :
    build_element_to_edge_connectivity_new x std_sort mesh =
      build_element_to_edge_connectivity_new x (fun _ => l) mesh := by
  have hf : ∀ (ecc : Connectivity) (hp : Bool) (ipe : Int → Int),
      fill_edge ecc hp ipe
          (std_sort (edge_sort_init (x.unique_lonlat mesh.nodes) mesh.edges.node_connectivity
            mesh.edges.size)) =
        fill_edge ecc hp ipe l := by
    intro ecc hp ipe
    funext jedge s
    simp only [fill_edge, h jedge]
  simp only [build_element_to_edge_connectivity_new, hf]

theorem triangle_mesh_rows (nodes : Nodes) :
    (triangle_mesh nodes).edges.node_connectivity.row 0 = [0, 1] ∧
    (triangle_mesh nodes).edges.node_connectivity.row 1 = [1, 2] ∧
    (triangle_mesh nodes).edges.node_connectivity.row 2 = [0, 2] ∧
    (triangle_mesh nodes).edges.size = 3 :=
  ⟨rfl, rfl, rfl, rfl⟩

theorem triangle_mesh_edge_sort (u : UniqueLonLat) (nodes : Nodes)
    (h1 : u.row ((triangle_mesh nodes).edges.node_connectivity.row 0) =
      u.row ((triangle_mesh nodes).edges.node_connectivity.row 1))
    (h2 : u.row ((triangle_mesh nodes).edges.node_connectivity.row 0) =
      u.row ((triangle_mesh nodes).edges.node_connectivity.row 2)) :
    edge_sort_init u (triangle_mesh nodes).edges.node_connectivity
        (triangle_mesh nodes).edges.size =
      [⟨u.row [0, 1], 0⟩, ⟨u.row [0, 1], 1⟩, ⟨u.row [0, 1], 2⟩] := by
  obtain ⟨r0, r1, r2, hs⟩ := triangle_mesh_rows nodes
  rw [r0, r1] at h1
  rw [r0, r2] at h2
  rw [hs]
  show [(⟨u.row ((triangle_mesh nodes).edges.node_connectivity.row ((0 : Nat) : Int)),
      ((0 : Nat) : Int)⟩ : EdgeSort),
    ⟨u.row ((triangle_mesh nodes).edges.node_connectivity.row ((1 : Nat) : Int)),
      ((1 : Nat) : Int)⟩,
    ⟨u.row ((triangle_mesh nodes).edges.node_connectivity.row ((2 : Nat) : Int)),
      ((2 : Nat) : Int)⟩] = _
  have r0' : (triangle_mesh nodes).edges.node_connectivity.row ((0 : Nat) : Int) = [0, 1] := rfl
  have r1' : (triangle_mesh nodes).edges.node_connectivity.row ((1 : Nat) : Int) = [1, 2] := rfl
  have r2' : (triangle_mesh nodes).edges.node_connectivity.row ((2 : Nat) : Int) = [0, 2] := rfl
  rw [r0', r1', r2', ← h1, ← h2]
  rfl

theorem reversing_sort_tie (g : gidx_t) :
    reversing_sort [⟨g, 0⟩, ⟨g, 1⟩, ⟨g, 2⟩] = [⟨g, 2⟩, ⟨g, 1⟩, ⟨g, 0⟩] := by
  simp [reversing_sort, List.insertionSort, List.orderedInsert]

theorem sample_sort_tie (g : gidx_t) :
    sample_sort [⟨g, 0⟩, ⟨g, 1⟩, ⟨g, 2⟩] = [⟨g, 0⟩, ⟨g, 1⟩, ⟨g, 2⟩] := by
  simp [sample_sort, List.insertionSort, List.orderedInsert]

theorem getD_i_three (g : gidx_t) (a b c : Int) (j : Nat) :
    (([⟨g, a⟩, ⟨g, b⟩, ⟨g, c⟩] : List EdgeSort).getD j default).i =
      (([⟨0, a⟩, ⟨0, b⟩, ⟨0, c⟩] : List EdgeSort).getD j default).i := by
  match j with
  | 0 => rfl
  | 1 => rfl
  | 2 => rfl
  | _ + 3 => rfl

theorem triangle_mesh_fill_reversed (x : Externals) (nodes : Nodes) :
    ∃ mesh',
      build_element_to_edge_connectivity_new x (fun _ => [⟨0, 2⟩, ⟨0, 1⟩, ⟨0, 0⟩])
        (triangle_mesh nodes) = .ok mesh' ∧
      mesh'.cells.edge_connectivity.row 0 = [2, 1, 0] :=
  ⟨_, returned_of_has_returned _ (triangle_mesh nodes) rfl, rfl⟩

theorem triangle_mesh_fill_stable (x : Externals) (nodes : Nodes) :
    ∃ mesh',
      build_element_to_edge_connectivity_new x (fun _ => [⟨0, 0⟩, ⟨0, 1⟩, ⟨0, 2⟩])
        (triangle_mesh nodes) = .ok mesh' ∧
      mesh'.cells.edge_connectivity.row 0 = [0, 1, 2] :=
  ⟨_, returned_of_has_returned _ (triangle_mesh nodes) rfl, rfl⟩

theorem microdeg_zero : microdeg (0 : ℚ) = 0 := by
  norm_num [microdeg]

theorem microdeg_below_half : microdeg ((4 : ℚ) / 10000000) = 0 := by
  unfold microdeg
  rw [Int.floor_eq_iff]
  constructor <;> norm_num

theorem microdeg_above_half : microdeg ((8 : ℚ) / 10000000) = 1 := by
  unfold microdeg
  rw [Int.floor_eq_iff]
  constructor <;> norm_num

theorem small_triangle_ids :
    ((coordinate_externals.unique_lonlat small_triangle_nodes).node 0 = 0 ∧
      (coordinate_externals.unique_lonlat small_triangle_nodes).node 1 = 1 ∧
      (coordinate_externals.unique_lonlat small_triangle_nodes).node 2 = 4294967296) ∧
    (coordinate_externals.unique_lonlat small_triangle_nodes).row [0, 1] = 0 ∧
    (coordinate_externals.unique_lonlat small_triangle_nodes).row [1, 2] = 0 ∧
    (coordinate_externals.unique_lonlat small_triangle_nodes).row [0, 2] = 0 := by
  have e1 : (8 : ℚ) / 10000000 / 2 = 4 / 10000000 := by norm_num
  refine ⟨⟨?_, ?_, ?_⟩, ?_, ?_, ?_⟩ <;>
    simp [coordinate_externals, coordinate_unique_lonlat, small_triangle_nodes, e1,
      microdeg_zero, microdeg_below_half, microdeg_above_half]

/-- A loop throws only what one of its iterations throws. -/
theorem loop_error {σ ε : Type} (body : Nat → σ → Except ε σ) (P : ε → Prop)
    (hbody : ∀ i s e, body i s = .error e → P e) :
    ∀ n s0 e, loop body n s0 = .error e → P e := by
  intro n
  induction n with
  | zero =>
    intro s0 e h
    cases h
  | succ n ih =>
    intro s0 e h
    simp only [loop] at h
    cases hl : loop body n s0 with
    | error e' =>
      rw [hl] at h
      cases h
      exact ih s0 e hl
    | ok s' =>
      rw [hl] at h
      exact hbody n s' e h

/-- The filling loop throws nothing but `SeriousBug("edge has no element connected")`. -/
theorem fill_loop_error (ec : Connectivity) (hp : Bool) (ip : Int → Int)
    (edge_sort : List EdgeSort) (n : Nat) (s0 : FillState) (e : Exception)
    (h : loop (fill_edge ec hp ip edge_sort) n s0 = .error e) :
    e = .SeriousBug "edge has no element connected" := by
  refine loop_error _ (fun e => e = .SeriousBug "edge has no element connected") ?_ n s0 e h
  intro jedge s e he
  unfold fill_edge at he
  refine loop_error _ (fun e => e = .SeriousBug "edge has no element connected") ?_ 2 s e he
  intro j s' e' hs
  unfold fill_slot at hs
  simp only [] at hs
  split at hs
  · cases hs
  · split at hs
    · split at hs
      · cases hs
        rfl
      · cases hs
    · cases hs

/-- The verification throws nothing but `SeriousBug` with a message "Could not find
edge ...". -/
theorem verify_error (mesh : Mesh) (ce : Connectivity) (n : Nat) (e : Exception)
    (h : loop (verify_cell mesh ce) n () = .error e) :
    ∃ jcell jcol, e = .SeriousBug (could_not_find_edge mesh jcell jcol) := by
  refine loop_error _ (fun e => ∃ jcell jcol, e = .SeriousBug (could_not_find_edge mesh jcell jcol))
    ?_ n () e h
  intro jcell u e he
  unfold verify_cell at he
  refine loop_error _
    (fun e => ∃ jcell jcol, e = .SeriousBug (could_not_find_edge mesh jcell jcol)) ?_ _ u e he
  intro jcol u' e' hs
  unfold verify_slot at hs
  split at hs
  · cases hs
    exact ⟨jcell, jcol, rfl⟩
  · cases hs

theorem could_not_find_edge_ne (mesh : Mesh) (jcell jcol : Nat) :
    could_not_find_edge mesh jcell jcol ≠ "edge has no element connected" := by
  intro h
  have h1 := congrArg (fun s : String => s.data.head?) h
  simp only [could_not_find_edge, String.data_append, List.append_assoc, List.cons_append,
    List.head?_cons, Option.some.injEq] at h1
  revert h1
  decide

/-- The test of the filling loop, in terms of the fields of the edges. -/
theorem edge_fails_iff (edges : HybridElements) (e : Int) :
    edge_fails edges.cell_connectivity edges.is_pole_edge.isSome
        (match edges.is_pole_edge with
          | some f => f
          | none => fun _ => 0) e ↔
      edges.cell_connectivity.get e 0 = missing_value ∧ edges.flagged_pole_edge e = false := by
  unfold edge_fails HybridElements.flagged_pole_edge
  cases edges.is_pole_edge with
  | none => simp
  | some f => simp

/-- C24. With `std_sort` any function that has the contract of `std::sort`,
`build_element_to_edge_connectivity_new` raises `SeriousBug` with the message "edge has no
element connected" exactly when some edge that is not flagged as a pole edge has the
missing sentinel in its first incident-cell slot.  An edge flagged as a pole edge never
makes the function raise this error, whatever its incident-cell slots hold. -/
theorem build_element_to_edge_no_element_connected (x : Externals)
    (std_sort : List EdgeSort → List EdgeSort) (hsort : StdSortContract std_sort)
    (mesh : Mesh) :
    (∃ e : Nat, e < mesh.edges.size ∧
        mesh.edges.cell_connectivity.get e 0 = missing_value ∧
        mesh.edges.flagged_pole_edge e = false) ↔
      build_element_to_edge_connectivity_new x std_sort mesh =
        .error (.SeriousBug "edge has no element connected") := by
  have hspec := fill_loop_spec
    (allocate_cell_edge_connectivity mesh.cells mesh.cells.edge_connectivity)
    mesh.edges.cell_connectivity mesh.edges.is_pole_edge.isSome
    (match mesh.edges.is_pole_edge with
      | some f => f
      | none => fun _ => 0)
    (std_sort (edge_sort_init (x.unique_lonlat mesh.nodes) mesh.edges.node_connectivity
      mesh.edges.size))
    { cell_edge_connectivity :=
        allocate_cell_edge_connectivity mesh.cells mesh.cells.edge_connectivity
      edge_cnt := fun _ => 0 }
    (fill_inv_init _ _) mesh.edges.size
  have hperm := (hsort (edge_sort_init (x.unique_lonlat mesh.nodes)
    mesh.edges.node_connectivity mesh.edges.size)).1
  have hlen : (std_sort (edge_sort_init (x.unique_lonlat mesh.nodes)
      mesh.edges.node_connectivity mesh.edges.size)).length = mesh.edges.size := by
    rw [hperm.length_eq, edge_sort_init_length]
  constructor
  · rintro ⟨e, he, hmiss, hflag⟩
    rcases hspec with ⟨err, herr, _, _⟩ | ⟨s, _, _, hno⟩
    · have hmsg := fill_loop_error _ _ _ _ _ _ _ herr
      unfold build_element_to_edge_connectivity_new
      simp only []
      erw [herr]
      rw [hmsg]
    · exfalso
      have hmem : (e : Int) ∈ visited
          (std_sort (edge_sort_init (x.unique_lonlat mesh.nodes) mesh.edges.node_connectivity
            mesh.edges.size)) mesh.edges.size := by
        rw [(visited_perm std_sort hsort _ _ _).mem_iff]
        exact List.mem_map.mpr ⟨e, List.mem_range.mpr he, rfl⟩
      unfold visited at hmem
      obtain ⟨j, hj, hje⟩ := List.mem_map.mp hmem
      refine hno j (List.mem_range.mp hj) ?_
      rw [hje]
      exact (edge_fails_iff mesh.edges e).mpr ⟨hmiss, hflag⟩
  · intro h
    rcases hspec with ⟨err, herr, _, j, hj, hfail⟩ | ⟨s, hs, _, _⟩
    · have hmemj : (std_sort (edge_sort_init (x.unique_lonlat mesh.nodes)
          mesh.edges.node_connectivity mesh.edges.size)).getD j default ∈
          std_sort (edge_sort_init (x.unique_lonlat mesh.nodes)
            mesh.edges.node_connectivity mesh.edges.size) := by
        rw [List.getD_eq_getElem _ _ (by rw [hlen]; exact hj)]
        exact List.getElem_mem _
      obtain ⟨e, he, hie, _⟩ := sorted_members std_sort hsort _ _ _ _ hmemj
      rw [hie] at hfail
      obtain ⟨h1, h2⟩ := (edge_fails_iff mesh.edges e).mp hfail
      exact ⟨e, he, h1, h2⟩
    · exfalso
      unfold build_element_to_edge_connectivity_new at h
      simp only [] at h
      erw [hs] at h
      simp only [] at h
      split at h
      · rename_i err hv
        obtain ⟨jcell, jcol, hmsg⟩ := verify_error _ _ _ _ hv
        rw [hmsg] at h
        simp only [Except.error.injEq, Exception.SeriousBug.injEq] at h
        exact could_not_find_edge_ne mesh jcell jcol h
      · cases h

theorem build_element_to_edge_no_element_connected_witness :
    build_element_to_edge_connectivity_new sample_externals sample_sort orphan_edge_mesh =
        .error (.SeriousBug "edge has no element connected") ∧
      build_element_to_edge_connectivity_new sample_externals sample_sort
          flagged_orphan_edge_mesh ≠
        .error (.SeriousBug "edge has no element connected") :=
  ⟨(build_element_to_edge_no_element_connected sample_externals sample_sort sample_sort_contract
      orphan_edge_mesh).mp ⟨4, by decide, by decide, by decide⟩,
    fun h =>
      absurd
        ((build_element_to_edge_no_element_connected sample_externals sample_sort
          sample_sort_contract flagged_orphan_edge_mesh).mpr h)
        (by decide)⟩

/-! ## The agreement of the cell-to-edge and the edge-to-cell tables -/

theorem mem_incident_slots (ec : Connectivity) (c : Int) (hc : c ≠ missing_value) (l : List Int)
    (e : Int) (he : e ∈ l) (hinc : ec.get e 0 = c ∨ ec.get e 1 = c) :
    e ∈ incident_slots ec c l := by
  induction l with
  | nil => cases he
  | cons a t ih =>
    simp only [incident_slots, List.mem_append]
    rcases List.mem_cons.mp he with rfl | h
    · left
      unfold incident
      simp only [List.mem_append]
      rcases hinc with h0 | h1
      · left
        rw [if_pos ⟨by rw [h0]; exact hc, h0⟩]
        exact List.mem_singleton.mpr rfl
      · right
        rw [if_pos ⟨by rw [h1]; exact hc, h1⟩]
        exact List.mem_singleton.mpr rfl
    · exact Or.inr (ih h)

/-- C28. Whenever `build_element_to_edge_connectivity_new` returns without raising, on a
mesh in which no cell has more incident-cell entries in the edge-to-cell table than it has
edge slots (so that no write leaves the row of its cell), the two tables of the returned
mesh agree: for every cell `c`, every slot of `c` holds the local index of an edge that
has `c` in one of its two incident-cell slots, and every edge that has `c` in one of its
two incident-cell slots occurs in a slot of `c`.  `std_sort` is any function with the
contract of `std::sort`. -/
theorem build_element_to_edge_tables_agree (x : Externals)
    (std_sort : List EdgeSort → List EdgeSort) (hsort : StdSortContract std_sort)
    (mesh mesh' : Mesh)
    (hfit : ∀ jcell : Nat, jcell < mesh.cells.size → ∀ t, mesh.cells.type_of jcell = some t →
      incident_count mesh.edges.cell_connectivity mesh.edges.size jcell ≤ t.nb_edges)
    (h : build_element_to_edge_connectivity_new x std_sort mesh = .ok mesh') :
    mesh'.edges = mesh.edges ∧ mesh'.cells.size = mesh.cells.size ∧
    ∀ jcell : Nat, jcell < mesh'.cells.size →
      (∀ jcol, jcol < mesh'.cells.edge_connectivity.cols jcell →
        ∃ e : Nat, e < mesh'.edges.size ∧
          mesh'.cells.edge_connectivity.get jcell jcol = (e : Int) ∧
          (mesh'.edges.cell_connectivity.get e 0 = jcell ∨
            mesh'.edges.cell_connectivity.get e 1 = jcell)) ∧
      (∀ e : Nat, e < mesh'.edges.size →
        (mesh'.edges.cell_connectivity.get e 0 = jcell ∨
          mesh'.edges.cell_connectivity.get e 1 = jcell) →
        ∃ jcol, jcol < mesh'.cells.edge_connectivity.cols jcell ∧
          mesh'.cells.edge_connectivity.get jcell jcol = (e : Int)) := by
  rcases build_element_to_edge_spec x std_sort mesh with ⟨e, he, _⟩ | ⟨s, hs, hinv, hall⟩
  · rw [he] at h
    cases h
  · rw [hs] at h
    cases h
    refine ⟨rfl, rfl, ?_⟩
    intro jcell hjcell
    have hjcell : jcell < mesh.cells.size := hjcell
    obtain ⟨_, halloc⟩ := allocate_spec mesh.cells mesh.cells.edge_connectivity
    obtain ⟨t, ht, hc, hmiss⟩ := halloc jcell hjcell
    have hcols : s.cell_edge_connectivity.cols jcell = t.nb_edges := by
      rw [hinv.2.1, hc]
    have hne : ((jcell : Nat) : Int) ≠ missing_value := by
      unfold missing_value
      omega
    constructor
    · intro jcol hjcol
      have hjcol : jcol < s.cell_edge_connectivity.cols jcell := hjcol
      obtain ⟨hlt, hget⟩ := filled_slot _ _ s _ hinv jcell jcol (hmiss jcol (by omega))
        (hall jcell hjcell jcol hjcol)
      have hmem : s.cell_edge_connectivity.get jcell jcol ∈
          incident_slots mesh.edges.cell_connectivity jcell
            (visited
              (std_sort (edge_sort_init (x.unique_lonlat mesh.nodes)
                mesh.edges.node_connectivity mesh.edges.size)) mesh.edges.size) := by
        rw [hget, List.getD_eq_getElem _ _ hlt]
        exact List.getElem_mem _
      obtain ⟨k, hk, hke⟩ :=
        visited_mem std_sort hsort _ _ _ _ (incident_slots_mem _ _ _ _ hmem)
      refine ⟨k, hk, hke, ?_⟩
      have := incident_slots_incident _ _ _ _ hmem
      rw [hke] at this
      exact this
    · intro e he hinc
      have he : e < mesh.edges.size := he
      have hvis : (e : Int) ∈ visited
          (std_sort (edge_sort_init (x.unique_lonlat mesh.nodes) mesh.edges.node_connectivity
            mesh.edges.size)) mesh.edges.size := by
        rw [(visited_perm std_sort hsort _ _ _).mem_iff]
        exact List.mem_map.mpr ⟨e, List.mem_range.mpr he, rfl⟩
      have hmem := mem_incident_slots mesh.edges.cell_connectivity jcell hne _ e hvis hinc
      obtain ⟨k, hk, hke⟩ := List.mem_iff_getElem.mp hmem
      have hcount := incident_slots_count std_sort hsort (x.unique_lonlat mesh.nodes)
        mesh.edges.node_connectivity mesh.edges.cell_connectivity mesh.edges.size jcell hne
      have hfit' := hfit jcell hjcell t ht
      refine ⟨k, ?_, ?_⟩
      · show k < s.cell_edge_connectivity.cols jcell
        rw [hcols]
        omega
      · show s.cell_edge_connectivity.get jcell k = (e : Int)
        rw [(hinv.2.2 jcell).2 k, if_pos hk, List.getD_eq_getElem _ _ hk]
        exact hke

theorem build_element_to_edge_tables_agree_witness :
    ∃ mesh',
      build_element_to_edge_connectivity_new sample_externals sample_sort sample_mesh_edges =
        .ok mesh' ∧
      (∃ e : Nat, e < mesh'.edges.size ∧
        mesh'.cells.edge_connectivity.get (1 : Nat) 0 = (e : Int) ∧
        (mesh'.edges.cell_connectivity.get e 0 = (1 : Nat) ∨
          mesh'.edges.cell_connectivity.get e 1 = (1 : Nat))) ∧
      ∃ jcol, jcol < mesh'.cells.edge_connectivity.cols (1 : Nat) ∧
        mesh'.cells.edge_connectivity.get (1 : Nat) jcol = ((1 : Nat) : Int) := by
  obtain ⟨_, _, hag⟩ :=
    build_element_to_edge_tables_agree sample_externals sample_sort sample_sort_contract
      sample_mesh_edges sample_mesh_cell_edges
      (by
        intro jcell hjcell t ht
        have hj : jcell < 2 := hjcell
        interval_cases jcell
        · have : t = .Triangle := by
            have h' : sample_mesh_edges.cells.type_of 0 = some .Triangle := by decide
            rw [h'] at ht
            exact (Option.some.inj ht).symm
          subst this
          decide
        · have : t = .Triangle := by
            have h' : sample_mesh_edges.cells.type_of 1 = some .Triangle := by decide
            rw [h'] at ht
            exact (Option.some.inj ht).symm
          subst this
          decide)
      sample_mesh_cell_edges_eq
  obtain ⟨h1, h2⟩ := hag 1 (by decide)
  exact ⟨sample_mesh_cell_edges, sample_mesh_cell_edges_eq, h1 0 (by decide),
    h2 1 (by decide) (by decide)⟩


/-! ## build_node_to_edge_connectivity_new: the counting and the filling loop -/

theorem endpoint_count_eq (enc : Connectivity) (nb_edges : Nat) (n : Int) :
    endpoint_count enc nb_edges n = incident_count enc nb_edges n := rfl

theorem count_endpoint_edge (enc : Connectivity) (n : Nat) (tes : Int → Nat) (c : Int) :
    iter (count_endpoint enc n) 2 tes c =
      tes c + ((if enc.get n 0 = c then 1 else 0) + (if enc.get n 1 = c then 1 else 0)) := by
  simp only [iter, count_endpoint, Function.update_apply]
  by_cases h0 : enc.get n 0 = c
  · by_cases h1 : enc.get n 1 = c
    · rw [if_pos h1.symm, if_pos (h1.trans h0.symm), if_pos h0, if_pos h1, h0]
    · rw [if_neg (fun h => h1 h.symm), if_pos h0.symm, if_pos h0, if_neg h1, h0]
  · by_cases h1 : enc.get n 1 = c
    · rw [if_pos h1.symm, if_neg (fun h => h0 (h.symm.trans h1)), if_neg h0, if_pos h1, h1]
    · rw [if_neg (fun h => h1 h.symm), if_neg (fun h => h0 h.symm), if_neg h0, if_neg h1]
      omega

/-- The first loop (lines 204-211) counts the endpoints. -/
theorem count_endpoint_loop (enc : Connectivity) (n : Nat) (c : Int) :
    iter (fun jedge tes => iter (count_endpoint enc jedge) 2 tes) n (fun _ => 0) c =
      endpoint_count enc n c := by
  induction n with
  | zero => rfl
  | succ n ih =>
    have hs : endpoint_count enc (n + 1) c =
        endpoint_count enc n c +
          ((if enc.get n 0 = c then 1 else 0) + (if enc.get n 1 = c then 1 else 0)) := by
      unfold endpoint_count
      rw [List.range_succ, List.map_append, List.sum_append]
      simp
    rw [hs, ← ih]
    exact count_endpoint_edge enc n _ c

/-- The loop of lines 215-216 sets the counter of every node to 0. -/
theorem reset_loop (n : Nat) (tes : Int → Nat) (c : Int) :
    iter (fun jnode (tes : Int → Nat) => Function.update tes (jnode : Int) 0) n tes c =
      if 0 ≤ c ∧ c < n then 0 else tes c := by
  induction n with
  | zero =>
    simp only [iter]
    rw [if_neg]
    simp only [Nat.cast_zero]
    omega
  | succ n ih =>
    simp only [iter, Function.update_apply]
    by_cases hc : c = (n : Int)
    · rw [if_pos hc, if_pos]
      subst hc
      exact ⟨by omega, by push_cast; omega⟩
    · rw [if_neg hc, ih]
      by_cases hin : 0 ≤ c ∧ c < n
      · rw [if_pos hin, if_pos ⟨hin.1, by push_cast; omega⟩]
      · rw [if_neg hin, if_neg]
        push_cast
        omega

/-- One endpoint of an edge: the edge is appended to the list of the node that the
endpoint holds, and the lists of the other nodes stay as they are. -/
theorem node_fill_slot_spec (alloc enc : Connectivity) (iedge : Int) (j : Nat)
    (s : NodeFillState) (c : Int) (L : List Int) (h1 : s.to_edge_size c = L.length)
    (h2 : ∀ k : Nat, s.node_to_edge.get c k =
      if k < L.length then L.getD k 0 else alloc.get c k) :
    (node_fill_slot enc iedge j s).to_edge_size c =
        (L ++ if enc.get iedge j = c then [iedge] else []).length ∧
    ∀ k : Nat, (node_fill_slot enc iedge j s).node_to_edge.get c k =
      if k < (L ++ if enc.get iedge j = c then [iedge] else []).length then
        (L ++ if enc.get iedge j = c then [iedge] else []).getD k 0
      else alloc.get c k := by
  unfold node_fill_slot
  simp only []
  by_cases hce : enc.get iedge j = c
  · subst hce
    refine ⟨by simp [h1], ?_⟩
    intro k
    simp only [Connectivity.set, true_and, if_true, List.length_append, List.length_singleton]
    by_cases hk : k = s.to_edge_size (enc.get iedge j)
    · rw [if_pos hk, if_pos (by omega)]
      rw [hk, h1]
      simp [List.getD_eq_getElem?_getD]
    · rw [if_neg hk, h2 k]
      by_cases hlt : k < L.length
      · rw [if_pos hlt, if_pos (by omega)]
        simp [List.getD_eq_getElem?_getD, List.getElem?_append_left hlt]
      · rw [if_neg hlt, if_neg (by omega)]
  · have hce' : ¬ c = enc.get iedge j := fun h => hce h.symm
    refine ⟨by simp [Function.update_apply, hce', hce, h1], ?_⟩
    intro k
    simp only [Connectivity.set, hce', hce, false_and, if_false, List.append_nil]
    exact h2 k

/-- Visiting one edge appends it to the lists of its two nodes. -/
theorem node_fill_edge_spec (alloc enc : Connectivity) (edge_sort : List EdgeSort)
    (jedge : Nat) (s : NodeFillState) (c : Int) (hc : c ≠ missing_value) (L : List Int)
    (h1 : s.to_edge_size c = L.length)
    (h2 : ∀ k : Nat, s.node_to_edge.get c k =
      if k < L.length then L.getD k 0 else alloc.get c k) :
    (node_fill_edge enc edge_sort jedge s).to_edge_size c =
        (L ++ incident enc c (edge_sort.getD jedge default).i).length ∧
    ∀ k : Nat, (node_fill_edge enc edge_sort jedge s).node_to_edge.get c k =
      if k < (L ++ incident enc c (edge_sort.getD jedge default).i).length then
        (L ++ incident enc c (edge_sort.getD jedge default).i).getD k 0
      else alloc.get c k := by
  have e0 : (enc.get (edge_sort.getD jedge default).i 0 ≠ missing_value ∧
      enc.get (edge_sort.getD jedge default).i 0 = c) ↔
      enc.get (edge_sort.getD jedge default).i 0 = c :=
    ⟨fun h => h.2, fun h => ⟨by rw [h]; exact hc, h⟩⟩
  have e1 : (enc.get (edge_sort.getD jedge default).i 1 ≠ missing_value ∧
      enc.get (edge_sort.getD jedge default).i 1 = c) ↔
      enc.get (edge_sort.getD jedge default).i 1 = c :=
    ⟨fun h => h.2, fun h => ⟨by rw [h]; exact hc, h⟩⟩
  obtain ⟨a1, a2⟩ := node_fill_slot_spec alloc enc (edge_sort.getD jedge default).i 0 s c L
    h1 h2
  obtain ⟨b1, b2⟩ := node_fill_slot_spec alloc enc (edge_sort.getD jedge default).i 1 _ c _
    a1 a2
  unfold node_fill_edge incident
  simp only [iter, e0, e1, ← List.append_assoc]
  exact ⟨b1, b2⟩

/-- The filling loop leaves the shape of the table as it is. -/
theorem node_fill_loop_frame (enc : Connectivity) (edge_sort : List EdgeSort)
    (s0 : NodeFillState) (k : Nat) :
    (iter (node_fill_edge enc edge_sort) k s0).node_to_edge.rows = s0.node_to_edge.rows ∧
    (iter (node_fill_edge enc edge_sort) k s0).node_to_edge.cols = s0.node_to_edge.cols := by
  have h := iter_frame (node_fill_edge enc edge_sort)
    (fun s : NodeFillState => (s.node_to_edge.rows, s.node_to_edge.cols))
    (fun i s => rfl) s0 k
  simp only [Prod.mk.injEq] at h
  exact h

/-- After `k` edges have been visited, the list of a node whose counter was 0 holds the
visited edges that have the node as an endpoint, in the order of the visits. -/
theorem node_fill_loop_spec (enc : Connectivity) (edge_sort : List EdgeSort)
    (s0 : NodeFillState) (c : Int) (hc : c ≠ missing_value) (h0 : s0.to_edge_size c = 0)
    (k : Nat) :
    (iter (node_fill_edge enc edge_sort) k s0).to_edge_size c =
        (incident_slots enc c (visited edge_sort k)).length ∧
    ∀ j : Nat, (iter (node_fill_edge enc edge_sort) k s0).node_to_edge.get c j =
      if j < (incident_slots enc c (visited edge_sort k)).length then
        (incident_slots enc c (visited edge_sort k)).getD j 0
      else s0.node_to_edge.get c j := by
  induction k with
  | zero =>
    refine ⟨h0, ?_⟩
    intro j
    simp [iter, visited, incident_slots]
  | succ k ih =>
    obtain ⟨i1, i2⟩ := ih
    simp only [iter]
    rw [visited_succ, incident_slots_append]
    exact node_fill_edge_spec s0.node_to_edge enc edge_sort k _ c hc _ i1 i2

/-- What `build_node_to_edge_connectivity_new` leaves in the mesh, for a mesh whose
node-to-edge table is empty at entry: one row per node, with as many columns as the node
has endpoints, filled with the edges that have the node as an endpoint, in the order of
the visits. -/
theorem build_node_to_edge_spec (x : Externals)
    (std_stable_sort : List EdgeSort → List EdgeSort) (mesh : Mesh)
    (hempty : mesh.nodes.edge_connectivity.rows = 0) :
    (build_node_to_edge_connectivity_new x std_stable_sort mesh).edges = mesh.edges ∧
    (build_node_to_edge_connectivity_new x std_stable_sort mesh).cells = mesh.cells ∧
    (build_node_to_edge_connectivity_new x std_stable_sort mesh).nodes.size = mesh.nodes.size ∧
    (build_node_to_edge_connectivity_new x std_stable_sort mesh).nodes.edge_connectivity.rows =
      mesh.nodes.size ∧
    ∀ n : Nat, n < mesh.nodes.size →
      (build_node_to_edge_connectivity_new x std_stable_sort mesh).nodes.edge_connectivity.cols
          n = endpoint_count mesh.edges.node_connectivity mesh.edges.size n ∧
      ∀ j : Nat,
        (build_node_to_edge_connectivity_new x std_stable_sort mesh).nodes.edge_connectivity.get
            n j =
          if j < (incident_slots mesh.edges.node_connectivity n
              (visited
                (std_stable_sort (edge_sort_init (x.unique_lonlat mesh.nodes)
                  mesh.edges.node_connectivity mesh.edges.size)) mesh.edges.size)).length then
            (incident_slots mesh.edges.node_connectivity n
              (visited
                (std_stable_sort (edge_sort_init (x.unique_lonlat mesh.nodes)
                  mesh.edges.node_connectivity mesh.edges.size)) mesh.edges.size)).getD j 0
          else if j < endpoint_count mesh.edges.node_connectivity mesh.edges.size n then
            missing_value
          else mesh.nodes.edge_connectivity.get n j := by
  refine ⟨rfl, rfl, rfl, ?_, ?_⟩
  · unfold build_node_to_edge_connectivity_new
    simp only []
    rw [(node_fill_loop_frame _ _ _ _).1]
    simp [Connectivity.add_rows, hempty]
  · intro n hn
    have hne : ((n : Nat) : Int) ≠ missing_value := by
      unfold missing_value
      omega
    unfold build_node_to_edge_connectivity_new
    simp only []
    constructor
    · rw [(node_fill_loop_frame _ _ _ _).2]
      simp only [Connectivity.add_rows, hempty, Nat.cast_zero, Int.sub_zero, zero_add]
      rw [if_pos ⟨by omega, by exact_mod_cast hn⟩]
      exact count_endpoint_loop _ _ _
    · intro j
      have hspec := node_fill_loop_spec mesh.edges.node_connectivity
        (std_stable_sort (edge_sort_init (x.unique_lonlat mesh.nodes)
          mesh.edges.node_connectivity mesh.edges.size))
        { node_to_edge :=
            mesh.nodes.edge_connectivity.add_rows mesh.nodes.size
              (iter
                (fun jedge tes => iter (count_endpoint mesh.edges.node_connectivity jedge) 2 tes)
                mesh.edges.size (fun _ => 0))
          to_edge_size :=
            iter (fun jnode (tes : Int → Nat) => Function.update tes (jnode : Int) 0)
              mesh.nodes.size
              (iter
                (fun jedge tes => iter (count_endpoint mesh.edges.node_connectivity jedge) 2 tes)
                mesh.edges.size (fun _ => 0)) }
        n hne
        (by
          show iter (fun jnode (tes : Int → Nat) => Function.update tes (jnode : Int) 0)
            mesh.nodes.size _ (n : Int) = 0
          rw [reset_loop, if_pos ⟨by omega, by exact_mod_cast hn⟩])
        mesh.edges.size
      rw [hspec.2 j]
      simp only [Connectivity.add_rows, hempty, Nat.cast_zero, Int.sub_zero, zero_add]
      rw [count_endpoint_loop]
      by_cases hj : j < (incident_slots mesh.edges.node_connectivity n
          (visited
            (std_stable_sort (edge_sort_init (x.unique_lonlat mesh.nodes)
              mesh.edges.node_connectivity mesh.edges.size)) mesh.edges.size)).length
      · rw [if_pos hj, if_pos hj]
      · rw [if_neg hj, if_neg hj]
        by_cases hj2 : j < endpoint_count mesh.edges.node_connectivity mesh.edges.size n
        · rw [if_pos ⟨by omega, by exact_mod_cast hn, hj2⟩, if_pos hj2]
        · rw [if_neg (fun h => hj2 h.2.2), if_neg hj2]

/-! ## Claims on build_node_to_edge_connectivity_new -/

/-- C25. After `build_node_to_edge_connectivity_new` on a mesh whose node-to-edge table
is empty at entry, the table has one row per node and, for every node `n`, the length of
the edge list of `n` equals the number of edge endpoints equal to `n`, that is the number
of pairs of an edge `e` and a position `j` in `{0, 1}` with `n` as the `j`-th node of `e`;
a node that belongs to no edge has an empty list. -/
theorem build_node_to_edge_list_length (x : Externals)
    (std_stable_sort : List EdgeSort → List EdgeSort) (mesh : Mesh)
    (hempty : mesh.nodes.edge_connectivity.rows = 0) :
    (build_node_to_edge_connectivity_new x std_stable_sort mesh).nodes.edge_connectivity.rows =
      mesh.nodes.size ∧
    ∀ n : Nat, n < mesh.nodes.size →
      (build_node_to_edge_connectivity_new x std_stable_sort mesh).nodes.edge_connectivity.cols
          n = endpoint_count mesh.edges.node_connectivity mesh.edges.size n ∧
      ((∀ e : Nat, e < mesh.edges.size →
          mesh.edges.node_connectivity.get e 0 ≠ n ∧ mesh.edges.node_connectivity.get e 1 ≠ n) →
        (build_node_to_edge_connectivity_new x std_stable_sort mesh).nodes.edge_connectivity.cols
            n = 0 ∧
        (build_node_to_edge_connectivity_new x std_stable_sort mesh).nodes.edge_connectivity.row
            n = []) := by
  obtain ⟨_, _, _, hrows, hn⟩ := build_node_to_edge_spec x std_stable_sort mesh hempty
  refine ⟨hrows, ?_⟩
  intro n hlt
  obtain ⟨hcols, _⟩ := hn n hlt
  refine ⟨hcols, ?_⟩
  intro hno
  have hz : endpoint_count mesh.edges.node_connectivity mesh.edges.size n = 0 := by
    unfold endpoint_count
    apply List.sum_eq_zero
    intro v hv
    obtain ⟨e, he, rfl⟩ := List.mem_map.mp hv
    obtain ⟨h0, h1⟩ := hno e (List.mem_range.mp he)
    simp only [if_neg h0, if_neg h1, Nat.add_zero]
  have hc0 := hcols.trans hz
  refine ⟨hc0, ?_⟩
  unfold Connectivity.row
  rw [hc0]
  rfl

theorem build_node_to_edge_list_length_witness :
    (build_node_to_edge_connectivity_new sample_externals sample_sort
        sample_mesh_edges).nodes.edge_connectivity.rows = 4 ∧
      (build_node_to_edge_connectivity_new sample_externals sample_sort
        sample_mesh_edges).nodes.edge_connectivity.cols (0 : Nat) = 2 ∧
      (build_node_to_edge_connectivity_new sample_externals sample_sort
        sample_mesh_edges).nodes.edge_connectivity.cols (1 : Nat) = 3 :=
  ⟨(build_node_to_edge_list_length sample_externals sample_sort sample_mesh_edges
      (by decide)).1.trans (by decide),
    ((build_node_to_edge_list_length sample_externals sample_sort sample_mesh_edges
      (by decide)).2 0 (by decide)).1.trans (by decide),
    ((build_node_to_edge_list_length sample_externals sample_sort sample_mesh_edges
      (by decide)).2 1 (by decide)).1.trans (by decide)⟩

/-- C26. After `build_node_to_edge_connectivity_new` on a mesh whose node-to-edge table
is empty at entry, with `std_stable_sort` any function that has the contract of
`std::stable_sort`: for every node `n`, every slot of the edge list of `n` is filled with
the local index of an edge that has `n` as an endpoint, and every edge that has `n` as an
endpoint occurs in the edge list of `n`. -/
theorem build_node_to_edge_exact (x : Externals)
    (std_stable_sort : List EdgeSort → List EdgeSort)
    (hsort : StdStableSortContract std_stable_sort) (mesh : Mesh)
    (hempty : mesh.nodes.edge_connectivity.rows = 0) :
    ∀ n : Nat, n < mesh.nodes.size →
      (∀ j, j <
          (build_node_to_edge_connectivity_new x std_stable_sort
            mesh).nodes.edge_connectivity.cols n →
        (build_node_to_edge_connectivity_new x std_stable_sort mesh).nodes.edge_connectivity.get
            n j ≠ missing_value ∧
        ∃ e : Nat, e < mesh.edges.size ∧
          (build_node_to_edge_connectivity_new x std_stable_sort
            mesh).nodes.edge_connectivity.get n j = (e : Int) ∧
          (mesh.edges.node_connectivity.get e 0 = n ∨
            mesh.edges.node_connectivity.get e 1 = n)) ∧
      (∀ e : Nat, e < mesh.edges.size →
        (mesh.edges.node_connectivity.get e 0 = n ∨ mesh.edges.node_connectivity.get e 1 = n) →
        ∃ j, j <
            (build_node_to_edge_connectivity_new x std_stable_sort
              mesh).nodes.edge_connectivity.cols n ∧
          (build_node_to_edge_connectivity_new x std_stable_sort
            mesh).nodes.edge_connectivity.get n j = (e : Int)) := by
  obtain ⟨_, _, _, _, hn⟩ := build_node_to_edge_spec x std_stable_sort mesh hempty
  intro n hlt
  obtain ⟨hcols, hget⟩ := hn n hlt
  have hne : ((n : Nat) : Int) ≠ missing_value := by
    unfold missing_value
    omega
  have hcount := incident_slots_count std_stable_sort hsort.1 (x.unique_lonlat mesh.nodes)
    mesh.edges.node_connectivity mesh.edges.node_connectivity mesh.edges.size n hne
  rw [← endpoint_count_eq] at hcount
  constructor
  · intro j hj
    rw [hcols] at hj
    have hj' := hj
    rw [← hcount] at hj'
    have hmem : (build_node_to_edge_connectivity_new x std_stable_sort
        mesh).nodes.edge_connectivity.get n j ∈
        incident_slots mesh.edges.node_connectivity n
          (visited
            (std_stable_sort (edge_sort_init (x.unique_lonlat mesh.nodes)
              mesh.edges.node_connectivity mesh.edges.size)) mesh.edges.size) := by
      rw [hget j, if_pos hj', List.getD_eq_getElem _ _ hj']
      exact List.getElem_mem _
    obtain ⟨k, hk, hke⟩ :=
      visited_mem std_stable_sort hsort.1 _ _ _ _ (incident_slots_mem _ _ _ _ hmem)
    have hinc := incident_slots_incident _ _ _ _ hmem
    rw [hke] at hinc
    refine ⟨?_, k, hk, hke, hinc⟩
    rw [hke]
    intro hm
    have hm' : (k : Int) = -1 := hm
    omega
  · intro e he hinc
    have hvis : (e : Int) ∈ visited
        (std_stable_sort (edge_sort_init (x.unique_lonlat mesh.nodes)
          mesh.edges.node_connectivity mesh.edges.size)) mesh.edges.size := by
      rw [(visited_perm std_stable_sort hsort.1 _ _ _).mem_iff]
      exact List.mem_map.mpr ⟨e, List.mem_range.mpr he, rfl⟩
    have hmem := mem_incident_slots mesh.edges.node_connectivity n hne _ e hvis hinc
    obtain ⟨k, hk, hke⟩ := List.mem_iff_getElem.mp hmem
    refine ⟨k, by rw [hcols, ← hcount]; exact hk, ?_⟩
    rw [hget k, if_pos hk, List.getD_eq_getElem _ _ hk]
    exact hke

/-- Insertion into a sorted list keeps the order of the records with a given key. -/
theorem filter_orderedInsert (g : gidx_t) (a : EdgeSort) (L : List EdgeSort) :
    (L.orderedInsert (fun a b => a.g ≤ b.g) a).filter (fun b => decide (b.g = g)) =
      if a.g = g then a :: L.filter (fun b => decide (b.g = g))
      else L.filter (fun b => decide (b.g = g)) := by
  induction L with
  | nil =>
    by_cases h : a.g = g
    · simp [h]
    · simp [h]
  | cons b t ih =>
    simp only [List.orderedInsert]
    by_cases hab : a.g ≤ b.g
    · rw [if_pos hab]
      by_cases h : a.g = g
      · rw [if_pos h, List.filter_cons_of_pos (by simpa using h)]
      · rw [if_neg h, List.filter_cons_of_neg (by simpa using h)]
    · rw [if_neg hab]
      by_cases h : a.g = g
      · have hb : ¬ b.g = g := by
          intro hb
          rw [h, hb] at hab
          exact hab (le_refl _)
        rw [if_pos h, List.filter_cons_of_neg (by simpa using hb), ih, if_pos h,
          List.filter_cons_of_neg (by simpa using hb)]
      · rw [if_neg h]
        by_cases hb : b.g = g
        · rw [List.filter_cons_of_pos (by simpa using hb), ih, if_neg h,
            List.filter_cons_of_pos (by simpa using hb)]
        · rw [List.filter_cons_of_neg (by simpa using hb), ih, if_neg h,
            List.filter_cons_of_neg (by simpa using hb)]

theorem sample_sort_stable : StdStableSortContract sample_sort := by
  refine ⟨sample_sort_contract, ?_⟩
  intro l g
  unfold sample_sort
  induction l with
  | nil => rfl
  | cons a t ih =>
    simp only [List.insertionSort]
    rw [filter_orderedInsert, ih]
    by_cases h : a.g = g
    · rw [if_pos h, List.filter_cons_of_pos (by simpa using h)]
    · rw [if_neg h, List.filter_cons_of_neg (by simpa using h)]

theorem build_node_to_edge_exact_witness :
    (∃ e : Nat, e < sample_mesh_edges.edges.size ∧
      (build_node_to_edge_connectivity_new sample_externals sample_sort
        sample_mesh_edges).nodes.edge_connectivity.get (3 : Nat) 0 = (e : Int) ∧
      (sample_mesh_edges.edges.node_connectivity.get e 0 = (3 : Nat) ∨
        sample_mesh_edges.edges.node_connectivity.get e 1 = (3 : Nat))) ∧
    ∃ j, j <
        (build_node_to_edge_connectivity_new sample_externals sample_sort
          sample_mesh_edges).nodes.edge_connectivity.cols (3 : Nat) ∧
      (build_node_to_edge_connectivity_new sample_externals sample_sort
        sample_mesh_edges).nodes.edge_connectivity.get (3 : Nat) j = ((4 : Nat) : Int) := by
  obtain ⟨h1, h2⟩ := build_node_to_edge_exact sample_externals sample_sort sample_sort_stable
    sample_mesh_edges (by decide) 3 (by decide)
  exact ⟨(h1 0 (by decide)).2, h2 4 (by decide) (by decide)⟩

/-! ## The order of the edge list of a node -/

/-- Records sorted by their key, in which the records with equal keys are in the relation
`R`, are in the lexicographic order of the key and `R`. -/
theorem pairwise_of_filter (R : EdgeSort → EdgeSort → Prop) (l : List EdgeSort)
    (h1 : l.Pairwise (fun a b => a.g ≤ b.g))
    (h2 : ∀ g, (l.filter (fun a => decide (a.g = g))).Pairwise R) :
    l.Pairwise (fun a b => a.g ≤ b.g ∧ (a.g = b.g → R a b)) := by
  induction l with
  | nil => exact List.Pairwise.nil
  | cons a t ih =>
    obtain ⟨ha, ht⟩ := List.pairwise_cons.mp h1
    refine List.pairwise_cons.mpr ⟨?_, ih ht ?_⟩
    · intro b hb
      refine ⟨ha b hb, fun hab => ?_⟩
      have h := h2 a.g
      rw [List.filter_cons_of_pos (by simp)] at h
      exact (List.pairwise_cons.mp h).1 b
        (List.mem_filter.mpr ⟨hb, by simpa using hab.symm⟩)
    · intro g
      exact (h2 g).sublist (List.Sublist.filter _ (List.sublist_cons_self a t))

theorem edge_sort_init_pairwise (compute_uid : UniqueLonLat) (nc : Connectivity) (n : Nat) :
    (edge_sort_init compute_uid nc n).Pairwise (fun a b => a.i < b.i) := by
  unfold edge_sort_init
  rw [List.pairwise_map]
  exact (List.pairwise_lt_range n).imp (fun h => Int.ofNat_lt.mpr h)

/-- Under the contract of `std::stable_sort`, the edges are visited in the order of their
unique ids, and edges with equal unique ids in the order of their local indices. -/
theorem visited_stable_sorted (std_stable_sort : List EdgeSort → List EdgeSort)
    (hsort : StdStableSortContract std_stable_sort) (compute_uid : UniqueLonLat)
    (nc : Connectivity) (n : Nat) :
    (visited (std_stable_sort (edge_sort_init compute_uid nc n)) n).Pairwise
      (fun a b =>
        compute_uid.row (nc.row a) < compute_uid.row (nc.row b) ∨
          (compute_uid.row (nc.row a) = compute_uid.row (nc.row b) ∧ a < b)) := by
  have hperm := (hsort.1 (edge_sort_init compute_uid nc n)).1
  have hlen : (std_stable_sort (edge_sort_init compute_uid nc n)).length = n := by
    rw [hperm.length_eq, edge_sort_init_length]
  have hv := visited_eq_map (std_stable_sort (edge_sort_init compute_uid nc n))
  rw [hlen] at hv
  have h1 : (std_stable_sort (edge_sort_init compute_uid nc n)).Pairwise
      (fun a b => a.g ≤ b.g) :=
    (hsort.1 (edge_sort_init compute_uid nc n)).2.imp (fun hab => not_lt.mp hab)
  have h2 : ∀ g, ((std_stable_sort (edge_sort_init compute_uid nc n)).filter
      (fun a => decide (a.g = g))).Pairwise (fun a b => a.i < b.i) := by
    intro g
    rw [hsort.2]
    exact (edge_sort_init_pairwise compute_uid nc n).sublist (List.filter_sublist _)
  have h3 := pairwise_of_filter (fun a b => a.i < b.i) _ h1 h2
  rw [hv, List.pairwise_map]
  refine List.Pairwise.imp_of_mem ?_ h3
  intro a b ha hb hab
  obtain ⟨ea, _, hia, hga⟩ := sorted_members std_stable_sort hsort.1 compute_uid nc n a ha
  obtain ⟨eb, _, hib, hgb⟩ := sorted_members std_stable_sort hsort.1 compute_uid nc n b hb
  rw [hia, hib, ← hga, ← hgb, ← hia, ← hib]
  rcases lt_or_eq_of_le hab.1 with h | h
  · exact Or.inl h
  · exact Or.inr ⟨h, hab.2 h⟩

/-- C27. After `build_node_to_edge_connectivity_new` on a mesh whose node-to-edge table
is empty at entry, with `std_stable_sort` any function that has the contract of
`std::stable_sort`: in the edge list of every node, an edge in an earlier slot has a
smaller unique id than an edge in a later slot, or the same unique id and a local index
that is not larger.  Let the edge table `edges2` be a reordering of the edge table of
`mesh` (the edge `e` of `mesh` is the edge `p[e]` of `edges2`, with the same unique id and
the same two nodes); when the unique ids of the edges are pairwise distinct, every node
has the same sequence of edge unique ids in its list for both tables. -/
theorem build_node_to_edge_order (x : Externals)
    (std_stable_sort std_stable_sort' : List EdgeSort → List EdgeSort)
    (hsort : StdStableSortContract std_stable_sort)
    (hsort' : StdStableSortContract std_stable_sort') (mesh : Mesh)
    (hempty : mesh.nodes.edge_connectivity.rows = 0)
    (edges2 : HybridElements) (hsize : edges2.size = mesh.edges.size)
    (p : List Nat) (hp : p.Perm (List.range mesh.edges.size))
    (huid : ∀ e : Nat, e < mesh.edges.size →
      (x.unique_lonlat mesh.nodes).row (edges2.node_connectivity.row (p.getD e 0 : Nat)) =
        (x.unique_lonlat mesh.nodes).row (mesh.edges.node_connectivity.row e))
    (hnode : ∀ e : Nat, e < mesh.edges.size →
      edges2.node_connectivity.get (p.getD e 0 : Nat) 0 = mesh.edges.node_connectivity.get e 0 ∧
      edges2.node_connectivity.get (p.getD e 0 : Nat) 1 = mesh.edges.node_connectivity.get e 1) :
    (∀ n : Nat, n < mesh.nodes.size →
      ∀ j1 j2 : Nat, j1 < j2 →
        j2 < (build_node_to_edge_connectivity_new x std_stable_sort
          mesh).nodes.edge_connectivity.cols n →
        (x.unique_lonlat mesh.nodes).row
            (mesh.edges.node_connectivity.row
              ((build_node_to_edge_connectivity_new x std_stable_sort
                mesh).nodes.edge_connectivity.get n j1)) <
          (x.unique_lonlat mesh.nodes).row
            (mesh.edges.node_connectivity.row
              ((build_node_to_edge_connectivity_new x std_stable_sort
                mesh).nodes.edge_connectivity.get n j2)) ∨
        ((x.unique_lonlat mesh.nodes).row
            (mesh.edges.node_connectivity.row
              ((build_node_to_edge_connectivity_new x std_stable_sort
                mesh).nodes.edge_connectivity.get n j1)) =
          (x.unique_lonlat mesh.nodes).row
            (mesh.edges.node_connectivity.row
              ((build_node_to_edge_connectivity_new x std_stable_sort
                mesh).nodes.edge_connectivity.get n j2)) ∧
          (build_node_to_edge_connectivity_new x std_stable_sort
              mesh).nodes.edge_connectivity.get n j1 ≤
            (build_node_to_edge_connectivity_new x std_stable_sort
              mesh).nodes.edge_connectivity.get n j2)) ∧
    ((∀ e e' : Nat, e < mesh.edges.size → e' < mesh.edges.size → e ≠ e' →
        (x.unique_lonlat mesh.nodes).row (mesh.edges.node_connectivity.row e) ≠
          (x.unique_lonlat mesh.nodes).row (mesh.edges.node_connectivity.row e')) →
      ∀ n : Nat, n < mesh.nodes.size →
        ((build_node_to_edge_connectivity_new x std_stable_sort
            mesh).nodes.edge_connectivity.row n).map
          (fun e => (x.unique_lonlat mesh.nodes).row (mesh.edges.node_connectivity.row e)) =
        ((build_node_to_edge_connectivity_new x std_stable_sort'
            { mesh with edges := edges2 }).nodes.edge_connectivity.row n).map
          (fun e => (x.unique_lonlat mesh.nodes).row (edges2.node_connectivity.row e))) := by
  obtain ⟨_, _, _, _, hn1⟩ := build_node_to_edge_spec x std_stable_sort mesh hempty
  constructor
  · intro n hlt j1 j2 hj12 hj2
    obtain ⟨hcols, hget⟩ := hn1 n hlt
    have hne : ((n : Nat) : Int) ≠ missing_value := by
      intro hm
      have hm' : (n : Int) = -1 := hm
      omega
    have hcount := incident_slots_count std_stable_sort hsort.1 (x.unique_lonlat mesh.nodes)
      mesh.edges.node_connectivity mesh.edges.node_connectivity mesh.edges.size n hne
    rw [← endpoint_count_eq] at hcount
    rw [hcols, ← hcount] at hj2
    rw [hget j1, hget j2, if_pos (by omega), if_pos hj2,
      List.getD_eq_getElem _ _ (by omega), List.getD_eq_getElem _ _ hj2]
    have hvis := visited_stable_sorted std_stable_sort hsort (x.unique_lonlat mesh.nodes)
      mesh.edges.node_connectivity mesh.edges.size
    have hp' := incident_slots_pairwise
      (fun a b =>
        (x.unique_lonlat mesh.nodes).row (mesh.edges.node_connectivity.row a) <
            (x.unique_lonlat mesh.nodes).row (mesh.edges.node_connectivity.row b) ∨
          ((x.unique_lonlat mesh.nodes).row (mesh.edges.node_connectivity.row a) =
              (x.unique_lonlat mesh.nodes).row (mesh.edges.node_connectivity.row b) ∧
            a ≤ b))
      (fun a => Or.inr ⟨rfl, le_refl a⟩) mesh.edges.node_connectivity n _
      (hvis.imp (fun h => by
        rcases h with h | h
        · exact Or.inl h
        · exact Or.inr ⟨h.1, le_of_lt h.2⟩))
    exact List.pairwise_iff_getElem.mp hp' j1 j2 (by omega) hj2 hj12
  · intro hdist n hlt
    obtain ⟨_, _, _, _, hn2⟩ := build_node_to_edge_spec x std_stable_sort'
      { mesh with edges := edges2 } hempty
    obtain ⟨hcols1, hget1⟩ := hn1 n hlt
    obtain ⟨hcols2, hget2⟩ := hn2 n hlt
    simp only [hsize] at hcols2 hget2
    have hne : ((n : Nat) : Int) ≠ missing_value := by
      intro hm
      have hm' : (n : Int) = -1 := hm
      omega
    have hvis := visited_reordered std_stable_sort std_stable_sort' hsort.1 hsort'.1
      (x.unique_lonlat mesh.nodes) mesh.edges.node_connectivity edges2.node_connectivity
      mesh.edges.size p hp huid
      (fun e e' he he' heq => by
        by_contra hne'
        exact hdist e e' he he' hne' heq)
    rw [hvis] at hget2
    have hmap := incident_slots_map mesh.edges.node_connectivity edges2.node_connectivity n
      (reordered p)
      (visited (std_stable_sort (edge_sort_init (x.unique_lonlat mesh.nodes)
        mesh.edges.node_connectivity mesh.edges.size)) mesh.edges.size)
      (fun e he => by
        obtain ⟨k, hk, rfl⟩ := visited_mem std_stable_sort hsort.1 _ _ _ e he
        unfold reordered
        rw [Int.toNat_ofNat]
        exact hnode k hk)
    rw [hmap] at hget2
    have hcount1 := incident_slots_count std_stable_sort hsort.1 (x.unique_lonlat mesh.nodes)
      mesh.edges.node_connectivity mesh.edges.node_connectivity mesh.edges.size n hne
    rw [← endpoint_count_eq] at hcount1
    have hcount2 := incident_slots_count std_stable_sort' hsort'.1
      (x.unique_lonlat mesh.nodes) edges2.node_connectivity edges2.node_connectivity
      mesh.edges.size n hne
    rw [← endpoint_count_eq, hvis, hmap, List.length_map, hcount1] at hcount2
    have hc2 : (build_node_to_edge_connectivity_new x std_stable_sort'
        { mesh with edges := edges2 }).nodes.edge_connectivity.cols n =
        endpoint_count mesh.edges.node_connectivity mesh.edges.size n := by
      rw [hcols2, ← hcount2]
    simp only [Connectivity.row, hcols1, hc2, List.map_map]
    apply List.map_congr_left
    intro j hj
    have hj' : j < (incident_slots mesh.edges.node_connectivity n
        (visited (std_stable_sort (edge_sort_init (x.unique_lonlat mesh.nodes)
          mesh.edges.node_connectivity mesh.edges.size)) mesh.edges.size)).length := by
      rw [hcount1]
      exact List.mem_range.mp hj
    simp only [Function.comp]
    rw [hget1 j, hget2 j, if_pos hj', if_pos (by rw [List.length_map]; exact hj')]
    have hmem : (incident_slots mesh.edges.node_connectivity n
        (visited (std_stable_sort (edge_sort_init (x.unique_lonlat mesh.nodes)
          mesh.edges.node_connectivity mesh.edges.size)) mesh.edges.size)).getD j 0 ∈
        visited (std_stable_sort (edge_sort_init (x.unique_lonlat mesh.nodes)
          mesh.edges.node_connectivity mesh.edges.size)) mesh.edges.size := by
      apply incident_slots_mem mesh.edges.node_connectivity n
      rw [List.getD_eq_getElem _ _ hj']
      exact List.getElem_mem _
    obtain ⟨k, hk, hek⟩ := visited_mem std_stable_sort hsort.1 _ _ _ _ hmem
    have hget : ((incident_slots mesh.edges.node_connectivity n
        (visited (std_stable_sort (edge_sort_init (x.unique_lonlat mesh.nodes)
          mesh.edges.node_connectivity mesh.edges.size)) mesh.edges.size)).map
            (reordered p)).getD j 0 = reordered p (k : Int) := by
      rw [List.getD_eq_getElem?_getD, List.getElem?_map, List.getElem?_eq_getElem hj']
      rw [List.getD_eq_getElem?_getD, List.getElem?_eq_getElem hj'] at hek
      simp only [Option.getD_some] at hek
      simp [hek]
    rw [hget, hek]
    unfold reordered
    rw [Int.toNat_ofNat]
    exact (huid k hk).symm

theorem build_node_to_edge_order_witness :
    (build_node_to_edge_connectivity_new sample_externals sample_sort
        sample_mesh_edges).nodes.edge_connectivity.row 1 = [3, 1, 0] ∧
    ((build_node_to_edge_connectivity_new sample_externals sample_sort
        sample_mesh_edges).nodes.edge_connectivity.row (1 : Nat)).map
      (fun e => (sample_externals.unique_lonlat sample_mesh_edges.nodes).row
        (sample_mesh_edges.edges.node_connectivity.row e)) =
    ((build_node_to_edge_connectivity_new sample_externals sample_sort
        { sample_mesh_edges with edges := sample_edges_reordered }).nodes.edge_connectivity.row
          (1 : Nat)).map
      (fun e => (sample_externals.unique_lonlat sample_mesh_edges.nodes).row
        (sample_edges_reordered.node_connectivity.row e)) :=
  ⟨by decide,
    (build_node_to_edge_order sample_externals sample_sort sample_sort sample_sort_stable
      sample_sort_stable sample_mesh_edges (by decide) sample_edges_reordered (by decide)
      [4, 3, 2, 1, 0] (by decide) (by decide) (by decide)).2
      (fun e e' he he' =>
        (by decide : ∀ e : Nat, e < sample_mesh_edges.edges.size →
          ∀ e' : Nat, e' < sample_mesh_edges.edges.size → e ≠ e' →
            (sample_externals.unique_lonlat sample_mesh_edges.nodes).row
                (sample_mesh_edges.edges.node_connectivity.row e) ≠
              (sample_externals.unique_lonlat sample_mesh_edges.nodes).row
                (sample_mesh_edges.edges.node_connectivity.row e')) e he e' he')
      1 (by decide)⟩

end atlas
